import Mathlib

/-!
# sixfiveohtwo: a 6502 assembler and emulator

A shallow embedding of the Go sources of `indrora/sixfiveohtwo`
(`assembler/{lexer,parser,symbols,codegen,assembler}.go` and
`emulator/{cpu,opcodes,instructions}.go`) together with theorems that compare
the behaviour of the code with its written specification.

Conventions of the embedding.

* A Go `string` is a sequence of bytes and the lexer reads it byte by byte,
  turning each byte into a rune with `rune(s[i])`.  A string is therefore
  modelled as a `List Char` whose characters are the code points below 256.
* `uint8` / `uint16` values are natural numbers; every arithmetic operation
  that can leave the range is followed by an explicit `% 256` or `% 65536`.
  `int16` values are integers wrapped with `wrapInt16`.
* Mutable receivers (`*Lexer`, `*Parser`, `*CodeGenerator`, `*CPU`) become
  explicit state passing.
* A Go loop that may fail to terminate is given fuel; `none` is "the fuel ran
  out".
-/

set_option autoImplicit false

namespace SixFiveOhTwo

/-- A Go string, read as the list of its bytes (each byte a code point below 256). -/
abbrev Str := List Char

deriving instance DecidableEq for Except

/-! ## Pieces of the Go standard library used by the sources -/

namespace GoLib

/-- Go `unicode.IsSpace` on a rune below 256: tab, LF, VT, FF, CR, space, NEL, NBSP. -/
def isSpace (c : Char) : Bool :=
  let n := c.toNat
  (9 ≤ n && n ≤ 13) || n == 32 || n == 0x85 || n == 0xA0

/-- Go `unicode.IsLetter` on a rune below 256 (the Latin-1 letters). -/
def isLetter (c : Char) : Bool :=
  let n := c.toNat
  (0x41 ≤ n && n ≤ 0x5A) || (0x61 ≤ n && n ≤ 0x7A) || n == 0xAA || n == 0xB5 || n == 0xBA ||
    (0xC0 ≤ n && n ≤ 0xD6) || (0xD8 ≤ n && n ≤ 0xF6) || (0xF8 ≤ n && n ≤ 0xFF)

/-- Go `unicode.IsDigit` on a rune below 256: the ASCII digits. -/
def isDigit (c : Char) : Bool :=
  let n := c.toNat
  0x30 ≤ n && n ≤ 0x39

/-- Upper-case one ASCII letter, leave every other character alone. -/
def upperChar (c : Char) : Char :=
  if 0x61 ≤ c.toNat ∧ c.toNat ≤ 0x7A then Char.ofNat (c.toNat - 32) else c

/-- Lower-case one ASCII letter, leave every other character alone. -/
def lowerChar (c : Char) : Char :=
  if 0x41 ≤ c.toNat ∧ c.toNat ≤ 0x5A then Char.ofNat (c.toNat + 32) else c

/-- Go `strings.ToUpper`, on the ASCII letters.  (On a string with a byte above 127 Go
rewrites the non-ASCII part, never into an ASCII letter that was not there; the sources only
compare the result with ASCII words and search it for the letters `A`..`F`.) -/
def toUpper (s : Str) : Str := s.map upperChar

/-- Go `strings.ToLower`, on the ASCII letters. -/
def toLower (s : Str) : Str := s.map lowerChar

/-- Go `strings.Contains s sub`. -/
def contains (s sub : Str) : Bool := decide (sub <:+: s)

/-- The failure of `strconv.ParseUint`: `ErrSyntax` or `ErrRange`, with the text parsed. -/
inductive NumError where
  | invalidSyntax (s : Str)
  | outOfRange (s : Str)
  | expectedNumber (value : Str)
  deriving DecidableEq, Repr

/-- The value of a digit character in `strconv.ParseUint`: `0-9`, then `a-z` / `A-Z` from 10. -/
def digitVal (c : Char) : Option Nat :=
  let n := c.toNat
  if 0x30 ≤ n ∧ n ≤ 0x39 then some (n - 0x30)
  else if 0x61 ≤ n ∧ n ≤ 0x7A then some (n - 0x61 + 10)
  else if 0x41 ≤ n ∧ n ≤ 0x5A then some (n - 0x41 + 10)
  else none

/-- The digit loop of `strconv.ParseUint(s, base, 16)`: a character that is no digit of the
base is a syntax error, a value above `0xFFFF` a range error, whichever comes first. -/
def parseUintLoop (s0 : Str) (base : Nat) : Str → Nat → Except NumError Nat
  | [], n => .ok n
  | c :: cs, n =>
    match digitVal c with
    | none => .error (.invalidSyntax s0)
    | some d =>
      if d ≥ base then .error (.invalidSyntax s0)
      else if n * base + d > 0xFFFF then .error (.outOfRange s0)
      else parseUintLoop s0 base cs (n * base + d)

/-- Go `strconv.ParseUint(s, base, 16)` for an explicit base (10 or 16 in the sources). -/
def parseUint (s : Str) (base : Nat) : Except NumError Nat :=
  if s = [] then .error (.invalidSyntax s) else parseUintLoop s base s 0

end GoLib

/-! ## assembler/lexer.go -/

namespace assembler

/-- Go `TokenType` (an `iota` enumeration, in this order). -/
inductive TokenType where
  | TokenEOF | TokenNewline | TokenComment | TokenLabel | TokenMnemonic | TokenDirective
  | TokenImmediate | TokenAbsolute | TokenIdentifier | TokenNumber | TokenString
  | TokenComma | TokenHash | TokenDollar
  deriving DecidableEq, Repr

open TokenType

/-- Go `Token`. -/
structure Token where
  Typ : TokenType
  Value : Str
  Line : Nat
  Column : Int
  deriving DecidableEq, Repr

/-- The errors `Lexer.Tokenize` returns. -/
inductive LexError where
  | unexpectedCharacter (char : Char) (line column : Nat)
  | unterminatedString (line : Nat)
  deriving DecidableEq, Repr

/-- Go `Lexer`.  `rest` is `source[position:]`, the part of the source not yet consumed:
the lexer only ever reads the source at or after `position`. -/
structure Lexer where
  rest : Str
  line : Nat
  column : Nat
  tokens : List Token
  deriving DecidableEq, Repr

/-- Go `NewLexer`. -/
def NewLexer (source : Str) : Lexer :=
  { rest := source, line := 1, column := 1, tokens := [] }

/-- Go `Lexer.currentChar`: the byte at `position`, or 0 at the end of the source. -/
def Lexer.currentChar (l : Lexer) : Char :=
  match l.rest with
  | [] => Char.ofNat 0
  | c :: _ => c

/-- Go `Lexer.advance`. -/
def Lexer.advance (l : Lexer) : Lexer :=
  match l.rest with
  | [] => l
  | _ :: cs => { l with rest := cs, column := l.column + 1 }

/-- Go `Lexer.addToken`. -/
def Lexer.addToken (l : Lexer) (tokenType : TokenType) (value : Str) : Lexer :=
  { l with tokens := l.tokens ++
      [{ Typ := tokenType, Value := value, Line := l.line,
         Column := (l.column : Int) - (value.length : Int) }] }

/-- The loop `for l.position < len(l.source) && p(l.source[l.position]) { l.advance() }`:
the lexer after the loop. -/
def Lexer.advanceWhile (p : Char → Bool) (l : Lexer) : Lexer :=
  { l with rest := l.rest.dropWhile p, column := l.column + (l.rest.takeWhile p).length }

/-- The text `l.source[start:l.position]` consumed by the loop above. -/
def Lexer.spanWhile (p : Char → Bool) (l : Lexer) : Str := l.rest.takeWhile p

/-- Go `Lexer.skipWhitespace`. -/
def Lexer.skipWhitespace (l : Lexer) : Lexer :=
  l.advanceWhile (fun c => GoLib.isSpace c && c != '\n')

/-- Go `Lexer.readComment`. -/
def Lexer.readComment (l : Lexer) : Lexer :=
  let comment := l.spanWhile (fun c => c != '\n')
  (l.advanceWhile (fun c => c != '\n')).addToken TokenComment comment

/-- Go `Lexer.readDirective`. -/
def Lexer.readDirective (l : Lexer) : Lexer :=
  let first := l.rest.take 1
  let l1 := l.advance
  let p := fun c => GoLib.isLetter c || GoLib.isDigit c
  (l1.advanceWhile p).addToken TokenDirective (first ++ l1.spanWhile p)

/-- The 56 names of Go `Lexer.isMnemonic`. -/
def mnemonics : List String :=
  ["ADC", "AND", "ASL", "BCC", "BCS", "BEQ", "BIT", "BMI", "BNE", "BPL",
   "BRK", "BVC", "BVS", "CLC", "CLD", "CLI", "CLV", "CMP", "CPX", "CPY",
   "DEC", "DEX", "DEY", "EOR", "INC", "INX", "INY", "JMP", "JSR", "LDA",
   "LDX", "LDY", "LSR", "NOP", "ORA", "PHA", "PHP", "PLA", "PLP", "ROL",
   "ROR", "RTI", "RTS", "SBC", "SEC", "SED", "SEI", "STA", "STX", "STY",
   "TAX", "TAY", "TSX", "TXA", "TXS", "TYA"]

/-- Go `Lexer.isMnemonic`. -/
def isMnemonic (word : Str) : Bool :=
  mnemonics.any (fun m => GoLib.toUpper word == m.data)

/-- Go `Lexer.readIdentifier`. -/
def Lexer.readIdentifier (l : Lexer) : Lexer :=
  let p := fun c => GoLib.isLetter c || GoLib.isDigit c || c == '_'
  let identifier := l.spanWhile p
  let l1 := l.advanceWhile p
  match l1.rest with
  | ':' :: _ => l1.advance.addToken TokenLabel identifier
  | _ =>
    if isMnemonic identifier then l1.addToken TokenMnemonic (GoLib.toUpper identifier)
    else l1.addToken TokenIdentifier identifier

/-- Go `Lexer.readNumber`. -/
def Lexer.readNumber (l : Lexer) : Lexer :=
  (l.advanceWhile GoLib.isDigit).addToken TokenNumber (l.spanWhile GoLib.isDigit)

/-- The characters the loop of Go `Lexer.readHexNumber` accepts. -/
def isHexChar (c : Char) : Bool :=
  GoLib.isDigit c || c == 'A' || c == 'B' || c == 'C' || c == 'D' || c == 'E' || c == 'F' ||
    c == 'a' || c == 'b' || c == 'c' || c == 'd' || c == 'e' || c == 'f'

/-- Go `Lexer.readHexNumber` (called after the `$` has been consumed). -/
def Lexer.readHexNumber (l : Lexer) : Lexer :=
  (l.advanceWhile isHexChar).addToken TokenAbsolute ('$' :: l.spanWhile isHexChar)

/-- Go `Lexer.readString`. -/
def Lexer.readString (l : Lexer) : Except LexError Lexer :=
  let first := l.rest.take 1
  let l1 := l.advance
  let body := l1.spanWhile (fun c => c != '"')
  let l2 := l1.advanceWhile (fun c => c != '"')
  match l2.rest with
  | [] => .error (.unterminatedString l.line)
  | q :: _ => .ok (l2.advance.addToken TokenString (first ++ body ++ [q]))

/-- Go `Lexer.nextToken`.  On a NUL byte it returns `nil` without consuming anything. -/
def Lexer.nextToken (l : Lexer) : Except LexError Lexer :=
  let char := l.currentChar
  if char.toNat = 0 then .ok l
  else if char = '\n' then
    let l1 := (l.addToken TokenNewline [char]).advance
    .ok { l1 with line := l1.line + 1, column := 1 }
  else if char = '\r' then .ok l.advance
  else if GoLib.isSpace char then .ok l.skipWhitespace
  else if char = ';' then .ok l.readComment
  else if char = '#' then .ok (l.addToken TokenHash ['#']).advance
  else if char = '$' then .ok l.advance.readHexNumber
  else if char = ',' then .ok (l.addToken TokenComma [',']).advance
  else if char = '.' then .ok l.readDirective
  else if GoLib.isLetter char || char = '_' then .ok l.readIdentifier
  else if GoLib.isDigit char then .ok l.readNumber
  else if char = '"' then l.readString
  else .error (.unexpectedCharacter char l.line l.column)

/-- The loop of Go `Lexer.Tokenize`, with fuel: one unit for each call of `nextToken`. -/
def tokenizeLoop : Nat → Lexer → Option (Except LexError (List Token))
  | 0, _ => none
  | fuel + 1, l =>
    match l.rest with
    | [] => some (.ok (l.addToken TokenEOF []).tokens)
    | _ :: _ =>
      match l.nextToken with
      | .error e => some (.error e)
      | .ok l1 => tokenizeLoop fuel l1

/-- Go `Lexer.Tokenize` on a fresh lexer.  Every call of `nextToken` that returns without
an error consumes at least one byte, except on a NUL byte, where the lexer is left unchanged
and the Go loop spins forever; so `len(source) + 1` units of fuel run out (`none`) exactly
when the Go loop does not terminate. -/
def Tokenize (source : Str) : Option (Except LexError (List Token)) :=
  tokenizeLoop (source.length + 1) (NewLexer source)

/-! ## assembler/parser.go -/

/-- Go `InstructionType` (an `iota` enumeration; `InstMnemonic` is the zero value). -/
inductive InstructionType where
  | InstMnemonic | InstDirective | InstLabel
  deriving DecidableEq, Repr

/-- Go `assembler.AddressingMode` (an `iota` enumeration; `AddrImplicit` is the zero value). -/
inductive AddressingMode where
  | AddrImplicit | AddrAccumulator | AddrImmediate | AddrZeroPage | AddrZeroPageX
  | AddrZeroPageY | AddrAbsolute | AddrAbsoluteX | AddrAbsoluteY | AddrIndirect
  | AddrIndexedIndirect | AddrIndirectIndexed | AddrRelative
  deriving DecidableEq, Repr

open InstructionType AddressingMode

/-- Go `Instruction`: one item of the parsed program.  Fields a constructor call leaves out
hold Go's zero values. -/
structure Instruction where
  Typ : InstructionType := InstMnemonic
  Mnemonic : Str := []
  AddressMode : AddressingMode := AddrImplicit
  Operand : Nat := 0
  OperandLabel : Str := []
  Line : Nat := 0
  Address : Nat := 0
  DirectiveName : Str := []
  DirectiveData : List Nat := []
  deriving DecidableEq, Repr

/-- The errors `Parser.Parse` returns. -/
inductive ParseError where
  | unexpectedToken (value : Str) (line : Nat)
  | unknownDirective (directive : Str) (line : Nat)
  | expectedAddressAfterOrg (e : GoLib.NumError)
  | errorParsingWordData (e : GoLib.NumError)
  | errorParsingByteData (e : GoLib.NumError)
  | operand (e : GoLib.NumError)
  deriving DecidableEq, Repr

/-- Go `Parser.currentToken` : the parser state is `tokens[position:]`, the tokens not yet
consumed; past the end the current token is a zero `Token` of type `TokenEOF`. -/
def currentToken (ts : List Token) : Token :=
  match ts with
  | [] => { Typ := TokenEOF, Value := [], Line := 0, Column := 0 }
  | t :: _ => t

/-- Go `Parser.advance`. -/
def advance (ts : List Token) : List Token := ts.tail

/-- Go `Parser.parseHexNumber`. -/
def parseHexNumber (hexStr : Str) : Except GoLib.NumError Nat := GoLib.parseUint hexStr 16

/-- The test of Go `Parser.parseNumber` for a hexadecimal body: the upper-cased text
contains one of the letters `A`..`F`. -/
def hasHexLetter (value : Str) : Bool :=
  GoLib.contains (GoLib.toUpper value) ['A'] || GoLib.contains (GoLib.toUpper value) ['B'] ||
  GoLib.contains (GoLib.toUpper value) ['C'] || GoLib.contains (GoLib.toUpper value) ['D'] ||
  GoLib.contains (GoLib.toUpper value) ['E'] || GoLib.contains (GoLib.toUpper value) ['F']

/-- Go `Parser.parseNumber`: the value and the tokens left. -/
def parseNumber (ts : List Token) : Except GoLib.NumError (Nat × List Token) :=
  let token := currentToken ts
  if token.Typ ≠ TokenNumber then .error (.expectedNumber token.Value)
  else
    match (if hasHexLetter token.Value then GoLib.parseUint token.Value 16
           else GoLib.parseUint token.Value 10) with
    | .error e => .error e
    | .ok val => .ok (val, advance ts)

/-- The part `operand <= 0xFF` of Go `Parser.parseOperand`: zero page or absolute. -/
def zeroPageOrAbsolute (operand : Nat) : AddressingMode :=
  if operand ≤ 0xFF then AddrZeroPage else AddrAbsolute

/-- Go `Parser.parseOperand`: addressing mode, operand, operand label and the tokens left.
(`token.Value[1:]` is `Value.tail`: an Absolute token of the lexer starts with `$`.) -/
def parseOperand (ts : List Token) :
    Except GoLib.NumError (AddressingMode × Nat × Str × List Token) :=
  let token := currentToken ts
  if token.Typ = TokenEOF ∨ token.Typ = TokenNewline ∨ token.Typ = TokenComment then
    .ok (AddrImplicit, 0, [], ts)
  else if token.Typ = TokenHash then
    let ts1 := advance ts
    let nextToken := currentToken ts1
    if nextToken.Typ = TokenAbsolute then
      match parseHexNumber nextToken.Value.tail with
      | .error e => .error e
      | .ok operand => .ok (AddrImmediate, operand, [], advance ts1)
    else if nextToken.Typ = TokenDollar then
      match parseNumber (advance ts1) with
      | .error e => .error e
      | .ok (operand, ts2) => .ok (AddrImmediate, operand, [], ts2)
    else
      match parseNumber ts1 with
      | .error e => .error e
      | .ok (operand, ts2) => .ok (AddrImmediate, operand, [], ts2)
  else if token.Typ = TokenDollar then
    match parseNumber (advance ts) with
    | .error e => .error e
    | .ok (operand, ts2) => .ok (zeroPageOrAbsolute operand, operand, [], ts2)
  else if token.Typ = TokenAbsolute then
    match parseHexNumber token.Value.tail with
    | .error e => .error e
    | .ok operand => .ok (zeroPageOrAbsolute operand, operand, [], advance ts)
  else if token.Typ = TokenIdentifier then
    .ok (AddrAbsolute, 0, token.Value, advance ts)
  else if token.Typ = TokenNumber then
    match parseNumber ts with
    | .error e => .error e
    | .ok (operand, ts2) => .ok (zeroPageOrAbsolute operand, operand, [], ts2)
  else .ok (AddrImplicit, 0, [], ts)

/-- Go `Parser.parseLabel`. -/
def parseLabel (ts : List Token) : Instruction × List Token :=
  let token := currentToken ts
  ({ Typ := InstLabel, Mnemonic := token.Value, Line := token.Line }, advance ts)

/-- Go `Parser.parseMnemonic`. -/
def parseMnemonic (ts : List Token) : Except ParseError (Instruction × List Token) :=
  let token := currentToken ts
  match parseOperand (advance ts) with
  | .error e => .error (.operand e)
  | .ok (addressMode, operand, operandLabel, ts1) =>
    .ok ({ Typ := InstMnemonic, Mnemonic := token.Value, AddressMode := addressMode,
           Operand := operand, OperandLabel := operandLabel, Line := token.Line }, ts1)

/-- The number after `.org` and in Go `Parser.parseWordData`: an Absolute token is read as
hexadecimal, anything else (after an optional Dollar token) by `parseNumber`. -/
def parseAddressValue (ts : List Token) : Except GoLib.NumError (Nat × List Token) :=
  let token := currentToken ts
  if token.Typ = TokenAbsolute then
    match parseHexNumber token.Value.tail with
    | .error e => .error e
    | .ok operand => .ok (operand, advance ts)
  else parseNumber (if token.Typ = TokenDollar then advance ts else ts)

/-- Go `Parser.parseWordData`. -/
def parseWordData (ts : List Token) : Except GoLib.NumError (List Nat × List Token) :=
  let token := currentToken ts
  if token.Typ = TokenIdentifier then .ok ([0, 0], advance ts)
  else
    match parseAddressValue ts with
    | .error e => .error e
    | .ok (operand, ts1) => .ok ([(operand &&& 0xFF) % 256, ((operand >>> 8) &&& 0xFF) % 256], ts1)

/-- The loop of Go `Parser.parseByteData`, with fuel: one unit for each value read. -/
def parseByteLoop : Nat → List Token → List Nat →
    Option (Except GoLib.NumError (List Nat × List Token))
  | 0, _, _ => none
  | fuel + 1, ts, data =>
    let token := currentToken ts
    if token.Typ = TokenEOF ∨ token.Typ = TokenNewline ∨ token.Typ = TokenComment then
      some (.ok (data, ts))
    else
      match parseNumber (if token.Typ = TokenDollar then advance ts else ts) with
      | .error e => some (.error e)
      | .ok (operand, ts1) =>
        if (currentToken ts1).Typ = TokenComma then
          parseByteLoop fuel (advance ts1) (data ++ [(operand &&& 0xFF) % 256])
        else some (.ok (data ++ [(operand &&& 0xFF) % 256], ts1))

/-- Go `Parser.parseByteData`.  Every turn of the loop that goes on consumes a token, so
one unit of fuel for each token left and one more never run out. -/
def parseByteData (ts : List Token) : Option (Except GoLib.NumError (List Nat × List Token)) :=
  parseByteLoop (ts.length + 1) ts []

/-- Go `Parser.parseDirective`. -/
def parseDirective (ts : List Token) : Option (Except ParseError (Instruction × List Token)) :=
  let token := currentToken ts
  let directive := token.Value
  let line := token.Line
  let ts1 := advance ts
  if GoLib.toLower directive = ".org".data then
    match parseAddressValue ts1 with
    | .error e => some (.error (.expectedAddressAfterOrg e))
    | .ok (operand, ts2) =>
      some (.ok ({ Typ := InstDirective, DirectiveName := "org".data, Operand := operand,
                   Line := line }, ts2))
  else if GoLib.toLower directive = ".word".data then
    if (currentToken ts1).Typ = TokenIdentifier then
      some (.ok ({ Typ := InstDirective, DirectiveName := "word".data,
                   OperandLabel := (currentToken ts1).Value, Line := line }, advance ts1))
    else
      match parseWordData ts1 with
      | .error e => some (.error (.errorParsingWordData e))
      | .ok (data, ts2) =>
        some (.ok ({ Typ := InstDirective, DirectiveName := "word".data, DirectiveData := data,
                     Line := line }, ts2))
  else if GoLib.toLower directive = ".byte".data then
    match parseByteData ts1 with
    | none => none
    | some (.error e) => some (.error (.errorParsingByteData e))
    | some (.ok (data, ts2)) =>
      some (.ok ({ Typ := InstDirective, DirectiveName := "byte".data, DirectiveData := data,
                   Line := line }, ts2))
  else some (.error (.unknownDirective directive line))

/-- Go `Parser.parseInstruction`. -/
def parseInstruction (ts : List Token) : Option (Except ParseError (Instruction × List Token)) :=
  let token := currentToken ts
  if token.Typ = TokenLabel then some (.ok (parseLabel ts))
  else if token.Typ = TokenMnemonic then some (parseMnemonic ts)
  else if token.Typ = TokenDirective then parseDirective ts
  else some (.error (.unexpectedToken token.Value token.Line))

/-- The loop of Go `Parser.Parse`, with fuel: one unit for each turn. -/
def parseLoop : Nat → List Token → List Instruction →
    Option (Except ParseError (List Instruction))
  | 0, _, _ => none
  | fuel + 1, ts, instructions =>
    match ts with
    | [] => some (.ok instructions)
    | token :: _ =>
      if token.Typ = TokenEOF then some (.ok instructions)
      else if token.Typ = TokenNewline ∨ token.Typ = TokenComment then
        parseLoop fuel (advance ts) instructions
      else
        match parseInstruction ts with
        | none => none
        | some (.error e) => some (.error e)
        | some (.ok (instruction, ts1)) => parseLoop fuel ts1 (instructions ++ [instruction])

/-- Go `Parser.Parse` on a fresh parser.  Every turn of the loop consumes a token or
returns, so one unit of fuel for each token and one more never run out. -/
def Parse (tokens : List Token) : Option (Except ParseError (List Instruction)) :=
  parseLoop (tokens.length + 1) tokens []

/-! ## assembler/symbols.go -/

/-- Go `Symbol`. -/
structure Symbol where
  Name : Str
  Address : Nat
  Defined : Bool
  deriving DecidableEq, Repr

/-- Go `SymbolTable`: the map from names to symbols, as the list of its entries (one entry
for each name, in the order the names were first entered; a Go map has no order). -/
abbrev SymbolTable := List Symbol

/-- Go `NewSymbolTable`. -/
def NewSymbolTable : SymbolTable := []

/-- The map lookup `st.symbols[name]`. -/
def SymbolTable.lookup (st : SymbolTable) (name : Str) : Option Symbol :=
  st.find? (fun s => s.Name = name)

/-- Go `SymbolTable.Define`. -/
def SymbolTable.Define (st : SymbolTable) (name : Str) (address : Nat) : SymbolTable :=
  match st.lookup name with
  | some _ =>
    st.map (fun s => if s.Name = name then { s with Address := address, Defined := true } else s)
  | none => st ++ [{ Name := name, Address := address, Defined := true }]

/-- Go `SymbolTable.Reference` (the table after the call; nothing in the sources calls it). -/
def SymbolTable.Reference (st : SymbolTable) (name : Str) : SymbolTable :=
  match st.lookup name with
  | some _ => st
  | none => st ++ [{ Name := name, Address := 0, Defined := false }]

/-- Go `SymbolTable.Resolve`: `none` is the error `undefined symbol: name`. -/
def SymbolTable.Resolve (st : SymbolTable) (name : Str) : Option Nat :=
  match st.lookup name with
  | none => none
  | some symbol => if symbol.Defined then some symbol.Address else none

/-- Go `SymbolTable.IsResolved`. -/
def SymbolTable.IsResolved (st : SymbolTable) : Bool := st.all (fun s => s.Defined)

/-- Go `SymbolTable.GetUndefined`. -/
def SymbolTable.GetUndefined (st : SymbolTable) : List Str :=
  (st.filter (fun s => !s.Defined)).map (fun s => s.Name)

/-! ## assembler/codegen.go -/

/-- Go `OpcodeInfo`. -/
structure OpcodeInfo where
  Opcode : Nat
  Size : Nat
  deriving DecidableEq, Repr

/-- Go `opcodeTable`: mnemonic, then addressing mode, to opcode byte and instruction size. -/
def opcodeTable : List (String × List (AddressingMode × OpcodeInfo)) :=
  [("ADC", [(AddrImmediate, ⟨0x69, 2⟩), (AddrZeroPage, ⟨0x65, 2⟩), (AddrZeroPageX, ⟨0x75, 2⟩),
            (AddrAbsolute, ⟨0x6D, 3⟩), (AddrAbsoluteX, ⟨0x7D, 3⟩), (AddrAbsoluteY, ⟨0x79, 3⟩),
            (AddrIndexedIndirect, ⟨0x61, 2⟩), (AddrIndirectIndexed, ⟨0x71, 2⟩)]),
   ("AND", [(AddrImmediate, ⟨0x29, 2⟩), (AddrZeroPage, ⟨0x25, 2⟩), (AddrZeroPageX, ⟨0x35, 2⟩),
            (AddrAbsolute, ⟨0x2D, 3⟩), (AddrAbsoluteX, ⟨0x3D, 3⟩), (AddrAbsoluteY, ⟨0x39, 3⟩),
            (AddrIndexedIndirect, ⟨0x21, 2⟩), (AddrIndirectIndexed, ⟨0x31, 2⟩)]),
   ("ASL", [(AddrAccumulator, ⟨0x0A, 1⟩), (AddrZeroPage, ⟨0x06, 2⟩), (AddrZeroPageX, ⟨0x16, 2⟩),
            (AddrAbsolute, ⟨0x0E, 3⟩), (AddrAbsoluteX, ⟨0x1E, 3⟩)]),
   ("BCC", [(AddrRelative, ⟨0x90, 2⟩)]),
   ("BCS", [(AddrRelative, ⟨0xB0, 2⟩)]),
   ("BEQ", [(AddrRelative, ⟨0xF0, 2⟩)]),
   ("BIT", [(AddrZeroPage, ⟨0x24, 2⟩), (AddrAbsolute, ⟨0x2C, 3⟩)]),
   ("BMI", [(AddrRelative, ⟨0x30, 2⟩)]),
   ("BNE", [(AddrRelative, ⟨0xD0, 2⟩)]),
   ("BPL", [(AddrRelative, ⟨0x10, 2⟩)]),
   ("BRK", [(AddrImplicit, ⟨0x00, 1⟩)]),
   ("BVC", [(AddrRelative, ⟨0x50, 2⟩)]),
   ("BVS", [(AddrRelative, ⟨0x70, 2⟩)]),
   ("CLC", [(AddrImplicit, ⟨0x18, 1⟩)]),
   ("CLD", [(AddrImplicit, ⟨0xD8, 1⟩)]),
   ("CLI", [(AddrImplicit, ⟨0x58, 1⟩)]),
   ("CLV", [(AddrImplicit, ⟨0xB8, 1⟩)]),
   ("CMP", [(AddrImmediate, ⟨0xC9, 2⟩), (AddrZeroPage, ⟨0xC5, 2⟩), (AddrZeroPageX, ⟨0xD5, 2⟩),
            (AddrAbsolute, ⟨0xCD, 3⟩), (AddrAbsoluteX, ⟨0xDD, 3⟩), (AddrAbsoluteY, ⟨0xD9, 3⟩),
            (AddrIndexedIndirect, ⟨0xC1, 2⟩), (AddrIndirectIndexed, ⟨0xD1, 2⟩)]),
   ("CPX", [(AddrImmediate, ⟨0xE0, 2⟩), (AddrZeroPage, ⟨0xE4, 2⟩), (AddrAbsolute, ⟨0xEC, 3⟩)]),
   ("CPY", [(AddrImmediate, ⟨0xC0, 2⟩), (AddrZeroPage, ⟨0xC4, 2⟩), (AddrAbsolute, ⟨0xCC, 3⟩)]),
   ("DEC", [(AddrZeroPage, ⟨0xC6, 2⟩), (AddrZeroPageX, ⟨0xD6, 2⟩), (AddrAbsolute, ⟨0xCE, 3⟩),
            (AddrAbsoluteX, ⟨0xDE, 3⟩)]),
   ("DEX", [(AddrImplicit, ⟨0xCA, 1⟩)]),
   ("DEY", [(AddrImplicit, ⟨0x88, 1⟩)]),
   ("EOR", [(AddrImmediate, ⟨0x49, 2⟩), (AddrZeroPage, ⟨0x45, 2⟩), (AddrZeroPageX, ⟨0x55, 2⟩),
            (AddrAbsolute, ⟨0x4D, 3⟩), (AddrAbsoluteX, ⟨0x5D, 3⟩), (AddrAbsoluteY, ⟨0x59, 3⟩),
            (AddrIndexedIndirect, ⟨0x41, 2⟩), (AddrIndirectIndexed, ⟨0x51, 2⟩)]),
   ("INC", [(AddrZeroPage, ⟨0xE6, 2⟩), (AddrZeroPageX, ⟨0xF6, 2⟩), (AddrAbsolute, ⟨0xEE, 3⟩),
            (AddrAbsoluteX, ⟨0xFE, 3⟩)]),
   ("INX", [(AddrImplicit, ⟨0xE8, 1⟩)]),
   ("INY", [(AddrImplicit, ⟨0xC8, 1⟩)]),
   ("JMP", [(AddrAbsolute, ⟨0x4C, 3⟩), (AddrIndirect, ⟨0x6C, 3⟩)]),
   ("JSR", [(AddrAbsolute, ⟨0x20, 3⟩)]),
   ("LDA", [(AddrImmediate, ⟨0xA9, 2⟩), (AddrZeroPage, ⟨0xA5, 2⟩), (AddrZeroPageX, ⟨0xB5, 2⟩),
            (AddrAbsolute, ⟨0xAD, 3⟩), (AddrAbsoluteX, ⟨0xBD, 3⟩), (AddrAbsoluteY, ⟨0xB9, 3⟩),
            (AddrIndexedIndirect, ⟨0xA1, 2⟩), (AddrIndirectIndexed, ⟨0xB1, 2⟩)]),
   ("LDX", [(AddrImmediate, ⟨0xA2, 2⟩), (AddrZeroPage, ⟨0xA6, 2⟩), (AddrZeroPageY, ⟨0xB6, 2⟩),
            (AddrAbsolute, ⟨0xAE, 3⟩), (AddrAbsoluteY, ⟨0xBE, 3⟩)]),
   ("LDY", [(AddrImmediate, ⟨0xA0, 2⟩), (AddrZeroPage, ⟨0xA4, 2⟩), (AddrZeroPageX, ⟨0xB4, 2⟩),
            (AddrAbsolute, ⟨0xAC, 3⟩), (AddrAbsoluteX, ⟨0xBC, 3⟩)]),
   ("LSR", [(AddrAccumulator, ⟨0x4A, 1⟩), (AddrZeroPage, ⟨0x46, 2⟩), (AddrZeroPageX, ⟨0x56, 2⟩),
            (AddrAbsolute, ⟨0x4E, 3⟩), (AddrAbsoluteX, ⟨0x5E, 3⟩)]),
   ("NOP", [(AddrImplicit, ⟨0xEA, 1⟩)]),
   ("ORA", [(AddrImmediate, ⟨0x09, 2⟩), (AddrZeroPage, ⟨0x05, 2⟩), (AddrZeroPageX, ⟨0x15, 2⟩),
            (AddrAbsolute, ⟨0x0D, 3⟩), (AddrAbsoluteX, ⟨0x1D, 3⟩), (AddrAbsoluteY, ⟨0x19, 3⟩),
            (AddrIndexedIndirect, ⟨0x01, 2⟩), (AddrIndirectIndexed, ⟨0x11, 2⟩)]),
   ("PHA", [(AddrImplicit, ⟨0x48, 1⟩)]),
   ("PHP", [(AddrImplicit, ⟨0x08, 1⟩)]),
   ("PLA", [(AddrImplicit, ⟨0x68, 1⟩)]),
   ("PLP", [(AddrImplicit, ⟨0x28, 1⟩)]),
   ("ROL", [(AddrAccumulator, ⟨0x2A, 1⟩), (AddrZeroPage, ⟨0x26, 2⟩), (AddrZeroPageX, ⟨0x36, 2⟩),
            (AddrAbsolute, ⟨0x2E, 3⟩), (AddrAbsoluteX, ⟨0x3E, 3⟩)]),
   ("ROR", [(AddrAccumulator, ⟨0x6A, 1⟩), (AddrZeroPage, ⟨0x66, 2⟩), (AddrZeroPageX, ⟨0x76, 2⟩),
            (AddrAbsolute, ⟨0x6E, 3⟩), (AddrAbsoluteX, ⟨0x7E, 3⟩)]),
   ("RTI", [(AddrImplicit, ⟨0x40, 1⟩)]),
   ("RTS", [(AddrImplicit, ⟨0x60, 1⟩)]),
   ("SBC", [(AddrImmediate, ⟨0xE9, 2⟩), (AddrZeroPage, ⟨0xE5, 2⟩), (AddrZeroPageX, ⟨0xF5, 2⟩),
            (AddrAbsolute, ⟨0xED, 3⟩), (AddrAbsoluteX, ⟨0xFD, 3⟩), (AddrAbsoluteY, ⟨0xF9, 3⟩),
            (AddrIndexedIndirect, ⟨0xE1, 2⟩), (AddrIndirectIndexed, ⟨0xF1, 2⟩)]),
   ("SEC", [(AddrImplicit, ⟨0x38, 1⟩)]),
   ("SED", [(AddrImplicit, ⟨0xF8, 1⟩)]),
   ("SEI", [(AddrImplicit, ⟨0x78, 1⟩)]),
   ("STA", [(AddrZeroPage, ⟨0x85, 2⟩), (AddrZeroPageX, ⟨0x95, 2⟩), (AddrAbsolute, ⟨0x8D, 3⟩),
            (AddrAbsoluteX, ⟨0x9D, 3⟩), (AddrAbsoluteY, ⟨0x99, 3⟩),
            (AddrIndexedIndirect, ⟨0x81, 2⟩), (AddrIndirectIndexed, ⟨0x91, 2⟩)]),
   ("STX", [(AddrZeroPage, ⟨0x86, 2⟩), (AddrZeroPageY, ⟨0x96, 2⟩), (AddrAbsolute, ⟨0x8E, 3⟩)]),
   ("STY", [(AddrZeroPage, ⟨0x84, 2⟩), (AddrZeroPageX, ⟨0x94, 2⟩), (AddrAbsolute, ⟨0x8C, 3⟩)]),
   ("TAX", [(AddrImplicit, ⟨0xAA, 1⟩)]),
   ("TAY", [(AddrImplicit, ⟨0xA8, 1⟩)]),
   ("TSX", [(AddrImplicit, ⟨0xBA, 1⟩)]),
   ("TXA", [(AddrImplicit, ⟨0x8A, 1⟩)]),
   ("TXS", [(AddrImplicit, ⟨0x9A, 1⟩)]),
   ("TYA", [(AddrImplicit, ⟨0x98, 1⟩)])]

/-- The map lookup `opcodeTable[mnemonic]`. -/
def lookupMnemonic (mnemonic : Str) : Option (List (AddressingMode × OpcodeInfo)) :=
  (opcodeTable.find? (fun e => e.1.data = mnemonic)).map (fun e => e.2)

/-- The map lookup `opcodeMap[mode]`. -/
def lookupMode (opcodeMap : List (AddressingMode × OpcodeInfo)) (mode : AddressingMode) :
    Option OpcodeInfo :=
  (opcodeMap.find? (fun e => e.1 = mode)).map (fun e => e.2)

/-- The two lookups `opcodeTable[mnemonic][mode]` in one: `none` when either key is absent. -/
def lookupOpcode (mnemonic : Str) (mode : AddressingMode) : Option OpcodeInfo :=
  match lookupMnemonic mnemonic with
  | none => none
  | some opcodeMap => lookupMode opcodeMap mode

/-- The errors `CodeGenerator.Generate` returns. -/
inductive GenError where
  | unknownMnemonic (mnemonic : Str) (line : Nat)
  | invalidAddressingMode (mnemonic : Str) (line : Nat)
  | undefinedSymbol (line : Nat) (name : Str)
  | branchOutOfRange (line : Nat)
  | undefinedSymbols (names : List Str)
  deriving DecidableEq, Repr

/-- Go `%d` of a non-negative integer. -/
def fmtInt (n : Nat) : Str := Nat.toDigits 10 n

/-- Go `%v` of a `[]string`: the elements between brackets, separated by one space. -/
def fmtStrings (names : List Str) : Str := "[".data ++ " ".data.intercalate names ++ "]".data

/-- The text of a code generation error, as the `fmt.Errorf` calls of `firstPass`,
`secondPass`, `Resolve` and `Generate` build it. -/
def GenError.message : GenError → Str
  | .unknownMnemonic mnemonic line =>
    "unknown mnemonic '".data ++ mnemonic ++ "' at line ".data ++ fmtInt line
  | .invalidAddressingMode mnemonic line =>
    "invalid addressing mode for '".data ++ mnemonic ++ "' at line ".data ++ fmtInt line
  | .undefinedSymbol line name =>
    "line ".data ++ fmtInt line ++ ": ".data ++ ("undefined symbol: ".data ++ name)
  | .branchOutOfRange line => "branch out of range at line ".data ++ fmtInt line
  | .undefinedSymbols names => "undefined symbols: ".data ++ fmtStrings names

/-- A Go byte slice that is written in place (`output []byte`): its length, its bytes by
index, and `fault`, which records that an index expression `output[i]` was evaluated with
`i` not below the length (a Go runtime panic; once set, the bytes mean nothing). -/
structure Image where
  size : Nat
  data : Nat → Nat
  fault : Bool

/-- The assignment `output[i] = v`. -/
def Image.set (img : Image) (i v : Nat) : Image :=
  if i < img.size then { img with data := fun j => if j = i then v else img.data j }
  else { img with fault := true }

/-- Go `CodeGenerator` (without `verbose`, which only prints). -/
structure CodeGenerator where
  symbols : SymbolTable
  pc : Nat
  deriving DecidableEq, Repr

/-- Go `NewCodeGenerator`. -/
def NewCodeGenerator (symbols : SymbolTable) : CodeGenerator := { symbols := symbols, pc := 0 }

/-- The body of the loop of Go `CodeGenerator.firstPass` for one item: the error if any, the
generator and the item (with its `Address`) after it. -/
def firstPassStep (cg : CodeGenerator) (inst : Instruction) :
    Option GenError × CodeGenerator × Instruction :=
  match inst.Typ with
  | InstDirective =>
    if inst.DirectiveName = "org".data then (none, { cg with pc := inst.Operand }, inst)
    else if inst.DirectiveName = "word".data then
      (none, { cg with pc := (cg.pc + 2) % 65536 }, { inst with Address := cg.pc })
    else if inst.DirectiveName = "byte".data then
      (none, { cg with pc := (cg.pc + inst.DirectiveData.length % 65536) % 65536 },
        { inst with Address := cg.pc })
    else (none, cg, inst)
  | InstLabel => (none, { cg with symbols := cg.symbols.Define inst.Mnemonic cg.pc }, inst)
  | InstMnemonic =>
    match lookupMnemonic inst.Mnemonic with
    | none => (some (.unknownMnemonic inst.Mnemonic inst.Line), cg, { inst with Address := cg.pc })
    | some opcodeMap =>
      match lookupMode opcodeMap inst.AddressMode with
      | none =>
        (some (.invalidAddressingMode inst.Mnemonic inst.Line), cg,
          { inst with Address := cg.pc })
      | some opcodeInfo =>
        (none, { cg with pc := (cg.pc + opcodeInfo.Size % 65536) % 65536 },
          { inst with Address := cg.pc })

/-- The loop of Go `CodeGenerator.firstPass`: it stops at the first error. -/
def firstPassLoop (cg : CodeGenerator) :
    List Instruction → Option GenError × CodeGenerator × List Instruction
  | [] => (none, cg, [])
  | inst :: rest =>
    match firstPassStep cg inst with
    | (some e, cg1, inst1) => (some e, cg1, inst1 :: rest)
    | (none, cg1, inst1) =>
      let r := firstPassLoop cg1 rest
      (r.1, r.2.1, inst1 :: r.2.2)

/-- Go `CodeGenerator.firstPass`: address assignment, starting at `pc = 0`. -/
def firstPass (cg : CodeGenerator) (instructions : List Instruction) :
    Option GenError × CodeGenerator × List Instruction :=
  firstPassLoop { cg with pc := 0 } instructions

/-- Go `int16(x)` of an integer: the two's-complement value of its low 16 bits. -/
def wrapInt16 (z : Int) : Int := (z + 32768) % 65536 - 32768

/-- The branch offset of Go `secondPass`:
`int16(operand) - int16(inst.Address+2)`, an `int16`. -/
def branchOffset (operand address : Nat) : Int :=
  wrapInt16 (wrapInt16 (operand : Int) - wrapInt16 (((address + 2) % 65536 : Nat) : Int))

/-- The loop `for i, b := range inst.DirectiveData { output[inst.Address+uint16(i)] = b }`,
from index `i` on. -/
def writeBytes (address : Nat) : Nat → List Nat → Image → Image
  | _, [], output => output
  | i, b :: rest, output =>
    writeBytes address (i + 1) rest (output.set ((address + i % 65536) % 65536) b)

/-- The body of the loop of Go `CodeGenerator.secondPass` for one item: the error if any and
the output image after it. -/
def secondPassStep (symbols : SymbolTable) (output : Image) (inst : Instruction) :
    Option GenError × Image :=
  match inst.Typ with
  | InstDirective =>
    if inst.DirectiveName = "word".data then
      if inst.OperandLabel ≠ [] then
        match symbols.Resolve inst.OperandLabel with
        | none => (some (.undefinedSymbol inst.Line inst.OperandLabel), output)
        | some operand =>
          (none, (output.set inst.Address ((operand &&& 0xFF) % 256)).set
            ((inst.Address + 1) % 65536) (((operand >>> 8) &&& 0xFF) % 256))
      else if inst.DirectiveData.length ≥ 2 then
        (none, (output.set inst.Address (inst.DirectiveData.getD 0 0)).set
          ((inst.Address + 1) % 65536) (inst.DirectiveData.getD 1 0))
      else (none, output)
    else if inst.DirectiveName = "byte".data then
      (none, writeBytes inst.Address 0 inst.DirectiveData output)
    else (none, output)
  | InstLabel => (none, output)
  | InstMnemonic =>
    let opcodeInfo := (lookupOpcode inst.Mnemonic inst.AddressMode).getD ⟨0, 0⟩
    let output1 := output.set inst.Address opcodeInfo.Opcode
    if opcodeInfo.Size > 1 then
      match (if inst.OperandLabel ≠ [] then symbols.Resolve inst.OperandLabel
             else some inst.Operand) with
      | none => (some (.undefinedSymbol inst.Line inst.OperandLabel), output1)
      | some operand =>
        if inst.AddressMode = AddrRelative then
          let offset := branchOffset operand inst.Address
          if offset < -128 ∨ offset > 127 then (some (.branchOutOfRange inst.Line), output1)
          else (none, output1.set ((inst.Address + 1) % 65536) (offset % 256).toNat)
        else if opcodeInfo.Size = 2 then
          (none, output1.set ((inst.Address + 1) % 65536) ((operand &&& 0xFF) % 256))
        else if opcodeInfo.Size = 3 then
          (none, (output1.set ((inst.Address + 1) % 65536) ((operand &&& 0xFF) % 256)).set
            ((inst.Address + 2) % 65536) (((operand >>> 8) &&& 0xFF) % 256))
        else (none, output1)
    else (none, output1)

/-- Go `CodeGenerator.secondPass`: emission; it stops at the first error. -/
def secondPass (symbols : SymbolTable) :
    List Instruction → Image → Option GenError × Image
  | [], output => (none, output)
  | inst :: rest, output =>
    match secondPassStep symbols output inst with
    | (some e, output1) => (some e, output1)
    | (none, output1) => secondPass symbols rest output1

/-- Go `CodeGenerator.Generate`: the error if any, the generator and the output image after
the call. -/
def Generate (cg : CodeGenerator) (instructions : List Instruction) (output : Image) :
    Option GenError × CodeGenerator × Image :=
  match firstPass cg instructions with
  | (some e, cg1, _) => (some e, cg1, output)
  | (none, cg1, instructions1) =>
    match secondPass cg1.symbols instructions1 output with
    | (some e, output1) => (some e, cg1, output1)
    | (none, output1) =>
      if !cg1.symbols.IsResolved then
        (some (.undefinedSymbols cg1.symbols.GetUndefined), cg1, output1)
      else (none, cg1, output1)

/-! ## assembler/assembler.go -/

/-- The errors `Assembler.Assemble` returns: those of the three phases, unchanged. -/
inductive AsmError where
  | lex (e : LexError)
  | parse (e : ParseError)
  | gen (e : GenError)
  deriving DecidableEq, Repr

/-- Go `Assembler` (without `verbose`, which only prints). -/
structure Assembler where
  symbols : SymbolTable
  output : Image
  pc : Nat

/-- Go `NewAssembler`: an empty symbol table and `make([]byte, 65536)`. -/
def NewAssembler : Assembler :=
  { symbols := NewSymbolTable, output := { size := 65536, data := fun _ => 0, fault := false },
    pc := 0 }

/-- Go `Assembler.Assemble`: the error if any (`none` is the `nil` error) and the assembler
after the call; the outer `none` is a call that does not return. -/
def Assemble (a : Assembler) (source : Str) : Option (Option AsmError × Assembler) :=
  match Tokenize source with
  | none => none
  | some (.error e) => some (some (.lex e), a)
  | some (.ok tokens) =>
    match Parse tokens with
    | none => none
    | some (.error e) => some (some (.parse e), a)
    | some (.ok instructions) =>
      match Generate (NewCodeGenerator a.symbols) instructions a.output with
      | (e, cg, output) => some (e.map AsmError.gen, { a with symbols := cg.symbols, output := output })

/-- Go `copy(dst, src)` on slices: the first `min(len(dst), len(src))` elements of `src`
written over the start of `dst`; the result is `dst` afterwards. -/
def goCopy (dst src : List Nat) : List Nat := src.take dst.length ++ dst.drop src.length

/-- The Go slice expression `a.output[lo:hi]`. -/
def Image.slice (img : Image) (lo hi : Nat) : List Nat :=
  (List.range (hi - lo)).map (fun i => img.data (lo + i))

/-- Go `Assembler.WriteROM`: the bytes `rom` it hands to `ioutil.WriteFile` (the error it
returns is that of writing the file). -/
def WriteROM (a : Assembler) (startAddr size : Nat) : List Nat :=
  let rom := List.replicate size 0
  if startAddr < a.output.size then
    let endAddr := startAddr + size
    let endAddr := if endAddr > a.output.size then a.output.size else endAddr
    if endAddr > startAddr then goCopy rom (a.output.slice startAddr endAddr) else rom
  else rom

end assembler

/-! ## emulator/cpu.go -/

namespace emulator

def CARRY_FLAG : Nat := 0x01
def ZERO_FLAG : Nat := 0x02
def INTERRUPT_FLAG : Nat := 0x04
def DECIMAL_FLAG : Nat := 0x08
def BREAK_FLAG : Nat := 0x10
def UNUSED_FLAG : Nat := 0x20
def OVERFLOW_FLAG : Nat := 0x40
def NEGATIVE_FLAG : Nat := 0x80

def STACK_BASE : Nat := 0x0100
def RESET_VECTOR : Nat := 0xFFFC
def IRQ_VECTOR : Nat := 0xFFFE
def NMI_VECTOR : Nat := 0xFFFA

/-- What the emulator prints: a character or a line end of `writeDisplay`, or the
`Unknown opcode` line of `Step`. -/
inductive Output where
  | char (value : Nat)
  | newline
  | unknownOpcode (opcode pc : Nat)
  deriving DecidableEq, Repr

/-- Go `CPU`, with the text printed so far as `out`.  The registers and the bytes of
`memory` are `uint8` (below 256), `PC` is a `uint16`, `cycles` a `uint64`. -/
structure CPU where
  A : Nat
  X : Nat
  Y : Nat
  SP : Nat
  PC : Nat
  P : Nat
  memory : Nat → Nat
  cycles : Nat
  running : Bool
  out : List Output

/-- Go `NewCPU`. -/
def NewCPU : CPU :=
  { A := 0, X := 0, Y := 0, SP := 0xFF, PC := 0, P := UNUSED_FLAG, memory := fun _ => 0,
    cycles := 0, running := false, out := [] }

/-- Go `CPU.readKeyboard`. -/
def CPU.readKeyboard (_cpu : CPU) : Nat := 0x00

/-- Go `CPU.writeDisplay`. -/
def CPU.writeDisplay (cpu : CPU) (value : Nat) : CPU :=
  if value ≥ 0x20 ∧ value ≤ 0x7E then { cpu with out := cpu.out ++ [.char value] }
  else if value = 0x0A ∨ value = 0x0D then { cpu with out := cpu.out ++ [.newline] }
  else cpu

/-- Go `CPU.handleIORead`. -/
def CPU.handleIORead (cpu : CPU) (addr : Nat) : Nat :=
  if addr = 0xF004 then cpu.readKeyboard else cpu.memory addr

/-- Go `CPU.handleIOWrite`. -/
def CPU.handleIOWrite (cpu : CPU) (addr value : Nat) : CPU :=
  if addr = 0xF001 then cpu.writeDisplay value
  else { cpu with memory := fun a => if a = addr then value else cpu.memory a }

/-- Go `CPU.ReadByte`. -/
def CPU.ReadByte (cpu : CPU) (addr : Nat) : Nat :=
  if addr ≥ 0xF000 ∧ addr ≤ 0xFFFF then cpu.handleIORead addr else cpu.memory addr

/-- Go `CPU.WriteByte`. -/
def CPU.WriteByte (cpu : CPU) (addr value : Nat) : CPU :=
  if addr ≥ 0xF000 ∧ addr ≤ 0xFFFF then cpu.handleIOWrite addr value
  else { cpu with memory := fun a => if a = addr then value else cpu.memory a }

/-- Go `CPU.ReadWord`. -/
def CPU.ReadWord (cpu : CPU) (addr : Nat) : Nat :=
  let lo := cpu.ReadByte addr
  let hi := cpu.ReadByte ((addr + 1) % 65536)
  ((hi <<< 8) % 65536) ||| lo

/-- Go `CPU.WriteWord`. -/
def CPU.WriteWord (cpu : CPU) (addr value : Nat) : CPU :=
  (cpu.WriteByte addr ((value &&& 0xFF) % 256)).WriteByte ((addr + 1) % 65536)
    (((value >>> 8) &&& 0xFF) % 256)

/-- Go `CPU.Push`. -/
def CPU.Push (cpu : CPU) (value : Nat) : CPU :=
  let cpu1 := cpu.WriteByte ((STACK_BASE + cpu.SP) % 65536) value
  { cpu1 with SP := (cpu1.SP + 255) % 256 }

/-- Go `CPU.Pop`: the byte and the CPU after the call. -/
def CPU.Pop (cpu : CPU) : Nat × CPU :=
  let cpu1 := { cpu with SP := (cpu.SP + 1) % 256 }
  (cpu1.ReadByte ((STACK_BASE + cpu1.SP) % 65536), cpu1)

/-- Go `CPU.PushWord`. -/
def CPU.PushWord (cpu : CPU) (value : Nat) : CPU :=
  (cpu.Push (((value >>> 8) &&& 0xFF) % 256)).Push ((value &&& 0xFF) % 256)

/-- Go `CPU.PopWord`: the word and the CPU after the call. -/
def CPU.PopWord (cpu : CPU) : Nat × CPU :=
  let (lo, cpu1) := cpu.Pop
  let (hi, cpu2) := cpu1.Pop
  (((hi <<< 8) % 65536) ||| lo, cpu2)

/-- Go `CPU.SetFlag`. -/
def CPU.SetFlag (cpu : CPU) (flag : Nat) (set : Bool) : CPU :=
  if set then { cpu with P := cpu.P ||| flag }
  else { cpu with P := cpu.P &&& (0xFF ^^^ flag) }

/-- Go `CPU.GetFlag`. -/
def CPU.GetFlag (cpu : CPU) (flag : Nat) : Bool := (cpu.P &&& flag) != 0

/-- Go `CPU.UpdateZeroAndNegative`. -/
def CPU.UpdateZeroAndNegative (cpu : CPU) (value : Nat) : CPU :=
  (cpu.SetFlag ZERO_FLAG (value == 0)).SetFlag NEGATIVE_FLAG ((value &&& 0x80) != 0)

/-- Go `CPU.Reset`. -/
def CPU.Reset (cpu : CPU) : CPU :=
  { cpu with PC := cpu.ReadWord RESET_VECTOR, SP := 0xFF, P := UNUSED_FLAG, cycles := 0,
             running := true }

/-! ## The instruction handlers of the emulator (the methods `(*CPU).LDA` ... `(*CPU).BRK`) -/

def CPU.LDA (cpu : CPU) (addr : Nat) : CPU :=
  let cpu1 := { cpu with A := cpu.ReadByte addr }
  cpu1.UpdateZeroAndNegative cpu1.A

def CPU.LDX (cpu : CPU) (addr : Nat) : CPU :=
  let cpu1 := { cpu with X := cpu.ReadByte addr }
  cpu1.UpdateZeroAndNegative cpu1.X

def CPU.LDY (cpu : CPU) (addr : Nat) : CPU :=
  let cpu1 := { cpu with Y := cpu.ReadByte addr }
  cpu1.UpdateZeroAndNegative cpu1.Y

def CPU.STA (cpu : CPU) (addr : Nat) : CPU := cpu.WriteByte addr cpu.A

def CPU.STX (cpu : CPU) (addr : Nat) : CPU := cpu.WriteByte addr cpu.X

def CPU.STY (cpu : CPU) (addr : Nat) : CPU := cpu.WriteByte addr cpu.Y

def CPU.ADC (cpu : CPU) (addr : Nat) : CPU :=
  let value := cpu.ReadByte addr
  let carry := if cpu.GetFlag CARRY_FLAG then 1 else 0
  let result := (cpu.A + value + carry) % 65536
  let cpu1 := cpu.SetFlag CARRY_FLAG (result > 0xFF)
  let cpu2 := cpu1.SetFlag OVERFLOW_FLAG
    (((cpu1.A ^^^ value) &&& 0x80) == 0 && ((cpu1.A ^^^ (result % 256)) &&& 0x80) != 0)
  let cpu3 := { cpu2 with A := result % 256 }
  cpu3.UpdateZeroAndNegative cpu3.A

def CPU.SBC (cpu : CPU) (addr : Nat) : CPU :=
  let value := cpu.ReadByte addr
  let carry : Nat := if cpu.GetFlag CARRY_FLAG then 1 else 0
  let result : Int := (cpu.A : Int) - (value : Int) - ((1 - carry : Nat) : Int)
  let cpu1 := cpu.SetFlag CARRY_FLAG (decide (result ≥ 0))
  let cpu2 := cpu1.SetFlag OVERFLOW_FLAG
    (((cpu1.A ^^^ value) &&& 0x80) != 0 && ((cpu1.A ^^^ (result % 256).toNat) &&& 0x80) != 0)
  let cpu3 := { cpu2 with A := (result % 256).toNat }
  cpu3.UpdateZeroAndNegative cpu3.A

def CPU.AND (cpu : CPU) (addr : Nat) : CPU :=
  let cpu1 := { cpu with A := cpu.A &&& cpu.ReadByte addr }
  cpu1.UpdateZeroAndNegative cpu1.A

def CPU.ORA (cpu : CPU) (addr : Nat) : CPU :=
  let cpu1 := { cpu with A := cpu.A ||| cpu.ReadByte addr }
  cpu1.UpdateZeroAndNegative cpu1.A

def CPU.EOR (cpu : CPU) (addr : Nat) : CPU :=
  let cpu1 := { cpu with A := cpu.A ^^^ cpu.ReadByte addr }
  cpu1.UpdateZeroAndNegative cpu1.A

/-- Go `a - b` on two `uint8`. -/
def sub8 (a b : Nat) : Nat := (a + (256 - b % 256)) % 256

def CPU.CMP (cpu : CPU) (addr : Nat) : CPU :=
  let value := cpu.ReadByte addr
  let result := sub8 cpu.A value
  (cpu.SetFlag CARRY_FLAG (decide (cpu.A ≥ value))).UpdateZeroAndNegative result

def CPU.CPX (cpu : CPU) (addr : Nat) : CPU :=
  let value := cpu.ReadByte addr
  let result := sub8 cpu.X value
  (cpu.SetFlag CARRY_FLAG (decide (cpu.X ≥ value))).UpdateZeroAndNegative result

def CPU.CPY (cpu : CPU) (addr : Nat) : CPU :=
  let value := cpu.ReadByte addr
  let result := sub8 cpu.Y value
  (cpu.SetFlag CARRY_FLAG (decide (cpu.Y ≥ value))).UpdateZeroAndNegative result

def CPU.BIT (cpu : CPU) (addr : Nat) : CPU :=
  let value := cpu.ReadByte addr
  let result := cpu.A &&& value
  ((cpu.SetFlag ZERO_FLAG (result == 0)).SetFlag OVERFLOW_FLAG ((value &&& 0x40) != 0)).SetFlag
    NEGATIVE_FLAG ((value &&& 0x80) != 0)

def CPU.INC (cpu : CPU) (addr : Nat) : CPU :=
  let value := (cpu.ReadByte addr + 1) % 256
  (cpu.WriteByte addr value).UpdateZeroAndNegative value

def CPU.DEC (cpu : CPU) (addr : Nat) : CPU :=
  let value := sub8 (cpu.ReadByte addr) 1
  (cpu.WriteByte addr value).UpdateZeroAndNegative value

def CPU.ASL (cpu : CPU) (addr : Nat) : CPU :=
  let value := cpu.ReadByte addr
  let cpu1 := cpu.SetFlag CARRY_FLAG ((value &&& 0x80) != 0)
  let value := (value <<< 1) % 256
  (cpu1.WriteByte addr value).UpdateZeroAndNegative value

def CPU.LSR (cpu : CPU) (addr : Nat) : CPU :=
  let value := cpu.ReadByte addr
  let cpu1 := cpu.SetFlag CARRY_FLAG ((value &&& 0x01) != 0)
  let value := value >>> 1
  (cpu1.WriteByte addr value).UpdateZeroAndNegative value

def CPU.ROL (cpu : CPU) (addr : Nat) : CPU :=
  let value := cpu.ReadByte addr
  let carry := cpu.GetFlag CARRY_FLAG
  let cpu1 := cpu.SetFlag CARRY_FLAG ((value &&& 0x80) != 0)
  let value := (value <<< 1) % 256
  let value := if carry then value ||| 0x01 else value
  (cpu1.WriteByte addr value).UpdateZeroAndNegative value

def CPU.ROR (cpu : CPU) (addr : Nat) : CPU :=
  let value := cpu.ReadByte addr
  let carry := cpu.GetFlag CARRY_FLAG
  let cpu1 := cpu.SetFlag CARRY_FLAG ((value &&& 0x01) != 0)
  let value := value >>> 1
  let value := if carry then value ||| 0x80 else value
  (cpu1.WriteByte addr value).UpdateZeroAndNegative value

def CPU.ASLA (cpu : CPU) (_addr : Nat) : CPU :=
  let cpu1 := cpu.SetFlag CARRY_FLAG ((cpu.A &&& 0x80) != 0)
  let cpu2 := { cpu1 with A := (cpu1.A <<< 1) % 256 }
  cpu2.UpdateZeroAndNegative cpu2.A

def CPU.LSRA (cpu : CPU) (_addr : Nat) : CPU :=
  let cpu1 := cpu.SetFlag CARRY_FLAG ((cpu.A &&& 0x01) != 0)
  let cpu2 := { cpu1 with A := cpu1.A >>> 1 }
  cpu2.UpdateZeroAndNegative cpu2.A

def CPU.ROLA (cpu : CPU) (_addr : Nat) : CPU :=
  let carry := cpu.GetFlag CARRY_FLAG
  let cpu1 := cpu.SetFlag CARRY_FLAG ((cpu.A &&& 0x80) != 0)
  let cpu2 := { cpu1 with A := (cpu1.A <<< 1) % 256 }
  let cpu3 := if carry then { cpu2 with A := cpu2.A ||| 0x01 } else cpu2
  cpu3.UpdateZeroAndNegative cpu3.A

def CPU.RORA (cpu : CPU) (_addr : Nat) : CPU :=
  let carry := cpu.GetFlag CARRY_FLAG
  let cpu1 := cpu.SetFlag CARRY_FLAG ((cpu.A &&& 0x01) != 0)
  let cpu2 := { cpu1 with A := cpu1.A >>> 1 }
  let cpu3 := if carry then { cpu2 with A := cpu2.A ||| 0x80 } else cpu2
  cpu3.UpdateZeroAndNegative cpu3.A

def CPU.TAX (cpu : CPU) (_addr : Nat) : CPU :=
  let cpu1 := { cpu with X := cpu.A }
  cpu1.UpdateZeroAndNegative cpu1.X

def CPU.TAY (cpu : CPU) (_addr : Nat) : CPU :=
  let cpu1 := { cpu with Y := cpu.A }
  cpu1.UpdateZeroAndNegative cpu1.Y

def CPU.TXA (cpu : CPU) (_addr : Nat) : CPU :=
  let cpu1 := { cpu with A := cpu.X }
  cpu1.UpdateZeroAndNegative cpu1.A

def CPU.TYA (cpu : CPU) (_addr : Nat) : CPU :=
  let cpu1 := { cpu with A := cpu.Y }
  cpu1.UpdateZeroAndNegative cpu1.A

def CPU.TXS (cpu : CPU) (_addr : Nat) : CPU := { cpu with SP := cpu.X }

def CPU.TSX (cpu : CPU) (_addr : Nat) : CPU :=
  let cpu1 := { cpu with X := cpu.SP }
  cpu1.UpdateZeroAndNegative cpu1.X

def CPU.INX (cpu : CPU) (_addr : Nat) : CPU :=
  let cpu1 := { cpu with X := (cpu.X + 1) % 256 }
  cpu1.UpdateZeroAndNegative cpu1.X

def CPU.INY (cpu : CPU) (_addr : Nat) : CPU :=
  let cpu1 := { cpu with Y := (cpu.Y + 1) % 256 }
  cpu1.UpdateZeroAndNegative cpu1.Y

def CPU.DEX (cpu : CPU) (_addr : Nat) : CPU :=
  let cpu1 := { cpu with X := sub8 cpu.X 1 }
  cpu1.UpdateZeroAndNegative cpu1.X

def CPU.DEY (cpu : CPU) (_addr : Nat) : CPU :=
  let cpu1 := { cpu with Y := sub8 cpu.Y 1 }
  cpu1.UpdateZeroAndNegative cpu1.Y

def CPU.PHA (cpu : CPU) (_addr : Nat) : CPU := cpu.Push cpu.A

def CPU.PLA (cpu : CPU) (_addr : Nat) : CPU :=
  let (value, cpu1) := cpu.Pop
  let cpu2 := { cpu1 with A := value }
  cpu2.UpdateZeroAndNegative cpu2.A

def CPU.PHP (cpu : CPU) (_addr : Nat) : CPU := cpu.Push (cpu.P ||| BREAK_FLAG)

def CPU.PLP (cpu : CPU) (_addr : Nat) : CPU :=
  let (value, cpu1) := cpu.Pop
  { cpu1 with P := (value ||| UNUSED_FLAG) &&& (0xFF ^^^ BREAK_FLAG) }

def CPU.JMP (cpu : CPU) (addr : Nat) : CPU := { cpu with PC := addr }

def CPU.JMPI (cpu : CPU) (addr : Nat) : CPU := { cpu with PC := cpu.ReadWord addr }

def CPU.JSR (cpu : CPU) (addr : Nat) : CPU :=
  let cpu1 := { cpu with PC := (cpu.PC + 65535) % 65536 }
  let cpu2 := cpu1.PushWord cpu1.PC
  { cpu2 with PC := addr }

def CPU.RTS (cpu : CPU) (_addr : Nat) : CPU :=
  let (value, cpu1) := cpu.PopWord
  { cpu1 with PC := (value + 1) % 65536 }

def CPU.RTI (cpu : CPU) (_addr : Nat) : CPU :=
  let (value, cpu1) := cpu.Pop
  let cpu2 := { cpu1 with P := (value ||| UNUSED_FLAG) &&& (0xFF ^^^ BREAK_FLAG) }
  let (pc, cpu3) := cpu2.PopWord
  { cpu3 with PC := pc }

def CPU.BEQ (cpu : CPU) (addr : Nat) : CPU :=
  if cpu.GetFlag ZERO_FLAG then { cpu with PC := addr } else cpu

def CPU.BNE (cpu : CPU) (addr : Nat) : CPU :=
  if !cpu.GetFlag ZERO_FLAG then { cpu with PC := addr } else cpu

def CPU.BCS (cpu : CPU) (addr : Nat) : CPU :=
  if cpu.GetFlag CARRY_FLAG then { cpu with PC := addr } else cpu

def CPU.BCC (cpu : CPU) (addr : Nat) : CPU :=
  if !cpu.GetFlag CARRY_FLAG then { cpu with PC := addr } else cpu

def CPU.BMI (cpu : CPU) (addr : Nat) : CPU :=
  if cpu.GetFlag NEGATIVE_FLAG then { cpu with PC := addr } else cpu

def CPU.BPL (cpu : CPU) (addr : Nat) : CPU :=
  if !cpu.GetFlag NEGATIVE_FLAG then { cpu with PC := addr } else cpu

def CPU.BVS (cpu : CPU) (addr : Nat) : CPU :=
  if cpu.GetFlag OVERFLOW_FLAG then { cpu with PC := addr } else cpu

def CPU.BVC (cpu : CPU) (addr : Nat) : CPU :=
  if !cpu.GetFlag OVERFLOW_FLAG then { cpu with PC := addr } else cpu

def CPU.CLC (cpu : CPU) (_addr : Nat) : CPU := cpu.SetFlag CARRY_FLAG false

def CPU.SEC (cpu : CPU) (_addr : Nat) : CPU := cpu.SetFlag CARRY_FLAG true

def CPU.CLI (cpu : CPU) (_addr : Nat) : CPU := cpu.SetFlag INTERRUPT_FLAG false

def CPU.SEI (cpu : CPU) (_addr : Nat) : CPU := cpu.SetFlag INTERRUPT_FLAG true

def CPU.CLV (cpu : CPU) (_addr : Nat) : CPU := cpu.SetFlag OVERFLOW_FLAG false

def CPU.CLD (cpu : CPU) (_addr : Nat) : CPU := cpu.SetFlag DECIMAL_FLAG false

def CPU.SED (cpu : CPU) (_addr : Nat) : CPU := cpu.SetFlag DECIMAL_FLAG true

def CPU.NOP (cpu : CPU) (_addr : Nat) : CPU := cpu

def CPU.BRK (cpu : CPU) (_addr : Nat) : CPU :=
  let cpu1 := { cpu with PC := (cpu.PC + 1) % 65536 }
  let cpu2 := cpu1.PushWord cpu1.PC
  let cpu3 := cpu2.Push (cpu2.P ||| BREAK_FLAG)
  let cpu4 := cpu3.SetFlag INTERRUPT_FLAG true
  { cpu4 with PC := cpu4.ReadWord IRQ_VECTOR }

/-! ## The instruction table of the emulator and `GetAddress` -/

/-- Go `emulator.AddressingMode` (an `iota` enumeration; `Implicit` is the zero value). -/
inductive AddressingMode where
  | Implicit | Accumulator | Immediate | ZeroPage | ZeroPageX | ZeroPageY | Absolute
  | AbsoluteX | AbsoluteY | Indirect | IndexedIndirect | IndirectIndexed | Relative
  deriving DecidableEq, Repr

open AddressingMode

/-- The methods of `*CPU` that the instruction table names as `Execute`. -/
inductive Handler where
  | BRK | ORA | ASL | PHP | ASLA | BPL | CLC | JSR | AND | BIT | ROL | PLP | ROLA | BMI
  | SEC | RTI | EOR | LSR | PHA | LSRA | JMP | BVC | CLI | RTS | ADC | ROR | PLA | RORA
  | JMPI | BVS | SEI | STA | STY | STX | DEY | TXA | BCC | TYA | TXS | LDY | LDA | LDX
  | TAY | TAX | BCS | CLV | TSX | CPY | CMP | DEC | INY | DEX | BNE | CLD | CPX | SBC
  | INC | INX | NOP | BEQ | SED
  deriving DecidableEq, Repr

/-- The call `instruction.Execute(cpu, addr)`. -/
def Handler.run (h : Handler) (cpu : CPU) (addr : Nat) : CPU :=
  match h with
  | .BRK => cpu.BRK addr
  | .ORA => cpu.ORA addr
  | .ASL => cpu.ASL addr
  | .PHP => cpu.PHP addr
  | .ASLA => cpu.ASLA addr
  | .BPL => cpu.BPL addr
  | .CLC => cpu.CLC addr
  | .JSR => cpu.JSR addr
  | .AND => cpu.AND addr
  | .BIT => cpu.BIT addr
  | .ROL => cpu.ROL addr
  | .PLP => cpu.PLP addr
  | .ROLA => cpu.ROLA addr
  | .BMI => cpu.BMI addr
  | .SEC => cpu.SEC addr
  | .RTI => cpu.RTI addr
  | .EOR => cpu.EOR addr
  | .LSR => cpu.LSR addr
  | .PHA => cpu.PHA addr
  | .LSRA => cpu.LSRA addr
  | .JMP => cpu.JMP addr
  | .BVC => cpu.BVC addr
  | .CLI => cpu.CLI addr
  | .RTS => cpu.RTS addr
  | .ADC => cpu.ADC addr
  | .ROR => cpu.ROR addr
  | .PLA => cpu.PLA addr
  | .RORA => cpu.RORA addr
  | .JMPI => cpu.JMPI addr
  | .BVS => cpu.BVS addr
  | .SEI => cpu.SEI addr
  | .STA => cpu.STA addr
  | .STY => cpu.STY addr
  | .STX => cpu.STX addr
  | .DEY => cpu.DEY addr
  | .TXA => cpu.TXA addr
  | .BCC => cpu.BCC addr
  | .TYA => cpu.TYA addr
  | .TXS => cpu.TXS addr
  | .LDY => cpu.LDY addr
  | .LDA => cpu.LDA addr
  | .LDX => cpu.LDX addr
  | .TAY => cpu.TAY addr
  | .TAX => cpu.TAX addr
  | .BCS => cpu.BCS addr
  | .CLV => cpu.CLV addr
  | .TSX => cpu.TSX addr
  | .CPY => cpu.CPY addr
  | .CMP => cpu.CMP addr
  | .DEC => cpu.DEC addr
  | .INY => cpu.INY addr
  | .DEX => cpu.DEX addr
  | .BNE => cpu.BNE addr
  | .CLD => cpu.CLD addr
  | .CPX => cpu.CPX addr
  | .SBC => cpu.SBC addr
  | .INC => cpu.INC addr
  | .INX => cpu.INX addr
  | .NOP => cpu.NOP addr
  | .BEQ => cpu.BEQ addr
  | .SED => cpu.SED addr

/-- Go `emulator.Instruction`; `Execute = none` is the `nil` function of an entry the
table does not list. -/
structure Instruction where
  Name : String
  AddressMode : AddressingMode
  Cycles : Nat
  Execute : Option Handler
  deriving DecidableEq, Repr

/-- The entries the array literal `instructions` lists, by opcode byte. -/
def instructionTable : List (Nat × Instruction) :=
  [(0x00, Instruction.mk "BRK" AddressingMode.Implicit 7 (some Handler.BRK)),
   (0x01, Instruction.mk "ORA" AddressingMode.IndexedIndirect 6 (some Handler.ORA)),
   (0x05, Instruction.mk "ORA" AddressingMode.ZeroPage 3 (some Handler.ORA)),
   (0x06, Instruction.mk "ASL" AddressingMode.ZeroPage 5 (some Handler.ASL)),
   (0x08, Instruction.mk "PHP" AddressingMode.Implicit 3 (some Handler.PHP)),
   (0x09, Instruction.mk "ORA" AddressingMode.Immediate 2 (some Handler.ORA)),
   (0x0A, Instruction.mk "ASL" AddressingMode.Accumulator 2 (some Handler.ASLA)),
   (0x0D, Instruction.mk "ORA" AddressingMode.Absolute 4 (some Handler.ORA)),
   (0x0E, Instruction.mk "ASL" AddressingMode.Absolute 6 (some Handler.ASL)),
   (0x10, Instruction.mk "BPL" AddressingMode.Relative 2 (some Handler.BPL)),
   (0x11, Instruction.mk "ORA" AddressingMode.IndirectIndexed 5 (some Handler.ORA)),
   (0x15, Instruction.mk "ORA" AddressingMode.ZeroPageX 4 (some Handler.ORA)),
   (0x16, Instruction.mk "ASL" AddressingMode.ZeroPageX 6 (some Handler.ASL)),
   (0x18, Instruction.mk "CLC" AddressingMode.Implicit 2 (some Handler.CLC)),
   (0x19, Instruction.mk "ORA" AddressingMode.AbsoluteY 4 (some Handler.ORA)),
   (0x1D, Instruction.mk "ORA" AddressingMode.AbsoluteX 4 (some Handler.ORA)),
   (0x1E, Instruction.mk "ASL" AddressingMode.AbsoluteX 7 (some Handler.ASL)),
   (0x20, Instruction.mk "JSR" AddressingMode.Absolute 6 (some Handler.JSR)),
   (0x21, Instruction.mk "AND" AddressingMode.IndexedIndirect 6 (some Handler.AND)),
   (0x24, Instruction.mk "BIT" AddressingMode.ZeroPage 3 (some Handler.BIT)),
   (0x25, Instruction.mk "AND" AddressingMode.ZeroPage 3 (some Handler.AND)),
   (0x26, Instruction.mk "ROL" AddressingMode.ZeroPage 5 (some Handler.ROL)),
   (0x28, Instruction.mk "PLP" AddressingMode.Implicit 4 (some Handler.PLP)),
   (0x29, Instruction.mk "AND" AddressingMode.Immediate 2 (some Handler.AND)),
   (0x2A, Instruction.mk "ROL" AddressingMode.Accumulator 2 (some Handler.ROLA)),
   (0x2C, Instruction.mk "BIT" AddressingMode.Absolute 4 (some Handler.BIT)),
   (0x2D, Instruction.mk "AND" AddressingMode.Absolute 4 (some Handler.AND)),
   (0x2E, Instruction.mk "ROL" AddressingMode.Absolute 6 (some Handler.ROL)),
   (0x30, Instruction.mk "BMI" AddressingMode.Relative 2 (some Handler.BMI)),
   (0x31, Instruction.mk "AND" AddressingMode.IndirectIndexed 5 (some Handler.AND)),
   (0x35, Instruction.mk "AND" AddressingMode.ZeroPageX 4 (some Handler.AND)),
   (0x36, Instruction.mk "ROL" AddressingMode.ZeroPageX 6 (some Handler.ROL)),
   (0x38, Instruction.mk "SEC" AddressingMode.Implicit 2 (some Handler.SEC)),
   (0x39, Instruction.mk "AND" AddressingMode.AbsoluteY 4 (some Handler.AND)),
   (0x3D, Instruction.mk "AND" AddressingMode.AbsoluteX 4 (some Handler.AND)),
   (0x3E, Instruction.mk "ROL" AddressingMode.AbsoluteX 7 (some Handler.ROL)),
   (0x40, Instruction.mk "RTI" AddressingMode.Implicit 6 (some Handler.RTI)),
   (0x41, Instruction.mk "EOR" AddressingMode.IndexedIndirect 6 (some Handler.EOR)),
   (0x45, Instruction.mk "EOR" AddressingMode.ZeroPage 3 (some Handler.EOR)),
   (0x46, Instruction.mk "LSR" AddressingMode.ZeroPage 5 (some Handler.LSR)),
   (0x48, Instruction.mk "PHA" AddressingMode.Implicit 3 (some Handler.PHA)),
   (0x49, Instruction.mk "EOR" AddressingMode.Immediate 2 (some Handler.EOR)),
   (0x4A, Instruction.mk "LSR" AddressingMode.Accumulator 2 (some Handler.LSRA)),
   (0x4C, Instruction.mk "JMP" AddressingMode.Absolute 3 (some Handler.JMP)),
   (0x4D, Instruction.mk "EOR" AddressingMode.Absolute 4 (some Handler.EOR)),
   (0x4E, Instruction.mk "LSR" AddressingMode.Absolute 6 (some Handler.LSR)),
   (0x50, Instruction.mk "BVC" AddressingMode.Relative 2 (some Handler.BVC)),
   (0x51, Instruction.mk "EOR" AddressingMode.IndirectIndexed 5 (some Handler.EOR)),
   (0x55, Instruction.mk "EOR" AddressingMode.ZeroPageX 4 (some Handler.EOR)),
   (0x56, Instruction.mk "LSR" AddressingMode.ZeroPageX 6 (some Handler.LSR)),
   (0x58, Instruction.mk "CLI" AddressingMode.Implicit 2 (some Handler.CLI)),
   (0x59, Instruction.mk "EOR" AddressingMode.AbsoluteY 4 (some Handler.EOR)),
   (0x5D, Instruction.mk "EOR" AddressingMode.AbsoluteX 4 (some Handler.EOR)),
   (0x5E, Instruction.mk "LSR" AddressingMode.AbsoluteX 7 (some Handler.LSR)),
   (0x60, Instruction.mk "RTS" AddressingMode.Implicit 6 (some Handler.RTS)),
   (0x61, Instruction.mk "ADC" AddressingMode.IndexedIndirect 6 (some Handler.ADC)),
   (0x65, Instruction.mk "ADC" AddressingMode.ZeroPage 3 (some Handler.ADC)),
   (0x66, Instruction.mk "ROR" AddressingMode.ZeroPage 5 (some Handler.ROR)),
   (0x68, Instruction.mk "PLA" AddressingMode.Implicit 4 (some Handler.PLA)),
   (0x69, Instruction.mk "ADC" AddressingMode.Immediate 2 (some Handler.ADC)),
   (0x6A, Instruction.mk "ROR" AddressingMode.Accumulator 2 (some Handler.RORA)),
   (0x6C, Instruction.mk "JMP" AddressingMode.Indirect 5 (some Handler.JMPI)),
   (0x6D, Instruction.mk "ADC" AddressingMode.Absolute 4 (some Handler.ADC)),
   (0x6E, Instruction.mk "ROR" AddressingMode.Absolute 6 (some Handler.ROR)),
   (0x70, Instruction.mk "BVS" AddressingMode.Relative 2 (some Handler.BVS)),
   (0x71, Instruction.mk "ADC" AddressingMode.IndirectIndexed 5 (some Handler.ADC)),
   (0x75, Instruction.mk "ADC" AddressingMode.ZeroPageX 4 (some Handler.ADC)),
   (0x76, Instruction.mk "ROR" AddressingMode.ZeroPageX 6 (some Handler.ROR)),
   (0x78, Instruction.mk "SEI" AddressingMode.Implicit 2 (some Handler.SEI)),
   (0x79, Instruction.mk "ADC" AddressingMode.AbsoluteY 4 (some Handler.ADC)),
   (0x7D, Instruction.mk "ADC" AddressingMode.AbsoluteX 4 (some Handler.ADC)),
   (0x7E, Instruction.mk "ROR" AddressingMode.AbsoluteX 7 (some Handler.ROR)),
   (0x81, Instruction.mk "STA" AddressingMode.IndexedIndirect 6 (some Handler.STA)),
   (0x84, Instruction.mk "STY" AddressingMode.ZeroPage 3 (some Handler.STY)),
   (0x85, Instruction.mk "STA" AddressingMode.ZeroPage 3 (some Handler.STA)),
   (0x86, Instruction.mk "STX" AddressingMode.ZeroPage 3 (some Handler.STX)),
   (0x88, Instruction.mk "DEY" AddressingMode.Implicit 2 (some Handler.DEY)),
   (0x8A, Instruction.mk "TXA" AddressingMode.Implicit 2 (some Handler.TXA)),
   (0x8C, Instruction.mk "STY" AddressingMode.Absolute 4 (some Handler.STY)),
   (0x8D, Instruction.mk "STA" AddressingMode.Absolute 4 (some Handler.STA)),
   (0x8E, Instruction.mk "STX" AddressingMode.Absolute 4 (some Handler.STX)),
   (0x90, Instruction.mk "BCC" AddressingMode.Relative 2 (some Handler.BCC)),
   (0x91, Instruction.mk "STA" AddressingMode.IndirectIndexed 6 (some Handler.STA)),
   (0x94, Instruction.mk "STY" AddressingMode.ZeroPageX 4 (some Handler.STY)),
   (0x95, Instruction.mk "STA" AddressingMode.ZeroPageX 4 (some Handler.STA)),
   (0x96, Instruction.mk "STX" AddressingMode.ZeroPageY 4 (some Handler.STX)),
   (0x98, Instruction.mk "TYA" AddressingMode.Implicit 2 (some Handler.TYA)),
   (0x99, Instruction.mk "STA" AddressingMode.AbsoluteY 5 (some Handler.STA)),
   (0x9A, Instruction.mk "TXS" AddressingMode.Implicit 2 (some Handler.TXS)),
   (0x9D, Instruction.mk "STA" AddressingMode.AbsoluteX 5 (some Handler.STA)),
   (0xA0, Instruction.mk "LDY" AddressingMode.Immediate 2 (some Handler.LDY)),
   (0xA1, Instruction.mk "LDA" AddressingMode.IndexedIndirect 6 (some Handler.LDA)),
   (0xA2, Instruction.mk "LDX" AddressingMode.Immediate 2 (some Handler.LDX)),
   (0xA4, Instruction.mk "LDY" AddressingMode.ZeroPage 3 (some Handler.LDY)),
   (0xA5, Instruction.mk "LDA" AddressingMode.ZeroPage 3 (some Handler.LDA)),
   (0xA6, Instruction.mk "LDX" AddressingMode.ZeroPage 3 (some Handler.LDX)),
   (0xA8, Instruction.mk "TAY" AddressingMode.Implicit 2 (some Handler.TAY)),
   (0xA9, Instruction.mk "LDA" AddressingMode.Immediate 2 (some Handler.LDA)),
   (0xAA, Instruction.mk "TAX" AddressingMode.Implicit 2 (some Handler.TAX)),
   (0xAC, Instruction.mk "LDY" AddressingMode.Absolute 4 (some Handler.LDY)),
   (0xAD, Instruction.mk "LDA" AddressingMode.Absolute 4 (some Handler.LDA)),
   (0xAE, Instruction.mk "LDX" AddressingMode.Absolute 4 (some Handler.LDX)),
   (0xB0, Instruction.mk "BCS" AddressingMode.Relative 2 (some Handler.BCS)),
   (0xB1, Instruction.mk "LDA" AddressingMode.IndirectIndexed 5 (some Handler.LDA)),
   (0xB4, Instruction.mk "LDY" AddressingMode.ZeroPageX 4 (some Handler.LDY)),
   (0xB5, Instruction.mk "LDA" AddressingMode.ZeroPageX 4 (some Handler.LDA)),
   (0xB6, Instruction.mk "LDX" AddressingMode.ZeroPageY 4 (some Handler.LDX)),
   (0xB8, Instruction.mk "CLV" AddressingMode.Implicit 2 (some Handler.CLV)),
   (0xB9, Instruction.mk "LDA" AddressingMode.AbsoluteY 4 (some Handler.LDA)),
   (0xBA, Instruction.mk "TSX" AddressingMode.Implicit 2 (some Handler.TSX)),
   (0xBC, Instruction.mk "LDY" AddressingMode.AbsoluteX 4 (some Handler.LDY)),
   (0xBD, Instruction.mk "LDA" AddressingMode.AbsoluteX 4 (some Handler.LDA)),
   (0xBE, Instruction.mk "LDX" AddressingMode.AbsoluteY 4 (some Handler.LDX)),
   (0xC0, Instruction.mk "CPY" AddressingMode.Immediate 2 (some Handler.CPY)),
   (0xC1, Instruction.mk "CMP" AddressingMode.IndexedIndirect 6 (some Handler.CMP)),
   (0xC4, Instruction.mk "CPY" AddressingMode.ZeroPage 3 (some Handler.CPY)),
   (0xC5, Instruction.mk "CMP" AddressingMode.ZeroPage 3 (some Handler.CMP)),
   (0xC6, Instruction.mk "DEC" AddressingMode.ZeroPage 5 (some Handler.DEC)),
   (0xC8, Instruction.mk "INY" AddressingMode.Implicit 2 (some Handler.INY)),
   (0xC9, Instruction.mk "CMP" AddressingMode.Immediate 2 (some Handler.CMP)),
   (0xCA, Instruction.mk "DEX" AddressingMode.Implicit 2 (some Handler.DEX)),
   (0xCC, Instruction.mk "CPY" AddressingMode.Absolute 4 (some Handler.CPY)),
   (0xCD, Instruction.mk "CMP" AddressingMode.Absolute 4 (some Handler.CMP)),
   (0xCE, Instruction.mk "DEC" AddressingMode.Absolute 6 (some Handler.DEC)),
   (0xD0, Instruction.mk "BNE" AddressingMode.Relative 2 (some Handler.BNE)),
   (0xD1, Instruction.mk "CMP" AddressingMode.IndirectIndexed 5 (some Handler.CMP)),
   (0xD5, Instruction.mk "CMP" AddressingMode.ZeroPageX 4 (some Handler.CMP)),
   (0xD6, Instruction.mk "DEC" AddressingMode.ZeroPageX 6 (some Handler.DEC)),
   (0xD8, Instruction.mk "CLD" AddressingMode.Implicit 2 (some Handler.CLD)),
   (0xD9, Instruction.mk "CMP" AddressingMode.AbsoluteY 4 (some Handler.CMP)),
   (0xDD, Instruction.mk "CMP" AddressingMode.AbsoluteX 4 (some Handler.CMP)),
   (0xDE, Instruction.mk "DEC" AddressingMode.AbsoluteX 7 (some Handler.DEC)),
   (0xE0, Instruction.mk "CPX" AddressingMode.Immediate 2 (some Handler.CPX)),
   (0xE1, Instruction.mk "SBC" AddressingMode.IndexedIndirect 6 (some Handler.SBC)),
   (0xE4, Instruction.mk "CPX" AddressingMode.ZeroPage 3 (some Handler.CPX)),
   (0xE5, Instruction.mk "SBC" AddressingMode.ZeroPage 3 (some Handler.SBC)),
   (0xE6, Instruction.mk "INC" AddressingMode.ZeroPage 5 (some Handler.INC)),
   (0xE8, Instruction.mk "INX" AddressingMode.Implicit 2 (some Handler.INX)),
   (0xE9, Instruction.mk "SBC" AddressingMode.Immediate 2 (some Handler.SBC)),
   (0xEA, Instruction.mk "NOP" AddressingMode.Implicit 2 (some Handler.NOP)),
   (0xEC, Instruction.mk "CPX" AddressingMode.Absolute 4 (some Handler.CPX)),
   (0xED, Instruction.mk "SBC" AddressingMode.Absolute 4 (some Handler.SBC)),
   (0xEE, Instruction.mk "INC" AddressingMode.Absolute 6 (some Handler.INC)),
   (0xF0, Instruction.mk "BEQ" AddressingMode.Relative 2 (some Handler.BEQ)),
   (0xF1, Instruction.mk "SBC" AddressingMode.IndirectIndexed 5 (some Handler.SBC)),
   (0xF5, Instruction.mk "SBC" AddressingMode.ZeroPageX 4 (some Handler.SBC)),
   (0xF6, Instruction.mk "INC" AddressingMode.ZeroPageX 6 (some Handler.INC)),
   (0xF8, Instruction.mk "SED" AddressingMode.Implicit 2 (some Handler.SED)),
   (0xF9, Instruction.mk "SBC" AddressingMode.AbsoluteY 4 (some Handler.SBC)),
   (0xFD, Instruction.mk "SBC" AddressingMode.AbsoluteX 4 (some Handler.SBC)),
   (0xFE, Instruction.mk "INC" AddressingMode.AbsoluteX 7 (some Handler.INC))]

/-- Go `instructions[opcode]`: the listed entry, or the zero `Instruction`. -/
def instructions (opcode : Nat) : Instruction :=
  ((instructionTable.find? (fun e => e.1 = opcode)).map (fun e => e.2)).getD
    (Instruction.mk "" AddressingMode.Implicit 0 none)

/-- Go `int8(b)` of a byte. -/
def int8 (b : Nat) : Int :=
  if b % 256 < 128 then ((b % 256 : Nat) : Int) else ((b % 256 : Nat) : Int) - 256

/-- Go `CPU.GetAddress`: the effective address and the CPU after the call. -/
def CPU.GetAddress (cpu : CPU) (mode : AddressingMode) : Nat × CPU :=
  match mode with
  | Immediate => (cpu.PC, { cpu with PC := (cpu.PC + 1) % 65536 })
  | ZeroPage => (cpu.ReadByte cpu.PC, { cpu with PC := (cpu.PC + 1) % 65536 })
  | ZeroPageX =>
    (((cpu.ReadByte cpu.PC + cpu.X) % 256) &&& 0xFF, { cpu with PC := (cpu.PC + 1) % 65536 })
  | ZeroPageY =>
    (((cpu.ReadByte cpu.PC + cpu.Y) % 256) &&& 0xFF, { cpu with PC := (cpu.PC + 1) % 65536 })
  | Absolute => (cpu.ReadWord cpu.PC, { cpu with PC := (cpu.PC + 2) % 65536 })
  | AbsoluteX =>
    ((cpu.ReadWord cpu.PC + cpu.X) % 65536, { cpu with PC := (cpu.PC + 2) % 65536 })
  | AbsoluteY =>
    ((cpu.ReadWord cpu.PC + cpu.Y) % 65536, { cpu with PC := (cpu.PC + 2) % 65536 })
  | Indirect =>
    let indirect := cpu.ReadWord cpu.PC
    let cpu1 := { cpu with PC := (cpu.PC + 2) % 65536 }
    (cpu1.ReadWord indirect, cpu1)
  | IndexedIndirect =>
    let base := cpu.ReadByte cpu.PC
    let cpu1 := { cpu with PC := (cpu.PC + 1) % 65536 }
    let addr := (base + cpu1.X) % 256
    (cpu1.ReadWord (addr &&& 0xFF), cpu1)
  | IndirectIndexed =>
    let base := cpu.ReadByte cpu.PC
    let cpu1 := { cpu with PC := (cpu.PC + 1) % 65536 }
    ((cpu1.ReadWord base + cpu1.Y) % 65536, cpu1)
  | Relative =>
    let offset := int8 (cpu.ReadByte cpu.PC)
    let cpu1 := { cpu with PC := (cpu.PC + 1) % 65536 }
    ((((cpu1.PC : Int) + offset) % 65536).toNat, cpu1)
  | _ => (0, cpu)

/-- Go `CPU.Step` (in `emulator/cpu.go`). -/
def CPU.Step (cpu : CPU) : CPU :=
  let opcode := cpu.ReadByte cpu.PC
  let cpu1 := { cpu with PC := (cpu.PC + 1) % 65536 }
  let instruction := instructions opcode
  match instruction.Execute with
  | none =>
    { cpu1 with out := cpu1.out ++ [.unknownOpcode opcode ((cpu1.PC + 65535) % 65536)],
                running := false }
  | some execute =>
    let (addr, cpu2) :=
      match instruction.AddressMode with
      | Implicit => (0, cpu1)
      | Accumulator => (0, cpu1)
      | mode => cpu1.GetAddress mode
    let cpu3 := execute.run cpu2 addr
    let cpu4 := { cpu3 with cycles := (cpu3.cycles + instruction.Cycles) % 2 ^ 64 }
    if cpu4.PC = 0 then { cpu4 with running := false } else cpu4

/-- Go `CPU.Run`, with fuel: one unit for each `Step`; `none` when the fuel runs out with
the CPU still running. -/
def CPU.Run : Nat → CPU → Option CPU
  | 0, cpu => if cpu.running then none else some cpu
  | fuel + 1, cpu => if cpu.running then CPU.Run fuel cpu.Step else some cpu

end emulator

/-! ## Definitions used by the statements -/

open assembler emulator
open assembler.InstructionType assembler.AddressingMode

/-- The emulator's name for an addressing mode of the assembler (the two packages declare
the same thirteen modes, in the same order). -/
def modeOfAssembler : assembler.AddressingMode → emulator.AddressingMode
  | AddrImplicit => .Implicit
  | AddrAccumulator => .Accumulator
  | AddrImmediate => .Immediate
  | AddrZeroPage => .ZeroPage
  | AddrZeroPageX => .ZeroPageX
  | AddrZeroPageY => .ZeroPageY
  | AddrAbsolute => .Absolute
  | AddrAbsoluteX => .AbsoluteX
  | AddrAbsoluteY => .AbsoluteY
  | AddrIndirect => .Indirect
  | AddrIndexedIndirect => .IndexedIndirect
  | AddrIndirectIndexed => .IndirectIndexed
  | AddrRelative => .Relative

/-- The (mnemonic, addressing mode, opcode info) triples of the assembler's `opcodeTable`. -/
def assemblerPairs : List (String × assembler.AddressingMode × OpcodeInfo) :=
  opcodeTable.flatMap (fun e => e.2.map (fun p => (e.1, p.1, p.2)))

/-- The operand pass 2 uses for an item: the address of its label when it has one (`none`
when `Resolve` fails), else its numeric operand. -/
def resolvedOperand (symbols : SymbolTable) (inst : assembler.Instruction) : Option Nat :=
  if inst.OperandLabel ≠ [] then symbols.Resolve inst.OperandLabel else some inst.Operand

/-- The eight branch mnemonics. -/
def branchMnemonics : List String := ["BCC", "BCS", "BEQ", "BMI", "BNE", "BPL", "BVC", "BVS"]

/-- The source `.org $1000` / `<mnemonic> target` / `target:`. -/
def branchSource (mnemonic : String) : Str :=
  ".org $1000\n".data ++ mnemonic.data ++ " target\ntarget:\n".data

/-- The memory of the indirect-jump scenario: `JMP ($8010)` at `$8000`, the word `$8020` at
`$8010`, `LDA #$AA; BRK` at `$8020`, zero elsewhere. -/
def indirectJumpMemory : Nat → Nat := fun a =>
  if a = 0x8000 then 0x6C else if a = 0x8001 then 0x10 else if a = 0x8002 then 0x80
  else if a = 0x8010 then 0x20 else if a = 0x8011 then 0x80
  else if a = 0x8020 then 0xA9 else if a = 0x8021 then 0xAA else 0

/-- A CPU about to run the indirect-jump scenario from `PC = $8000`. -/
def indirectJumpCPU : CPU :=
  { NewCPU with PC := 0x8000, running := true, memory := indirectJumpMemory }

/-- The 65536-byte image of zeros of a fresh assembler. -/
def zeroImage : Image := NewAssembler.output

/-- The item the parser makes of `LDA #$148` once pass 1 has put it at `$8000`. -/
def ldaImmediateWide : assembler.Instruction :=
  { Typ := InstMnemonic, Mnemonic := "LDA".data, AddressMode := AddrImmediate, Operand := 0x148,
    Line := 2, Address := 0x8000 }

/-- The item of `.org N`. -/
def orgItem (N line : Nat) : assembler.Instruction :=
  { Typ := InstDirective, DirectiveName := "org".data, Operand := N, Line := line }

/-- The item of `name:`. -/
def labelItem (name : Str) (line : Nat) : assembler.Instruction :=
  { Typ := InstLabel, Mnemonic := name, Line := line }

/-- An instruction item as the parser builds it. -/
def mnemonicItem (mnemonic : Str) (mode : assembler.AddressingMode) (operand : Nat)
    (operandLabel : Str) (line : Nat) : assembler.Instruction :=
  { Typ := InstMnemonic, Mnemonic := mnemonic, AddressMode := mode, Operand := operand,
    OperandLabel := operandLabel, Line := line }

/-- The program `.org N` / one instruction / `L:`. -/
def singleInstructionProgram (N : Nat) (mnemonic : Str) (mode : assembler.AddressingMode)
    (operand : Nat) (operandLabel L : Str) : List assembler.Instruction :=
  [orgItem N 1, mnemonicItem mnemonic mode operand operandLabel 2, labelItem L 3]

/-- The instruction item of `singleInstructionProgram` after pass 1. -/
def placedItem (N : Nat) (mnemonic : Str) (mode : assembler.AddressingMode) (operand : Nat)
    (operandLabel : Str) : assembler.Instruction :=
  { mnemonicItem mnemonic mode operand operandLabel 2 with Address := N }

/-- The item is the definition `L:` of the label `L`. -/
def definesLabel (L : Str) (inst : assembler.Instruction) : Prop :=
  inst.Typ = InstLabel ∧ inst.Mnemonic = L

/-- The item is an instruction or a `.word` whose operand is the label `L`. -/
def referencesLabel (L : Str) (inst : assembler.Instruction) : Prop :=
  inst.OperandLabel = L ∧
    (inst.Typ = InstMnemonic ∨ (inst.Typ = InstDirective ∧ inst.DirectiveName = "word".data))

/-- The items of a source that lexes and parses (`none` otherwise). -/
def sourceItems (source : Str) : Option (List assembler.Instruction) :=
  match Tokenize source with
  | some (.ok tokens) =>
    match Parse tokens with
    | some (.ok instructions) => some instructions
    | _ => none
  | _ => none

/-- What holds of every instruction item the parser builds: its mode is Implicit, Immediate,
ZeroPage or Absolute, and Absolute when it has an operand label. -/
def parserItemOK (inst : assembler.Instruction) : Prop :=
  inst.Typ = InstMnemonic →
    (inst.AddressMode = AddrImplicit ∨ inst.AddressMode = AddrImmediate ∨
      inst.AddressMode = AddrZeroPage ∨ inst.AddressMode = AddrAbsolute) ∧
    (inst.OperandLabel ≠ [] → inst.AddressMode = AddrAbsolute)

instance (L : Str) (inst : assembler.Instruction) : Decidable (definesLabel L inst) := by
  unfold definesLabel; infer_instance

instance (L : Str) (inst : assembler.Instruction) : Decidable (referencesLabel L inst) := by
  unfold referencesLabel; infer_instance

/-- The item of `.word name`. -/
def wordLabelItem (name : Str) (line : Nat) : assembler.Instruction :=
  { Typ := InstDirective, DirectiveName := "word".data, OperandLabel := name, Line := line }

/-- `BEQ` at `$1000` with the target `$1005`, three bytes past the next instruction. -/
def beqNear : assembler.Instruction :=
  { Typ := InstMnemonic, Mnemonic := "BEQ".data, AddressMode := AddrRelative, Operand := 0x1005,
    Line := 2, Address := 0x1000 }

/-- `BEQ` at `$8000` with the target `$80CA`, 200 bytes past the next instruction. -/
def beqFar : assembler.Instruction :=
  { Typ := InstMnemonic, Mnemonic := "BEQ".data, AddressMode := AddrRelative, Operand := 0x80CA,
    Line := 2, Address := 0x8000 }

/-- The items of `.org $8000` / `JMP loop`, before the line `loop:`. -/
def referenceBefore : List assembler.Instruction :=
  [orgItem 0x8000 1, mnemonicItem "JMP".data AddrAbsolute 0 "loop".data 2]

/-- The items of `.word loop`, after the line `loop:`. -/
def referenceAfter : List assembler.Instruction := [wordLabelItem "loop".data 4]

/-- The source `start:` / `JMP start` / `JMP foo` / `.word bar`, with `foo` and `bar`
undefined. -/
def twoUndefinedSource : Str := "start:\nJMP start\nJMP foo\n.word bar\n".data

/-- The eight status flags. -/
def statusFlags : List Nat :=
  [CARRY_FLAG, ZERO_FLAG, INTERRUPT_FLAG, DECIMAL_FLAG, BREAK_FLAG, UNUSED_FLAG, OVERFLOW_FLAG,
    NEGATIVE_FLAG]

/-- A CPU whose memory holds `lo` at `0xFFFC` and `hi` at `0xFFFD`, with arbitrary other
contents in the registers. -/
def resetVectorCPU (lo hi : Nat) : CPU :=
  { A := 0x11, X := 0x22, Y := 0x33, SP := 0x44, PC := 0x5555, P := 0xC3,
    memory := fun a => if a = 0xFFFC then lo else if a = 0xFFFD then hi else 0,
    cycles := 77, running := false, out := [] }

/-- The value of a byte read as a signed number, in words of the mode table. -/
def signedByte (b : Nat) : Int := if b < 128 then (b : Int) else (b : Int) - 256

/-- The effective address the mode table prescribes for each addressing mode. -/
def tableAddress (cpu : CPU) : emulator.AddressingMode → Nat
  | .Implicit => 0
  | .Accumulator => 0
  | .Immediate => cpu.PC
  | .ZeroPage => cpu.ReadByte cpu.PC
  | .ZeroPageX => (cpu.ReadByte cpu.PC + cpu.X) &&& 0xFF
  | .ZeroPageY => (cpu.ReadByte cpu.PC + cpu.Y) &&& 0xFF
  | .Absolute => cpu.ReadWord cpu.PC
  | .AbsoluteX => (cpu.ReadWord cpu.PC + cpu.X) % 2 ^ 16
  | .AbsoluteY => (cpu.ReadWord cpu.PC + cpu.Y) % 2 ^ 16
  | .Indirect => cpu.ReadWord (cpu.ReadWord cpu.PC)
  | .IndexedIndirect => cpu.ReadWord ((cpu.ReadByte cpu.PC + cpu.X) &&& 0xFF)
  | .IndirectIndexed => (cpu.ReadWord (cpu.ReadByte cpu.PC) + cpu.Y) % 2 ^ 16
  | .Relative => (((cpu.PC : Int) + 1 + signedByte (cpu.ReadByte cpu.PC)) % 2 ^ 16).toNat

/-- The number of operand bytes the mode table prescribes for each addressing mode. -/
def tableOperandBytes : emulator.AddressingMode → Nat
  | .Implicit => 0
  | .Accumulator => 0
  | .Absolute => 2
  | .AbsoluteX => 2
  | .AbsoluteY => 2
  | .Indirect => 2
  | _ => 1

/-- A CPU about to fetch the operand byte `operand` at `0x0200`; the rest of the memory
holds `0x40` at every address. -/
def operandCPU (operand : Nat) : CPU :=
  { A := 0, X := 0x05, Y := 0x07, SP := 0xFF, PC := 0x0200, P := 0x20,
    memory := fun a => if a = 0x0200 then operand else 0x40,
    cycles := 0, running := true, out := [] }

/-- A CPU with accumulator `a`, status `p`, and the byte `m` at address `0x0010`. -/
def adcCPU (a m p : Nat) : CPU :=
  { A := a, X := 0, Y := 0, SP := 0xFF, PC := 0x0200, P := p,
    memory := fun x => if x = 0x0010 then m else 0,
    cycles := 0, running := true, out := [] }

/-- The token is the hex literal `$h` and `h` reads as `v`. -/
def hexLiteral (t : Token) (v : Nat) : Prop :=
  t.Typ = TokenType.TokenAbsolute ∧ ∃ h, t.Value = '$' :: h ∧ GoLib.parseUint h 16 = .ok v

/-- The token is a decimal literal (a Number token of decimal digits) that reads as `v`. -/
def decimalLiteral (t : Token) (v : Nat) : Prop :=
  t.Typ = TokenType.TokenNumber ∧ t.Value.all GoLib.isDigit = true ∧
    GoLib.parseUint t.Value 10 = .ok v

/-- The token is a hex or decimal literal of value `v`. -/
def numericLiteral (t : Token) (v : Nat) : Prop := hexLiteral t v ∨ decimalLiteral t v
/-- An assembler whose image holds `(7 * a + 1) mod 256` at every address `a`. -/
def patternAssembler : Assembler :=
  { NewAssembler with output := { size := 65536, data := fun a => (7 * a + 1) % 256,
                                  fault := false } }

/-- The source `JMP here` / `here:` / `JMP here` / `here:` / `JMP here`: the label `here`
is defined at `$0003` and again at `$0006`, and referenced before, between and after. -/
def redefinedSource : Str := "JMP here\nhere:\nJMP here\nhere:\nJMP here\n".data

/-- The assignments `output[i] = v` of a list of (index, value) pairs, in order. -/
def applyWrites (ws : List (Nat × Nat)) (img : Image) : Image :=
  ws.foldl (fun im w => im.set w.1 w.2) img

/-- The assignments of the loop `writeBytes`, from index `i` on. -/
def byteWrites (address : Nat) : Nat → List Nat → List (Nat × Nat)
  | _, [] => []
  | i, b :: rest => ((address + i % 65536) % 65536, b) :: byteWrites address (i + 1) rest

/-- The value the last assignment of the list to index `a` stores, if there is one (an
assignment at or past `size` stores nothing). -/
def lastWrite (size a : Nat) : List (Nat × Nat) → Option Nat
  | [] => none
  | w :: ws =>
    match lastWrite size a ws with
    | some v => some v
    | none => if w.1 = a ∧ w.1 < size then some w.2 else none

/-- The number of bytes an item occupies: the size of an instruction in the opcode table,
2 for `.word`, the number of values of `.byte`, 0 for `.org` and for a label. -/
def itemLength (inst : assembler.Instruction) : Nat :=
  match inst.Typ with
  | InstMnemonic => ((lookupOpcode inst.Mnemonic inst.AddressMode).getD ⟨0, 0⟩).Size
  | InstDirective =>
    if inst.DirectiveName = "word".data then 2
    else if inst.DirectiveName = "byte".data then inst.DirectiveData.length
    else 0
  | InstLabel => 0

/-- The address `a` is one of `Address .. Address + length - 1` (mod 2^16) of the item. -/
def itemCovers (inst : assembler.Instruction) (a : Nat) : Prop :=
  ∃ i, i < itemLength inst ∧ a = (inst.Address + i) % 65536

/-- The items pass 2 reaches: all of them, or those up to and including the first one on
which it returns an error. -/
def emittedItems (symbols : SymbolTable) :
    List assembler.Instruction → List assembler.Instruction
  | [] => []
  | inst :: rest =>
    match (secondPassStep symbols zeroImage inst).1 with
    | some _ => [inst]
    | none => inst :: emittedItems symbols rest
/-- The source `.org $8000` / `LDA #$01` / `JMP nowhere` / `.byte 1, 2`, whose label
`nowhere` is defined nowhere. -/
def partialSource : Str := ".org $8000\nLDA #$01\nJMP nowhere\n.byte 1, 2\n".data

/-- The source `.org $N` / `.word $V`, for the hex digits `sN` of `N` and `sV` of `V`. -/
def wordSource (sN sV : Str) : Str :=
  ".org $".data ++ (sN ++ ("\n.word $".data ++ (sV ++ "\n".data)))

/-- The item of `.word $V`. -/
def wordItem (V line : Nat) : assembler.Instruction :=
  { Typ := InstDirective, DirectiveName := "word".data,
    DirectiveData := [(V &&& 0xFF) % 256, ((V >>> 8) &&& 0xFF) % 256], Line := line }
/-- The source `LDA #1` followed by one NUL byte. -/
def nulSource : Str := "LDA #1".data ++ [Char.ofNat 0]

/-- A CPU about to run `LDA #$10` / `CMP #$10` / `CMP #$20`, stored at `0x0200`. -/
def compareProgramCPU : CPU :=
  { A := 0, X := 0, Y := 0, SP := 0xFF, PC := 0x0200, P := 0x20,
    memory := fun i =>
      if i = 0x0200 then 0xA9 else if i = 0x0201 then 0x10
      else if i = 0x0202 then 0xC9 else if i = 0x0203 then 0x10
      else if i = 0x0204 then 0xC9 else if i = 0x0205 then 0x20 else 0,
    cycles := 0, running := true, out := [] }
/-- The operand fetch of `Step`: address 0 for Implicit and Accumulator, `GetAddress`
otherwise. -/
def fetchOperand (cpu1 : CPU) (mode : emulator.AddressingMode) : Nat × CPU :=
  match mode with
  | .Implicit => (0, cpu1)
  | .Accumulator => (0, cpu1)
  | mode => cpu1.GetAddress mode

/-- The end of `Step`: the cycles of the instruction are added, and `running` is cleared
when `PC` is 0. -/
def finishStep (cpu3 : CPU) (cycles : Nat) : CPU :=
  let cpu4 := { cpu3 with cycles := (cpu3.cycles + cycles) % 2 ^ 64 }
  if cpu4.PC = 0 then { cpu4 with running := false } else cpu4

/-- The eight branch opcodes, each with the flag it tests and the value of the flag on
which it branches: BEQ, BNE, BCS, BCC, BMI, BPL, BVS, BVC. -/
def branchTable : List (Nat × Nat × Bool) :=
  [(0xF0, ZERO_FLAG, true), (0xD0, ZERO_FLAG, false), (0xB0, CARRY_FLAG, true),
   (0x90, CARRY_FLAG, false), (0x30, NEGATIVE_FLAG, true), (0x10, NEGATIVE_FLAG, false),
   (0x70, OVERFLOW_FLAG, true), (0x50, OVERFLOW_FLAG, false)]

/-- A CPU about to run `LDX #$00` / `loop: INX` / `CPX #$03` / `BNE loop` / `BRK`, the
bytes `A2 00 E8 E0 03 D0 FB 00` at `0x8000`. -/
def loopProgramCPU : CPU :=
  { A := 0, X := 0x55, Y := 0, SP := 0xFF, PC := 0x8000, P := 0x20,
    memory := fun i =>
      if i = 0x8000 then 0xA2 else if i = 0x8001 then 0x00
      else if i = 0x8002 then 0xE8
      else if i = 0x8003 then 0xE0 else if i = 0x8004 then 0x03
      else if i = 0x8005 then 0xD0 else if i = 0x8006 then 0xFB
      else 0,
    cycles := 0, running := true, out := [] }

/-- `n` calls of `Step`. -/
def stepN : Nat → CPU → CPU
  | 0, cpu => cpu
  | n + 1, cpu => stepN n cpu.Step

/-- A CPU about to run `JSR $8010`, the bytes `20 10 80` at `0x8000`, with `RTS` (`60`) at
`0x8010`. -/
def jsrProgramCPU : CPU :=
  { A := 0, X := 0, Y := 0, SP := 0xFF, PC := 0x8000, P := 0x20,
    memory := fun i =>
      if i = 0x8000 then 0x20 else if i = 0x8001 then 0x10 else if i = 0x8002 then 0x80
      else if i = 0x8010 then 0x60
      else 0,
    cycles := 0, running := true, out := [] }

/-- A CPU about to run `PHA` / `PLA`, the bytes `48 68` at `0x0200`, with A = 0x5A and the
stack pointer at 0x00. -/
def stackProgramCPU : CPU :=
  { A := 0x5A, X := 0, Y := 0, SP := 0x00, PC := 0x0200, P := 0x20,
    memory := fun i => if i = 0x0200 then 0x48 else if i = 0x0201 then 0x68 else 0,
    cycles := 0, running := true, out := [] }

/-- A CPU about to run `BRK`, the byte `00` at `0x8000`, with the word `0x9000` at the
IRQ vector `0xFFFE`, P = 0xC3 and SP = 0x01. -/
def brkProgramCPU : CPU :=
  { A := 0x11, X := 0x22, Y := 0x33, SP := 0x01, PC := 0x8000, P := 0xC3,
    memory := fun i => if i = 0xFFFE then 0x00 else if i = 0xFFFF then 0x90 else 0,
    cycles := 0, running := true, out := [] }

/-- The mnemonics of the instructions that transfer control unconditionally. -/
def transferMnemonics : List String := ["JMP", "JSR", "RTS", "RTI", "BRK"]

/-- The methods of `opcodes.go` that assign `cpu.PC`: the jumps, the subroutine and interrupt
instructions and the eight branches. -/
def emulator.Handler.assignsPC : Handler → Bool
  | .BRK | .JSR | .RTI | .JMP | .RTS | .JMPI => true
  | .BPL | .BMI | .BVC | .BVS | .BCC | .BCS | .BNE | .BEQ => true
  | _ => false

/-- A CPU about to run `LDA $1234` / `BNE` (offset 0x10, not taken as Z = 1), the bytes
`AD 34 12 D0 10` at `0xFFFE` wrapping to `0x0000`. -/
def wrapProgramCPU : CPU :=
  { A := 0, X := 0, Y := 0, SP := 0xFF, PC := 0xFFFE, P := 0x22,
    memory := fun i =>
      if i = 0xFFFE then 0xAD else if i = 0xFFFF then 0x34 else if i = 0x0000 then 0x12
      else if i = 0x0001 then 0xD0 else if i = 0x0002 then 0x10
      else 0,
    cycles := 0, running := true, out := [] }

/-- The decoding of one triple of the assembler table by the emulator table: the same
addressing mode, a size of one opcode byte plus the operand bytes of the mode, a method that
assigns PC only for a control transfer or a branch, and for a branch the relative mode and an
entry of `branchTable`. -/
def decodesAs (t : String × assembler.AddressingMode × OpcodeInfo) : Bool :=
  match (instructions t.2.2.Opcode).Execute with
  | none => false
  | some h =>
    decide ((instructions t.2.2.Opcode).AddressMode = modeOfAssembler t.2.1) &&
    decide (t.2.2.Size = 1 + tableOperandBytes (modeOfAssembler t.2.1)) &&
    (transferMnemonics.contains t.1 || branchMnemonics.contains t.1 || !h.assignsPC) &&
    (!branchMnemonics.contains t.1 ||
      (decide (t.2.1 = AddrRelative) && branchTable.any (fun e => e.1 == t.2.2.Opcode)))

/-- The four addressing modes `parseOperand` returns. -/
def parserModes : List assembler.AddressingMode :=
  [AddrImplicit, AddrImmediate, AddrZeroPage, AddrAbsolute]

/-- The shift and rotate mnemonics, whose operand-less form is the Accumulator mode. -/
def shiftMnemonics : List String := ["ASL", "LSR", "ROL", "ROR"]

/-- An instruction item of a branch mnemonic, or of a shift or rotate mnemonic without
operand. -/
def branchOrBareShift (inst : assembler.Instruction) : Prop :=
  inst.Typ = InstMnemonic ∧
    ((∃ m ∈ branchMnemonics, inst.Mnemonic = m.data) ∨
      ((∃ m ∈ shiftMnemonics, inst.Mnemonic = m.data) ∧ inst.AddressMode = AddrImplicit))

/-- A CPU about to run `BRK`, the byte `00` at `0x8000`, with the word `0x9000` at the IRQ
vector `0xFFFE` and `RTI` (`40`) at `0x9000`; P = 0xE3 and SP = 0x01. -/
def brkRtiProgramCPU : CPU :=
  { A := 0x11, X := 0x22, Y := 0x33, SP := 0x01, PC := 0x8000, P := 0xE3,
    memory := fun i =>
      if i = 0xFFFE then 0x00 else if i = 0xFFFF then 0x90 else if i = 0x9000 then 0x40 else 0,
    cycles := 0, running := true, out := [] }

/-- The item has a `uint16` address where pass 2 stores at `output[inst.Address]`: for an
instruction and for `.word`. -/
def addressed (inst : assembler.Instruction) : Prop :=
  (inst.Typ = InstMnemonic ∨ (inst.Typ = InstDirective ∧ inst.DirectiveName = "word".data)) →
    inst.Address < 65536

/-- The item of `JMP $1234` at the address `$FFFF`. -/
def jmpAtTop : assembler.Instruction :=
  { Typ := InstMnemonic, Mnemonic := "JMP".data, AddressMode := AddrAbsolute, Operand := 0x1234,
    Line := 2, Address := 0xFFFF }

/-- The item of `.byte 1, 2, 3` at the address `$FFFE`. -/
def bytesAtTop : assembler.Instruction :=
  { Typ := InstDirective, DirectiveName := "byte".data, DirectiveData := [1, 2, 3], Line := 2,
    Address := 0xFFFE }

/-- The item of `.word $BEEF` at the address `$FFFF`. -/
def wordAtTop : assembler.Instruction :=
  { Typ := InstDirective, DirectiveName := "word".data, DirectiveData := [0xEF, 0xBE],
    Line := 2, Address := 0xFFFF }

instance (inst : assembler.Instruction) (a : Nat) : Decidable (itemCovers inst a) := by
  unfold itemCovers; infer_instance

/-- The source `.org $8000` / `JMP loop` / `loop:` / `.word loop`: a reference to `loop` before
its definition and one after it. -/
def forwardReferenceSource : Str := ".org $8000\nJMP loop\nloop:\n.word loop\n".data

/-! ## Lemmas on the embedding -/

theorem and_255 (x : Nat) : x &&& 0xFF = x % 256 := Nat.and_pow_two_sub_one_eq_mod x 8

theorem shr8_and_255 (x : Nat) : (x >>> 8) &&& 0xFF = x / 256 % 256 := by
  rw [and_255, Nat.shiftRight_eq_div_pow]

@[simp] theorem Image.set_size (img : Image) (i v : Nat) : (img.set i v).size = img.size := by
  unfold Image.set; split <;> rfl

theorem Image.set_data (img : Image) (i v j : Nat) (h : i < img.size) :
    (img.set i v).data j = if j = i then v else img.data j := by
  unfold Image.set; rw [if_pos h]

theorem Image.set_fault (img : Image) (i v : Nat) (h : i < img.size) :
    (img.set i v).fault = img.fault := by
  unfold Image.set; rw [if_pos h]

/-- A successful lookup in `opcodeTable` comes from an entry of the table. -/
theorem lookupOpcode_mem {mn : Str} {mode : assembler.AddressingMode} {info : OpcodeInfo}
    (h : lookupOpcode mn mode = some info) :
    ∃ e ∈ opcodeTable, e.1.data = mn ∧ (mode, info) ∈ e.2 ∧ lookupMnemonic mn = some e.2 ∧
      lookupMode e.2 mode = some info := by
  unfold lookupOpcode at h
  cases hm : lookupMnemonic mn with
  | none => rw [hm] at h; exact absurd h (by simp)
  | some opcodeMap =>
    rw [hm] at h
    simp only at h
    unfold lookupMnemonic at hm
    cases hf : opcodeTable.find? (fun e => e.1.data = mn) with
    | none => rw [hf] at hm; exact absurd hm (by simp)
    | some e =>
      rw [hf] at hm
      simp only [Option.map_some', Option.some.injEq] at hm
      subst hm
      refine ⟨e, List.mem_of_find?_eq_some hf, by simpa using List.find?_some hf, ?_, rfl, h⟩
      unfold lookupMode at h
      cases hg : e.2.find? (fun p => p.1 = mode) with
      | none => rw [hg] at h; exact absurd h (by simp)
      | some p =>
        rw [hg] at h
        simp only [Option.map_some', Option.some.injEq] at h
        have h1 : p.1 = mode := by simpa using List.find?_some hg
        have h2 := List.mem_of_find?_eq_some hg
        rw [← h1, ← h]
        exact h2

/-- Facts read off the opcode table: sizes are 1, 2 or 3; Relative entries have size 2 and
Absolute entries size 3; opcodes are bytes. -/
theorem opcodeTable_facts :
    ∀ e ∈ opcodeTable, ∀ p ∈ e.2,
      (p.2.Size = 1 ∨ p.2.Size = 2 ∨ p.2.Size = 3) ∧ (p.1 = AddrRelative → p.2.Size = 2) ∧
      (p.1 = AddrAbsolute → p.2.Size = 3) ∧ p.2.Opcode < 256 := by decide

theorem lookupOpcode_facts {mn : Str} {mode : assembler.AddressingMode} {info : OpcodeInfo}
    (h : lookupOpcode mn mode = some info) :
    (info.Size = 1 ∨ info.Size = 2 ∨ info.Size = 3) ∧ (mode = AddrRelative → info.Size = 2) ∧
      (mode = AddrAbsolute → info.Size = 3) ∧ info.Opcode < 256 := by
  obtain ⟨e, he, _, hp, _⟩ := lookupOpcode_mem h
  exact opcodeTable_facts e he (mode, info) hp

theorem secondPassStep_mnemonic_size1 (symbols : SymbolTable) (output : Image)
    (inst : assembler.Instruction) (info : OpcodeInfo)
    (ht : inst.Typ = InstMnemonic) (hl : lookupOpcode inst.Mnemonic inst.AddressMode = some info)
    (hs : info.Size = 1) :
    secondPassStep symbols output inst = (none, output.set inst.Address info.Opcode) := by
  unfold secondPassStep
  simp [ht, hl, hs]

theorem secondPassStep_mnemonic_size2 (symbols : SymbolTable) (output : Image)
    (inst : assembler.Instruction) (info : OpcodeInfo) (v : Nat)
    (ht : inst.Typ = InstMnemonic) (hl : lookupOpcode inst.Mnemonic inst.AddressMode = some info)
    (hm : inst.AddressMode ≠ AddrRelative) (hs : info.Size = 2)
    (hv : resolvedOperand symbols inst = some v) :
    secondPassStep symbols output inst =
      (none, (output.set inst.Address info.Opcode).set ((inst.Address + 1) % 65536) (v % 256)) := by
  unfold resolvedOperand at hv
  unfold secondPassStep
  simp [ht, hl, hs, hm, hv, and_255]

theorem secondPassStep_mnemonic_size3 (symbols : SymbolTable) (output : Image)
    (inst : assembler.Instruction) (info : OpcodeInfo) (v : Nat)
    (ht : inst.Typ = InstMnemonic) (hl : lookupOpcode inst.Mnemonic inst.AddressMode = some info)
    (hm : inst.AddressMode ≠ AddrRelative) (hs : info.Size = 3)
    (hv : resolvedOperand symbols inst = some v) :
    secondPassStep symbols output inst =
      (none, ((output.set inst.Address info.Opcode).set ((inst.Address + 1) % 65536) (v % 256)).set
        ((inst.Address + 2) % 65536) (v / 256 % 256)) := by
  unfold resolvedOperand at hv
  unfold secondPassStep
  simp [ht, hl, hs, hm, hv, and_255, Nat.shiftRight_eq_div_pow]

theorem secondPassStep_relative (symbols : SymbolTable) (output : Image)
    (inst : assembler.Instruction) (info : OpcodeInfo) (t : Nat)
    (ht : inst.Typ = InstMnemonic) (hm : inst.AddressMode = AddrRelative)
    (hl : lookupOpcode inst.Mnemonic inst.AddressMode = some info)
    (hv : resolvedOperand symbols inst = some t) :
    secondPassStep symbols output inst =
      if branchOffset t inst.Address < -128 ∨ branchOffset t inst.Address > 127 then
        (some (.branchOutOfRange inst.Line), output.set inst.Address info.Opcode)
      else
        (none, (output.set inst.Address info.Opcode).set ((inst.Address + 1) % 65536)
          (branchOffset t inst.Address % 256).toNat) := by
  have hs : info.Size = 2 := (lookupOpcode_facts hl).2.1 hm
  unfold resolvedOperand at hv
  rw [hm] at hl
  unfold secondPassStep
  simp [ht, hl, hs, hm, hv]

theorem branchOffset_spec (t a : Nat) :
    -32768 ≤ branchOffset t a ∧ branchOffset t a ≤ 32767 ∧
    (branchOffset t a - ((t : Int) - ((a : Int) + 2))) % 65536 = 0 := by
  unfold branchOffset wrapInt16
  omega

theorem int8_toNat (z : Int) (h1 : -128 ≤ z) (h2 : z ≤ 127) : int8 (z % 256).toNat = z := by
  unfold int8
  split <;> omega

theorem lookup_Define_same (st : SymbolTable) (n : Str) (a : Nat) :
    (st.Define n a).lookup n = some ⟨n, a, true⟩ := by
  unfold SymbolTable.Define
  cases hlk : st.lookup n with
  | none =>
    simp only [SymbolTable.lookup] at hlk ⊢
    rw [List.find?_append, hlk]
    simp
  | some s =>
    simp only [SymbolTable.lookup] at hlk ⊢
    rw [List.find?_map]
    have hp : ((fun s : Symbol => decide (s.Name = n)) ∘
        fun s : Symbol => if s.Name = n then { s with Address := a, Defined := true } else s)
        = fun s : Symbol => decide (s.Name = n) := by
      funext s; simp only [Function.comp]; split <;> rfl
    rw [hp, hlk]
    have hs : s.Name = n := by simpa using List.find?_some hlk
    simp [hs]

theorem lookup_Define_other (st : SymbolTable) (n m : Str) (a : Nat) (h : m ≠ n) :
    (st.Define n a).lookup m = st.lookup m := by
  unfold SymbolTable.Define
  cases hlk : st.lookup n with
  | none =>
    simp only [SymbolTable.lookup]
    rw [List.find?_append]
    have : List.find? (fun s : Symbol => decide (s.Name = m))
        [{ Name := n, Address := a, Defined := true }] = none := by
      simp [Ne.symm h]
    rw [this]; simp
  | some s =>
    simp only [SymbolTable.lookup]
    rw [List.find?_map]
    have hp : ((fun s : Symbol => decide (s.Name = m)) ∘
        fun s : Symbol => if s.Name = n then { s with Address := a, Defined := true } else s)
        = fun s : Symbol => decide (s.Name = m) := by
      funext s; simp only [Function.comp]; split <;> rfl
    rw [hp]
    cases hf : List.find? (fun s : Symbol => decide (s.Name = m)) st with
    | none => rfl
    | some s' =>
      have hs : s'.Name = m := by simpa using List.find?_some hf
      have : s'.Name ≠ n := by rw [hs]; exact h
      simp [this]

theorem Resolve_Define_same (st : SymbolTable) (n : Str) (a : Nat) :
    (st.Define n a).Resolve n = some a := by
  unfold SymbolTable.Resolve
  rw [lookup_Define_same]
  rfl

theorem Resolve_Define_other (st : SymbolTable) (n m : Str) (a : Nat) (h : m ≠ n) :
    (st.Define n a).Resolve m = st.Resolve m := by
  unfold SymbolTable.Resolve
  rw [lookup_Define_other st n m a h]

theorem IsResolved_Define (st : SymbolTable) (n : Str) (a : Nat) (h : st.IsResolved = true) :
    (st.Define n a).IsResolved = true := by
  unfold SymbolTable.IsResolved at h ⊢
  unfold SymbolTable.Define
  rw [List.all_eq_true] at h
  cases st.lookup n with
  | none =>
    rw [List.all_eq_true]
    intro s hs
    rw [List.mem_append] at hs
    rcases hs with hs | hs
    · exact h s hs
    · simp at hs; rw [hs]
  | some _ =>
    rw [List.all_eq_true]
    intro s hs
    rw [List.mem_map] at hs
    obtain ⟨s0, hs0, rfl⟩ := hs
    split
    · rfl
    · exact h s0 hs0

theorem secondPassStep_org (symbols : SymbolTable) (output : Image) (N line : Nat) :
    secondPassStep symbols output (orgItem N line) = (none, output) := by
  unfold secondPassStep orgItem
  have h1 : ("org".data = "word".data) = False := by decide
  have h2 : ("org".data = "byte".data) = False := by decide
  simp only [h1, h2, if_false]

theorem secondPassStep_label (symbols : SymbolTable) (output : Image)
    (inst : assembler.Instruction) (h : inst.Typ = InstLabel) :
    secondPassStep symbols output inst = (none, output) := by
  unfold secondPassStep
  simp [h]

theorem secondPass_nil (symbols : SymbolTable) (output : Image) :
    secondPass symbols [] output = (none, output) := rfl

theorem secondPass_cons_ok (symbols : SymbolTable) (output output1 : Image)
    (inst : assembler.Instruction) (rest : List assembler.Instruction)
    (h : secondPassStep symbols output inst = (none, output1)) :
    secondPass symbols (inst :: rest) output = secondPass symbols rest output1 := by
  rw [secondPass, h]

theorem secondPass_cons_err (symbols : SymbolTable) (output output1 : Image) (e : GenError)
    (inst : assembler.Instruction) (rest : List assembler.Instruction)
    (h : secondPassStep symbols output inst = (some e, output1)) :
    secondPass symbols (inst :: rest) output = (some e, output1) := by
  rw [secondPass, h]

theorem firstPass_single (st : SymbolTable) (mn : Str)
    (mode : assembler.AddressingMode) (info : OpcodeInfo) (N operand : Nat) (lbl L : Str)
    (hl : lookupOpcode mn mode = some info) :
    firstPass (NewCodeGenerator st) (singleInstructionProgram N mn mode operand lbl L) =
      (none, ⟨st.Define L ((N + info.Size % 65536) % 65536), (N + info.Size % 65536) % 65536⟩,
        [orgItem N 1, placedItem N mn mode operand lbl, labelItem L 3]) := by
  obtain ⟨e, _, _, _, hm1, hm2⟩ := lookupOpcode_mem hl
  unfold firstPass singleInstructionProgram NewCodeGenerator placedItem
  simp [firstPassLoop, firstPassStep, orgItem, mnemonicItem, labelItem, hm1, hm2]

theorem generate_single (st : SymbolTable) (img : Image) (mn : Str)
    (mode : assembler.AddressingMode) (info : OpcodeInfo) (N operand : Nat) (lbl L : Str)
    (hl : lookupOpcode mn mode = some info) (hst : st.IsResolved = true)
    (hstep : (secondPassStep (st.Define L ((N + info.Size % 65536) % 65536)) img
      (placedItem N mn mode operand lbl)).1 = none) :
    Generate (NewCodeGenerator st) (singleInstructionProgram N mn mode operand lbl L) img =
      (none, ⟨st.Define L ((N + info.Size % 65536) % 65536), (N + info.Size % 65536) % 65536⟩,
        (secondPassStep (st.Define L ((N + info.Size % 65536) % 65536)) img
          (placedItem N mn mode operand lbl)).2) := by
  have hres := IsResolved_Define st L ((N + info.Size % 65536) % 65536) hst
  unfold Generate
  rw [firstPass_single st mn mode info N operand lbl L hl]
  simp only
  rw [secondPass_cons_ok _ _ _ _ _ (secondPassStep_org _ _ _ _)]
  cases hs : secondPassStep (st.Define L ((N + info.Size % 65536) % 65536)) img
      (placedItem N mn mode operand lbl) with
  | mk e1 out1 =>
    rw [hs] at hstep
    simp only at hstep
    subst hstep
    rw [secondPass_cons_ok _ _ _ _ _ hs,
      secondPass_cons_ok _ _ _ _ _ (secondPassStep_label _ _ _ rfl), secondPass_nil]
    simp only [hres, Bool.not_true, Bool.false_eq_true, if_false]

theorem branchOffset_self (a : Nat) : branchOffset ((a + 2) % 65536) a = 0 := by
  unfold branchOffset wrapInt16
  omega

/-- The image pass 2 leaves after one instruction item found in the opcode table: the opcode
at `Address`, operand bytes (that do not depend on the image) at the next `Size - 1`
addresses, every other byte as before. -/
theorem secondPassStep_shape (symbols : SymbolTable) (inst : assembler.Instruction)
    (info : OpcodeInfo) (v : Nat)
    (ht : inst.Typ = InstMnemonic) (hl : lookupOpcode inst.Mnemonic inst.AddressMode = some info)
    (hv : resolvedOperand symbols inst = some v)
    (hr : inst.AddressMode = AddrRelative →
      -128 ≤ branchOffset v inst.Address ∧ branchOffset v inst.Address ≤ 127)
    (ha : inst.Address < 65536) :
    ∃ b1 b2 : Nat, ∀ img : Image, img.size = 65536 →
      (secondPassStep symbols img inst).1 = none ∧
      (secondPassStep symbols img inst).2.fault = img.fault ∧
      ∀ a, (secondPassStep symbols img inst).2.data a =
        if a = inst.Address then info.Opcode
        else if 2 ≤ info.Size ∧ a = (inst.Address + 1) % 65536 then b1
        else if 3 ≤ info.Size ∧ a = (inst.Address + 2) % 65536 then b2
        else img.data a := by
  have hfacts := lookupOpcode_facts hl
  have h1 : (inst.Address + 1) % 65536 < 65536 := Nat.mod_lt _ (by norm_num)
  have h2 : (inst.Address + 2) % 65536 < 65536 := Nat.mod_lt _ (by norm_num)
  have d1 : (inst.Address + 1) % 65536 ≠ inst.Address := by omega
  have d2 : (inst.Address + 2) % 65536 ≠ inst.Address := by omega
  have d3 : (inst.Address + 2) % 65536 ≠ (inst.Address + 1) % 65536 := by omega
  by_cases hm : inst.AddressMode = AddrRelative
  · have hs : info.Size = 2 := hfacts.2.1 hm
    refine ⟨(branchOffset v inst.Address % 256).toNat, 0, fun img himg => ?_⟩
    have hnr : ¬ (branchOffset v inst.Address < -128 ∨ branchOffset v inst.Address > 127) := by
      have := hr hm; omega
    rw [secondPassStep_relative symbols img inst info v ht hm hl hv, if_neg hnr]
    refine ⟨rfl, ?_, fun a => ?_⟩
    · simp [Image.set_fault, himg, ha, h1]
    · simp only [Image.set_data, Image.set_size, himg, ha, h1, hs]
      by_cases e1 : a = inst.Address
      · simp [e1, Ne.symm d1]
      · by_cases e2 : a = (inst.Address + 1) % 65536
        · simp [e2, d1]
        · simp [e1, e2]
  · rcases hfacts.1 with hs | hs | hs
    · refine ⟨0, 0, fun img himg => ?_⟩
      rw [secondPassStep_mnemonic_size1 symbols img inst info ht hl hs]
      refine ⟨rfl, ?_, fun a => ?_⟩
      · simp [Image.set_fault, himg, ha]
      · simp only [Image.set_data, Image.set_size, himg, ha, hs]
        by_cases e1 : a = inst.Address <;> simp [e1]
    · refine ⟨v % 256, 0, fun img himg => ?_⟩
      rw [secondPassStep_mnemonic_size2 symbols img inst info v ht hl hm hs hv]
      refine ⟨rfl, ?_, fun a => ?_⟩
      · simp [Image.set_fault, himg, ha, h1]
      · simp only [Image.set_data, Image.set_size, himg, ha, h1, hs]
        by_cases e1 : a = inst.Address
        · simp [e1, Ne.symm d1]
        · by_cases e2 : a = (inst.Address + 1) % 65536
          · simp [e2, d1]
          · simp [e1, e2]
    · refine ⟨v % 256, v / 256 % 256, fun img himg => ?_⟩
      rw [secondPassStep_mnemonic_size3 symbols img inst info v ht hl hm hs hv]
      refine ⟨rfl, ?_, fun a => ?_⟩
      · simp [Image.set_fault, himg, ha, h1, h2]
      · simp only [Image.set_data, Image.set_size, himg, ha, h1, h2, hs]
        by_cases e1 : a = inst.Address
        · simp [e1, Ne.symm d1, Ne.symm d2]
        · by_cases e2 : a = (inst.Address + 1) % 65536
          · simp [e2, d1, Ne.symm d3]
          · by_cases e3 : a = (inst.Address + 2) % 65536
            · simp [e3, d2, d3]
            · simp [e1, e2, e3]

theorem firstPassLoop_nil (cg : CodeGenerator) : firstPassLoop cg [] = (none, cg, []) := rfl

theorem firstPassLoop_cons_ok (cg cg1 : CodeGenerator) (inst inst1 : assembler.Instruction)
    (rest : List assembler.Instruction) (h : firstPassStep cg inst = (none, cg1, inst1)) :
    firstPassLoop cg (inst :: rest) =
      ((firstPassLoop cg1 rest).1, (firstPassLoop cg1 rest).2.1,
        inst1 :: (firstPassLoop cg1 rest).2.2) := by
  rw [firstPassLoop, h]

theorem firstPassLoop_cons_err (cg cg1 : CodeGenerator) (inst inst1 : assembler.Instruction)
    (e : GenError) (rest : List assembler.Instruction)
    (h : firstPassStep cg inst = (some e, cg1, inst1)) :
    firstPassLoop cg (inst :: rest) = (some e, cg1, inst1 :: rest) := by
  rw [firstPassLoop, h]

/-- A pass 1 that succeeds on a list has succeeded on its first item and on the rest. -/
theorem firstPassLoop_cons_inv (cg cg2 : CodeGenerator) (inst : assembler.Instruction)
    (rest items2 : List assembler.Instruction)
    (h : firstPassLoop cg (inst :: rest) = (none, cg2, items2)) :
    ∃ cg1 inst1 rest1, firstPassStep cg inst = (none, cg1, inst1) ∧
      firstPassLoop cg1 rest = (none, cg2, rest1) ∧ items2 = inst1 :: rest1 := by
  rcases hs : firstPassStep cg inst with ⟨e, cg1, inst1⟩
  cases e with
  | some e =>
    rw [firstPassLoop_cons_err cg cg1 inst inst1 e rest hs] at h
    simp at h
  | none =>
    rw [firstPassLoop_cons_ok cg cg1 inst inst1 rest hs] at h
    simp only [Prod.mk.injEq] at h
    refine ⟨cg1, inst1, (firstPassLoop cg1 rest).2.2, rfl, ?_, h.2.2.symm⟩
    rw [← h.1, ← h.2.1]

/-- A pass 1 that succeeds on `xs ++ ys` is a pass over `xs` followed by a pass over `ys`. -/
theorem firstPassLoop_append_inv (xs ys : List assembler.Instruction) :
    ∀ (cg cg2 : CodeGenerator) (items2 : List assembler.Instruction),
    firstPassLoop cg (xs ++ ys) = (none, cg2, items2) →
    ∃ cg1 xs1 ys1, firstPassLoop cg xs = (none, cg1, xs1) ∧
      firstPassLoop cg1 ys = (none, cg2, ys1) ∧ items2 = xs1 ++ ys1 := by
  induction xs with
  | nil =>
    intro cg cg2 items2 h
    exact ⟨cg, [], items2, rfl, h, rfl⟩
  | cons x xs ih =>
    intro cg cg2 items2 h
    rw [List.cons_append] at h
    obtain ⟨cga, x1, rest1, hstep, hrest, hitems⟩ := firstPassLoop_cons_inv cg cg2 x _ items2 h
    obtain ⟨cg1, xs1, ys1, h1, h2, h3⟩ := ih cga cg2 rest1 hrest
    refine ⟨cg1, x1 :: xs1, ys1, ?_, h2, ?_⟩
    · rw [firstPassLoop_cons_ok cg cga x x1 xs hstep, h1]
    · rw [hitems, h3]; rfl

/-- What one step of pass 1 that succeeds does: the item keeps every field but `Address`;
an instruction or a `.word` gets the location counter as its address, and an instruction is
found in the opcode table; the symbol table changes only at a label, which it defines at the
location counter; the location counter stays a `uint16`. -/
theorem firstPassStep_ok (cg cg1 : CodeGenerator) (inst inst1 : assembler.Instruction)
    (h : firstPassStep cg inst = (none, cg1, inst1)) :
    inst1.Typ = inst.Typ ∧ inst1.Mnemonic = inst.Mnemonic ∧
    inst1.AddressMode = inst.AddressMode ∧ inst1.Operand = inst.Operand ∧
    inst1.OperandLabel = inst.OperandLabel ∧ inst1.Line = inst.Line ∧
    inst1.DirectiveName = inst.DirectiveName ∧ inst1.DirectiveData = inst.DirectiveData ∧
    (inst.Typ = InstMnemonic → inst1.Address = cg.pc ∧
      ∃ info, lookupOpcode inst.Mnemonic inst.AddressMode = some info) ∧
    (inst.Typ = InstDirective → inst.DirectiveName = "word".data → inst1.Address = cg.pc) ∧
    (inst.Typ = InstLabel → cg1.symbols = cg.symbols.Define inst.Mnemonic cg.pc) ∧
    (inst.Typ ≠ InstLabel → cg1.symbols = cg.symbols) ∧
    (cg.pc < 65536 → inst.Operand < 65536 → cg1.pc < 65536) := by
  unfold firstPassStep at h
  have hw : ("word".data = "org".data) = False := by decide
  cases ht : inst.Typ with
  | InstDirective =>
    rw [ht] at h
    simp only at h
    split at h
    · simp only [Prod.mk.injEq, true_and] at h
      obtain ⟨h1, h2⟩ := h
      subst h1 h2
      simp_all
    · split at h
      · simp only [Prod.mk.injEq, true_and] at h
        obtain ⟨h1, h2⟩ := h
        subst h1 h2
        simp
        intro _ _; omega
      · split at h
        · simp only [Prod.mk.injEq, true_and] at h
          obtain ⟨h1, h2⟩ := h
          subst h1 h2
          simp_all
          intro _ _; omega
        · simp only [Prod.mk.injEq, true_and] at h
          obtain ⟨h1, h2⟩ := h
          subst h1 h2
          simp_all
  | InstLabel =>
    rw [ht] at h
    simp only [Prod.mk.injEq, true_and] at h
    obtain ⟨h1, h2⟩ := h
    subst h1 h2
    simp
    exact ⟨ht, fun h _ => h⟩
  | InstMnemonic =>
    rw [ht] at h
    simp only at h
    cases hm1 : lookupMnemonic inst.Mnemonic with
    | none => rw [hm1] at h; simp at h
    | some opcodeMap =>
      rw [hm1] at h
      simp only at h
      cases hm2 : lookupMode opcodeMap inst.AddressMode with
      | none => rw [hm2] at h; simp at h
      | some info =>
        rw [hm2] at h
        simp only [Prod.mk.injEq, true_and] at h
        obtain ⟨h1, h2⟩ := h
        subst h1 h2
        simp
        refine ⟨⟨info, ?_⟩, ?_⟩
        · unfold lookupOpcode; rw [hm1]; exact hm2
        · intro _ _; omega

/-- After a pass 1 that succeeds, a label that no item of the list defines resolves as
before, the location counter is a `uint16`, and every instruction and `.word` item has a
`uint16` address and, for an instruction, an entry in the opcode table. -/
theorem firstPassLoop_ok (xs : List assembler.Instruction) :
    ∀ (cg cg1 : CodeGenerator) (xs1 : List assembler.Instruction),
    firstPassLoop cg xs = (none, cg1, xs1) →
    cg.pc < 65536 → (∀ i ∈ xs, i.Operand < 65536) →
    cg1.pc < 65536 ∧
    (∀ L, (∀ i ∈ xs, ¬ definesLabel L i) → cg1.symbols.Resolve L = cg.symbols.Resolve L) ∧
    (∀ i ∈ xs1, i.Typ = InstMnemonic →
      i.Address < 65536 ∧ ∃ info, lookupOpcode i.Mnemonic i.AddressMode = some info) ∧
    (∀ i ∈ xs1, i.Typ = InstDirective → i.DirectiveName = "word".data → i.Address < 65536) := by
  induction xs with
  | nil =>
    intro cg cg1 xs1 h hpc _
    rw [firstPassLoop_nil] at h
    simp only [Prod.mk.injEq, true_and] at h
    obtain ⟨h1, h2⟩ := h
    subst h1 h2
    simp [hpc]
  | cons x xs ih =>
    intro cg cg1 xs1 h hpc hops
    obtain ⟨cga, x1, rest1, hstep, hrest, hitems⟩ := firstPassLoop_cons_inv cg cg1 x xs xs1 h
    have hx := firstPassStep_ok cg cga x x1 hstep
    obtain ⟨e1, e2, e3, e4, e5, e6, e7, e8, hmn, hwd, hlab, hnl, hpc1⟩ := hx
    have hpca : cga.pc < 65536 := hpc1 hpc (hops x (List.mem_cons_self _ _))
    obtain ⟨r1, r2, r3, r4⟩ := ih cga cg1 rest1 hrest hpca
      (fun i hi => hops i (List.mem_cons_of_mem _ hi))
    subst hitems
    refine ⟨r1, ?_, ?_, ?_⟩
    · intro L hL
      rw [r2 L (fun i hi => hL i (List.mem_cons_of_mem _ hi))]
      by_cases hxl : x.Typ = InstLabel
      · rw [hlab hxl]
        have : L ≠ x.Mnemonic := fun hh => hL x (List.mem_cons_self _ _) ⟨hxl, hh.symm⟩
        exact Resolve_Define_other _ _ _ _ this
      · rw [hnl hxl]
    · intro i hi hti
      rcases List.mem_cons.1 hi with rfl | hi
      · rw [e1] at hti
        obtain ⟨ha, info, hinfo⟩ := hmn hti
        refine ⟨by rw [ha]; exact hpc, info, ?_⟩
        rw [e2, e3]; exact hinfo
      · exact r3 i hi hti
    · intro i hi hti hdn
      rcases List.mem_cons.1 hi with rfl | hi
      · rw [e1] at hti
        rw [e7] at hdn
        rw [hwd hti hdn]; exact hpc
      · exact r4 i hi hti hdn

/-- After a pass 1 that succeeds, a label that no item of the list defines resolves as
before, and every instruction item is found in the opcode table. -/
theorem firstPassLoop_symbols (xs : List assembler.Instruction) :
    ∀ (cg cg1 : CodeGenerator) (xs1 : List assembler.Instruction),
    firstPassLoop cg xs = (none, cg1, xs1) →
    (∀ L, (∀ i ∈ xs, ¬ definesLabel L i) → cg1.symbols.Resolve L = cg.symbols.Resolve L) ∧
    (∀ i ∈ xs1, i.Typ = InstMnemonic →
      ∃ info, lookupOpcode i.Mnemonic i.AddressMode = some info) := by
  induction xs with
  | nil =>
    intro cg cg1 xs1 h
    rw [firstPassLoop_nil] at h
    simp only [Prod.mk.injEq, true_and] at h
    obtain ⟨h1, h2⟩ := h
    subst h1 h2
    simp
  | cons x xs ih =>
    intro cg cg1 xs1 h
    obtain ⟨cga, x1, rest1, hstep, hrest, hitems⟩ := firstPassLoop_cons_inv cg cg1 x xs xs1 h
    have hx := firstPassStep_ok cg cga x x1 hstep
    obtain ⟨e1, e2, e3, e4, e5, e6, e7, e8, hmn, hwd, hlab, hnl, hpc1⟩ := hx
    obtain ⟨r2, r3⟩ := ih cga cg1 rest1 hrest
    subst hitems
    refine ⟨?_, ?_⟩
    · intro L hL
      rw [r2 L (fun i hi => hL i (List.mem_cons_of_mem _ hi))]
      by_cases hxl : x.Typ = InstLabel
      · rw [hlab hxl]
        have : L ≠ x.Mnemonic := fun hh => hL x (List.mem_cons_self _ _) ⟨hxl, hh.symm⟩
        exact Resolve_Define_other _ _ _ _ this
      · rw [hnl hxl]
    · intro i hi hti
      rcases List.mem_cons.1 hi with rfl | hi
      · rw [e1] at hti
        obtain ⟨_, info, hinfo⟩ := hmn hti
        refine ⟨info, ?_⟩
        rw [e2, e3]; exact hinfo
      · exact r3 i hi hti

theorem secondPassStep_word_label (symbols : SymbolTable) (output : Image)
    (inst : assembler.Instruction) (a : Nat)
    (ht : inst.Typ = InstDirective) (hn : inst.DirectiveName = "word".data)
    (hl : inst.OperandLabel ≠ []) (hr : symbols.Resolve inst.OperandLabel = some a) :
    secondPassStep symbols output inst =
      (none, (output.set inst.Address (a % 256)).set ((inst.Address + 1) % 65536)
        (a / 256 % 256)) := by
  unfold secondPassStep
  simp [ht, hn, hl, hr, and_255, Nat.shiftRight_eq_div_pow]

theorem parseOperand_modes (ts : List Token) (mode : assembler.AddressingMode) (operand : Nat)
    (label : Str) (ts1 : List Token) (h : parseOperand ts = .ok (mode, operand, label, ts1)) :
    (mode = AddrImplicit ∨ mode = AddrImmediate ∨ mode = AddrZeroPage ∨ mode = AddrAbsolute) ∧
    (label ≠ [] → mode = AddrAbsolute) := by
  have hz : ∀ v, zeroPageOrAbsolute v = AddrZeroPage ∨ zeroPageOrAbsolute v = AddrAbsolute := by
    intro v; unfold zeroPageOrAbsolute; split <;> simp
  unfold parseOperand at h
  simp only at h
  split at h
  · simp only [Except.ok.injEq, Prod.mk.injEq] at h
    obtain ⟨rfl, _, rfl, _⟩ := h
    simp
  · split at h
    · split at h
      · split at h
        · simp at h
        · simp only [Except.ok.injEq, Prod.mk.injEq] at h
          obtain ⟨rfl, _, rfl, _⟩ := h
          simp
      · split at h
        · split at h
          · simp at h
          · simp only [Except.ok.injEq, Prod.mk.injEq] at h
            obtain ⟨rfl, _, rfl, _⟩ := h
            simp
        · split at h
          · simp at h
          · simp only [Except.ok.injEq, Prod.mk.injEq] at h
            obtain ⟨rfl, _, rfl, _⟩ := h
            simp
    · split at h
      · split at h
        · simp at h
        · simp only [Except.ok.injEq, Prod.mk.injEq] at h
          obtain ⟨rfl, _, rfl, _⟩ := h
          rcases hz ‹_› with hh | hh <;> simp [hh]
      · split at h
        · split at h
          · simp at h
          · simp only [Except.ok.injEq, Prod.mk.injEq] at h
            obtain ⟨rfl, _, rfl, _⟩ := h
            rcases hz ‹_› with hh | hh <;> simp [hh]
        · split at h
          · simp only [Except.ok.injEq, Prod.mk.injEq] at h
            obtain ⟨rfl, _, rfl, _⟩ := h
            simp
          · split at h
            · split at h
              · simp at h
              · simp only [Except.ok.injEq, Prod.mk.injEq] at h
                obtain ⟨rfl, _, rfl, _⟩ := h
                rcases hz ‹_› with hh | hh <;> simp [hh]
            · simp only [Except.ok.injEq, Prod.mk.injEq] at h
              obtain ⟨rfl, _, rfl, _⟩ := h
              simp

theorem parseDirective_typ (ts : List Token) (inst : assembler.Instruction) (ts1 : List Token)
    (h : parseDirective ts = some (.ok (inst, ts1))) : inst.Typ = InstDirective := by
  unfold parseDirective at h
  simp only at h
  split at h
  · split at h
    · simp at h
    · simp only [Option.some.injEq, Except.ok.injEq, Prod.mk.injEq] at h
      rw [← h.1]
  · split at h
    · split at h
      · simp only [Option.some.injEq, Except.ok.injEq, Prod.mk.injEq] at h
        rw [← h.1]
      · split at h
        · simp at h
        · simp only [Option.some.injEq, Except.ok.injEq, Prod.mk.injEq] at h
          rw [← h.1]
    · split at h
      · split at h
        · simp at h
        · simp at h
        · simp only [Option.some.injEq, Except.ok.injEq, Prod.mk.injEq] at h
          rw [← h.1]
      · simp at h

theorem parseInstruction_ok (ts : List Token) (inst : assembler.Instruction) (ts1 : List Token)
    (h : parseInstruction ts = some (.ok (inst, ts1))) : parserItemOK inst := by
  unfold parseInstruction at h
  simp only at h
  split at h
  · simp only [parseLabel, Option.some.injEq, Except.ok.injEq, Prod.mk.injEq] at h
    intro ht
    rw [← h.1] at ht
    simp at ht
  · split at h
    · simp only [Option.some.injEq] at h
      unfold parseMnemonic at h
      simp only at h
      split at h
      · simp at h
      · rename_i addressMode operand operandLabel ts2 hop
        simp only [Except.ok.injEq, Prod.mk.injEq] at h
        have hm := parseOperand_modes _ _ _ _ _ hop
        intro _
        rw [← h.1]
        exact hm
    · split at h
      · have := parseDirective_typ ts inst ts1 h
        intro ht
        rw [this] at ht
        simp at ht
      · simp at h

theorem parseLoop_ok : ∀ (fuel : Nat) (ts : List Token) (acc items : List assembler.Instruction),
    (∀ i ∈ acc, parserItemOK i) → parseLoop fuel ts acc = some (.ok items) →
    ∀ i ∈ items, parserItemOK i := by
  intro fuel
  induction fuel with
  | zero =>
    intro ts acc items _ h
    simp [parseLoop] at h
  | succ fuel ih =>
    intro ts acc items hacc h
    unfold parseLoop at h
    cases ts with
    | nil =>
      simp only [Option.some.injEq, Except.ok.injEq] at h
      rw [← h]; exact hacc
    | cons token rest =>
      simp only at h
      split at h
      · simp only [Option.some.injEq, Except.ok.injEq] at h
        rw [← h]; exact hacc
      · split at h
        · exact ih _ _ _ hacc h
        · split at h
          · simp at h
          · simp at h
          · rename_i instruction ts1 hpi
            refine ih _ _ _ ?_ h
            intro i hi
            rcases List.mem_append.1 hi with hi | hi
            · exact hacc i hi
            · simp only [List.mem_singleton] at hi
              rw [hi]
              exact parseInstruction_ok _ _ _ hpi

/-- Every instruction item of a parsed source has mode Implicit, Immediate, ZeroPage or
Absolute, and Absolute when it has an operand label. -/
theorem sourceItems_ok (source : Str) (items : List assembler.Instruction)
    (h : sourceItems source = some items) : ∀ i ∈ items, parserItemOK i := by
  unfold sourceItems at h
  split at h
  · rename_i tokens _
    split at h
    · rename_i instructions hp
      simp only [Option.some.injEq] at h
      subst h
      unfold Parse at hp
      exact parseLoop_ok _ _ _ _ (by simp) hp
    · simp at h
  · simp at h

/-- `Assemble` on a source that lexes and parses is `Generate` on its items. -/
theorem Assemble_of_sourceItems (a : Assembler) (source : Str)
    (items : List assembler.Instruction) (h : sourceItems source = some items) :
    Assemble a source =
      some ((Generate (NewCodeGenerator a.symbols) items a.output).1.map AsmError.gen,
        { a with symbols := (Generate (NewCodeGenerator a.symbols) items a.output).2.1.symbols,
                 output := (Generate (NewCodeGenerator a.symbols) items a.output).2.2 }) := by
  unfold sourceItems at h
  unfold Assemble
  split at h
  · rename_i tokens ht
    split at h
    · rename_i instructions hp
      simp only [Option.some.injEq] at h
      subst h
      rw [ht]
      simp only
      rw [hp]
    · simp at h
  · simp at h

/-- A pass 1 that succeeds changes no field of an item but `Address`. -/
theorem firstPassLoop_fields (xs : List assembler.Instruction) :
    ∀ (cg cg1 : CodeGenerator) (xs1 : List assembler.Instruction),
    firstPassLoop cg xs = (none, cg1, xs1) →
    ∀ i1 ∈ xs1, ∃ i ∈ xs, i1.Typ = i.Typ ∧ i1.Mnemonic = i.Mnemonic ∧
      i1.AddressMode = i.AddressMode ∧ i1.OperandLabel = i.OperandLabel ∧ i1.Line = i.Line ∧
      i1.DirectiveName = i.DirectiveName := by
  induction xs with
  | nil =>
    intro cg cg1 xs1 h
    rw [firstPassLoop_nil] at h
    simp only [Prod.mk.injEq, true_and] at h
    rw [← h.2]
    simp
  | cons x xs ih =>
    intro cg cg1 xs1 h i1 hi1
    obtain ⟨cga, x1, rest1, hstep, hrest, hitems⟩ := firstPassLoop_cons_inv cg cg1 x xs xs1 h
    obtain ⟨e1, e2, e3, _, e5, e6, e7, _⟩ := firstPassStep_ok cg cga x x1 hstep
    subst hitems
    rcases List.mem_cons.1 hi1 with rfl | hi1
    · exact ⟨x, List.mem_cons_self _ _, e1, e2, e3, e5, e6, e7⟩
    · obtain ⟨i, hi, hh⟩ := ih cga cg1 rest1 hrest i1 hi1
      exact ⟨i, List.mem_cons_of_mem _ hi, hh⟩

/-- A label that resolves before a pass 1 that succeeds resolves after it, and so does a
label that an item of the list defines. -/
theorem firstPassLoop_defined (xs : List assembler.Instruction) (M : Str) :
    ∀ (cg cg1 : CodeGenerator) (xs1 : List assembler.Instruction),
    firstPassLoop cg xs = (none, cg1, xs1) →
    ((cg.symbols.Resolve M).isSome ∨ ∃ j ∈ xs, definesLabel M j) →
    (cg1.symbols.Resolve M).isSome := by
  induction xs with
  | nil =>
    intro cg cg1 xs1 h hd
    rw [firstPassLoop_nil] at h
    simp only [Prod.mk.injEq, true_and] at h
    rw [← h.1]
    rcases hd with hd | ⟨j, hj, _⟩
    · exact hd
    · simp at hj
  | cons x xs ih =>
    intro cg cg1 xs1 h hd
    obtain ⟨cga, x1, rest1, hstep, hrest, _⟩ := firstPassLoop_cons_inv cg cg1 x xs xs1 h
    have hx := firstPassStep_ok cg cga x x1 hstep
    have hlab := hx.2.2.2.2.2.2.2.2.2.2.1
    have hnl := hx.2.2.2.2.2.2.2.2.2.2.2.1
    apply ih cga cg1 rest1 hrest
    by_cases hxm : definesLabel M x
    · left
      rw [hlab hxm.1, hxm.2, Resolve_Define_same]
      rfl
    · rcases hd with hd | ⟨j, hj, hjd⟩
      · left
        by_cases hxl : x.Typ = InstLabel
        · rw [hlab hxl]
          have : M ≠ x.Mnemonic := fun hh => hxm ⟨hxl, hh.symm⟩
          rw [Resolve_Define_other _ _ _ _ this]
          exact hd
        · rw [hnl hxl]; exact hd
      · rcases List.mem_cons.1 hj with rfl | hj
        · exact absurd hjd hxm
        · right; exact ⟨j, hj, hjd⟩

/-- Pass 2 reports no error on an item whose instruction (if it is one) is in the opcode
table with a mode other than Relative and whose operand label (if it has one) resolves. -/
theorem secondPassStep_no_error (symbols : SymbolTable) (output : Image)
    (inst : assembler.Instruction)
    (hm : inst.Typ = InstMnemonic →
      (∃ info, lookupOpcode inst.Mnemonic inst.AddressMode = some info) ∧
      inst.AddressMode ≠ AddrRelative)
    (hl : inst.OperandLabel ≠ [] → (symbols.Resolve inst.OperandLabel).isSome) :
    (secondPassStep symbols output inst).1 = none := by
  cases ht : inst.Typ with
  | InstLabel => rw [secondPassStep_label symbols output inst ht]
  | InstDirective =>
    unfold secondPassStep
    rw [ht]
    simp only
    split
    · split
      · rename_i hne
        obtain ⟨a, ha⟩ := Option.isSome_iff_exists.1 (hl hne)
        rw [ha]
      · split <;> rfl
    · split <;> rfl
  | InstMnemonic =>
    obtain ⟨⟨info, hinfo⟩, hnr⟩ := hm ht
    have hv : ∃ v, resolvedOperand symbols inst = some v := by
      unfold resolvedOperand
      by_cases hne : inst.OperandLabel ≠ []
      · rw [if_pos hne]; exact Option.isSome_iff_exists.1 (hl hne)
      · rw [if_neg hne]; exact ⟨_, rfl⟩
    obtain ⟨v, hv⟩ := hv
    rcases (lookupOpcode_facts hinfo).1 with hs | hs | hs
    · rw [secondPassStep_mnemonic_size1 symbols output inst info ht hinfo hs]
    · rw [secondPassStep_mnemonic_size2 symbols output inst info v ht hinfo hnr hs hv]
    · rw [secondPassStep_mnemonic_size3 symbols output inst info v ht hinfo hnr hs hv]

/-- Pass 2 walks through a prefix of items on which no step reports an error. -/
theorem secondPass_walk (symbols : SymbolTable) (xs ys : List assembler.Instruction)
    (h : ∀ i ∈ xs, ∀ output, (secondPassStep symbols output i).1 = none) :
    ∀ output, ∃ output1, secondPass symbols (xs ++ ys) output = secondPass symbols ys output1 := by
  induction xs with
  | nil => intro output; exact ⟨output, rfl⟩
  | cons x xs ih =>
    intro output
    have hx := h x (List.mem_cons_self _ _) output
    rcases hs : secondPassStep symbols output x with ⟨e, out1⟩
    rw [hs] at hx
    simp only at hx
    subst hx
    obtain ⟨out2, h2⟩ := ih (fun i hi => h i (List.mem_cons_of_mem _ hi)) out1
    refine ⟨out2, ?_⟩
    rw [List.cons_append, secondPass_cons_ok symbols output out1 x _ hs, h2]

/-- Pass 2 on an item that references a label that does not resolve: the error
`line N: undefined symbol: L`. -/
theorem secondPassStep_undefined (symbols : SymbolTable) (output : Image)
    (inst : assembler.Instruction) (L : Str) (hL : L ≠ [])
    (href : referencesLabel L inst)
    (hm : inst.Typ = InstMnemonic →
      ∃ info, lookupOpcode inst.Mnemonic inst.AddressMode = some info ∧ 1 < info.Size)
    (hr : symbols.Resolve L = none) :
    (secondPassStep symbols output inst).1 = some (.undefinedSymbol inst.Line L) := by
  obtain ⟨hlab, ht | ⟨ht, hn⟩⟩ := href
  · obtain ⟨info, hinfo, hs⟩ := hm ht
    have hne : inst.OperandLabel ≠ [] := by rw [hlab]; exact hL
    unfold secondPassStep
    rw [ht]
    simp only [hinfo, Option.getD_some, hs, if_true, if_pos hne]
    rw [hlab, hr]
  · have hne : inst.OperandLabel ≠ [] := by rw [hlab]; exact hL
    unfold secondPassStep
    rw [ht]
    simp only [hn, if_true, if_pos hne]
    rw [hlab, hr]

theorem instructions_6C :
    instructions 0x6C = Instruction.mk "JMP" emulator.AddressingMode.Indirect 5 (some Handler.JMPI) := by
  decide

theorem firstPassStep_isResolved (cg : CodeGenerator) (inst : assembler.Instruction)
    (h : cg.symbols.IsResolved = true) :
    (firstPassStep cg inst).2.1.symbols.IsResolved = true := by
  unfold firstPassStep
  cases inst.Typ with
  | InstDirective =>
    simp only
    split
    · exact h
    · split
      · exact h
      · split <;> exact h
  | InstLabel => exact IsResolved_Define _ _ _ h
  | InstMnemonic =>
    simp only
    split
    · exact h
    · split <;> exact h

theorem firstPassLoop_isResolved (xs : List assembler.Instruction) :
    ∀ cg : CodeGenerator, cg.symbols.IsResolved = true →
      (firstPassLoop cg xs).2.1.symbols.IsResolved = true := by
  induction xs with
  | nil => intro cg h; exact h
  | cons x xs ih =>
    intro cg h
    have hx := firstPassStep_isResolved cg x h
    rcases hs : firstPassStep cg x with ⟨e, cg1, x1⟩
    rw [hs] at hx
    cases e with
    | some e => rw [firstPassLoop_cons_err cg cg1 x x1 e xs hs]; exact hx
    | none => rw [firstPassLoop_cons_ok cg cg1 x x1 xs hs]; exact ih cg1 hx

theorem IsResolved_GetUndefined (st : SymbolTable) (h : st.IsResolved = true) :
    st.GetUndefined = [] := by
  unfold SymbolTable.IsResolved at h
  unfold SymbolTable.GetUndefined
  rw [List.all_eq_true] at h
  rw [List.map_eq_nil_iff, List.filter_eq_nil_iff]
  intro s hs
  simp [h s hs]

theorem firstPassStep_not_listing (cg : CodeGenerator) (inst : assembler.Instruction)
    (names : List Str) : (firstPassStep cg inst).1 ≠ some (.undefinedSymbols names) := by
  unfold firstPassStep
  cases inst.Typ with
  | InstDirective =>
    simp only
    split
    · simp
    · split
      · simp
      · split <;> simp
  | InstLabel => simp
  | InstMnemonic =>
    simp only
    split
    · simp
    · split <;> simp

theorem firstPassLoop_not_listing (xs : List assembler.Instruction) (names : List Str) :
    ∀ cg : CodeGenerator, (firstPassLoop cg xs).1 ≠ some (.undefinedSymbols names) := by
  induction xs with
  | nil => intro cg; simp [firstPassLoop]
  | cons x xs ih =>
    intro cg
    have hx := firstPassStep_not_listing cg x names
    rcases hs : firstPassStep cg x with ⟨e, cg1, x1⟩
    rw [hs] at hx
    cases e with
    | some e => rw [firstPassLoop_cons_err cg cg1 x x1 e xs hs]; exact hx
    | none => rw [firstPassLoop_cons_ok cg cg1 x x1 xs hs]; exact ih cg1

theorem secondPassStep_not_listing (symbols : SymbolTable) (output : Image)
    (inst : assembler.Instruction) (names : List Str) :
    (secondPassStep symbols output inst).1 ≠ some (.undefinedSymbols names) := by
  unfold secondPassStep
  cases inst.Typ with
  | InstDirective =>
    simp only
    split
    · split
      · split <;> simp
      · split <;> simp
    · split <;> simp
  | InstLabel => simp
  | InstMnemonic =>
    simp only
    split
    · split
      · simp
      · split
        · split <;> simp
        · split
          · simp
          · split <;> simp
    · simp

theorem secondPass_not_listing (symbols : SymbolTable) (xs : List assembler.Instruction)
    (names : List Str) :
    ∀ output : Image, (secondPass symbols xs output).1 ≠ some (.undefinedSymbols names) := by
  induction xs with
  | nil => intro output; simp [secondPass]
  | cons x xs ih =>
    intro output
    have hx := secondPassStep_not_listing symbols output x names
    rcases hs : secondPassStep symbols output x with ⟨e, out1⟩
    rw [hs] at hx
    cases e with
    | some e => rw [secondPass_cons_err symbols output out1 e x xs hs]; exact hx
    | none => rw [secondPass_cons_ok symbols output out1 x xs hs]; exact ih out1

theorem and_or_flag (p f g : Nat) (h : f &&& g = 0) : (p ||| f) &&& g = p &&& g := by
  apply Nat.eq_of_testBit_eq
  intro i
  have hi := congrArg (fun n => Nat.testBit n i) h
  simp only [Nat.testBit_and, Nat.zero_testBit] at hi
  simp only [Nat.testBit_and, Nat.testBit_or]
  cases hp : p.testBit i <;> cases hf : f.testBit i <;> cases hg : g.testBit i <;> simp_all

theorem and_mask_flag (p m g : Nat) (h : m &&& g = g) : (p &&& m) &&& g = p &&& g := by
  rw [Nat.and_assoc, h]

theorem or_flag_same (p f : Nat) : (p ||| f) &&& f = f := by
  apply Nat.eq_of_testBit_eq
  intro i
  simp only [Nat.testBit_and, Nat.testBit_or]
  cases p.testBit i <;> cases f.testBit i <;> rfl

theorem and_mask_same (p m f : Nat) (h : m &&& f = 0) : (p &&& m) &&& f = 0 := by
  rw [Nat.and_assoc, h, Nat.and_zero]

theorem xor_mod_bit7 (a r : Nat) : (a ^^^ (r % 256)) &&& 0x80 = (a ^^^ r) &&& 0x80 := by
  apply Nat.eq_of_testBit_eq
  intro i
  have h : (256 : Nat) = 2 ^ 8 := by norm_num
  have h2 : (0x80 : Nat) = 2 ^ 7 := by norm_num
  rw [h, h2]
  simp only [Nat.testBit_and, Nat.testBit_xor, Nat.testBit_mod_two_pow, Nat.testBit_two_pow]
  by_cases hi : 7 = i
  · subst hi; simp
  · simp [hi]

theorem statusFlags_facts : ∀ f ∈ statusFlags, f ≠ 0 ∧ f < 256 ∧ (0xFF ^^^ f) &&& f = 0 ∧
    ∀ g ∈ statusFlags, f ≠ g → f &&& g = 0 ∧ (0xFF ^^^ f) &&& g = g := by
  decide

theorem GetFlag_SetFlag_same (cpu : CPU) (f : Nat) (b : Bool) (hf : f ∈ statusFlags) :
    (cpu.SetFlag f b).GetFlag f = b := by
  obtain ⟨h0, _, hm, _⟩ := statusFlags_facts f hf
  cases b
  · simp only [CPU.SetFlag, CPU.GetFlag, Bool.false_eq_true, if_false]
    rw [and_mask_same _ _ _ hm]; rfl
  · simp only [CPU.SetFlag, CPU.GetFlag, if_true]
    rw [or_flag_same]; simpa using h0

theorem GetFlag_SetFlag_other (cpu : CPU) (f g : Nat) (b : Bool) (hf : f ∈ statusFlags)
    (hg : g ∈ statusFlags) (hne : f ≠ g) : (cpu.SetFlag f b).GetFlag g = cpu.GetFlag g := by
  obtain ⟨_, _, _, h⟩ := statusFlags_facts f hf
  obtain ⟨h1, h2⟩ := h g hg hne
  cases b
  · simp only [CPU.SetFlag, CPU.GetFlag, Bool.false_eq_true, if_false]
    rw [and_mask_flag _ _ _ h2]
  · simp only [CPU.SetFlag, CPU.GetFlag, if_true]
    rw [and_or_flag _ _ _ h1]

theorem SetFlag_P_lt (cpu : CPU) (f : Nat) (b : Bool) (hf : f ∈ statusFlags) (hP : cpu.P < 256) :
    (cpu.SetFlag f b).P < 256 := by
  obtain ⟨_, hlt, _, _⟩ := statusFlags_facts f hf
  cases b
  · simp only [CPU.SetFlag, Bool.false_eq_true, if_false]
    exact lt_of_le_of_lt Nat.and_le_left hP
  · simp only [CPU.SetFlag, if_true]
    exact @Nat.or_lt_two_pow _ _ 8 hP hlt

theorem SetFlag_fields (cpu : CPU) (f : Nat) (b : Bool) :
    (cpu.SetFlag f b).A = cpu.A ∧ (cpu.SetFlag f b).X = cpu.X ∧ (cpu.SetFlag f b).Y = cpu.Y ∧
    (cpu.SetFlag f b).SP = cpu.SP ∧ (cpu.SetFlag f b).PC = cpu.PC ∧
    (cpu.SetFlag f b).memory = cpu.memory ∧ (cpu.SetFlag f b).cycles = cpu.cycles ∧
    (cpu.SetFlag f b).running = cpu.running ∧ (cpu.SetFlag f b).out = cpu.out := by
  cases b <;> simp [CPU.SetFlag]

theorem ReadByte_SetFlag (cpu : CPU) (f : Nat) (b : Bool) (addr : Nat) :
    (cpu.SetFlag f b).ReadByte addr = cpu.ReadByte addr := by
  cases b <;> rfl

theorem UpdateZeroAndNegative_fields (cpu : CPU) (v : Nat) :
    (cpu.UpdateZeroAndNegative v).A = cpu.A ∧ (cpu.UpdateZeroAndNegative v).X = cpu.X ∧
    (cpu.UpdateZeroAndNegative v).Y = cpu.Y ∧ (cpu.UpdateZeroAndNegative v).SP = cpu.SP ∧
    (cpu.UpdateZeroAndNegative v).PC = cpu.PC ∧
    (cpu.UpdateZeroAndNegative v).memory = cpu.memory ∧
    (cpu.UpdateZeroAndNegative v).cycles = cpu.cycles ∧
    (cpu.UpdateZeroAndNegative v).running = cpu.running ∧
    (cpu.UpdateZeroAndNegative v).out = cpu.out := by
  unfold CPU.UpdateZeroAndNegative
  have h1 := SetFlag_fields cpu ZERO_FLAG (v == 0)
  have h2 := SetFlag_fields (cpu.SetFlag ZERO_FLAG (v == 0)) NEGATIVE_FLAG ((v &&& 0x80) != 0)
  obtain ⟨a1, a2, a3, a4, a5, a6, a7, a8, a9⟩ := h1
  obtain ⟨b1, b2, b3, b4, b5, b6, b7, b8, b9⟩ := h2
  exact ⟨b1.trans a1, b2.trans a2, b3.trans a3, b4.trans a4, b5.trans a5, b6.trans a6,
    b7.trans a7, b8.trans a8, b9.trans a9⟩

theorem UpdateZeroAndNegative_flags (cpu : CPU) (v : Nat) :
    (cpu.UpdateZeroAndNegative v).GetFlag ZERO_FLAG = (v == 0) ∧
    (cpu.UpdateZeroAndNegative v).GetFlag NEGATIVE_FLAG = ((v &&& 0x80) != 0) ∧
    ∀ g ∈ statusFlags, g ≠ ZERO_FLAG → g ≠ NEGATIVE_FLAG →
      (cpu.UpdateZeroAndNegative v).GetFlag g = cpu.GetFlag g := by
  unfold CPU.UpdateZeroAndNegative
  refine ⟨?_, ?_, ?_⟩
  · rw [GetFlag_SetFlag_other _ _ _ _ (by decide) (by decide) (by decide)]
    exact GetFlag_SetFlag_same _ _ _ (by decide)
  · exact GetFlag_SetFlag_same _ _ _ (by decide)
  · intro g hg hz hn
    rw [GetFlag_SetFlag_other _ _ _ _ (by decide) hg (Ne.symm hn)]
    exact GetFlag_SetFlag_other _ _ _ _ (by decide) hg (Ne.symm hz)

theorem UpdateZeroAndNegative_P_lt (cpu : CPU) (v : Nat) (hP : cpu.P < 256) :
    (cpu.UpdateZeroAndNegative v).P < 256 := by
  unfold CPU.UpdateZeroAndNegative
  exact SetFlag_P_lt _ _ _ (by decide) (SetFlag_P_lt _ _ _ (by decide) hP)

theorem ReadByte_lt (cpu : CPU) (addr : Nat) (hmem : ∀ a, cpu.memory a < 256) :
    cpu.ReadByte addr < 256 := by
  unfold CPU.ReadByte CPU.handleIORead CPU.readKeyboard
  split
  · split
    · decide
    · exact hmem addr
  · exact hmem addr

theorem int8_signedByte (b : Nat) (hb : b < 256) : int8 b = signedByte b := by
  unfold int8 signedByte
  rw [Nat.mod_eq_of_lt hb]

/-- What `ADC` does to the accumulator and the flags, in terms of the sum. -/
theorem ADC_flags (cpu : CPU) (addr : Nat) :
    (cpu.ADC addr).A
      = (cpu.A + cpu.ReadByte addr + (if cpu.GetFlag CARRY_FLAG then 1 else 0)) % 256 ∧
    (cpu.ADC addr).GetFlag CARRY_FLAG
      = decide ((cpu.A + cpu.ReadByte addr + (if cpu.GetFlag CARRY_FLAG then 1 else 0)) % 65536
          > 0xFF) ∧
    (cpu.ADC addr).GetFlag OVERFLOW_FLAG
      = ((((cpu.A ^^^ cpu.ReadByte addr) &&& 0x80) == 0) &&
          (((cpu.A ^^^ (cpu.A + cpu.ReadByte addr +
              (if cpu.GetFlag CARRY_FLAG then 1 else 0))) &&& 0x80) != 0)) ∧
    (cpu.ADC addr).GetFlag ZERO_FLAG
      = ((cpu.A + cpu.ReadByte addr + (if cpu.GetFlag CARRY_FLAG then 1 else 0)) % 256 == 0) ∧
    (cpu.ADC addr).GetFlag NEGATIVE_FLAG
      = ((((cpu.A + cpu.ReadByte addr + (if cpu.GetFlag CARRY_FLAG then 1 else 0)) % 256)
          &&& 0x80) != 0) ∧
    (∀ g ∈ [INTERRUPT_FLAG, DECIMAL_FLAG, BREAK_FLAG, UNUSED_FLAG],
      (cpu.ADC addr).GetFlag g = cpu.GetFlag g) ∧
    (cpu.ADC addr).X = cpu.X ∧ (cpu.ADC addr).Y = cpu.Y ∧ (cpu.ADC addr).SP = cpu.SP ∧
    (cpu.ADC addr).PC = cpu.PC ∧ (cpu.ADC addr).memory = cpu.memory ∧
    (cpu.ADC addr).cycles = cpu.cycles ∧ (cpu.ADC addr).running = cpu.running ∧
    (cpu.ADC addr).out = cpu.out := by
  generalize hr : cpu.A + cpu.ReadByte addr + (if cpu.GetFlag CARRY_FLAG then 1 else 0) = r
  have hadc : cpu.ADC addr =
      CPU.UpdateZeroAndNegative
        { ((cpu.SetFlag CARRY_FLAG (r % 65536 > 0xFF)).SetFlag OVERFLOW_FLAG
            (((cpu.A ^^^ cpu.ReadByte addr) &&& 0x80) == 0 &&
              ((cpu.A ^^^ (r % 65536 % 256)) &&& 0x80) != 0)) with A := r % 65536 % 256 }
        (r % 65536 % 256) := by
    unfold CPU.ADC
    simp only [hr, (SetFlag_fields cpu CARRY_FLAG _).1]
  have hmod : r % 65536 % 256 = r % 256 := by omega
  rw [hmod] at hadc
  rw [hadc]
  obtain ⟨hz, hn, hoth⟩ := UpdateZeroAndNegative_flags
    { ((cpu.SetFlag CARRY_FLAG (r % 65536 > 0xFF)).SetFlag OVERFLOW_FLAG
        (((cpu.A ^^^ cpu.ReadByte addr) &&& 0x80) == 0 &&
          ((cpu.A ^^^ (r % 256)) &&& 0x80) != 0)) with A := r % 256 } (r % 256)
  obtain ⟨fa, fx, fy, fsp, fpc, fm, fc, fr, fo⟩ := UpdateZeroAndNegative_fields
    { ((cpu.SetFlag CARRY_FLAG (r % 65536 > 0xFF)).SetFlag OVERFLOW_FLAG
        (((cpu.A ^^^ cpu.ReadByte addr) &&& 0x80) == 0 &&
          ((cpu.A ^^^ (r % 256)) &&& 0x80) != 0)) with A := r % 256 } (r % 256)
  have hget : ∀ g, CPU.GetFlag
      { ((cpu.SetFlag CARRY_FLAG (r % 65536 > 0xFF)).SetFlag OVERFLOW_FLAG
        (((cpu.A ^^^ cpu.ReadByte addr) &&& 0x80) == 0 &&
          ((cpu.A ^^^ (r % 256)) &&& 0x80) != 0)) with A := r % 256 } g
      = ((cpu.SetFlag CARRY_FLAG (r % 65536 > 0xFF)).SetFlag OVERFLOW_FLAG
        (((cpu.A ^^^ cpu.ReadByte addr) &&& 0x80) == 0 &&
          ((cpu.A ^^^ (r % 256)) &&& 0x80) != 0)).GetFlag g := fun _ => rfl
  obtain ⟨_, sx2, sy2, ssp2, spc2, sm2, sc2, sr2, so2⟩ := SetFlag_fields
    (cpu.SetFlag CARRY_FLAG (r % 65536 > 0xFF)) OVERFLOW_FLAG
    (((cpu.A ^^^ cpu.ReadByte addr) &&& 0x80) == 0 && ((cpu.A ^^^ (r % 256)) &&& 0x80) != 0)
  obtain ⟨_, sx1, sy1, ssp1, spc1, sm1, sc1, sr1, so1⟩ := SetFlag_fields cpu CARRY_FLAG
    (r % 65536 > 0xFF)
  refine ⟨fa, ?_, ?_, hz, hn, ?_, ?_, ?_, ?_, ?_, ?_, ?_, ?_, ?_⟩
  · rw [hoth _ (by decide) (by decide) (by decide), hget,
      GetFlag_SetFlag_other _ _ _ _ (by decide) (by decide) (by decide),
      GetFlag_SetFlag_same _ _ _ (by decide)]
  · rw [hoth _ (by decide) (by decide) (by decide), hget,
      GetFlag_SetFlag_same _ _ _ (by decide), xor_mod_bit7]
  · intro g hg
    have hg8 : g ∈ statusFlags := by
      revert hg; revert g; decide
    have hgz : g ≠ ZERO_FLAG ∧ g ≠ NEGATIVE_FLAG ∧ OVERFLOW_FLAG ≠ g ∧ CARRY_FLAG ≠ g := by
      revert hg; revert g; decide
    rw [hoth g hg8 hgz.1 hgz.2.1, hget,
      GetFlag_SetFlag_other _ _ _ _ (by decide) hg8 hgz.2.2.1,
      GetFlag_SetFlag_other _ _ _ _ (by decide) hg8 hgz.2.2.2]
  · exact fx.trans (sx2.trans sx1)
  · exact fy.trans (sy2.trans sy1)
  · exact fsp.trans (ssp2.trans ssp1)
  · exact fpc.trans (spc2.trans spc1)
  · exact fm.trans (sm2.trans sm1)
  · exact fc.trans (sc2.trans sc1)
  · exact fr.trans (sr2.trans sr1)
  · exact fo.trans (so2.trans so1)

theorem upperChar_digit (c : Char) (h : GoLib.isDigit c = true) :
    GoLib.upperChar c = c ∧ c ≠ 'A' ∧ c ≠ 'B' ∧ c ≠ 'C' ∧ c ≠ 'D' ∧ c ≠ 'E' ∧ c ≠ 'F' := by
  simp only [GoLib.isDigit, Bool.and_eq_true, decide_eq_true_eq] at h
  refine ⟨?_, ?_, ?_, ?_, ?_, ?_, ?_⟩
  · unfold GoLib.upperChar
    rw [if_neg (by omega)]
  all_goals (rintro rfl; revert h; decide)

theorem toUpper_digits (s : Str) (h : s.all GoLib.isDigit = true) :
    ∀ c ∈ GoLib.toUpper s, GoLib.isDigit c = true := by
  intro c hc
  simp only [GoLib.toUpper, List.mem_map] at hc
  obtain ⟨d, hd, rfl⟩ := hc
  have hd1 := List.all_eq_true.mp h d hd
  rw [(upperChar_digit d hd1).1]; exact hd1

theorem contains_singleton (s : Str) (c : Char) (h : GoLib.contains s [c] = true) : c ∈ s := by
  simp only [GoLib.contains, decide_eq_true_eq] at h
  obtain ⟨a, b, hab⟩ := h
  rw [← hab]; simp

theorem hasHexLetter_digits (s : Str) (h : s.all GoLib.isDigit = true) :
    hasHexLetter s = false := by
  have hd := toUpper_digits s h
  have key : ∀ c, GoLib.isDigit c = false → GoLib.contains (GoLib.toUpper s) [c] = false := by
    intro c hc
    cases hcon : GoLib.contains (GoLib.toUpper s) [c]
    · rfl
    · have := hd c (contains_singleton _ _ hcon)
      rw [hc] at this; cases this
  unfold hasHexLetter
  rw [key 'A' (by decide), key 'B' (by decide), key 'C' (by decide), key 'D' (by decide),
    key 'E' (by decide), key 'F' (by decide)]
  rfl

theorem parseNumber_decimal (t : Token) (rest : List Token) (v : Nat)
    (h : decimalLiteral t v) : parseNumber (t :: rest) = .ok (v, rest) := by
  obtain ⟨ht, hd, hv⟩ := h
  simp only [parseNumber, currentToken, ht, ne_eq, not_true_eq_false, if_false,
    hasHexLetter_digits _ hd, Bool.false_eq_true, hv, advance, List.tail_cons]
theorem goCopy_length (dst src : List Nat) : (goCopy dst src).length = dst.length := by
  simp only [goCopy, List.length_append, List.length_take, List.length_drop]
  omega

theorem goCopy_getElem? (dst src : List Nat) (i : Nat) :
    (goCopy dst src)[i]? = if i < src.length then (if i < dst.length then src[i]? else none)
      else dst[i]? := by
  unfold goCopy
  by_cases h1 : i < src.length
  · by_cases h2 : i < dst.length
    · rw [List.getElem?_append_left (by simp; omega)]
      simp [h1, h2, List.getElem?_take]
    · simp only [h1, h2, if_true, if_false]
      rw [List.getElem?_eq_none]
      simp only [List.length_append, List.length_take, List.length_drop]
      omega
  · simp only [h1, if_false]
    rw [List.getElem?_append_right (by simp; omega)]
    simp only [List.length_take, List.getElem?_drop]
    by_cases h3 : src.length ≤ dst.length
    · congr 1; omega
    · rw [List.getElem?_eq_none (by omega), List.getElem?_eq_none (by omega)]

theorem Image.slice_getElem? (img : Image) (lo hi i : Nat) :
    (img.slice lo hi)[i]? = if i < hi - lo then some (img.data (lo + i)) else none := by
  unfold Image.slice
  by_cases h : i < hi - lo
  · simp [h, List.getElem?_range]
  · simp [h]
    omega

/-- In a program `pre ++ [L:] ++ post` on which pass 1 succeeds and in which no item after
`L:` defines `L`, pass 1 succeeds on `pre` and `L` resolves to the location counter
after `pre`. -/
theorem resolve_last_definition (st : SymbolTable) (pre post : List assembler.Instruction)
    (L : Str) (line : Nat) (cg1 : CodeGenerator) (items1 : List assembler.Instruction)
    (hpost : ∀ i ∈ post, ¬ definesLabel L i)
    (hfp : firstPass (NewCodeGenerator st) (pre ++ labelItem L line :: post)
      = (none, cg1, items1)) :
    (firstPass (NewCodeGenerator st) pre).1 = none ∧
    cg1.symbols.Resolve L = some (firstPass (NewCodeGenerator st) pre).2.1.pc := by
  unfold firstPass at hfp ⊢
  obtain ⟨cga, pre1, rest1, hA, hB, hitems⟩ :=
    firstPassLoop_append_inv pre _ _ cg1 items1 hfp
  obtain ⟨cgb, lab1, post1, hstep, hC, hrest⟩ :=
    firstPassLoop_cons_inv cga cg1 _ post rest1 hB
  have hlab := firstPassStep_ok cga cgb _ lab1 hstep
  have hdef : cgb.symbols = cga.symbols.Define L cga.pc := hlab.2.2.2.2.2.2.2.2.2.2.1 rfl
  obtain ⟨qres, _⟩ := firstPassLoop_symbols post cgb cg1 post1 hC
  rw [hA]
  refine ⟨rfl, ?_⟩
  rw [qres L hpost, hdef, Resolve_Define_same]

/-- After a pass 1 that succeeds, pass 2 on a `.word` item or an Absolute instruction whose
operand label resolves to `a` stores the low and the high byte of `a` in the two operand
bytes, with no error. -/
theorem reference_bytes (st : SymbolTable) (items : List assembler.Instruction)
    (cg1 : CodeGenerator) (items1 : List assembler.Instruction)
    (hops : ∀ i ∈ items, i.Operand < 65536)
    (hfp : firstPass (NewCodeGenerator st) items = (none, cg1, items1))
    (ref : assembler.Instruction) (href : ref ∈ items1) (a : Nat)
    (hne : ref.OperandLabel ≠ []) (hr : cg1.symbols.Resolve ref.OperandLabel = some a)
    (output : Image) (hsize : output.size = 65536) :
    (ref.Typ = InstDirective → ref.DirectiveName = "word".data →
      (secondPassStep cg1.symbols output ref).1 = none ∧
      (secondPassStep cg1.symbols output ref).2.data ref.Address = a % 256 ∧
      (secondPassStep cg1.symbols output ref).2.data ((ref.Address + 1) % 65536)
        = a / 256 % 256) ∧
    (ref.Typ = InstMnemonic → ref.AddressMode = AddrAbsolute →
      (secondPassStep cg1.symbols output ref).1 = none ∧
      (secondPassStep cg1.symbols output ref).2.data ((ref.Address + 1) % 65536) = a % 256 ∧
      (secondPassStep cg1.symbols output ref).2.data ((ref.Address + 2) % 65536)
        = a / 256 % 256) := by
  unfold firstPass at hfp
  have hpc0 : ({ NewCodeGenerator st with pc := 0 } : CodeGenerator).pc < 65536 := by
    show (0 : Nat) < 65536
    norm_num
  obtain ⟨_, _, hmn, hwd⟩ := firstPassLoop_ok _ _ cg1 items1 hfp hpc0 hops
  have h1 : (ref.Address + 1) % 65536 < 65536 := Nat.mod_lt _ (by norm_num)
  have h2 : (ref.Address + 2) % 65536 < 65536 := Nat.mod_lt _ (by norm_num)
  constructor
  · intro ht hn
    have ha := hwd ref href ht hn
    have d1 : ref.Address ≠ (ref.Address + 1) % 65536 := by omega
    rw [secondPassStep_word_label cg1.symbols output ref a ht hn hne hr]
    simp [Image.set_data, hsize, ha, h1, d1]
  · intro ht hm
    obtain ⟨ha, info, hinfo⟩ := hmn ref href ht
    have hs : info.Size = 3 := (lookupOpcode_facts hinfo).2.2.1 hm
    have hnr : ref.AddressMode ≠ AddrRelative := by rw [hm]; decide
    have hv : resolvedOperand cg1.symbols ref = some a := by
      unfold resolvedOperand; rw [if_pos hne]; exact hr
    have d1 : ref.Address ≠ (ref.Address + 1) % 65536 := by omega
    have d3 : (ref.Address + 1) % 65536 ≠ (ref.Address + 2) % 65536 := by omega
    rw [secondPassStep_mnemonic_size3 cg1.symbols output ref info a ht hinfo hnr hs hv]
    simp [Image.set_data, hsize, ha, h1, h2, d1, d3]

theorem parseUintLoop_le (s0 : Str) (base : Nat) : ∀ (s : Str) (n v : Nat), n ≤ 0xFFFF →
    GoLib.parseUintLoop s0 base s n = .ok v → v ≤ 0xFFFF := by
  intro s
  induction s with
  | nil =>
    intro n v hn h
    simp only [GoLib.parseUintLoop, Except.ok.injEq] at h
    omega
  | cons c cs ih =>
    intro n v hn h
    unfold GoLib.parseUintLoop at h
    split at h
    · simp at h
    · split at h
      · simp at h
      · split at h
        · simp at h
        · exact ih _ _ (by omega) h

theorem parseUint_lt (s : Str) (base v : Nat) (h : GoLib.parseUint s base = .ok v) :
    v < 65536 := by
  unfold GoLib.parseUint at h
  split at h
  · simp at h
  · have := parseUintLoop_le s base s 0 v (by norm_num) h
    omega

theorem parseNumber_lt (ts ts1 : List Token) (v : Nat) (h : parseNumber ts = .ok (v, ts1)) :
    v < 65536 := by
  unfold parseNumber at h
  simp only at h
  split at h
  · simp at h
  · split at h
    · simp at h
    · rename_i val hval
      simp only [Except.ok.injEq, Prod.mk.injEq] at h
      rw [← h.1]
      split at hval
      · exact parseUint_lt _ _ _ hval
      · exact parseUint_lt _ _ _ hval

theorem parseOperand_lt (ts : List Token) (mode : assembler.AddressingMode) (operand : Nat)
    (label : Str) (ts1 : List Token) (h : parseOperand ts = .ok (mode, operand, label, ts1)) :
    operand < 65536 := by
  unfold parseOperand at h
  simp only at h
  split at h
  · simp only [Except.ok.injEq, Prod.mk.injEq] at h
    rw [← h.2.1]; norm_num
  · split at h
    · split at h
      · split at h
        · simp at h
        · rename_i v hv
          simp only [Except.ok.injEq, Prod.mk.injEq] at h
          rw [← h.2.1]; exact parseUint_lt _ _ _ hv
      · split at h
        · split at h
          · simp at h
          · rename_i v ts2 hv
            simp only [Except.ok.injEq, Prod.mk.injEq] at h
            rw [← h.2.1]; exact parseNumber_lt _ _ _ hv
        · split at h
          · simp at h
          · rename_i v ts2 hv
            simp only [Except.ok.injEq, Prod.mk.injEq] at h
            rw [← h.2.1]; exact parseNumber_lt _ _ _ hv
    · split at h
      · split at h
        · simp at h
        · rename_i v ts2 hv
          simp only [Except.ok.injEq, Prod.mk.injEq] at h
          rw [← h.2.1]; exact parseNumber_lt _ _ _ hv
      · split at h
        · split at h
          · simp at h
          · rename_i v hv
            simp only [Except.ok.injEq, Prod.mk.injEq] at h
            rw [← h.2.1]; exact parseUint_lt _ _ _ hv
        · split at h
          · simp only [Except.ok.injEq, Prod.mk.injEq] at h
            rw [← h.2.1]; norm_num
          · split at h
            · split at h
              · simp at h
              · rename_i v ts2 hv
                simp only [Except.ok.injEq, Prod.mk.injEq] at h
                rw [← h.2.1]; exact parseNumber_lt _ _ _ hv
            · simp only [Except.ok.injEq, Prod.mk.injEq] at h
              rw [← h.2.1]; norm_num

theorem parseAddressValue_lt (ts ts1 : List Token) (v : Nat)
    (h : parseAddressValue ts = .ok (v, ts1)) : v < 65536 := by
  unfold parseAddressValue at h
  simp only at h
  split at h
  · split at h
    · simp at h
    · rename_i w hw
      simp only [Except.ok.injEq, Prod.mk.injEq] at h
      rw [← h.1]; exact parseUint_lt _ _ _ hw
  · exact parseNumber_lt _ _ _ h

theorem parseDirective_lt (ts : List Token) (inst : assembler.Instruction) (ts1 : List Token)
    (h : parseDirective ts = some (.ok (inst, ts1))) : inst.Operand < 65536 := by
  unfold parseDirective at h
  simp only at h
  split at h
  · split at h
    · simp at h
    · rename_i v ts2 hv
      simp only [Option.some.injEq, Except.ok.injEq, Prod.mk.injEq] at h
      rw [← h.1]
      exact parseAddressValue_lt _ _ _ hv
  · split at h
    · split at h
      · simp only [Option.some.injEq, Except.ok.injEq, Prod.mk.injEq] at h
        rw [← h.1]; show (0 : Nat) < 65536; norm_num
      · split at h
        · simp at h
        · simp only [Option.some.injEq, Except.ok.injEq, Prod.mk.injEq] at h
          rw [← h.1]; show (0 : Nat) < 65536; norm_num
    · split at h
      · split at h
        · simp at h
        · simp at h
        · simp only [Option.some.injEq, Except.ok.injEq, Prod.mk.injEq] at h
          rw [← h.1]; show (0 : Nat) < 65536; norm_num
      · simp at h

theorem parseInstruction_lt (ts : List Token) (inst : assembler.Instruction) (ts1 : List Token)
    (h : parseInstruction ts = some (.ok (inst, ts1))) : inst.Operand < 65536 := by
  unfold parseInstruction at h
  simp only at h
  split at h
  · simp only [parseLabel, Option.some.injEq, Except.ok.injEq, Prod.mk.injEq] at h
    rw [← h.1]; show (0 : Nat) < 65536; norm_num
  · split at h
    · simp only [Option.some.injEq] at h
      unfold parseMnemonic at h
      simp only at h
      split at h
      · simp at h
      · rename_i addressMode operand operandLabel ts2 hop
        simp only [Except.ok.injEq, Prod.mk.injEq] at h
        rw [← h.1]
        exact parseOperand_lt _ _ _ _ _ hop
    · split at h
      · exact parseDirective_lt ts inst ts1 h
      · simp at h

/-- What holds of every item `parseInstruction` builds holds of every item of the list
`parseLoop` returns. -/
theorem parseLoop_all (P : assembler.Instruction → Prop)
    (hP : ∀ ts inst ts1, parseInstruction ts = some (.ok (inst, ts1)) → P inst) :
    ∀ (fuel : Nat) (ts : List Token) (acc items : List assembler.Instruction),
    (∀ i ∈ acc, P i) → parseLoop fuel ts acc = some (.ok items) → ∀ i ∈ items, P i := by
  intro fuel
  induction fuel with
  | zero =>
    intro ts acc items _ h
    simp [parseLoop] at h
  | succ fuel ih =>
    intro ts acc items hacc h
    unfold parseLoop at h
    cases ts with
    | nil =>
      simp only [Option.some.injEq, Except.ok.injEq] at h
      rw [← h]; exact hacc
    | cons token rest =>
      simp only at h
      split at h
      · simp only [Option.some.injEq, Except.ok.injEq] at h
        rw [← h]; exact hacc
      · split at h
        · exact ih _ _ _ hacc h
        · split at h
          · simp at h
          · simp at h
          · rename_i instruction ts1 hpi
            refine ih _ _ _ ?_ h
            intro i hi
            rcases List.mem_append.1 hi with hi | hi
            · exact hacc i hi
            · simp only [List.mem_singleton] at hi
              rw [hi]
              exact hP _ _ _ hpi

/-- Every item of a parsed source has a `uint16` operand. -/
theorem sourceItems_operand_lt (source : Str) (items : List assembler.Instruction)
    (h : sourceItems source = some items) : ∀ i ∈ items, i.Operand < 65536 := by
  unfold sourceItems at h
  split at h
  · rename_i tokens _
    split at h
    · rename_i instructions hp
      simp only [Option.some.injEq] at h
      subst h
      unfold Parse at hp
      exact parseLoop_all _ parseInstruction_lt _ _ _ _ (by simp) hp
    · simp at h
  · simp at h
theorem applyWrites_nil (img : Image) : applyWrites [] img = img := rfl

theorem applyWrites_cons (w : Nat × Nat) (ws : List (Nat × Nat)) (img : Image) :
    applyWrites (w :: ws) img = applyWrites ws (img.set w.1 w.2) := rfl

theorem applyWrites_append (ws1 ws2 : List (Nat × Nat)) (img : Image) :
    applyWrites (ws1 ++ ws2) img = applyWrites ws2 (applyWrites ws1 img) := by
  unfold applyWrites
  rw [List.foldl_append]

theorem writeBytes_eq (address : Nat) (data : List Nat) :
    ∀ (i : Nat) (output : Image),
      writeBytes address i data output = applyWrites (byteWrites address i data) output := by
  induction data with
  | nil => intro i output; rfl
  | cons b rest ih =>
    intro i output
    simp only [writeBytes, byteWrites, applyWrites_cons]
    exact ih _ _

theorem byteWrites_mem (address : Nat) (data : List Nat) :
    ∀ (i : Nat) (w : Nat × Nat), w ∈ byteWrites address i data →
      ∃ k, i ≤ k ∧ k < i + data.length ∧ w.1 = (address + k % 65536) % 65536 := by
  induction data with
  | nil => intro i w h; simp [byteWrites] at h
  | cons b rest ih =>
    intro i w h
    simp only [byteWrites, List.mem_cons] at h
    rcases h with rfl | h
    · exact ⟨i, le_refl _, by simp, rfl⟩
    · obtain ⟨k, h1, h2, h3⟩ := ih _ _ h
      refine ⟨k, by omega, ?_, h3⟩
      simp only [List.length_cons]; omega

theorem Image.set_fault_eq (img : Image) (i v : Nat) :
    (img.set i v).fault = (img.fault || decide (img.size ≤ i)) := by
  unfold Image.set
  split
  · rename_i h
    have : ¬ img.size ≤ i := by omega
    simp [this]
  · rename_i h
    have : img.size ≤ i := by omega
    simp [this]

theorem Image.set_data_eq (img : Image) (i v a : Nat) :
    (img.set i v).data a = if a = i ∧ i < img.size then v else img.data a := by
  unfold Image.set
  split
  · rename_i h
    simp only [h, and_true]
  · rename_i h
    simp only [h, and_false, if_false]

theorem applyWrites_size (ws : List (Nat × Nat)) :
    ∀ img : Image, (applyWrites ws img).size = img.size := by
  induction ws with
  | nil => intro img; rfl
  | cons w ws ih =>
    intro img
    rw [applyWrites_cons, ih, Image.set_size]

theorem applyWrites_fault (ws : List (Nat × Nat)) :
    ∀ img : Image, (applyWrites ws img).fault
      = (img.fault || ws.any (fun w => decide (img.size ≤ w.1))) := by
  induction ws with
  | nil => intro img; simp [applyWrites_nil]
  | cons w ws ih =>
    intro img
    rw [applyWrites_cons, ih, Image.set_fault_eq, Image.set_size, List.any_cons, Bool.or_assoc]

theorem applyWrites_data (ws : List (Nat × Nat)) :
    ∀ (img : Image) (a : Nat),
      (applyWrites ws img).data a = (lastWrite img.size a ws).getD (img.data a) := by
  induction ws with
  | nil => intro img a; rfl
  | cons w ws ih =>
    intro img a
    rw [applyWrites_cons, ih, Image.set_size]
    simp only [lastWrite]
    cases hl : lastWrite img.size a ws with
    | some v => rfl
    | none =>
      simp only [Option.getD_none]
      rw [Image.set_data_eq]
      by_cases hc : w.1 = a ∧ w.1 < img.size
      · rw [if_pos hc, if_pos ⟨hc.1.symm, hc.2⟩]; rfl
      · rw [if_neg hc, if_neg (fun h => hc ⟨h.1.symm, h.2⟩)]; rfl

/-- Doing the same list of assignments a second time changes nothing. -/
theorem applyWrites_twice (ws : List (Nat × Nat)) (img : Image) :
    (applyWrites ws (applyWrites ws img)).size = (applyWrites ws img).size ∧
    (applyWrites ws (applyWrites ws img)).fault = (applyWrites ws img).fault ∧
    ∀ a, (applyWrites ws (applyWrites ws img)).data a = (applyWrites ws img).data a := by
  refine ⟨applyWrites_size _ _, ?_, ?_⟩
  · rw [applyWrites_fault ws (applyWrites ws img), applyWrites_size, applyWrites_fault ws img]
    cases img.fault <;> cases ws.any (fun w => decide (img.size ≤ w.1)) <;> rfl
  · intro a
    rw [applyWrites_data ws (applyWrites ws img), applyWrites_size, applyWrites_data ws img]
    cases lastWrite img.size a ws <;> rfl

/-- A list of assignments leaves the bytes it does not assign as they were. -/
theorem applyWrites_frame (ws : List (Nat × Nat)) (img : Image) (a : Nat)
    (h : ∀ w ∈ ws, w.1 ≠ a) : (applyWrites ws img).data a = img.data a := by
  rw [applyWrites_data]
  have : lastWrite img.size a ws = none := by
    induction ws with
    | nil => rfl
    | cons w ws ih =>
      simp only [lastWrite]
      rw [ih (fun x hx => h x (List.mem_cons_of_mem _ hx))]
      simp only
      rw [if_neg]
      intro hc
      exact h w (List.mem_cons_self _ _) hc.1
  rw [this]; rfl
/-- One step of pass 2 is an error or not, and a list of assignments, both fixed by the item
and by what its operand label resolves to; each assignment is inside the image and at an
address the item covers. -/
theorem secondPassStep_writes (inst : assembler.Instruction) (r : Option Nat) :
    ∃ (e : Option GenError) (ws : List (Nat × Nat)),
      (∀ (symbols : SymbolTable) (output : Image), symbols.Resolve inst.OperandLabel = r →
        secondPassStep symbols output inst = (e, applyWrites ws output)) ∧
      ((inst.Typ = InstMnemonic → inst.Address < 65536 ∧
          ∃ info, lookupOpcode inst.Mnemonic inst.AddressMode = some info) →
        (inst.Typ = InstDirective → inst.DirectiveName = "word".data → inst.Address < 65536) →
        ∀ w ∈ ws, w.1 < 65536 ∧ itemCovers inst w.1) := by
  have hmod : ∀ k, (inst.Address + k) % 65536 < 65536 := fun k => Nat.mod_lt _ (by norm_num)
  cases ht : inst.Typ with
  | InstLabel =>
    refine ⟨none, [], fun symbols output _ => ?_, fun _ _ w hw => ?_⟩
    · simp only [secondPassStep, ht, applyWrites_nil]
    · simp at hw
  | InstDirective =>
    by_cases hword : inst.DirectiveName = "word".data
    · have hlen : itemLength inst = 2 := by simp only [itemLength, ht, hword, if_true]
      have hcov0 : inst.Address < 65536 → itemCovers inst inst.Address := fun ha =>
        ⟨0, by rw [hlen]; norm_num, by rw [Nat.add_zero, Nat.mod_eq_of_lt ha]⟩
      have hcov1 : itemCovers inst ((inst.Address + 1) % 65536) :=
        ⟨1, by rw [hlen]; norm_num, rfl⟩
      by_cases hlab : inst.OperandLabel ≠ []
      · cases r with
        | none =>
          refine ⟨some (.undefinedSymbol inst.Line inst.OperandLabel), [],
            fun symbols output hr => ?_, fun _ _ w hw => ?_⟩
          · simp only [secondPassStep, ht, hword, if_true, hlab, ne_eq, not_false_eq_true, hr,
              applyWrites_nil]
          · simp at hw
        | some operand =>
          refine ⟨none, [(inst.Address, (operand &&& 0xFF) % 256),
            ((inst.Address + 1) % 65536, ((operand >>> 8) &&& 0xFF) % 256)],
            fun symbols output hr => ?_, fun _ hw w hmem => ?_⟩
          · simp only [secondPassStep, ht, hword, if_true, hlab, ne_eq, not_false_eq_true, hr,
              applyWrites_cons, applyWrites_nil]
          · have ha := hw rfl hword
            simp only [List.mem_cons, List.mem_singleton, List.not_mem_nil, or_false] at hmem
            rcases hmem with rfl | rfl
            · exact ⟨ha, hcov0 ha⟩
            · exact ⟨hmod 1, hcov1⟩
      · by_cases hdata : inst.DirectiveData.length ≥ 2
        · refine ⟨none, [(inst.Address, inst.DirectiveData.getD 0 0),
            ((inst.Address + 1) % 65536, inst.DirectiveData.getD 1 0)],
            fun symbols output _ => ?_, fun _ hw w hmem => ?_⟩
          · simp only [secondPassStep, ht, hword, if_true, hlab, if_false, hdata,
              applyWrites_cons, applyWrites_nil]
          · have ha := hw rfl hword
            simp only [List.mem_cons, List.mem_singleton, List.not_mem_nil, or_false] at hmem
            rcases hmem with rfl | rfl
            · exact ⟨ha, hcov0 ha⟩
            · exact ⟨hmod 1, hcov1⟩
        · refine ⟨none, [], fun symbols output _ => ?_, fun _ _ w hw => ?_⟩
          · simp only [secondPassStep, ht, hword, if_true, hlab, if_false, hdata,
              applyWrites_nil]
          · simp at hw
    · by_cases hbyte : inst.DirectiveName = "byte".data
      · refine ⟨none, byteWrites inst.Address 0 inst.DirectiveData,
          fun symbols output _ => ?_, fun _ _ w hmem => ?_⟩
        · simp only [secondPassStep, ht]
          rw [if_neg hword, if_pos hbyte, writeBytes_eq]
        · obtain ⟨k, _, hk, hw⟩ := byteWrites_mem _ _ _ _ hmem
          have hlen : itemLength inst = inst.DirectiveData.length := by
            simp only [itemLength, ht]
            rw [if_neg hword, if_pos hbyte]
          refine ⟨by rw [hw]; exact Nat.mod_lt _ (by norm_num), k, by rw [hlen]; omega, ?_⟩
          rw [hw]; omega
      · refine ⟨none, [], fun symbols output _ => ?_, fun _ _ w hw => ?_⟩
        · simp only [secondPassStep, ht, hword, if_false, hbyte, applyWrites_nil]
        · simp at hw
  | InstMnemonic =>
    have hlen : itemLength inst
        = ((lookupOpcode inst.Mnemonic inst.AddressMode).getD ⟨0, 0⟩).Size := by
      simp only [itemLength, ht]
    generalize hinfo : (lookupOpcode inst.Mnemonic inst.AddressMode).getD ⟨0, 0⟩ = info at hlen
    have hsz : (inst.Typ = InstMnemonic → inst.Address < 65536 ∧
          ∃ info, lookupOpcode inst.Mnemonic inst.AddressMode = some info) →
        inst.Address < 65536 ∧ 1 ≤ info.Size := by
      intro h
      rw [ht] at h
      obtain ⟨ha, i2, hi2⟩ := h rfl
      refine ⟨ha, ?_⟩
      rw [hi2] at hinfo
      simp only [Option.getD_some] at hinfo
      subst hinfo
      have := (lookupOpcode_facts hi2).1
      omega
    have hcov0 : inst.Address < 65536 → 1 ≤ info.Size → itemCovers inst inst.Address :=
      fun ha hs => ⟨0, by rw [hlen]; omega, by rw [Nat.add_zero, Nat.mod_eq_of_lt ha]⟩
    have hcov1 : 1 < info.Size → itemCovers inst ((inst.Address + 1) % 65536) :=
      fun hs => ⟨1, by rw [hlen]; omega, rfl⟩
    have hcov2 : info.Size = 3 → itemCovers inst ((inst.Address + 2) % 65536) :=
      fun hs => ⟨2, by rw [hlen]; omega, rfl⟩
    have hone : ∀ e : Option GenError,
        (∀ (symbols : SymbolTable) (output : Image), symbols.Resolve inst.OperandLabel = r →
          secondPassStep symbols output inst
            = (e, applyWrites [(inst.Address, info.Opcode)] output)) →
        ∃ (e : Option GenError) (ws : List (Nat × Nat)),
          (∀ (symbols : SymbolTable) (output : Image), symbols.Resolve inst.OperandLabel = r →
            secondPassStep symbols output inst = (e, applyWrites ws output)) ∧
          ((InstMnemonic = InstMnemonic → inst.Address < 65536 ∧
              ∃ info, lookupOpcode inst.Mnemonic inst.AddressMode = some info) →
            (InstMnemonic = InstDirective → inst.DirectiveName = "word".data →
              inst.Address < 65536) →
            ∀ w ∈ ws, w.1 < 65536 ∧ itemCovers inst w.1) := by
      intro e he
      refine ⟨e, _, he, fun h1 _ w hmem => ?_⟩
      obtain ⟨ha, hs⟩ := hsz (by rw [ht]; exact h1)
      simp only [List.mem_singleton] at hmem
      subst hmem
      exact ⟨ha, hcov0 ha hs⟩
    by_cases hgt : info.Size > 1
    · generalize hopv : (if inst.OperandLabel ≠ [] then r else some inst.Operand) = opv
      have hres : ∀ symbols : SymbolTable, symbols.Resolve inst.OperandLabel = r →
          (if inst.OperandLabel ≠ [] then symbols.Resolve inst.OperandLabel
            else some inst.Operand) = opv := by
        intro symbols hr
        rw [hr]; exact hopv
      cases opv with
      | none =>
        apply hone (some (.undefinedSymbol inst.Line inst.OperandLabel))
        intro symbols output hr
        simp only [secondPassStep, ht, hinfo, hgt, if_true, hres symbols hr, applyWrites_cons,
          applyWrites_nil]
      | some operand =>
        by_cases hrel : inst.AddressMode = AddrRelative
        · by_cases hrange : branchOffset operand inst.Address < -128 ∨
              branchOffset operand inst.Address > 127
          · apply hone (some (.branchOutOfRange inst.Line))
            intro symbols output hr
            simp only [secondPassStep, ht, hinfo, hgt, if_true, hres symbols hr,
              applyWrites_cons, applyWrites_nil]
            rw [if_pos hrel, if_pos hrange]
          · refine ⟨none, [(inst.Address, info.Opcode),
              ((inst.Address + 1) % 65536, (branchOffset operand inst.Address % 256).toNat)],
              fun symbols output hr => ?_, fun h1 _ w hmem => ?_⟩
            · simp only [secondPassStep, ht, hinfo, hgt, if_true, hres symbols hr,
                applyWrites_cons, applyWrites_nil]
              rw [if_pos hrel, if_neg hrange]
            · obtain ⟨ha, hs⟩ := hsz (by rw [ht]; exact h1)
              simp only [List.mem_cons, List.mem_singleton, List.not_mem_nil, or_false] at hmem
              rcases hmem with rfl | rfl
              · exact ⟨ha, hcov0 ha hs⟩
              · exact ⟨hmod 1, hcov1 hgt⟩
        · by_cases h2 : info.Size = 2
          · refine ⟨none, [(inst.Address, info.Opcode),
              ((inst.Address + 1) % 65536, (operand &&& 0xFF) % 256)],
              fun symbols output hr => ?_, fun h1 _ w hmem => ?_⟩
            · simp only [secondPassStep, ht, hinfo, hgt, if_true, hres symbols hr, hrel, h2,
                if_false, applyWrites_cons, applyWrites_nil, (by decide : (2 : Nat) > 1)]
            · obtain ⟨ha, hs⟩ := hsz (by rw [ht]; exact h1)
              simp only [List.mem_cons, List.mem_singleton, List.not_mem_nil, or_false] at hmem
              rcases hmem with rfl | rfl
              · exact ⟨ha, hcov0 ha hs⟩
              · exact ⟨hmod 1, hcov1 hgt⟩
          · by_cases h3 : info.Size = 3
            · refine ⟨none, [(inst.Address, info.Opcode),
                ((inst.Address + 1) % 65536, (operand &&& 0xFF) % 256),
                ((inst.Address + 2) % 65536, ((operand >>> 8) &&& 0xFF) % 256)],
                fun symbols output hr => ?_, fun h1 _ w hmem => ?_⟩
              · simp only [secondPassStep, ht, hinfo, hgt, if_true, hres symbols hr, hrel,
                  h3, if_false, applyWrites_cons, applyWrites_nil, (by decide : (3 : Nat) > 1),
                  (by decide : ¬ (3 : Nat) = 2)]
              · obtain ⟨ha, hs⟩ := hsz (by rw [ht]; exact h1)
                simp only [List.mem_cons, List.mem_singleton, List.not_mem_nil, or_false] at hmem
                rcases hmem with rfl | rfl | rfl
                · exact ⟨ha, hcov0 ha hs⟩
                · exact ⟨hmod 1, hcov1 hgt⟩
                · exact ⟨hmod 2, hcov2 h3⟩
            · apply hone none
              intro symbols output hr
              simp only [secondPassStep, ht, hinfo, hgt, if_true, hres symbols hr, hrel, h2, h3,
                if_false, applyWrites_cons, applyWrites_nil]
    · apply hone none
      intro symbols output _
      simp only [secondPassStep, ht, hinfo, hgt, if_false, applyWrites_cons, applyWrites_nil]
/-- Pass 2 is an error or not, and a list of assignments, both fixed by the items and by
what the labels resolve to; each assignment is inside the image and at an address that
one of the items pass 2 reaches covers. -/
theorem secondPass_writes (res : Str → Option Nat) (items : List assembler.Instruction) :
    ∃ (e : Option GenError) (ws : List (Nat × Nat)),
      (∀ (symbols : SymbolTable) (output : Image), (∀ L, symbols.Resolve L = res L) →
        secondPass symbols items output = (e, applyWrites ws output)) ∧
      ((∀ i ∈ items, i.Typ = InstMnemonic → i.Address < 65536 ∧
          ∃ info, lookupOpcode i.Mnemonic i.AddressMode = some info) →
        (∀ i ∈ items, i.Typ = InstDirective → i.DirectiveName = "word".data →
          i.Address < 65536) →
        ∀ symbols : SymbolTable, (∀ L, symbols.Resolve L = res L) →
          ∀ w ∈ ws, w.1 < 65536 ∧ ∃ i ∈ emittedItems symbols items, itemCovers i w.1) := by
  induction items with
  | nil =>
    refine ⟨none, [], fun symbols output _ => rfl, fun _ _ _ _ w hw => ?_⟩
    simp at hw
  | cons x xs ih =>
    obtain ⟨e1, ws1, hstep, hcov1⟩ := secondPassStep_writes x (res x.OperandLabel)
    obtain ⟨e2, ws2, hrest, hcov2⟩ := ih
    cases e1 with
    | some err =>
      refine ⟨some err, ws1, fun symbols output hres => ?_, fun hm hw symbols hres w hmem => ?_⟩
      · exact secondPass_cons_err symbols output _ err x xs (hstep symbols output (hres _))
      · obtain ⟨hlt, hc⟩ := hcov1 (hm x (List.mem_cons_self _ _))
          (hw x (List.mem_cons_self _ _)) w hmem
        refine ⟨hlt, x, ?_, hc⟩
        have : (secondPassStep symbols zeroImage x).1 = some err := by
          rw [hstep symbols zeroImage (hres _)]
        simp only [emittedItems, this, List.mem_singleton]
    | none =>
      refine ⟨e2, ws1 ++ ws2, fun symbols output hres => ?_,
        fun hm hw symbols hres w hmem => ?_⟩
      · rw [secondPass_cons_ok symbols output _ x xs (hstep symbols output (hres _)),
          hrest symbols _ hres, applyWrites_append]
      · have hem : emittedItems symbols (x :: xs) = x :: emittedItems symbols xs := by
          have : (secondPassStep symbols zeroImage x).1 = none := by
            rw [hstep symbols zeroImage (hres _)]
          simp only [emittedItems, this]
        rw [hem]
        rcases List.mem_append.1 hmem with h1 | h2
        · obtain ⟨hlt, hc⟩ := hcov1 (hm x (List.mem_cons_self _ _))
            (hw x (List.mem_cons_self _ _)) w h1
          exact ⟨hlt, x, List.mem_cons_self _ _, hc⟩
        · obtain ⟨hlt, i, hi, hc⟩ := hcov2 (fun i hi => hm i (List.mem_cons_of_mem _ hi))
            (fun i hi => hw i (List.mem_cons_of_mem _ hi)) symbols hres w h2
          exact ⟨hlt, i, List.mem_cons_of_mem _ hi, hc⟩

/-- The items pass 2 reaches are items of the program. -/
theorem emittedItems_subset (symbols : SymbolTable) (items : List assembler.Instruction) :
    ∀ i ∈ emittedItems symbols items, i ∈ items := by
  induction items with
  | nil => intro i hi; simp [emittedItems] at hi
  | cons x xs ih =>
    intro i hi
    simp only [emittedItems] at hi
    split at hi
    · simp only [List.mem_singleton] at hi
      rw [hi]; exact List.mem_cons_self _ _
    · rcases List.mem_cons.1 hi with rfl | h
      · exact List.mem_cons_self _ _
      · exact List.mem_cons_of_mem _ (ih i h)

/-- What `Generate` does to the image, from a symbol table without undefined symbols: the
image is the given one when pass 1 fails, and else the given one after a list of assignments
inside the image, each at an address covered by an item pass 2 reaches. -/
theorem Generate_image (st : SymbolTable) (items : List assembler.Instruction)
    (output : Image) (hops : ∀ i ∈ items, i.Operand < 65536) :
    (Generate (NewCodeGenerator st) items output).2.2 = output ∨
    ∃ (cg1 : CodeGenerator) (items1 : List assembler.Instruction) (ws : List (Nat × Nat)),
      firstPass (NewCodeGenerator st) items = (none, cg1, items1) ∧
      (Generate (NewCodeGenerator st) items output).2.2 = applyWrites ws output ∧
      ∀ w ∈ ws, w.1 < 65536 ∧ ∃ i ∈ emittedItems cg1.symbols items1, itemCovers i w.1 := by
  rcases hfp : firstPass (NewCodeGenerator st) items with ⟨e, cg1, items1⟩
  cases e with
  | some err =>
    left
    simp only [Generate, hfp]
  | none =>
    right
    have hfp1 := hfp
    unfold firstPass at hfp1
    have hpc0 : ({ NewCodeGenerator st with pc := 0 } : CodeGenerator).pc < 65536 := by
      show (0 : Nat) < 65536
      norm_num
    obtain ⟨_, _, hmn, hwd⟩ := firstPassLoop_ok _ _ cg1 items1 hfp1 hpc0 hops
    obtain ⟨e2, ws, hsp, hcov⟩ := secondPass_writes (fun L => cg1.symbols.Resolve L) items1
    refine ⟨cg1, items1, ws, rfl, ?_, hcov hmn hwd cg1.symbols (fun _ => rfl)⟩
    have h2 := hsp cg1.symbols output (fun _ => rfl)
    simp only [Generate, hfp, h2]
    cases e2 with
    | some err => rfl
    | none =>
      simp only
      split <;> rfl
/-- `Assemble` on a source that does not lex or does not parse leaves the assembler as it
was. -/
theorem Assemble_of_no_items (a a1 : Assembler) (source : Str) (e : Option AsmError)
    (hs : sourceItems source = none) (h : Assemble a source = some (e, a1)) :
    a1 = a ∧ ((∃ le, e = some (.lex le)) ∨ (∃ pe, e = some (.parse pe))) := by
  unfold sourceItems at hs
  unfold Assemble at h
  split at h
  · simp at h
  · rename_i le _
    simp only [Option.some.injEq, Prod.mk.injEq] at h
    exact ⟨h.2.symm, Or.inl ⟨le, h.1.symm⟩⟩
  · rename_i tokens ht
    rw [ht] at hs
    simp only at hs
    split at h
    · simp at h
    · rename_i pe _
      simp only [Option.some.injEq, Prod.mk.injEq] at h
      exact ⟨h.2.symm, Or.inr ⟨pe, h.1.symm⟩⟩
    · rename_i instructions hp
      rw [hp] at hs
      simp at hs

theorem applyWrites_no_fault (ws : List (Nat × Nat)) (img : Image)
    (h : ∀ w ∈ ws, w.1 < img.size) : (applyWrites ws img).fault = img.fault := by
  rw [applyWrites_fault]
  have : ws.any (fun w => decide (img.size ≤ w.1)) = false := by
    rw [List.any_eq_false]
    intro w hw
    have := h w hw
    simp only [decide_eq_true_eq]
    omega
  rw [this, Bool.or_false]

/-- One step of pass 1 from two generators with the same location counter: the same error,
location counter and item; and every label resolves alike in the two symbol tables after
the step, or resolves in each as it did before the step. -/
theorem firstPassStep_sim (cg cg2 : CodeGenerator) (inst : assembler.Instruction)
    (hpc : cg.pc = cg2.pc) :
    (firstPassStep cg inst).1 = (firstPassStep cg2 inst).1 ∧
    (firstPassStep cg inst).2.1.pc = (firstPassStep cg2 inst).2.1.pc ∧
    (firstPassStep cg inst).2.2 = (firstPassStep cg2 inst).2.2 ∧
    ∀ L, (firstPassStep cg inst).2.1.symbols.Resolve L
          = (firstPassStep cg2 inst).2.1.symbols.Resolve L ∨
        ((firstPassStep cg inst).2.1.symbols.Resolve L = cg.symbols.Resolve L ∧
          (firstPassStep cg2 inst).2.1.symbols.Resolve L = cg2.symbols.Resolve L) := by
  unfold firstPassStep
  cases inst.Typ with
  | InstDirective =>
    simp only [hpc]
    split
    · exact ⟨rfl, rfl, rfl, fun L => Or.inr ⟨rfl, rfl⟩⟩
    · split
      · exact ⟨rfl, rfl, rfl, fun L => Or.inr ⟨rfl, rfl⟩⟩
      · split
        · exact ⟨rfl, rfl, rfl, fun L => Or.inr ⟨rfl, rfl⟩⟩
        · exact ⟨rfl, hpc, rfl, fun L => Or.inr ⟨rfl, rfl⟩⟩
  | InstLabel =>
    simp only [hpc]
    refine ⟨trivial, trivial, trivial, fun L => ?_⟩
    by_cases hL : L = inst.Mnemonic
    · left
      rw [hL, Resolve_Define_same, Resolve_Define_same]
    · right
      exact ⟨Resolve_Define_other _ _ _ _ hL, Resolve_Define_other _ _ _ _ hL⟩
  | InstMnemonic =>
    simp only [hpc]
    split
    · exact ⟨rfl, hpc, rfl, fun L => Or.inr ⟨rfl, rfl⟩⟩
    · split
      · exact ⟨rfl, hpc, rfl, fun L => Or.inr ⟨rfl, rfl⟩⟩
      · exact ⟨rfl, rfl, rfl, fun L => Or.inr ⟨rfl, rfl⟩⟩

/-- Pass 1 from two generators with the same location counter: the same error, location
counter and items; and every label resolves alike in the two symbol tables after the pass,
or resolves in each as it did before the pass. -/
theorem firstPassLoop_sim (xs : List assembler.Instruction) :
    ∀ (cg cg2 : CodeGenerator), cg.pc = cg2.pc →
    (firstPassLoop cg xs).1 = (firstPassLoop cg2 xs).1 ∧
    (firstPassLoop cg xs).2.1.pc = (firstPassLoop cg2 xs).2.1.pc ∧
    (firstPassLoop cg xs).2.2 = (firstPassLoop cg2 xs).2.2 ∧
    ∀ L, (firstPassLoop cg xs).2.1.symbols.Resolve L
          = (firstPassLoop cg2 xs).2.1.symbols.Resolve L ∨
        ((firstPassLoop cg xs).2.1.symbols.Resolve L = cg.symbols.Resolve L ∧
          (firstPassLoop cg2 xs).2.1.symbols.Resolve L = cg2.symbols.Resolve L) := by
  induction xs with
  | nil =>
    intro cg cg2 hpc
    exact ⟨rfl, hpc, rfl, fun L => Or.inr ⟨rfl, rfl⟩⟩
  | cons x xs ih =>
    intro cg cg2 hpc
    obtain ⟨s1, s2, s3, s4⟩ := firstPassStep_sim cg cg2 x hpc
    rcases hA : firstPassStep cg x with ⟨e, cga, x1⟩
    rcases hB : firstPassStep cg2 x with ⟨e2, cgb, x2⟩
    rw [hA, hB] at s1 s2 s3 s4
    simp only at s1 s2 s3 s4
    subst s1 s3
    cases e with
    | some err =>
      rw [firstPassLoop_cons_err cg cga x x1 err xs hA,
        firstPassLoop_cons_err cg2 cgb x x1 err xs hB]
      exact ⟨rfl, s2, rfl, s4⟩
    | none =>
      rw [firstPassLoop_cons_ok cg cga x x1 xs hA, firstPassLoop_cons_ok cg2 cgb x x1 xs hB]
      obtain ⟨i1, i2, i3, i4⟩ := ih cga cgb s2
      refine ⟨i1, i2, by rw [i3], fun L => ?_⟩
      rcases i4 L with h | ⟨h1, h2⟩
      · exact Or.inl h
      · rcases s4 L with g | ⟨g1, g2⟩
        · left
          show (firstPassLoop cga xs).2.1.symbols.Resolve L
            = (firstPassLoop cgb xs).2.1.symbols.Resolve L
          rw [h1, h2, g]
        · right
          exact ⟨h1.trans g1, h2.trans g2⟩

/-- Pass 1 run again from the symbol table it left: the same error and items, and a
symbol table in which every label resolves as in the one it started from. -/
theorem firstPass_again (st : SymbolTable) (items : List assembler.Instruction) :
    (firstPass (NewCodeGenerator (firstPass (NewCodeGenerator st) items).2.1.symbols) items).1
      = (firstPass (NewCodeGenerator st) items).1 ∧
    (firstPass (NewCodeGenerator (firstPass (NewCodeGenerator st) items).2.1.symbols) items).2.2
      = (firstPass (NewCodeGenerator st) items).2.2 ∧
    ∀ L, (firstPass (NewCodeGenerator
        (firstPass (NewCodeGenerator st) items).2.1.symbols) items).2.1.symbols.Resolve L
      = (firstPass (NewCodeGenerator st) items).2.1.symbols.Resolve L := by
  unfold firstPass
  obtain ⟨h1, _, h3, h4⟩ := firstPassLoop_sim items
    { NewCodeGenerator st with pc := 0 }
    { NewCodeGenerator (firstPassLoop { NewCodeGenerator st with pc := 0 } items).2.1.symbols
        with pc := 0 } rfl
  refine ⟨h1.symm, h3.symm, fun L => ?_⟩
  rcases h4 L with h | ⟨_, g2⟩
  · exact h.symm
  · exact g2

/-- Pass 2 reads the symbol table only through `Resolve`. -/
theorem secondPass_congr (st1 st2 : SymbolTable) (items : List assembler.Instruction)
    (output : Image) (h : ∀ L, st2.Resolve L = st1.Resolve L) :
    secondPass st2 items output = secondPass st1 items output := by
  obtain ⟨e, ws, hw, _⟩ := secondPass_writes (fun L => st1.Resolve L) items
  rw [hw st1 output (fun _ => rfl), hw st2 output h]

/-- The error of `Generate` is never the list of undefined symbols, from a symbol table
without undefined symbols. -/
theorem Generate_not_listing (st : SymbolTable) (items : List assembler.Instruction)
    (output : Image) (h : st.IsResolved = true) (names : List Str) :
    (Generate (NewCodeGenerator st) items output).1 ≠ some (.undefinedSymbols names) := by
  have hfp : (firstPass (NewCodeGenerator st) items).2.1.symbols.IsResolved = true :=
    firstPassLoop_isResolved items _ h
  have hnl : (firstPass (NewCodeGenerator st) items).1 ≠ some (.undefinedSymbols names) :=
    firstPassLoop_not_listing items names _
  unfold Generate
  rcases hF : firstPass (NewCodeGenerator st) items with ⟨e, cg1, items1⟩
  rw [hF] at hfp hnl
  simp only at hfp hnl
  cases e with
  | some e => exact hnl
  | none =>
    simp only
    have hsl := secondPass_not_listing cg1.symbols items1 names output
    rcases hS : secondPass cg1.symbols items1 output with ⟨e2, out1⟩
    rw [hS] at hsl
    simp only at hsl
    cases e2 with
    | some e2 => exact hsl
    | none =>
      simp only [hfp, Bool.not_true, Bool.false_eq_true, if_false]
      simp

/-- `Generate` run again on the same items, from the symbol table and the image it left:
the same error, and an image with the same bytes. -/
theorem Generate_again (st : SymbolTable) (items : List assembler.Instruction)
    (output : Image) (hst : st.IsResolved = true) :
    (Generate (NewCodeGenerator (Generate (NewCodeGenerator st) items output).2.1.symbols)
        items (Generate (NewCodeGenerator st) items output).2.2).1
      = (Generate (NewCodeGenerator st) items output).1 ∧
    (Generate (NewCodeGenerator (Generate (NewCodeGenerator st) items output).2.1.symbols)
        items (Generate (NewCodeGenerator st) items output).2.2).2.2.size
      = (Generate (NewCodeGenerator st) items output).2.2.size ∧
    (Generate (NewCodeGenerator (Generate (NewCodeGenerator st) items output).2.1.symbols)
        items (Generate (NewCodeGenerator st) items output).2.2).2.2.fault
      = (Generate (NewCodeGenerator st) items output).2.2.fault ∧
    ∀ a, (Generate (NewCodeGenerator (Generate (NewCodeGenerator st) items output).2.1.symbols)
        items (Generate (NewCodeGenerator st) items output).2.2).2.2.data a
      = (Generate (NewCodeGenerator st) items output).2.2.data a := by
  obtain ⟨a1, a2, a3⟩ := firstPass_again st items
  have hres1 : (firstPass (NewCodeGenerator st) items).2.1.symbols.IsResolved = true :=
    firstPassLoop_isResolved items _ hst
  rcases hF : firstPass (NewCodeGenerator st) items with ⟨e, cg1, items1⟩
  rw [hF] at a1 a2 a3 hres1
  simp only at a1 a2 a3 hres1
  have hres2 : (firstPass (NewCodeGenerator cg1.symbols) items).2.1.symbols.IsResolved
      = true := firstPassLoop_isResolved items _ hres1
  rcases hG : firstPass (NewCodeGenerator cg1.symbols) items with ⟨e2, cg2, items2⟩
  rw [hG] at a1 a2 a3 hres2
  simp only at a1 a2 a3 hres2
  subst a1 a2
  cases e2 with
  | some err =>
    have g1 : Generate (NewCodeGenerator st) items output = (some err, cg1, output) := by
      simp only [Generate, hF]
    rw [g1]
    have g2 : Generate (NewCodeGenerator cg1.symbols) items output = (some err, cg2, output) := by
      simp only [Generate, hG]
    simp only [g2]
    exact ⟨trivial, trivial, trivial, fun _ => trivial⟩
  | none =>
    obtain ⟨e3, ws, hw, _⟩ := secondPass_writes (fun L => cg1.symbols.Resolve L) items2
    have p1 := hw cg1.symbols output (fun _ => rfl)
    have p2 := hw cg2.symbols (applyWrites ws output) a3
    obtain ⟨t1, t2, t3⟩ := applyWrites_twice ws output
    cases e3 with
    | some err =>
      have g1 : Generate (NewCodeGenerator st) items output
          = (some err, cg1, applyWrites ws output) := by
        simp only [Generate, hF, p1]
      rw [g1]
      have g2 : Generate (NewCodeGenerator cg1.symbols) items (applyWrites ws output)
          = (some err, cg2, applyWrites ws (applyWrites ws output)) := by
        simp only [Generate, hG, p2]
      simp only [g2]
      exact ⟨trivial, t1, t2, t3⟩
    | none =>
      have g1 : Generate (NewCodeGenerator st) items output
          = (none, cg1, applyWrites ws output) := by
        simp only [Generate, hF, p1, hres1, Bool.not_true, Bool.false_eq_true, if_false]
      rw [g1]
      have g2 : Generate (NewCodeGenerator cg1.symbols) items (applyWrites ws output)
          = (none, cg2, applyWrites ws (applyWrites ws output)) := by
        simp only [Generate, hG, p2, hres2, Bool.not_true, Bool.false_eq_true, if_false]
      simp only [g2]
      exact ⟨trivial, t1, t2, t3⟩
/-- Whether `Assemble` returns depends on the source only. -/
theorem Assemble_none (a b : Assembler) (source : Str) (h : Assemble a source = none) :
    Assemble b source = none := by
  unfold Assemble at h ⊢
  rcases ht : Tokenize source with _ | (le | tokens)
  · rfl
  · rw [ht] at h; simp at h
  · rw [ht] at h
    simp only at h ⊢
    rcases hp : Parse tokens with _ | (pe | instructions)
    · rfl
    · rw [hp] at h; simp at h
    · rw [hp] at h; simp at h

theorem takeWhile_append_stop (p : Char → Bool) (s : Str) (c : Char) (rest : Str)
    (hs : s.all p = true) (hc : p c = false) :
    (s ++ c :: rest).takeWhile p = s ∧ (s ++ c :: rest).dropWhile p = c :: rest := by
  induction s with
  | nil => simp [List.takeWhile, List.dropWhile, hc]
  | cons x xs ih =>
    simp only [List.all_cons, Bool.and_eq_true] at hs
    obtain ⟨i1, i2⟩ := ih hs.2
    simp only [List.cons_append, List.takeWhile_cons, List.dropWhile_cons, hs.1, if_true, i1, i2,
      and_self]

theorem tokenizeLoop_step (fuel : Nat) (l l1 : Lexer) (hne : l.rest ≠ [])
    (hnext : l.nextToken = .ok l1) : tokenizeLoop (fuel + 1) l = tokenizeLoop fuel l1 := by
  rw [tokenizeLoop]
  cases hr : l.rest with
  | nil => exact absurd hr hne
  | cons c cs => simp only [hnext]

/-- The lexer on `$` followed by hex digits and a character that is none: one Absolute
token with the `$` and the digits. -/
theorem nextToken_hex (s : Str) (c : Char) (rest : Str) (line column : Nat)
    (tokens : List Token) (hs : s.all isHexChar = true) (hc : isHexChar c = false) :
    Lexer.nextToken ⟨'$' :: (s ++ c :: rest), line, column, tokens⟩
      = .ok ⟨c :: rest, line, column + 1 + s.length,
          tokens ++ [⟨TokenType.TokenAbsolute, '$' :: s, line,
            ((column + 1 + s.length : Nat) : Int) - ((s.length + 1 : Nat) : Int)⟩]⟩ := by
  obtain ⟨h1, h2⟩ := takeWhile_append_stop isHexChar s c rest hs hc
  have h0 : Lexer.nextToken ⟨'$' :: (s ++ c :: rest), line, column, tokens⟩
      = .ok (Lexer.readHexNumber ⟨s ++ c :: rest, line, column + 1, tokens⟩) := rfl
  rw [h0]
  simp only [Lexer.readHexNumber, Lexer.advanceWhile, Lexer.spanWhile, Lexer.addToken, h1, h2,
    List.length_cons]

/-- The tokens of the source `.org $N` / `.word $V`. -/
theorem Tokenize_wordSource (sN sV : Str) (hN : sN.all isHexChar = true)
    (hV : sV.all isHexChar = true) :
    ∃ c1 c2 c3 c4 c5 c6 c7 : Int, Tokenize (wordSource sN sV) = some (.ok
      [⟨TokenType.TokenDirective, ".org".data, 1, c1⟩,
       ⟨TokenType.TokenAbsolute, '$' :: sN, 1, c2⟩,
       ⟨TokenType.TokenNewline, ['\n'], 1, c3⟩,
       ⟨TokenType.TokenDirective, ".word".data, 2, c4⟩,
       ⟨TokenType.TokenAbsolute, '$' :: sV, 2, c5⟩,
       ⟨TokenType.TokenNewline, ['\n'], 2, c6⟩,
       ⟨TokenType.TokenEOF, [], 3, c7⟩]) := by
  have hfuel : (wordSource sN sV).length + 1 = (sN.length + sV.length + 7) + 9 := by
    simp only [wordSource, List.length_append, List.length_cons, List.length_nil]
    omega
  have hnl : isHexChar '\n' = false := by decide
  unfold Tokenize
  rw [hfuel]
  generalize sN.length + sV.length + 7 = k
  -- the eight tokens, one call of `nextToken` each (two more skip a blank)
  have e1 : Lexer.nextToken (NewLexer (wordSource sN sV))
      = .ok ⟨' ' :: '$' :: (sN ++ '\n' :: ("\n.word $".data.tail ++ (sV ++ "\n".data))), 1, 5,
          [⟨TokenType.TokenDirective, ".org".data, 1, 1⟩]⟩ := rfl
  have e2 : Lexer.nextToken
      ⟨' ' :: '$' :: (sN ++ '\n' :: ("\n.word $".data.tail ++ (sV ++ "\n".data))), 1, 5,
          [⟨TokenType.TokenDirective, ".org".data, 1, 1⟩]⟩
      = .ok ⟨'$' :: (sN ++ '\n' :: ("\n.word $".data.tail ++ (sV ++ "\n".data))), 1, 6,
          [⟨TokenType.TokenDirective, ".org".data, 1, 1⟩]⟩ := rfl
  have e3 := nextToken_hex sN '\n' ("\n.word $".data.tail ++ (sV ++ "\n".data)) 1 6
    [⟨TokenType.TokenDirective, ".org".data, 1, 1⟩] hN hnl
  generalize ((6 + 1 + sN.length : Nat) : Int) - ((sN.length + 1 : Nat) : Int) = c2 at e3
  generalize 6 + 1 + sN.length = col3 at e3
  have e4 : Lexer.nextToken ⟨'\n' :: ("\n.word $".data.tail ++ (sV ++ "\n".data)), 1, col3,
        [⟨TokenType.TokenDirective, ".org".data, 1, 1⟩] ++
          [⟨TokenType.TokenAbsolute, '$' :: sN, 1, c2⟩]⟩
      = .ok ⟨".word $".data ++ (sV ++ "\n".data), 2, 1,
          [⟨TokenType.TokenDirective, ".org".data, 1, 1⟩,
           ⟨TokenType.TokenAbsolute, '$' :: sN, 1, c2⟩,
           ⟨TokenType.TokenNewline, ['\n'], 1, (col3 : Int) - 1⟩]⟩ := rfl
  generalize (col3 : Int) - 1 = c3 at e4
  have e5 : Lexer.nextToken ⟨".word $".data ++ (sV ++ "\n".data), 2, 1,
          [⟨TokenType.TokenDirective, ".org".data, 1, 1⟩,
           ⟨TokenType.TokenAbsolute, '$' :: sN, 1, c2⟩,
           ⟨TokenType.TokenNewline, ['\n'], 1, c3⟩]⟩
      = .ok ⟨' ' :: '$' :: (sV ++ "\n".data), 2, 6,
          [⟨TokenType.TokenDirective, ".org".data, 1, 1⟩,
           ⟨TokenType.TokenAbsolute, '$' :: sN, 1, c2⟩,
           ⟨TokenType.TokenNewline, ['\n'], 1, c3⟩,
           ⟨TokenType.TokenDirective, ".word".data, 2, 1⟩]⟩ := rfl
  have e6 : Lexer.nextToken ⟨' ' :: '$' :: (sV ++ "\n".data), 2, 6,
          [⟨TokenType.TokenDirective, ".org".data, 1, 1⟩,
           ⟨TokenType.TokenAbsolute, '$' :: sN, 1, c2⟩,
           ⟨TokenType.TokenNewline, ['\n'], 1, c3⟩,
           ⟨TokenType.TokenDirective, ".word".data, 2, 1⟩]⟩
      = .ok ⟨'$' :: (sV ++ '\n' :: []), 2, 7,
          [⟨TokenType.TokenDirective, ".org".data, 1, 1⟩,
           ⟨TokenType.TokenAbsolute, '$' :: sN, 1, c2⟩,
           ⟨TokenType.TokenNewline, ['\n'], 1, c3⟩,
           ⟨TokenType.TokenDirective, ".word".data, 2, 1⟩]⟩ := rfl
  have e7 := nextToken_hex sV '\n' [] 2 7
    [⟨TokenType.TokenDirective, ".org".data, 1, 1⟩,
     ⟨TokenType.TokenAbsolute, '$' :: sN, 1, c2⟩,
     ⟨TokenType.TokenNewline, ['\n'], 1, c3⟩,
     ⟨TokenType.TokenDirective, ".word".data, 2, 1⟩] hV hnl
  generalize ((7 + 1 + sV.length : Nat) : Int) - ((sV.length + 1 : Nat) : Int) = c5 at e7
  generalize 7 + 1 + sV.length = col7 at e7
  have e8 : Lexer.nextToken ⟨['\n'], 2, col7,
        [⟨TokenType.TokenDirective, ".org".data, 1, 1⟩,
         ⟨TokenType.TokenAbsolute, '$' :: sN, 1, c2⟩,
         ⟨TokenType.TokenNewline, ['\n'], 1, c3⟩,
         ⟨TokenType.TokenDirective, ".word".data, 2, 1⟩] ++
          [⟨TokenType.TokenAbsolute, '$' :: sV, 2, c5⟩]⟩
      = .ok ⟨[], 3, 1,
          [⟨TokenType.TokenDirective, ".org".data, 1, 1⟩,
           ⟨TokenType.TokenAbsolute, '$' :: sN, 1, c2⟩,
           ⟨TokenType.TokenNewline, ['\n'], 1, c3⟩,
           ⟨TokenType.TokenDirective, ".word".data, 2, 1⟩,
           ⟨TokenType.TokenAbsolute, '$' :: sV, 2, c5⟩,
           ⟨TokenType.TokenNewline, ['\n'], 2, (col7 : Int) - 1⟩]⟩ := rfl
  refine ⟨1, c2, c3, 1, c5, (col7 : Int) - 1, 1, ?_⟩
  rw [show k + 9 = (k + 8) + 1 from rfl,
    tokenizeLoop_step (k + 8) _ _ (by simp [NewLexer, wordSource]) e1,
    show k + 8 = (k + 7) + 1 from rfl, tokenizeLoop_step (k + 7) _ _ (by simp) e2,
    show k + 7 = (k + 6) + 1 from rfl, tokenizeLoop_step (k + 6) _ _ (by simp) e3,
    show k + 6 = (k + 5) + 1 from rfl, tokenizeLoop_step (k + 5) _ _ (by simp) e4,
    show k + 5 = (k + 4) + 1 from rfl, tokenizeLoop_step (k + 4) _ _ (by simp) e5,
    show k + 4 = (k + 3) + 1 from rfl, tokenizeLoop_step (k + 3) _ _ (by simp) e6,
    show k + 3 = (k + 2) + 1 from rfl, tokenizeLoop_step (k + 2) _ _ (by simp) e7,
    show k + 2 = (k + 1) + 1 from rfl, tokenizeLoop_step (k + 1) _ _ (by simp) e8]
  rfl
/-- The items of the tokens of `.org $N` / `.word $V`. -/
theorem Parse_wordTokens (sN sV : Str) (N V : Nat) (c1 c2 c3 c4 c5 c6 c7 : Int)
    (pN : parseHexNumber sN = .ok N) (pV : parseHexNumber sV = .ok V) :
    Parse
      [⟨TokenType.TokenDirective, ".org".data, 1, c1⟩,
       ⟨TokenType.TokenAbsolute, '$' :: sN, 1, c2⟩,
       ⟨TokenType.TokenNewline, ['\n'], 1, c3⟩,
       ⟨TokenType.TokenDirective, ".word".data, 2, c4⟩,
       ⟨TokenType.TokenAbsolute, '$' :: sV, 2, c5⟩,
       ⟨TokenType.TokenNewline, ['\n'], 2, c6⟩,
       ⟨TokenType.TokenEOF, [], 3, c7⟩] = some (.ok [orgItem N 1, wordItem V 2]) := by
  have h1 : GoLib.toLower ".org".data = ".org".data := by decide
  have h2 : GoLib.toLower ".word".data ≠ ".org".data := by decide
  have h3 : GoLib.toLower ".word".data = ".word".data := by decide
  have d1 : parseDirective
      [⟨TokenType.TokenDirective, ".org".data, 1, c1⟩,
       ⟨TokenType.TokenAbsolute, '$' :: sN, 1, c2⟩,
       ⟨TokenType.TokenNewline, ['\n'], 1, c3⟩,
       ⟨TokenType.TokenDirective, ".word".data, 2, c4⟩,
       ⟨TokenType.TokenAbsolute, '$' :: sV, 2, c5⟩,
       ⟨TokenType.TokenNewline, ['\n'], 2, c6⟩,
       ⟨TokenType.TokenEOF, [], 3, c7⟩]
      = some (.ok (orgItem N 1,
        [⟨TokenType.TokenNewline, ['\n'], 1, c3⟩,
         ⟨TokenType.TokenDirective, ".word".data, 2, c4⟩,
         ⟨TokenType.TokenAbsolute, '$' :: sV, 2, c5⟩,
         ⟨TokenType.TokenNewline, ['\n'], 2, c6⟩,
         ⟨TokenType.TokenEOF, [], 3, c7⟩])) := by
    unfold parseDirective
    simp only [currentToken, advance, List.tail_cons]
    rw [if_pos h1]
    simp only [parseAddressValue, currentToken, if_true, List.tail_cons, pN, advance, orgItem]
  have d2 : parseDirective
      [⟨TokenType.TokenDirective, ".word".data, 2, c4⟩,
       ⟨TokenType.TokenAbsolute, '$' :: sV, 2, c5⟩,
       ⟨TokenType.TokenNewline, ['\n'], 2, c6⟩,
       ⟨TokenType.TokenEOF, [], 3, c7⟩]
      = some (.ok (wordItem V 2,
        [⟨TokenType.TokenNewline, ['\n'], 2, c6⟩,
         ⟨TokenType.TokenEOF, [], 3, c7⟩])) := by
    unfold parseDirective
    simp only [currentToken, advance, List.tail_cons]
    rw [if_neg h2, if_pos h3]
    simp only [parseWordData, parseAddressValue, currentToken, if_true, List.tail_cons, pV,
      advance, wordItem, reduceCtorEq, if_false]
  unfold Parse
  simp only [List.length_cons, List.length_nil]
  simp only [parseLoop, parseInstruction, currentToken, advance, List.tail_cons, reduceCtorEq,
    if_false, if_true, or_self, or_true, true_or, d1, d2, List.nil_append, List.cons_append]
/-- Code generation of `.org N` / `.word V` on a fresh assembler: no error, and the image
is the zero image with the two bytes of `V` stored at `N` and `N + 1`. -/
theorem Generate_word (N V : Nat) :
    Generate (NewCodeGenerator NewAssembler.symbols) [orgItem N 1, wordItem V 2]
        NewAssembler.output
      = (none, ⟨[], (N + 2) % 65536⟩,
          (NewAssembler.output.set N ((V &&& 0xFF) % 256)).set ((N + 1) % 65536)
            (((V >>> 8) &&& 0xFF) % 256)) := rfl

/-- `Assemble` on the source `.org $N` / `.word $V`. -/
theorem Assemble_wordSource (sN sV : Str) (N V : Nat) (hN : sN.all isHexChar = true)
    (hV : sV.all isHexChar = true) (pN : parseHexNumber sN = .ok N)
    (pV : parseHexNumber sV = .ok V) :
    sourceItems (wordSource sN sV) = some [orgItem N 1, wordItem V 2] ∧
    Assemble NewAssembler (wordSource sN sV)
      = some (none, { NewAssembler with
          symbols := [],
          output := (NewAssembler.output.set N ((V &&& 0xFF) % 256)).set ((N + 1) % 65536)
            (((V >>> 8) &&& 0xFF) % 256) }) := by
  obtain ⟨c1, c2, c3, c4, c5, c6, c7, ht⟩ := Tokenize_wordSource sN sV hN hV
  have hp := Parse_wordTokens sN sV N V c1 c2 c3 c4 c5 c6 c7 pN pV
  have hs : sourceItems (wordSource sN sV) = some [orgItem N 1, wordItem V 2] := by
    simp only [sourceItems, ht, hp]
  refine ⟨hs, ?_⟩
  rw [Assemble_of_sourceItems _ _ _ hs, Generate_word]
  rfl

/-- What a lexer state `l1` is to a state `l` with `cs` still to read: it has a suffix of
`cs` left and the tokens of `l`, then new ones, none of them EOF. -/
theorem advanceWhile_after (p : Char → Bool) (l : Lexer) :
    (l.advanceWhile p).rest <:+ l.rest ∧ (l.advanceWhile p).tokens = l.tokens ∧
    (l.advanceWhile p).line = l.line := by
  refine ⟨?_, rfl, rfl⟩
  show l.rest.dropWhile p <:+ l.rest
  exact List.dropWhile_suffix p

theorem advanceWhile_first (p : Char → Bool) (l : Lexer) (c : Char) (cs : Str)
    (hr : l.rest = c :: cs) (hp : p c = true) : (l.advanceWhile p).rest <:+ cs := by
  show l.rest.dropWhile p <:+ cs
  rw [hr, List.dropWhile_cons_of_pos hp]
  exact List.dropWhile_suffix p

theorem advance_rest (l : Lexer) (c : Char) (cs : Str) (hr : l.rest = c :: cs) :
    l.advance.rest = cs ∧ l.advance.tokens = l.tokens := by
  unfold Lexer.advance
  rw [hr]
  exact ⟨rfl, rfl⟩

theorem advance_suffix (l : Lexer) : l.advance.rest <:+ l.rest ∧ l.advance.tokens = l.tokens := by
  unfold Lexer.advance
  cases hr : l.rest with
  | nil => exact ⟨by rw [hr], rfl⟩
  | cons c cs => exact ⟨List.suffix_cons c cs, rfl⟩

theorem addToken_tokens (l : Lexer) (ty : TokenType) (v : Str) :
    (l.addToken ty v).rest = l.rest ∧
    ∃ t, t.Typ = ty ∧ (l.addToken ty v).tokens = l.tokens ++ [t] :=
  ⟨rfl, _, rfl, rfl⟩

/-- One call of `nextToken` on a byte that is not NUL, when it returns no error: the lexer
has consumed that byte at least, and has added no EOF token. -/
theorem nextToken_progress (l l1 : Lexer) (c : Char) (cs : Str) (hr : l.rest = c :: cs)
    (hc : c.toNat ≠ 0) (h : l.nextToken = .ok l1) :
    l1.rest <:+ cs ∧
    ∃ new, l1.tokens = l.tokens ++ new ∧ ∀ t ∈ new, t.Typ ≠ TokenType.TokenEOF := by
  have hcur : l.currentChar = c := by
    unfold Lexer.currentChar; rw [hr]
  unfold Lexer.nextToken at h
  simp only [hcur] at h
  rw [if_neg hc] at h
  have one : ∀ (l2 : Lexer) (ty : TokenType) (v : Str), l2.rest <:+ cs → l2.tokens = l.tokens →
      ty ≠ TokenType.TokenEOF →
      (l2.addToken ty v).rest <:+ cs ∧
      ∃ new, (l2.addToken ty v).tokens = l.tokens ++ new ∧
        ∀ t ∈ new, t.Typ ≠ TokenType.TokenEOF := by
    intro l2 ty v h1 h2 h3
    refine ⟨h1, [⟨ty, v, l2.line, (l2.column : Int) - (v.length : Int)⟩], ?_, ?_⟩
    · rw [← h2]; rfl
    · intro t ht
      simp only [List.mem_singleton] at ht
      rw [ht]; exact h3
  have zero : ∀ l2 : Lexer, l2.rest <:+ cs → l2.tokens = l.tokens →
      l2.rest <:+ cs ∧
      ∃ new, l2.tokens = l.tokens ++ new ∧ ∀ t ∈ new, t.Typ ≠ TokenType.TokenEOF := by
    intro l2 h1 h2
    exact ⟨h1, [], by rw [h2, List.append_nil], by simp⟩
  have adv1 : ∀ (ty : TokenType) (v : Str), ty ≠ TokenType.TokenEOF →
      (l.addToken ty v).advance.rest <:+ cs ∧
      ∃ new, (l.addToken ty v).advance.tokens = l.tokens ++ new ∧
        ∀ t ∈ new, t.Typ ≠ TokenType.TokenEOF := by
    intro ty v h3
    have ha := advance_rest (l.addToken ty v) c cs hr
    refine ⟨by rw [ha.1], [⟨ty, v, l.line, (l.column : Int) - (v.length : Int)⟩], ?_, ?_⟩
    · rw [ha.2]; rfl
    · intro t ht
      simp only [List.mem_singleton] at ht
      rw [ht]; exact h3
  by_cases c1 : c = '\n'
  · rw [if_pos c1] at h
    simp only [Except.ok.injEq] at h
    subst h
    exact adv1 _ _ (by decide)
  rw [if_neg c1] at h
  by_cases c2 : c = '\r'
  · rw [if_pos c2] at h
    simp only [Except.ok.injEq] at h
    subst h
    have ha := advance_rest l c cs hr
    exact zero _ (by rw [ha.1]) ha.2
  rw [if_neg c2] at h
  by_cases c3 : GoLib.isSpace c = true
  · rw [if_pos c3] at h
    simp only [Except.ok.injEq] at h
    subst h
    refine zero _ (advanceWhile_first _ l c cs hr ?_) rfl
    simp only [c3, Bool.true_and, bne_iff_ne, ne_eq]
    exact c1
  rw [if_neg c3] at h
  by_cases c4 : c = ';'
  · rw [if_pos c4] at h
    simp only [Except.ok.injEq] at h
    subst h
    refine one _ _ _ (advanceWhile_first _ l c cs hr ?_) rfl (by decide)
    rw [c4]; decide
  rw [if_neg c4] at h
  by_cases c5 : c = '#'
  · rw [if_pos c5] at h
    simp only [Except.ok.injEq] at h
    subst h
    exact adv1 _ _ (by decide)
  rw [if_neg c5] at h
  by_cases c6 : c = '$'
  · rw [if_pos c6] at h
    simp only [Except.ok.injEq] at h
    subst h
    have ha := advance_rest l c cs hr
    have hw := advanceWhile_after isHexChar l.advance
    exact one _ _ _ (by rw [← ha.1]; exact hw.1) (hw.2.1.trans ha.2) (by decide)
  rw [if_neg c6] at h
  by_cases c7 : c = ','
  · rw [if_pos c7] at h
    simp only [Except.ok.injEq] at h
    subst h
    exact adv1 _ _ (by decide)
  rw [if_neg c7] at h
  by_cases c8 : c = '.'
  · rw [if_pos c8] at h
    simp only [Except.ok.injEq] at h
    subst h
    have ha := advance_rest l c cs hr
    have hw := advanceWhile_after (fun c => GoLib.isLetter c || GoLib.isDigit c) l.advance
    exact one _ _ _ (by rw [← ha.1]; exact hw.1) (hw.2.1.trans ha.2) (by decide)
  rw [if_neg c8] at h
  by_cases c9 : (GoLib.isLetter c || decide (c = '_')) = true
  · rw [if_pos c9] at h
    simp only [Except.ok.injEq] at h
    subst h
    have hp : (fun c => GoLib.isLetter c || GoLib.isDigit c || c == '_') c = true := by
      simp only [Bool.or_eq_true, beq_iff_eq]
      simp only [Bool.or_eq_true, decide_eq_true_eq] at c9
      rcases c9 with h1 | h1
      · exact Or.inl (Or.inl h1)
      · exact Or.inr h1
    have hw := advanceWhile_first
      (fun c => GoLib.isLetter c || GoLib.isDigit c || c == '_') l c cs hr hp
    unfold Lexer.readIdentifier
    simp only
    split
    · have ha := advance_suffix
        (l.advanceWhile (fun c => GoLib.isLetter c || GoLib.isDigit c || c == '_'))
      exact one _ _ _ (ha.1.trans hw) ha.2 (by decide)
    · split
      · exact one _ _ _ hw rfl (by decide)
      · exact one _ _ _ hw rfl (by decide)
  rw [if_neg c9] at h
  by_cases c10 : GoLib.isDigit c = true
  · rw [if_pos c10] at h
    simp only [Except.ok.injEq] at h
    subst h
    exact one _ _ _ (advanceWhile_first _ l c cs hr c10) rfl (by decide)
  rw [if_neg c10] at h
  by_cases c11 : c = '"'
  · rw [if_pos c11] at h
    unfold Lexer.readString at h
    simp only at h
    split at h
    · simp at h
    · simp only [Except.ok.injEq] at h
      subst h
      have ha := advance_rest l c cs hr
      have hw := advanceWhile_after (fun c => c != '"') l.advance
      have hb := advance_suffix (l.advance.advanceWhile (fun c => c != '"'))
      exact one _ _ _ (by rw [← ha.1]; exact hb.1.trans hw.1)
        (hb.2.trans (hw.2.1.trans ha.2)) (by decide)
  rw [if_neg c11] at h
  simp at h
/-- The loop of `Tokenize`, with more fuel than bytes left, on a rest without a NUL byte
and with no EOF token so far: it returns, an error or a token list whose last token, and
only that one, is EOF. -/
theorem tokenizeLoop_total : ∀ (fuel : Nat) (l : Lexer), l.rest.length < fuel →
    (∀ c ∈ l.rest, c.toNat ≠ 0) → (∀ t ∈ l.tokens, t.Typ ≠ TokenType.TokenEOF) →
    (∃ e, tokenizeLoop fuel l = some (.error e)) ∨
    (∃ init last, tokenizeLoop fuel l = some (.ok (init ++ [last])) ∧
      last.Typ = TokenType.TokenEOF ∧ ∀ t ∈ init, t.Typ ≠ TokenType.TokenEOF) := by
  intro fuel
  induction fuel with
  | zero => intro l h; omega
  | succ n ih =>
    intro l hlen hnul htok
    cases hr : l.rest with
    | nil =>
      right
      refine ⟨l.tokens, ⟨TokenType.TokenEOF, [], l.line, (l.column : Int) - (0 : Nat)⟩, ?_, rfl,
        htok⟩
      rw [tokenizeLoop]
      simp only [hr]
      rfl
    | cons c cs =>
      have hc : c.toNat ≠ 0 := hnul c (by rw [hr]; exact List.mem_cons_self _ _)
      cases hn : l.nextToken with
      | error e =>
        left
        refine ⟨e, ?_⟩
        rw [tokenizeLoop]
        simp only [hr, hn]
      | ok l1 =>
        obtain ⟨hsuf, new, hnew, hne⟩ := nextToken_progress l l1 c cs hr hc hn
        have hstep : tokenizeLoop (n + 1) l = tokenizeLoop n l1 :=
          tokenizeLoop_step n l l1 (by rw [hr]; simp) hn
        rw [hstep]
        apply ih
        · have := hsuf.length_le
          rw [hr] at hlen
          simp only [List.length_cons] at hlen
          omega
        · intro x hx
          exact hnul x (by rw [hr]; exact List.mem_cons_of_mem _ (hsuf.subset hx))
        · intro t ht
          rw [hnew] at ht
          rcases List.mem_append.1 ht with h1 | h1
          · exact htok t h1
          · exact hne t h1

/-- A byte that is not NUL and starts no token form makes `nextToken` return the error. -/
theorem nextToken_unexpected (l : Lexer) (c : Char) (cs : Str) (hr : l.rest = c :: cs)
    (hc : c.toNat ≠ 0) (h1 : c ≠ '\n') (h2 : c ≠ '\r') (h3 : GoLib.isSpace c = false)
    (h4 : c ≠ ';') (h5 : c ≠ '#') (h6 : c ≠ '$') (h7 : c ≠ ',') (h8 : c ≠ '.')
    (h9 : GoLib.isLetter c = false) (h10 : c ≠ '_') (h11 : GoLib.isDigit c = false)
    (h12 : c ≠ '"') :
    l.nextToken = .error (.unexpectedCharacter c l.line l.column) := by
  have hcur : l.currentChar = c := by
    unfold Lexer.currentChar; rw [hr]
  unfold Lexer.nextToken
  simp only [hcur]
  rw [if_neg hc, if_neg h1, if_neg h2, if_neg (by rw [h3]; decide), if_neg h4, if_neg h5,
    if_neg h6, if_neg h7, if_neg h8, if_neg (by rw [h9]; simpa using h10),
    if_neg (by rw [h11]; decide), if_neg h12]

/-- `Tokenize` returns on a source without a NUL byte: an error, or a token list whose last
token, and only that one, is EOF. -/
theorem Tokenize_total (source : Str) (h : ∀ c ∈ source, c.toNat ≠ 0) :
    (∃ e, Tokenize source = some (.error e)) ∨
    (∃ init last, Tokenize source = some (.ok (init ++ [last])) ∧
      last.Typ = TokenType.TokenEOF ∧ ∀ t ∈ init, t.Typ ≠ TokenType.TokenEOF) :=
  tokenizeLoop_total (source.length + 1) (NewLexer source) (Nat.lt_succ_self _) h
    (by simp [NewLexer])
theorem parseNumber_length (ts ts1 : List Token) (v : Nat) (h : parseNumber ts = .ok (v, ts1)) :
    ts1.length < ts.length := by
  unfold parseNumber at h
  simp only at h
  split at h
  · simp at h
  · rename_i hty
    split at h
    · simp at h
    · simp only [Except.ok.injEq, Prod.mk.injEq] at h
      rw [← h.2]
      cases ts with
      | nil => simp [currentToken] at hty
      | cons t rest => simp [advance]

theorem advance_length (ts : List Token) : (advance ts).length ≤ ts.length := by
  unfold advance
  cases ts <;> simp

theorem parseOperand_length (ts : List Token) (mode : assembler.AddressingMode) (operand : Nat)
    (label : Str) (ts1 : List Token) (h : parseOperand ts = .ok (mode, operand, label, ts1)) :
    ts1.length ≤ ts.length := by
  have ha := advance_length ts
  have haa := advance_length (advance ts)
  unfold parseOperand at h
  simp only at h
  split at h
  · simp only [Except.ok.injEq, Prod.mk.injEq] at h
    rw [← h.2.2.2]
  · split at h
    · split at h
      · split at h
        · simp at h
        · simp only [Except.ok.injEq, Prod.mk.injEq] at h
          rw [← h.2.2.2]; omega
      · split at h
        · split at h
          · simp at h
          · rename_i v ts2 hv
            simp only [Except.ok.injEq, Prod.mk.injEq] at h
            have := parseNumber_length _ _ _ hv
            rw [← h.2.2.2]; omega
        · split at h
          · simp at h
          · rename_i v ts2 hv
            simp only [Except.ok.injEq, Prod.mk.injEq] at h
            have := parseNumber_length _ _ _ hv
            rw [← h.2.2.2]; omega
    · split at h
      · split at h
        · simp at h
        · rename_i v ts2 hv
          simp only [Except.ok.injEq, Prod.mk.injEq] at h
          have := parseNumber_length _ _ _ hv
          rw [← h.2.2.2]; omega
      · split at h
        · split at h
          · simp at h
          · simp only [Except.ok.injEq, Prod.mk.injEq] at h
            rw [← h.2.2.2]; exact ha
        · split at h
          · simp only [Except.ok.injEq, Prod.mk.injEq] at h
            rw [← h.2.2.2]; exact ha
          · split at h
            · split at h
              · simp at h
              · rename_i v ts2 hv
                simp only [Except.ok.injEq, Prod.mk.injEq] at h
                have := parseNumber_length _ _ _ hv
                rw [← h.2.2.2]; omega
            · simp only [Except.ok.injEq, Prod.mk.injEq] at h
              rw [← h.2.2.2]

theorem parseAddressValue_length (ts ts1 : List Token) (v : Nat)
    (h : parseAddressValue ts = .ok (v, ts1)) : ts1.length ≤ ts.length := by
  have ha := advance_length ts
  unfold parseAddressValue at h
  simp only at h
  split at h
  · split at h
    · simp at h
    · simp only [Except.ok.injEq, Prod.mk.injEq] at h
      rw [← h.2]; exact ha
  · have := parseNumber_length _ _ _ h
    split at this <;> omega

theorem parseWordData_length (ts ts1 : List Token) (d : List Nat)
    (h : parseWordData ts = .ok (d, ts1)) : ts1.length ≤ ts.length := by
  have ha := advance_length ts
  unfold parseWordData at h
  simp only at h
  split at h
  · simp only [Except.ok.injEq, Prod.mk.injEq] at h
    rw [← h.2]; exact ha
  · split at h
    · simp at h
    · rename_i v ts2 hv
      simp only [Except.ok.injEq, Prod.mk.injEq] at h
      rw [← h.2]
      exact parseAddressValue_length _ _ _ hv

/-- The loop of `parseByteData` returns, with more fuel than tokens left, and leaves no
more tokens than it was given. -/
theorem parseByteLoop_total : ∀ (fuel : Nat) (ts : List Token) (data : List Nat),
    ts.length < fuel →
    ∃ r, parseByteLoop fuel ts data = some r ∧
      ∀ d ts1, r = .ok (d, ts1) → ts1.length ≤ ts.length := by
  intro fuel
  induction fuel with
  | zero => intro ts data h; omega
  | succ n ih =>
    intro ts data hlen
    have ha := advance_length ts
    unfold parseByteLoop
    simp only
    split
    · refine ⟨_, rfl, ?_⟩
      intro d ts1 h
      simp only [Except.ok.injEq, Prod.mk.injEq] at h
      rw [← h.2]
    · split
      · refine ⟨_, rfl, ?_⟩
        intro d ts1 h
        simp at h
      · rename_i v ts2 hv
        have h2 := parseNumber_length _ _ _ hv
        have h3 : ts2.length < ts.length := by
          split at h2 <;> omega
        have hb := advance_length ts2
        split
        · obtain ⟨r, hr, hr2⟩ := ih (advance ts2) (data ++ [(v &&& 0xFF) % 256]) (by omega)
          refine ⟨r, hr, ?_⟩
          intro d ts1 h
          have := hr2 d ts1 h
          omega
        · refine ⟨_, rfl, ?_⟩
          intro d ts1 h
          simp only [Except.ok.injEq, Prod.mk.injEq] at h
          rw [← h.2]; omega

theorem parseDirective_total (ts : List Token) :
    ∃ r, parseDirective ts = some r ∧
      ∀ i ts1, r = .ok (i, ts1) → ts1.length ≤ (advance ts).length := by
  have haa := advance_length (advance ts)
  unfold parseDirective
  simp only
  split
  · split
    · exact ⟨_, rfl, fun i ts1 h => by simp at h⟩
    · rename_i v ts2 hv
      refine ⟨_, rfl, ?_⟩
      intro i ts1 h
      simp only [Except.ok.injEq, Prod.mk.injEq] at h
      rw [← h.2]
      exact parseAddressValue_length _ _ _ hv
  · split
    · split
      · refine ⟨_, rfl, ?_⟩
        intro i ts1 h
        simp only [Except.ok.injEq, Prod.mk.injEq] at h
        rw [← h.2]; exact haa
      · split
        · exact ⟨_, rfl, fun i ts1 h => by simp at h⟩
        · rename_i d ts2 hd
          refine ⟨_, rfl, ?_⟩
          intro i ts1 h
          simp only [Except.ok.injEq, Prod.mk.injEq] at h
          rw [← h.2]
          exact parseWordData_length _ _ _ hd
    · split
      · obtain ⟨r, hr, hr2⟩ := parseByteLoop_total ((advance ts).length + 1) (advance ts) []
          (Nat.lt_succ_self _)
        have hb : parseByteData (advance ts) = some r := hr
        rw [hb]
        cases r with
        | error e => exact ⟨_, rfl, fun i ts1 h => by simp at h⟩
        | ok p =>
          obtain ⟨d, ts2⟩ := p
          refine ⟨_, rfl, ?_⟩
          intro i ts1 h
          simp only [Except.ok.injEq, Prod.mk.injEq] at h
          rw [← h.2]
          exact hr2 d ts2 rfl
      · exact ⟨_, rfl, fun i ts1 h => by simp at h⟩

theorem parseInstruction_total (t : Token) (rest : List Token) :
    ∃ r, parseInstruction (t :: rest) = some r ∧
      ∀ i ts1, r = .ok (i, ts1) → ts1.length ≤ rest.length := by
  unfold parseInstruction
  simp only
  split
  · refine ⟨_, rfl, ?_⟩
    intro i ts1 h
    simp only [parseLabel, advance, List.tail_cons, Except.ok.injEq, Prod.mk.injEq] at h
    rw [← h.2]
  · split
    · refine ⟨_, rfl, ?_⟩
      intro i ts1 h
      unfold parseMnemonic at h
      simp only [advance, List.tail_cons] at h
      split at h
      · simp at h
      · rename_i m v lab ts2 hop
        simp only [Except.ok.injEq, Prod.mk.injEq] at h
        rw [← h.2]
        exact parseOperand_length _ _ _ _ _ hop
    · split
      · obtain ⟨r, hr, hr2⟩ := parseDirective_total (t :: rest)
        exact ⟨r, hr, fun i ts1 h => by simpa [advance] using hr2 i ts1 h⟩
      · exact ⟨_, rfl, fun i ts1 h => by simp at h⟩

/-- The loop of `Parse` returns, with more fuel than tokens left. -/
theorem parseLoop_total : ∀ (fuel : Nat) (ts : List Token) (acc : List assembler.Instruction),
    ts.length < fuel → ∃ r, parseLoop fuel ts acc = some r := by
  intro fuel
  induction fuel with
  | zero => intro ts acc h; omega
  | succ n ih =>
    intro ts acc hlen
    unfold parseLoop
    cases ts with
    | nil => exact ⟨_, rfl⟩
    | cons t rest =>
      simp only [List.length_cons] at hlen
      simp only
      split
      · exact ⟨_, rfl⟩
      · split
        · exact ih _ _ (by simp only [advance, List.tail_cons]; omega)
        · obtain ⟨r, hr, hr2⟩ := parseInstruction_total t rest
          rw [hr]
          cases r with
          | error e => exact ⟨_, rfl⟩
          | ok p =>
            obtain ⟨i, ts1⟩ := p
            have := hr2 i ts1 rfl
            exact ih _ _ (by omega)

/-- `Parse` returns on every token list. -/
theorem Parse_total (tokens : List Token) : ∃ r, Parse tokens = some r :=
  parseLoop_total _ tokens [] (Nat.lt_succ_self _)

theorem SetFlag_A (cpu : CPU) (flag : Nat) (b : Bool) :
    (cpu.SetFlag flag b).A = cpu.A := by
  cases b <;> rfl

theorem SetFlag_X (cpu : CPU) (flag : Nat) (b : Bool) :
    (cpu.SetFlag flag b).X = cpu.X := by
  cases b <;> rfl

theorem SetFlag_Y (cpu : CPU) (flag : Nat) (b : Bool) :
    (cpu.SetFlag flag b).Y = cpu.Y := by
  cases b <;> rfl

theorem SetFlag_SP (cpu : CPU) (flag : Nat) (b : Bool) :
    (cpu.SetFlag flag b).SP = cpu.SP := by
  cases b <;> rfl

theorem SetFlag_PC (cpu : CPU) (flag : Nat) (b : Bool) :
    (cpu.SetFlag flag b).PC = cpu.PC := by
  cases b <;> rfl

theorem SetFlag_memory (cpu : CPU) (flag : Nat) (b : Bool) :
    (cpu.SetFlag flag b).memory = cpu.memory := by
  cases b <;> rfl

theorem SetFlag_cycles (cpu : CPU) (flag : Nat) (b : Bool) :
    (cpu.SetFlag flag b).cycles = cpu.cycles := by
  cases b <;> rfl

theorem SetFlag_running (cpu : CPU) (flag : Nat) (b : Bool) :
    (cpu.SetFlag flag b).running = cpu.running := by
  cases b <;> rfl

theorem SetFlag_out (cpu : CPU) (flag : Nat) (b : Bool) :
    (cpu.SetFlag flag b).out = cpu.out := by
  cases b <;> rfl

theorem WriteByte_A (cpu : CPU) (addr value : Nat) :
    (cpu.WriteByte addr value).A = cpu.A := by
  unfold CPU.WriteByte CPU.handleIOWrite CPU.writeDisplay
  split
  · split
    · split
      · rfl
      · split <;> rfl
    · rfl
  · rfl

theorem WriteByte_X (cpu : CPU) (addr value : Nat) :
    (cpu.WriteByte addr value).X = cpu.X := by
  unfold CPU.WriteByte CPU.handleIOWrite CPU.writeDisplay
  split
  · split
    · split
      · rfl
      · split <;> rfl
    · rfl
  · rfl

theorem WriteByte_Y (cpu : CPU) (addr value : Nat) :
    (cpu.WriteByte addr value).Y = cpu.Y := by
  unfold CPU.WriteByte CPU.handleIOWrite CPU.writeDisplay
  split
  · split
    · split
      · rfl
      · split <;> rfl
    · rfl
  · rfl

theorem WriteByte_SP (cpu : CPU) (addr value : Nat) :
    (cpu.WriteByte addr value).SP = cpu.SP := by
  unfold CPU.WriteByte CPU.handleIOWrite CPU.writeDisplay
  split
  · split
    · split
      · rfl
      · split <;> rfl
    · rfl
  · rfl

theorem WriteByte_PC (cpu : CPU) (addr value : Nat) :
    (cpu.WriteByte addr value).PC = cpu.PC := by
  unfold CPU.WriteByte CPU.handleIOWrite CPU.writeDisplay
  split
  · split
    · split
      · rfl
      · split <;> rfl
    · rfl
  · rfl

theorem WriteByte_P (cpu : CPU) (addr value : Nat) :
    (cpu.WriteByte addr value).P = cpu.P := by
  unfold CPU.WriteByte CPU.handleIOWrite CPU.writeDisplay
  split
  · split
    · split
      · rfl
      · split <;> rfl
    · rfl
  · rfl

theorem WriteByte_cycles (cpu : CPU) (addr value : Nat) :
    (cpu.WriteByte addr value).cycles = cpu.cycles := by
  unfold CPU.WriteByte CPU.handleIOWrite CPU.writeDisplay
  split
  · split
    · split
      · rfl
      · split <;> rfl
    · rfl
  · rfl

theorem WriteByte_running (cpu : CPU) (addr value : Nat) :
    (cpu.WriteByte addr value).running = cpu.running := by
  unfold CPU.WriteByte CPU.handleIOWrite CPU.writeDisplay
  split
  · split
    · split
      · rfl
      · split <;> rfl
    · rfl
  · rfl
/-- No method of the instruction table touches the running flag. -/
theorem Handler_run_running (h : Handler) (cpu : CPU) (addr : Nat) :
    (h.run cpu addr).running = cpu.running := by
  cases h <;>
    simp only [Handler.run, CPU.BRK, CPU.ORA, CPU.ASL, CPU.PHP, CPU.ASLA, CPU.BPL, CPU.CLC,
      CPU.JSR, CPU.AND, CPU.BIT, CPU.ROL, CPU.PLP, CPU.ROLA, CPU.BMI, CPU.SEC, CPU.RTI, CPU.EOR,
      CPU.LSR, CPU.PHA, CPU.LSRA, CPU.JMP, CPU.BVC, CPU.CLI, CPU.RTS, CPU.ADC, CPU.ROR, CPU.PLA,
      CPU.RORA, CPU.JMPI, CPU.BVS, CPU.SEI, CPU.STA, CPU.STY, CPU.STX, CPU.DEY, CPU.TXA, CPU.BCC,
      CPU.TYA, CPU.TXS, CPU.LDY, CPU.LDA, CPU.LDX, CPU.TAY, CPU.TAX, CPU.BCS, CPU.CLV, CPU.TSX,
      CPU.CPY, CPU.CMP, CPU.DEC, CPU.INY, CPU.DEX, CPU.BNE, CPU.CLD, CPU.CPX, CPU.SBC, CPU.INC,
      CPU.INX, CPU.NOP, CPU.BEQ, CPU.SED, CPU.UpdateZeroAndNegative, CPU.Push, CPU.Pop,
      CPU.PushWord, CPU.PopWord, SetFlag_running, WriteByte_running] <;>
    (try split) <;> rfl
/-- What `SBC` does to the accumulator and the flags, in terms of the difference. -/
theorem SBC_flags (cpu : CPU) (addr : Nat) :
    (cpu.SBC addr).A
      = (((cpu.A : Int) - (cpu.ReadByte addr : Int)
          - ((1 - (if cpu.GetFlag CARRY_FLAG then 1 else 0) : Nat) : Int)) % 256).toNat ∧
    (cpu.SBC addr).GetFlag CARRY_FLAG
      = decide ((cpu.A : Int) - (cpu.ReadByte addr : Int)
          - ((1 - (if cpu.GetFlag CARRY_FLAG then 1 else 0) : Nat) : Int) ≥ 0) ∧
    (cpu.SBC addr).GetFlag OVERFLOW_FLAG
      = ((((cpu.A ^^^ cpu.ReadByte addr) &&& 0x80) != 0) &&
          (((cpu.A ^^^ (((cpu.A : Int) - (cpu.ReadByte addr : Int)
            - ((1 - (if cpu.GetFlag CARRY_FLAG then 1 else 0) : Nat) : Int)) % 256).toNat)
              &&& 0x80) != 0)) ∧
    (cpu.SBC addr).GetFlag ZERO_FLAG = ((cpu.SBC addr).A == 0) ∧
    (cpu.SBC addr).GetFlag NEGATIVE_FLAG = (((cpu.SBC addr).A &&& 0x80) != 0) ∧
    (∀ g ∈ [INTERRUPT_FLAG, DECIMAL_FLAG, BREAK_FLAG, UNUSED_FLAG],
      (cpu.SBC addr).GetFlag g = cpu.GetFlag g) ∧
    (cpu.SBC addr).X = cpu.X ∧ (cpu.SBC addr).Y = cpu.Y ∧ (cpu.SBC addr).SP = cpu.SP ∧
    (cpu.SBC addr).PC = cpu.PC ∧ (cpu.SBC addr).memory = cpu.memory ∧
    (cpu.SBC addr).cycles = cpu.cycles ∧ (cpu.SBC addr).running = cpu.running ∧
    (cpu.SBC addr).out = cpu.out := by
  generalize hr : (cpu.A : Int) - (cpu.ReadByte addr : Int)
      - ((1 - (if cpu.GetFlag CARRY_FLAG then 1 else 0) : Nat) : Int) = r
  generalize hc : decide (r ≥ 0) = c
  generalize hv : ((((cpu.A ^^^ cpu.ReadByte addr) &&& 0x80) != 0) &&
          (((cpu.A ^^^ (r % 256).toNat) &&& 0x80) != 0)) = v
  have hsbc : cpu.SBC addr =
      CPU.UpdateZeroAndNegative
        { ((cpu.SetFlag CARRY_FLAG c).SetFlag OVERFLOW_FLAG v) with A := (r % 256).toNat }
        (r % 256).toNat := by
    unfold CPU.SBC
    simp only [hr, hc, SetFlag_A, hv]
  rw [hsbc]
  obtain ⟨hz, hn, hoth⟩ := UpdateZeroAndNegative_flags
    { ((cpu.SetFlag CARRY_FLAG c).SetFlag OVERFLOW_FLAG v) with A := (r % 256).toNat }
    (r % 256).toNat
  obtain ⟨fa, fx, fy, fsp, fpc, fm, fc, fr, fo⟩ := UpdateZeroAndNegative_fields
    { ((cpu.SetFlag CARRY_FLAG c).SetFlag OVERFLOW_FLAG v) with A := (r % 256).toNat }
    (r % 256).toNat
  have hget : ∀ g, CPU.GetFlag
      { ((cpu.SetFlag CARRY_FLAG c).SetFlag OVERFLOW_FLAG v) with A := (r % 256).toNat } g
      = ((cpu.SetFlag CARRY_FLAG c).SetFlag OVERFLOW_FLAG v).GetFlag g := fun _ => rfl
  refine ⟨fa, ?_, ?_, ?_, ?_, ?_, ?_, ?_, ?_, ?_, ?_, ?_, ?_, ?_⟩
  · rw [hoth _ (by decide) (by decide) (by decide), hget,
      GetFlag_SetFlag_other _ _ _ _ (by decide) (by decide) (by decide),
      GetFlag_SetFlag_same _ _ _ (by decide)]
  · rw [hoth _ (by decide) (by decide) (by decide), hget,
      GetFlag_SetFlag_same _ _ _ (by decide)]
  · rw [hz, fa]
  · rw [hn, fa]
  · intro g hg
    have hg8 : g ∈ statusFlags := by
      revert hg; revert g; decide
    have hgz : g ≠ ZERO_FLAG ∧ g ≠ NEGATIVE_FLAG ∧ OVERFLOW_FLAG ≠ g ∧ CARRY_FLAG ≠ g := by
      revert hg; revert g; decide
    rw [hoth g hg8 hgz.1 hgz.2.1, hget,
      GetFlag_SetFlag_other _ _ _ _ (by decide) hg8 hgz.2.2.1,
      GetFlag_SetFlag_other _ _ _ _ (by decide) hg8 hgz.2.2.2]
  · rw [fx]; simp only [SetFlag_X]
  · rw [fy]; simp only [SetFlag_Y]
  · rw [fsp]; simp only [SetFlag_SP]
  · rw [fpc]; simp only [SetFlag_PC]
  · rw [fm]; simp only [SetFlag_memory]
  · rw [fc]; simp only [SetFlag_cycles]
  · rw [fr]; simp only [SetFlag_running]
  · rw [fo]; simp only [SetFlag_out]
theorem sub8_eq (r m : Nat) (hm : m < 256) :
    sub8 r m = (((r : Int) - (m : Int)) % 256).toNat := by
  unfold sub8
  rw [Nat.mod_eq_of_lt hm]
  omega

theorem sub8_zero (r m : Nat) (hr : r < 256) (hm : m < 256) : (sub8 r m == 0) = decide (r = m) := by
  unfold sub8
  rw [Nat.mod_eq_of_lt hm]
  by_cases h : r = m
  · subst h
    have : (r + (256 - r)) % 256 = 0 := by omega
    simp [this]
  · have : (r + (256 - m)) % 256 ≠ 0 := by omega
    simp [this, h]

/-- The state a compare leaves: carry `c`, Zero and Negative from `res`, all else as it
was. -/
theorem compare_state (cpu : CPU) (c : Bool) (res : Nat) :
    ((cpu.SetFlag CARRY_FLAG c).UpdateZeroAndNegative res).GetFlag CARRY_FLAG = c ∧
    ((cpu.SetFlag CARRY_FLAG c).UpdateZeroAndNegative res).GetFlag ZERO_FLAG = (res == 0) ∧
    ((cpu.SetFlag CARRY_FLAG c).UpdateZeroAndNegative res).GetFlag NEGATIVE_FLAG
      = ((res &&& 0x80) != 0) ∧
    (∀ g ∈ [INTERRUPT_FLAG, DECIMAL_FLAG, BREAK_FLAG, UNUSED_FLAG, OVERFLOW_FLAG],
      ((cpu.SetFlag CARRY_FLAG c).UpdateZeroAndNegative res).GetFlag g = cpu.GetFlag g) ∧
    ((cpu.SetFlag CARRY_FLAG c).UpdateZeroAndNegative res).A = cpu.A ∧
    ((cpu.SetFlag CARRY_FLAG c).UpdateZeroAndNegative res).X = cpu.X ∧
    ((cpu.SetFlag CARRY_FLAG c).UpdateZeroAndNegative res).Y = cpu.Y ∧
    ((cpu.SetFlag CARRY_FLAG c).UpdateZeroAndNegative res).SP = cpu.SP ∧
    ((cpu.SetFlag CARRY_FLAG c).UpdateZeroAndNegative res).PC = cpu.PC ∧
    ((cpu.SetFlag CARRY_FLAG c).UpdateZeroAndNegative res).memory = cpu.memory := by
  obtain ⟨hz, hn, hoth⟩ := UpdateZeroAndNegative_flags (cpu.SetFlag CARRY_FLAG c) res
  obtain ⟨fa, fx, fy, fsp, fpc, fm, _, _, _⟩ :=
    UpdateZeroAndNegative_fields (cpu.SetFlag CARRY_FLAG c) res
  refine ⟨?_, hz, hn, ?_, ?_, ?_, ?_, ?_, ?_, ?_⟩
  · rw [hoth _ (by decide) (by decide) (by decide), GetFlag_SetFlag_same _ _ _ (by decide)]
  · intro g hg
    have hg8 : g ∈ statusFlags := by
      revert hg; revert g; decide
    have hgz : g ≠ ZERO_FLAG ∧ g ≠ NEGATIVE_FLAG ∧ CARRY_FLAG ≠ g := by
      revert hg; revert g; decide
    rw [hoth g hg8 hgz.1 hgz.2.1, GetFlag_SetFlag_other _ _ _ _ (by decide) hg8 hgz.2.2]
  · rw [fa, SetFlag_A]
  · rw [fx, SetFlag_X]
  · rw [fy, SetFlag_Y]
  · rw [fsp, SetFlag_SP]
  · rw [fpc, SetFlag_PC]
  · rw [fm, SetFlag_memory]
/-- `Step` on an opcode the instruction table lists. -/
theorem Step_some (cpu : CPU) (h : Handler)
    (hx : (instructions (cpu.ReadByte cpu.PC)).Execute = some h) :
    cpu.Step = finishStep
      (h.run
        (fetchOperand { cpu with PC := (cpu.PC + 1) % 65536 }
          (instructions (cpu.ReadByte cpu.PC)).AddressMode).2
        (fetchOperand { cpu with PC := (cpu.PC + 1) % 65536 }
          (instructions (cpu.ReadByte cpu.PC)).AddressMode).1)
      (instructions (cpu.ReadByte cpu.PC)).Cycles := by
  unfold CPU.Step
  simp only [hx]
  cases (instructions (cpu.ReadByte cpu.PC)).AddressMode <;> rfl

/-- `Step` on an opcode the instruction table does not list. -/
theorem Step_none (cpu : CPU) (hx : (instructions (cpu.ReadByte cpu.PC)).Execute = none) :
    cpu.Step = { cpu with
      PC := (cpu.PC + 1) % 65536,
      out := cpu.out ++ [.unknownOpcode (cpu.ReadByte cpu.PC)
        (((cpu.PC + 1) % 65536 + 65535) % 65536)],
      running := false } := by
  unfold CPU.Step
  simp only [hx]

theorem branchTable_entries : ∀ e ∈ branchTable,
    (instructions e.1).AddressMode = emulator.AddressingMode.Relative ∧
    (instructions e.1).Cycles = 2 ∧
    ∃ h, (instructions e.1).Execute = some h ∧
      ∀ (cpu : CPU) (addr : Nat), h.run cpu addr
        = if cpu.GetFlag e.2.1 = e.2.2 then { cpu with PC := addr } else cpu := by
  intro e he
  simp only [branchTable, List.mem_cons, List.mem_singleton, List.not_mem_nil, or_false] at he
  rcases he with rfl | rfl | rfl | rfl | rfl | rfl | rfl | rfl
  · refine ⟨by decide, by decide, .BEQ, by decide, fun cpu addr => ?_⟩
    simp only [Handler.run, CPU.BEQ]
  · refine ⟨by decide, by decide, .BNE, by decide, fun cpu addr => ?_⟩
    simp only [Handler.run, CPU.BNE]
    cases cpu.GetFlag ZERO_FLAG <;> rfl
  · refine ⟨by decide, by decide, .BCS, by decide, fun cpu addr => ?_⟩
    simp only [Handler.run, CPU.BCS]
  · refine ⟨by decide, by decide, .BCC, by decide, fun cpu addr => ?_⟩
    simp only [Handler.run, CPU.BCC]
    cases cpu.GetFlag CARRY_FLAG <;> rfl
  · refine ⟨by decide, by decide, .BMI, by decide, fun cpu addr => ?_⟩
    simp only [Handler.run, CPU.BMI]
  · refine ⟨by decide, by decide, .BPL, by decide, fun cpu addr => ?_⟩
    simp only [Handler.run, CPU.BPL]
    cases cpu.GetFlag NEGATIVE_FLAG <;> rfl
  · refine ⟨by decide, by decide, .BVS, by decide, fun cpu addr => ?_⟩
    simp only [Handler.run, CPU.BVS]
  · refine ⟨by decide, by decide, .BVC, by decide, fun cpu addr => ?_⟩
    simp only [Handler.run, CPU.BVC]
    cases cpu.GetFlag OVERFLOW_FLAG <;> rfl

theorem ReadByte_WriteByte_same (cpu : CPU) (x v : Nat) (h1 : x ≠ 0xF001) (h4 : x ≠ 0xF004) :
    (cpu.WriteByte x v).ReadByte x = v := by
  unfold CPU.WriteByte CPU.ReadByte CPU.handleIOWrite CPU.handleIORead
  by_cases hio : x ≥ 0xF000 ∧ x ≤ 0xFFFF
  · simp only [hio, and_self, if_true, h1, h4, if_false]
  · simp only [hio, if_false, if_true]

theorem ReadByte_keyboard (cpu : CPU) : cpu.ReadByte 0xF004 = 0 := by
  unfold CPU.ReadByte CPU.handleIORead CPU.readKeyboard
  simp

theorem WriteByte_display_memory (cpu : CPU) (v : Nat) :
    (cpu.WriteByte 0xF001 v).memory = cpu.memory := by
  unfold CPU.WriteByte CPU.handleIOWrite CPU.writeDisplay
  simp only [ge_iff_le, Nat.reduceLeDiff, and_self, if_true]
  split
  · rfl
  · split <;> rfl

theorem WriteByte_memory (cpu : CPU) (x v a : Nat) (h : a ≠ x) :
    (cpu.WriteByte x v).memory a = cpu.memory a := by
  unfold CPU.WriteByte CPU.handleIOWrite CPU.writeDisplay
  split
  · split
    · split
      · rfl
      · split <;> rfl
    · simp only [h, if_false]
  · simp only [h, if_false]

theorem WriteByte_memory_same (cpu : CPU) (x v : Nat) (h : x < 0xF000) :
    (cpu.WriteByte x v).memory x = v ∧ (cpu.WriteByte x v).out = cpu.out := by
  unfold CPU.WriteByte
  have : ¬ (x ≥ 0xF000 ∧ x ≤ 0xFFFF) := by omega
  simp only [this, if_false, if_true, and_self]

theorem ReadByte_WriteByte_other (cpu : CPU) (x y v : Nat) (h : y ≠ x) :
    (cpu.WriteByte x v).ReadByte y = cpu.ReadByte y := by
  unfold CPU.ReadByte CPU.handleIORead CPU.readKeyboard
  rw [WriteByte_memory cpu x v y h]

theorem ReadByte_low (cpu : CPU) (x : Nat) (h : x < 0xF000) : cpu.ReadByte x = cpu.memory x := by
  unfold CPU.ReadByte
  have : ¬ (x ≥ 0xF000 ∧ x ≤ 0xFFFF) := by omega
  simp only [this, if_false]

theorem stack_address (sp : Nat) (h : sp < 256) : (STACK_BASE + sp) % 65536 = 0x100 + sp := by
  unfold STACK_BASE
  omega

theorem Push_fields (cpu : CPU) (v : Nat) (h : cpu.SP < 256) :
    (cpu.Push v).SP = (cpu.SP + 255) % 256 ∧ (cpu.Push v).memory (0x100 + cpu.SP) = v ∧
    (∀ x, x ≠ 0x100 + cpu.SP → (cpu.Push v).memory x = cpu.memory x) ∧
    (cpu.Push v).A = cpu.A ∧ (cpu.Push v).X = cpu.X ∧ (cpu.Push v).Y = cpu.Y ∧
    (cpu.Push v).PC = cpu.PC ∧ (cpu.Push v).P = cpu.P ∧ (cpu.Push v).cycles = cpu.cycles ∧
    (cpu.Push v).running = cpu.running ∧ (cpu.Push v).out = cpu.out := by
  unfold CPU.Push
  simp only [stack_address cpu.SP h]
  have hlow : 0x100 + cpu.SP < 0xF000 := by omega
  refine ⟨?_, (WriteByte_memory_same cpu _ v hlow).1, fun x hx => WriteByte_memory cpu _ v x hx,
    WriteByte_A cpu _ v, WriteByte_X cpu _ v, WriteByte_Y cpu _ v, WriteByte_PC cpu _ v,
    WriteByte_P cpu _ v, WriteByte_cycles cpu _ v, WriteByte_running cpu _ v,
    (WriteByte_memory_same cpu _ v hlow).2⟩
  show ((cpu.WriteByte (0x100 + cpu.SP) v).SP + 255) % 256 = _
  rw [WriteByte_SP]

theorem Push_SP_lt (cpu : CPU) (v : Nat) : (cpu.Push v).SP < 256 := by
  unfold CPU.Push
  show ((cpu.WriteByte _ v).SP + 255) % 256 < 256
  omega

theorem Pop_fields (cpu : CPU) :
    cpu.Pop.1 = cpu.memory (0x100 + (cpu.SP + 1) % 256) ∧
    cpu.Pop.2 = { cpu with SP := (cpu.SP + 1) % 256 } := by
  unfold CPU.Pop
  refine ⟨?_, rfl⟩
  show CPU.ReadByte { cpu with SP := (cpu.SP + 1) % 256 } ((STACK_BASE + (cpu.SP + 1) % 256) % 65536)
    = _
  rw [stack_address _ (by omega), ReadByte_low _ _ (by omega)]

theorem Pop_snd (cpu : CPU) : cpu.Pop.2 = { cpu with SP := (cpu.SP + 1) % 256 } := rfl

theorem Pop_fst (cpu : CPU) (m : Nat) (h : m = (cpu.SP + 1) % 256) :
    cpu.Pop.1 = cpu.memory (0x100 + m) := by
  rw [h]
  exact (Pop_fields cpu).1

/-- Two pushes followed by two pops. -/
theorem push_push_pop_pop (cpu : CPU) (a b : Nat) (h : cpu.SP < 256) :
    ((cpu.Push a).Push b).Pop.1 = b ∧ ((cpu.Push a).Push b).Pop.2.Pop.1 = a ∧
    ((cpu.Push a).Push b).Pop.2.Pop.2.SP = cpu.SP ∧
    ((cpu.Push a).Push b).Pop.2.Pop.2.memory = ((cpu.Push a).Push b).memory ∧
    ((cpu.Push a).Push b).SP = (cpu.SP + 254) % 256 ∧
    ((cpu.Push a).Push b).memory (0x100 + cpu.SP) = a ∧
    ((cpu.Push a).Push b).memory (0x100 + (cpu.SP + 255) % 256) = b ∧
    (∀ x, x ≠ 0x100 + cpu.SP → x ≠ 0x100 + (cpu.SP + 255) % 256 →
      ((cpu.Push a).Push b).memory x = cpu.memory x) := by
  obtain ⟨s1, m1, o1, -⟩ := Push_fields cpu a h
  obtain ⟨s2, m2, o2, -⟩ := Push_fields (cpu.Push a) b (Push_SP_lt cpu a)
  generalize hq : (cpu.Push a).Push b = q at *
  generalize hp : cpu.Push a = p at *
  rw [s1] at s2 m2 o2
  have hs2 : q.SP = (cpu.SP + 254) % 256 := by rw [s2]; omega
  have hne : 0x100 + cpu.SP ≠ 0x100 + (cpu.SP + 255) % 256 := by omega
  have ma : q.memory (0x100 + cpu.SP) = a := by rw [o2 _ hne, m1]
  have p1 : q.Pop.1 = q.memory (0x100 + (cpu.SP + 255) % 256) :=
    Pop_fst q _ (by rw [hs2]; omega)
  have hsp1 : q.Pop.2.SP = (cpu.SP + 255) % 256 := by
    show (q.SP + 1) % 256 = _
    rw [hs2]; omega
  have hm1 : q.Pop.2.memory = q.memory := rfl
  have p2 : q.Pop.2.Pop.1 = q.Pop.2.memory (0x100 + cpu.SP) :=
    Pop_fst q.Pop.2 _ (by rw [hsp1]; omega)
  have hsp2 : q.Pop.2.Pop.2.SP = cpu.SP := by
    show (q.Pop.2.SP + 1) % 256 = _
    rw [hsp1]; omega
  refine ⟨by rw [p1, m2], by rw [p2, hm1, ma], hsp2, rfl, hs2, ma, m2,
    fun x h1 h2 => by rw [o2 x h2, o1 x h1]⟩

theorem PHA_eq (c : CPU) (addr : Nat) : c.PHA addr = c.Push c.A := rfl

theorem PLA_fields (c : CPU) (addr : Nat) :
    (c.PLA addr).A = c.Pop.1 ∧ (c.PLA addr).SP = (c.SP + 1) % 256 ∧
    (c.PLA addr).PC = c.PC ∧ (c.PLA addr).memory = c.memory := by
  have e : c.PLA addr
      = CPU.UpdateZeroAndNegative { c with SP := (c.SP + 1) % 256, A := c.Pop.1 } c.Pop.1 := rfl
  rw [e]
  obtain ⟨u1, -, -, u4, u5, u6, -⟩ := UpdateZeroAndNegative_fields
    { c with SP := (c.SP + 1) % 256, A := c.Pop.1 } c.Pop.1
  rw [u1, u4, u5, u6]
  exact ⟨rfl, rfl, rfl, rfl⟩

theorem finishStep_fields (c : CPU) (n : Nat) :
    (finishStep c n).A = c.A ∧ (finishStep c n).X = c.X ∧ (finishStep c n).Y = c.Y ∧
    (finishStep c n).SP = c.SP ∧ (finishStep c n).PC = c.PC ∧ (finishStep c n).P = c.P ∧
    (finishStep c n).memory = c.memory ∧ (finishStep c n).out = c.out ∧
    (finishStep c n).cycles = (c.cycles + n) % 2 ^ 64 ∧
    (finishStep c n).running = (if c.PC = 0 then false else c.running) := by
  unfold finishStep
  by_cases h : c.PC = 0
  · simp only [h, if_true, and_self]
  · simp only [h, if_false, and_self]

/-- `Step` on the opcode `op` of a listed instruction. -/
theorem Step_entry (cpu : CPU) (op : Nat) (mode : emulator.AddressingMode) (cyc : Nat)
    (h : Handler) (hop : cpu.ReadByte cpu.PC = op)
    (hmode : (instructions op).AddressMode = mode) (hcyc : (instructions op).Cycles = cyc)
    (hex : (instructions op).Execute = some h) :
    cpu.Step = finishStep
      (h.run (fetchOperand { cpu with PC := (cpu.PC + 1) % 65536 } mode).2
        (fetchOperand { cpu with PC := (cpu.PC + 1) % 65536 } mode).1) cyc := by
  subst hop hmode hcyc
  exact Step_some cpu h hex

theorem ReadByte_congr (c d : CPU) (h : c.memory = d.memory) (x : Nat) :
    c.ReadByte x = d.ReadByte x := by
  unfold CPU.ReadByte CPU.handleIORead CPU.readKeyboard
  rw [h]

theorem ReadWord_congr (c d : CPU) (h : c.memory = d.memory) (x : Nat) :
    c.ReadWord x = d.ReadWord x := by
  unfold CPU.ReadWord
  rw [ReadByte_congr c d h, ReadByte_congr c d h]

theorem high_byte (v : Nat) : ((v >>> 8) &&& 0xFF) % 256 = v / 256 % 256 := by
  have h : (0xFF : Nat) = 2 ^ 8 - 1 := by norm_num
  rw [h, Nat.and_pow_two_sub_one_eq_mod, Nat.shiftRight_eq_div_pow]
  norm_num

theorem low_byte (v : Nat) : (v &&& 0xFF) % 256 = v % 256 := by
  have h : (0xFF : Nat) = 2 ^ 8 - 1 := by norm_num
  rw [h, Nat.and_pow_two_sub_one_eq_mod]
  norm_num

theorem word_join (v : Nat) (h : v < 65536) :
    (((v / 256 % 256) <<< 8) % 65536) ||| (v % 256) = v := by
  have h1 : v / 256 % 256 = v / 256 := Nat.mod_eq_of_lt (by omega)
  rw [h1, Nat.shiftLeft_eq, Nat.mod_eq_of_lt (by omega), Nat.mul_comm]
  have h2 := Nat.mul_add_lt_is_or (Nat.mod_lt v (by norm_num : 0 < 2 ^ 8)) (v / 256)
  norm_num at h2
  rw [← h2]
  omega

theorem PushWord_fields (c : CPU) (v : Nat) (h : c.SP < 256) :
    (c.PushWord v).SP = (c.SP + 254) % 256 ∧
    (c.PushWord v).memory (0x100 + c.SP) = v / 256 % 256 ∧
    (c.PushWord v).memory (0x100 + (c.SP + 255) % 256) = v % 256 ∧
    (∀ x, x ≠ 0x100 + c.SP → x ≠ 0x100 + (c.SP + 255) % 256 →
      (c.PushWord v).memory x = c.memory x) ∧
    (c.PushWord v).A = c.A ∧ (c.PushWord v).X = c.X ∧ (c.PushWord v).Y = c.Y ∧
    (c.PushWord v).PC = c.PC ∧ (c.PushWord v).P = c.P ∧ (c.PushWord v).cycles = c.cycles ∧
    (c.PushWord v).running = c.running ∧ (c.PushWord v).out = c.out := by
  unfold CPU.PushWord
  rw [high_byte, low_byte]
  obtain ⟨s1, m1, o1, a1, x1, y1, pc1, p1, c1, r1, out1⟩ := Push_fields c (v / 256 % 256) h
  obtain ⟨s2, m2, o2, a2, x2, y2, pc2, p2, c2, r2, out2⟩ :=
    Push_fields (c.Push (v / 256 % 256)) (v % 256) (Push_SP_lt c _)
  generalize (c.Push (v / 256 % 256)).Push (v % 256) = q at *
  generalize c.Push (v / 256 % 256) = p at *
  rw [s1] at s2 m2 o2
  have hne : 0x100 + c.SP ≠ 0x100 + (c.SP + 255) % 256 := by omega
  refine ⟨by rw [s2]; omega, by rw [o2 _ hne, m1], m2, fun x h1 h2 => by rw [o2 x h2, o1 x h1],
    by rw [a2, a1], by rw [x2, x1], by rw [y2, y1], by rw [pc2, pc1], by rw [p2, p1],
    by rw [c2, c1], by rw [r2, r1], by rw [out2, out1]⟩

theorem PopWord_fields (c : CPU) :
    c.PopWord.1 = ((c.memory (0x100 + (c.SP + 2) % 256) <<< 8) % 65536)
      ||| c.memory (0x100 + (c.SP + 1) % 256) ∧
    c.PopWord.2.SP = (c.SP + 2) % 256 ∧ c.PopWord.2.memory = c.memory ∧
    c.PopWord.2.A = c.A ∧ c.PopWord.2.X = c.X ∧ c.PopWord.2.Y = c.Y ∧
    c.PopWord.2.PC = c.PC ∧ c.PopWord.2.P = c.P ∧ c.PopWord.2.cycles = c.cycles ∧
    c.PopWord.2.running = c.running ∧ c.PopWord.2.out = c.out := by
  have e1 : c.PopWord.1 = ((c.Pop.2.Pop.1 <<< 8) % 65536) ||| c.Pop.1 := rfl
  have e2 : c.PopWord.2 = { c with SP := ((c.SP + 1) % 256 + 1) % 256 } := rfl
  have hp2 : c.Pop.2.Pop.1 = c.Pop.2.memory (0x100 + (c.SP + 2) % 256) :=
    Pop_fst c.Pop.2 _ (by rw [Pop_snd]; show _ = ((c.SP + 1) % 256 + 1) % 256; omega)
  rw [e1, e2, hp2, (Pop_fields c).1]
  refine ⟨rfl, ?_, rfl, rfl, rfl, rfl, rfl, rfl, rfl, rfl, rfl⟩
  show ((c.SP + 1) % 256 + 1) % 256 = _
  omega

/-- `Step` on the opcode of an instruction without operand. -/
theorem Step_implicit (cpu : CPU) (op cyc : Nat) (h : Handler) (hop : cpu.ReadByte cpu.PC = op)
    (hmode : (instructions op).AddressMode = emulator.AddressingMode.Implicit)
    (hcyc : (instructions op).Cycles = cyc) (hex : (instructions op).Execute = some h) :
    cpu.Step = finishStep (h.run { cpu with PC := (cpu.PC + 1) % 65536 } 0) cyc :=
  Step_entry cpu op emulator.AddressingMode.Implicit cyc h hop hmode hcyc hex

/-- `Step` on the opcode of an instruction with an absolute operand. -/
theorem Step_absolute (cpu : CPU) (op cyc : Nat) (h : Handler) (hop : cpu.ReadByte cpu.PC = op)
    (hmode : (instructions op).AddressMode = emulator.AddressingMode.Absolute)
    (hcyc : (instructions op).Cycles = cyc) (hex : (instructions op).Execute = some h) :
    cpu.Step = finishStep (h.run { cpu with PC := ((cpu.PC + 1) % 65536 + 2) % 65536 }
      (cpu.ReadWord ((cpu.PC + 1) % 65536))) cyc :=
  Step_entry cpu op emulator.AddressingMode.Absolute cyc h hop hmode hcyc hex

theorem JSR_fields (c : CPU) (addr : Nat) (h : c.SP < 256) :
    (c.JSR addr).PC = addr ∧ (c.JSR addr).SP = (c.SP + 254) % 256 ∧
    (c.JSR addr).memory (0x100 + c.SP) = (c.PC + 65535) % 65536 / 256 % 256 ∧
    (c.JSR addr).memory (0x100 + (c.SP + 255) % 256) = (c.PC + 65535) % 65536 % 256 ∧
    (∀ x, x ≠ 0x100 + c.SP → x ≠ 0x100 + (c.SP + 255) % 256 →
      (c.JSR addr).memory x = c.memory x) ∧
    (c.JSR addr).A = c.A ∧ (c.JSR addr).X = c.X ∧ (c.JSR addr).Y = c.Y ∧
    (c.JSR addr).P = c.P ∧ (c.JSR addr).cycles = c.cycles ∧
    (c.JSR addr).running = c.running ∧ (c.JSR addr).out = c.out := by
  have e : c.JSR addr
      = { CPU.PushWord { c with PC := (c.PC + 65535) % 65536 } ((c.PC + 65535) % 65536)
          with PC := addr } := rfl
  obtain ⟨s, m1, m2, o, a, x, y, -, p, cy, r, out⟩ :=
    PushWord_fields { c with PC := (c.PC + 65535) % 65536 } ((c.PC + 65535) % 65536) h
  rw [e]
  generalize CPU.PushWord { c with PC := (c.PC + 65535) % 65536 } ((c.PC + 65535) % 65536) = q
    at *
  exact ⟨rfl, s, m1, m2, o, a, x, y, p, cy, r, out⟩

theorem RTS_fields (c : CPU) (addr : Nat) :
    (c.RTS addr).PC = (((c.memory (0x100 + (c.SP + 2) % 256) <<< 8) % 65536
      ||| c.memory (0x100 + (c.SP + 1) % 256)) + 1) % 65536 ∧
    (c.RTS addr).SP = (c.SP + 2) % 256 ∧ (c.RTS addr).memory = c.memory ∧
    (c.RTS addr).A = c.A ∧ (c.RTS addr).X = c.X ∧ (c.RTS addr).Y = c.Y ∧
    (c.RTS addr).P = c.P ∧ (c.RTS addr).cycles = c.cycles ∧
    (c.RTS addr).running = c.running ∧ (c.RTS addr).out = c.out := by
  have e : c.RTS addr = { c.PopWord.2 with PC := (c.PopWord.1 + 1) % 65536 } := rfl
  obtain ⟨w, s, m, a, x, y, -, p, cy, r, out⟩ := PopWord_fields c
  rw [e]
  generalize c.PopWord = q at *
  rw [← w]
  exact ⟨rfl, s, m, a, x, y, p, cy, r, out⟩

theorem ReadByte_of_memory (c d : CPU) (x : Nat) (h : c.memory x = d.memory x) :
    c.ReadByte x = d.ReadByte x := by
  unfold CPU.ReadByte CPU.handleIORead CPU.readKeyboard
  rw [h]

theorem ReadWord_of_memory (c d : CPU) (x : Nat) (h1 : c.memory x = d.memory x)
    (h2 : c.memory ((x + 1) % 65536) = d.memory ((x + 1) % 65536)) :
    c.ReadWord x = d.ReadWord x := by
  unfold CPU.ReadWord
  rw [ReadByte_of_memory c d x h1, ReadByte_of_memory c d _ h2]

theorem SetFlag_true_P (c : CPU) (f : Nat) : (c.SetFlag f true).P = c.P ||| f := rfl

theorem BRK_fields (c : CPU) (addr : Nat) (h : c.SP < 256) :
    (c.BRK addr).PC = c.ReadWord IRQ_VECTOR ∧ (c.BRK addr).SP = (c.SP + 253) % 256 ∧
    (c.BRK addr).P = c.P ||| INTERRUPT_FLAG ∧
    (c.BRK addr).memory (0x100 + c.SP) = (c.PC + 1) % 65536 / 256 % 256 ∧
    (c.BRK addr).memory (0x100 + (c.SP + 255) % 256) = (c.PC + 1) % 65536 % 256 ∧
    (c.BRK addr).memory (0x100 + (c.SP + 254) % 256) = c.P ||| BREAK_FLAG ∧
    (∀ x, x ≠ 0x100 + c.SP → x ≠ 0x100 + (c.SP + 255) % 256 →
      x ≠ 0x100 + (c.SP + 254) % 256 → (c.BRK addr).memory x = c.memory x) ∧
    (c.BRK addr).A = c.A ∧ (c.BRK addr).X = c.X ∧ (c.BRK addr).Y = c.Y ∧
    (c.BRK addr).cycles = c.cycles ∧ (c.BRK addr).running = c.running ∧
    (c.BRK addr).out = c.out := by
  have e : c.BRK addr
      = { CPU.SetFlag (CPU.Push
            (CPU.PushWord { c with PC := (c.PC + 1) % 65536 } ((c.PC + 1) % 65536))
            ((CPU.PushWord { c with PC := (c.PC + 1) % 65536 } ((c.PC + 1) % 65536)).P
              ||| BREAK_FLAG)) INTERRUPT_FLAG true
          with PC := CPU.ReadWord (CPU.SetFlag (CPU.Push
            (CPU.PushWord { c with PC := (c.PC + 1) % 65536 } ((c.PC + 1) % 65536))
            ((CPU.PushWord { c with PC := (c.PC + 1) % 65536 } ((c.PC + 1) % 65536)).P
              ||| BREAK_FLAG)) INTERRUPT_FLAG true) IRQ_VECTOR } := rfl
  rw [e]
  obtain ⟨s2, mh, ml, o2, a2, x2, y2, -, p2, cy2, r2, out2⟩ :=
    PushWord_fields { c with PC := (c.PC + 1) % 65536 } ((c.PC + 1) % 65536) h
  have S2 : (CPU.PushWord { c with PC := (c.PC + 1) % 65536 } ((c.PC + 1) % 65536)).SP
      = (c.SP + 254) % 256 := s2
  have MH : (CPU.PushWord { c with PC := (c.PC + 1) % 65536 } ((c.PC + 1) % 65536)).memory
      (0x100 + c.SP) = (c.PC + 1) % 65536 / 256 % 256 := mh
  have ML : (CPU.PushWord { c with PC := (c.PC + 1) % 65536 } ((c.PC + 1) % 65536)).memory
      (0x100 + (c.SP + 255) % 256) = (c.PC + 1) % 65536 % 256 := ml
  have O2 : ∀ x, x ≠ 0x100 + c.SP → x ≠ 0x100 + (c.SP + 255) % 256 →
      (CPU.PushWord { c with PC := (c.PC + 1) % 65536 } ((c.PC + 1) % 65536)).memory x
        = c.memory x := o2
  have A2 : (CPU.PushWord { c with PC := (c.PC + 1) % 65536 } ((c.PC + 1) % 65536)).A = c.A := a2
  have X2 : (CPU.PushWord { c with PC := (c.PC + 1) % 65536 } ((c.PC + 1) % 65536)).X = c.X := x2
  have Y2 : (CPU.PushWord { c with PC := (c.PC + 1) % 65536 } ((c.PC + 1) % 65536)).Y = c.Y := y2
  have P2 : (CPU.PushWord { c with PC := (c.PC + 1) % 65536 } ((c.PC + 1) % 65536)).P = c.P := p2
  have CY2 : (CPU.PushWord { c with PC := (c.PC + 1) % 65536 } ((c.PC + 1) % 65536)).cycles
      = c.cycles := cy2
  have R2 : (CPU.PushWord { c with PC := (c.PC + 1) % 65536 } ((c.PC + 1) % 65536)).running
      = c.running := r2
  have OUT2 : (CPU.PushWord { c with PC := (c.PC + 1) % 65536 } ((c.PC + 1) % 65536)).out
      = c.out := out2
  clear s2 mh ml o2 a2 x2 y2 p2 cy2 r2 out2 e
  generalize CPU.PushWord { c with PC := (c.PC + 1) % 65536 } ((c.PC + 1) % 65536) = q at *
  obtain ⟨s3, m3, o3, a3, x3, y3, -, p3, cy3, r3, out3⟩ :=
    Push_fields q (q.P ||| BREAK_FLAG) (by rw [S2]; omega)
  rw [S2] at s3 m3 o3
  generalize q.Push (q.P ||| BREAK_FLAG) = t at *
  have hmem : (t.SetFlag INTERRUPT_FLAG true).memory = t.memory := SetFlag_memory t _ _
  have n1 : 0x100 + c.SP ≠ 0x100 + (c.SP + 254) % 256 := by omega
  have n2 : 0x100 + (c.SP + 255) % 256 ≠ 0x100 + (c.SP + 254) % 256 := by omega
  have hvec : ∀ x, 0x200 ≤ x → t.memory x = c.memory x := fun x hx => by
    rw [o3 x (by omega), O2 x (by omega) (by omega)]
  refine ⟨?_, ?_, ?_, ?_, ?_, ?_, ?_, ?_, ?_, ?_, ?_, ?_, ?_⟩
  · show CPU.ReadWord (t.SetFlag INTERRUPT_FLAG true) IRQ_VECTOR = _
    apply ReadWord_of_memory
    · rw [hmem]; exact hvec _ (by decide)
    · rw [hmem]; exact hvec _ (by decide)
  · show (t.SetFlag INTERRUPT_FLAG true).SP = _
    rw [SetFlag_SP, s3]; omega
  · show (t.SetFlag INTERRUPT_FLAG true).P = _
    rw [SetFlag_true_P, p3, P2]
  · show (t.SetFlag INTERRUPT_FLAG true).memory _ = _
    rw [hmem, o3 _ n1, MH]
  · show (t.SetFlag INTERRUPT_FLAG true).memory _ = _
    rw [hmem, o3 _ n2, ML]
  · show (t.SetFlag INTERRUPT_FLAG true).memory _ = _
    rw [hmem, m3, P2]
  · intro x h1 h2 h3
    show (t.SetFlag INTERRUPT_FLAG true).memory _ = _
    rw [hmem, o3 x h3, O2 x h1 h2]
  · show (t.SetFlag INTERRUPT_FLAG true).A = _
    rw [SetFlag_A, a3, A2]
  · show (t.SetFlag INTERRUPT_FLAG true).X = _
    rw [SetFlag_X, x3, X2]
  · show (t.SetFlag INTERRUPT_FLAG true).Y = _
    rw [SetFlag_Y, y3, Y2]
  · show (t.SetFlag INTERRUPT_FLAG true).cycles = _
    rw [SetFlag_cycles, cy3, CY2]
  · show (t.SetFlag INTERRUPT_FLAG true).running = _
    rw [SetFlag_running, r3, R2]
  · show (t.SetFlag INTERRUPT_FLAG true).out = _
    rw [SetFlag_out, out3, OUT2]

theorem fetchOperand_fields (c : CPU) (mode : emulator.AddressingMode) :
    (fetchOperand c mode).2.A = c.A ∧ (fetchOperand c mode).2.X = c.X ∧
    (fetchOperand c mode).2.Y = c.Y ∧ (fetchOperand c mode).2.SP = c.SP ∧
    (fetchOperand c mode).2.P = c.P ∧ (fetchOperand c mode).2.memory = c.memory ∧
    (fetchOperand c mode).2.cycles = c.cycles ∧ (fetchOperand c mode).2.running = c.running ∧
    (fetchOperand c mode).2.out = c.out := by
  cases mode <;> exact ⟨rfl, rfl, rfl, rfl, rfl, rfl, rfl, rfl, rfl⟩

theorem fetchOperand_PC (c : CPU) (mode : emulator.AddressingMode) (h : c.PC < 65536) :
    (fetchOperand c mode).2.PC = (c.PC + tableOperandBytes mode) % 65536 := by
  cases mode
  case Implicit => exact (Nat.mod_eq_of_lt h).symm
  case Accumulator => exact (Nat.mod_eq_of_lt h).symm
  all_goals rfl

set_option maxRecDepth 100000

/-- Every listed entry of the instruction table has a method. -/
theorem instructionTable_execute : ∀ e ∈ instructionTable, e.2.Execute ≠ none := by
  decide

/-- An opcode has no method exactly when the table does not list it. -/
theorem instructions_none_iff (op : Nat) :
    (instructions op).Execute = none ↔ ∀ e ∈ instructionTable, e.1 ≠ op := by
  unfold instructions
  cases hf : instructionTable.find? (fun e => decide (e.1 = op)) with
  | none =>
    simp only [Option.map_none', Option.getD_none, true_iff]
    intro e he heq
    have := List.find?_eq_none.mp hf e he
    simp only [decide_eq_true_eq] at this
    exact this heq
  | some e =>
    simp only [Option.map_some', Option.getD_some]
    have hmem := List.mem_of_find?_eq_some hf
    have hp := List.find?_some hf
    simp only [decide_eq_true_eq] at hp
    constructor
    · intro h
      exact absurd h (instructionTable_execute e hmem)
    · intro h
      exact absurd hp (h e hmem)

/-- A method that does not assign `cpu.PC` leaves PC as it was. -/
theorem Handler_run_PC (h : Handler) (hk : h.assignsPC = false) (cpu : CPU) (addr : Nat) :
    (h.run cpu addr).PC = cpu.PC := by
  cases h <;> first
    | exact absurd hk (by decide)
    | (simp only [Handler.run, CPU.ORA, CPU.ASL, CPU.PHP, CPU.ASLA, CPU.CLC,
        CPU.AND, CPU.BIT, CPU.ROL, CPU.PLP, CPU.ROLA, CPU.SEC, CPU.EOR,
        CPU.LSR, CPU.PHA, CPU.LSRA, CPU.CLI, CPU.ADC, CPU.ROR, CPU.PLA,
        CPU.RORA, CPU.SEI, CPU.STA, CPU.STY, CPU.STX, CPU.DEY, CPU.TXA,
        CPU.TYA, CPU.TXS, CPU.LDY, CPU.LDA, CPU.LDX, CPU.TAY, CPU.TAX, CPU.CLV, CPU.TSX,
        CPU.CPY, CPU.CMP, CPU.DEC, CPU.INY, CPU.DEX, CPU.CLD, CPU.CPX, CPU.SBC, CPU.INC,
        CPU.INX, CPU.NOP, CPU.SED, CPU.UpdateZeroAndNegative, CPU.Push, CPU.Pop,
        SetFlag_PC, WriteByte_PC] <;> (try split) <;> rfl)

/-- The emulator decodes every opcode of the assembler table as the assembler sized it. -/
theorem assemblerPairs_decodesAs : ∀ t ∈ assemblerPairs, decodesAs t = true := by
  decide

/-- The opcode table lists every branch mnemonic, with no entry for a mode the parser
returns, and every shift mnemonic, with no entry for the Implicit mode. -/
theorem rejected_lookups :
    (∀ m ∈ branchMnemonics, ∀ mode ∈ parserModes,
      (lookupMnemonic m.data).map (fun mp => lookupMode mp mode) = some none) ∧
    (∀ m ∈ shiftMnemonics,
      (lookupMnemonic m.data).map (fun mp => lookupMode mp AddrImplicit) = some none) := by
  decide

theorem firstPassStep_rejected (cg : CodeGenerator) (inst : assembler.Instruction)
    (hr : branchOrBareShift inst) (hm : inst.AddressMode ∈ parserModes) :
    firstPassStep cg inst
      = (some (.invalidAddressingMode inst.Mnemonic inst.Line), cg,
          { inst with Address := cg.pc }) := by
  obtain ⟨ht, hcase⟩ := hr
  have hl : (lookupMnemonic inst.Mnemonic).map (fun mp => lookupMode mp inst.AddressMode)
      = some none := by
    rcases hcase with ⟨m, hmem, hmn⟩ | ⟨⟨m, hmem, hmn⟩, himp⟩
    · rw [hmn]; exact rejected_lookups.1 m hmem _ hm
    · rw [hmn, himp]; exact rejected_lookups.2 m hmem
  unfold firstPassStep
  rw [ht]
  simp only
  cases hlm : lookupMnemonic inst.Mnemonic with
  | none => rw [hlm] at hl; simp at hl
  | some mp =>
    rw [hlm] at hl
    simp only [Option.map_some', Option.some.injEq] at hl
    simp only [hl]

/-- The errors of one step of pass 1. -/
theorem firstPassStep_error (cg : CodeGenerator) (inst : assembler.Instruction) (e : GenError)
    (h : (firstPassStep cg inst).1 = some e) :
    (firstPassStep cg inst).2.1 = cg ∧
    (e = .invalidAddressingMode inst.Mnemonic inst.Line ∨
      e = .unknownMnemonic inst.Mnemonic inst.Line) := by
  unfold firstPassStep at h ⊢
  cases ht : inst.Typ with
  | InstDirective =>
    rw [ht] at h
    simp only at h
    split at h
    · simp at h
    · split at h
      · simp at h
      · split at h <;> simp at h
  | InstLabel => rw [ht] at h; simp at h
  | InstMnemonic =>
    rw [ht] at h
    simp only at h ⊢
    cases hlm : lookupMnemonic inst.Mnemonic with
    | none =>
      rw [hlm] at h
      simp only [Option.some.injEq] at h
      exact ⟨rfl, Or.inr h.symm⟩
    | some mp =>
      rw [hlm] at h
      simp only at h ⊢
      cases hmd : lookupMode mp inst.AddressMode with
      | none =>
        rw [hmd] at h
        simp only [Option.some.injEq] at h
        exact ⟨rfl, Or.inl h.symm⟩
      | some info => rw [hmd] at h; simp at h

/-- Pass 1 over `pre ++ inst :: post` when it succeeds on `pre` and fails on `inst`. -/
theorem firstPassLoop_stops (pre : List assembler.Instruction) :
    ∀ (cg cg1 cg2 : CodeGenerator) (pre1 post : List assembler.Instruction)
      (inst inst1 : assembler.Instruction) (e : GenError),
    firstPassLoop cg pre = (none, cg1, pre1) → firstPassStep cg1 inst = (some e, cg2, inst1) →
    (firstPassLoop cg (pre ++ inst :: post)).1 = some e ∧
    (firstPassLoop cg (pre ++ inst :: post)).2.1 = cg2 := by
  induction pre with
  | nil =>
    intro cg cg1 cg2 pre1 post inst inst1 e h1 h2
    rw [firstPassLoop_nil] at h1
    simp only [Prod.mk.injEq, true_and] at h1
    rw [← h1.1] at h2
    rw [List.nil_append, firstPassLoop_cons_err cg cg2 inst inst1 e post h2]
    exact ⟨rfl, rfl⟩
  | cons x xs ih =>
    intro cg cg1 cg2 pre1 post inst inst1 e h1 h2
    obtain ⟨cga, x1, rest1, hstep, hrest, -⟩ := firstPassLoop_cons_inv cg cg1 x xs pre1 h1
    rw [List.cons_append, firstPassLoop_cons_ok cg cga x x1 _ hstep]
    exact ih cga cg1 cg2 rest1 post inst inst1 e hrest h2

/-- Pass 1 fails on a list that holds an item on which its step fails from every state, and
its error is then the error of the step on some item of the list. -/
theorem firstPassLoop_fails (xs : List assembler.Instruction) :
    ∀ cg : CodeGenerator,
    (∃ i ∈ xs, ∀ cg1 : CodeGenerator, (firstPassStep cg1 i).1 ≠ none) →
    ∃ e, (firstPassLoop cg xs).1 = some e ∧
      ∃ j ∈ xs, e = .invalidAddressingMode j.Mnemonic j.Line ∨
        e = .unknownMnemonic j.Mnemonic j.Line := by
  induction xs with
  | nil => intro cg h; obtain ⟨i, hi, -⟩ := h; simp at hi
  | cons x xs ih =>
    intro cg h
    rcases hs : firstPassStep cg x with ⟨e, cg1, x1⟩
    cases e with
    | some e =>
      rw [firstPassLoop_cons_err cg cg1 x x1 e xs hs]
      have := firstPassStep_error cg x e (by rw [hs])
      exact ⟨e, rfl, x, List.mem_cons_self _ _, this.2⟩
    | none =>
      rw [firstPassLoop_cons_ok cg cg1 x x1 xs hs]
      obtain ⟨i, hi, hfail⟩ := h
      rcases List.mem_cons.1 hi with rfl | hi
      · exact absurd (by rw [hs]) (hfail cg)
      · obtain ⟨e, he, j, hj, hform⟩ := ih cg1 ⟨i, hi, hfail⟩
        exact ⟨e, he, j, List.mem_cons_of_mem _ hj, hform⟩

/-- `Generate` when pass 1 fails: the error of pass 1, and the output image untouched. -/
theorem Generate_of_firstPass_error (cg : CodeGenerator) (items : List assembler.Instruction)
    (output : Image) (e : GenError) (h : (firstPass cg items).1 = some e) :
    (Generate cg items output).1 = some e ∧ (Generate cg items output).2.2 = output := by
  unfold Generate
  rcases hfp : firstPass cg items with ⟨e1, cg1, items1⟩
  rw [hfp] at h
  simp only at h
  subst h
  exact ⟨rfl, rfl⟩

/-- Bit 7 of a number, as the test `(n & 0x80) != 0`. -/
theorem and_128 (n : Nat) : n &&& 0x80 = if n.testBit 7 then 0x80 else 0 := by
  have h2 : (0x80 : Nat) = 2 ^ 7 := by norm_num
  cases h : n.testBit 7
  · rw [if_neg (by simp), h2]
    apply Nat.eq_of_testBit_eq
    intro i
    rw [Nat.testBit_and, Nat.testBit_two_pow, Nat.zero_testBit]
    by_cases hi : 7 = i
    · subst hi; rw [h]; rfl
    · simp [hi]
  · rw [if_pos rfl, h2]
    apply Nat.eq_of_testBit_eq
    intro i
    rw [Nat.testBit_and, Nat.testBit_two_pow]
    by_cases hi : 7 = i
    · subst hi; rw [h]; rfl
    · simp [hi]

theorem and_128_ne (n : Nat) : ((n &&& 0x80) != 0) = n.testBit 7 := by
  rw [and_128]
  cases n.testBit 7 <;> rfl

theorem and_128_eq (n : Nat) : ((n &&& 0x80) == 0) = !n.testBit 7 := by
  rw [and_128]
  cases n.testBit 7 <;> rfl

theorem testBit_7 (n : Nat) (h : n < 256) : n.testBit 7 = decide (128 ≤ n) := by
  rw [Nat.testBit_to_div_mod]
  have : n / 2 ^ 7 % 2 = 1 ↔ 128 ≤ n := by
    norm_num
    omega
  simp only [this]

theorem testBit_7_mod (n : Nat) : n.testBit 7 = decide (128 ≤ n % 256) := by
  rw [← testBit_7 (n % 256) (Nat.mod_lt _ (by norm_num))]
  have h : (256 : Nat) = 2 ^ 8 := by norm_num
  rw [h, Nat.testBit_mod_two_pow]
  simp

theorem xor_255 (m : Nat) (h : m < 256) : m ^^^ 0xFF = 255 - m := by
  have key : ∀ k < 256, k ^^^ 0xFF = 255 - k := by decide
  exact key m h

theorem testBit_mod_256 (n : Nat) : (n % 256).testBit 7 = n.testBit 7 := by
  have h : (256 : Nat) = 2 ^ 8 := by norm_num
  rw [h, Nat.testBit_mod_two_pow]
  simp

theorem SetFlag_status (c : CPU) (f : Nat) (b : Bool)
    (hf : f ∈ [CARRY_FLAG, ZERO_FLAG, INTERRUPT_FLAG, DECIMAL_FLAG, OVERFLOW_FLAG,
      NEGATIVE_FLAG]) :
    (c.SetFlag f b).P &&& 0x30 = c.P &&& 0x30 := by
  have key : ∀ g ∈ [CARRY_FLAG, ZERO_FLAG, INTERRUPT_FLAG, DECIMAL_FLAG, OVERFLOW_FLAG,
      NEGATIVE_FLAG], g &&& 0x30 = 0 ∧ (0xFF ^^^ g) &&& 0x30 = 0x30 := by decide
  obtain ⟨h1, h2⟩ := key f hf
  cases b
  · show (c.P &&& (0xFF ^^^ f)) &&& 0x30 = _
    exact and_mask_flag _ _ _ h2
  · show (c.P ||| f) &&& 0x30 = _
    exact and_or_flag _ _ _ h1

theorem SetFlag_status_C (c : CPU) (b : Bool) :
    (c.SetFlag CARRY_FLAG b).P &&& 0x30 = c.P &&& 0x30 := SetFlag_status c _ b (by decide)

theorem SetFlag_status_Z (c : CPU) (b : Bool) :
    (c.SetFlag ZERO_FLAG b).P &&& 0x30 = c.P &&& 0x30 := SetFlag_status c _ b (by decide)

theorem SetFlag_status_I (c : CPU) (b : Bool) :
    (c.SetFlag INTERRUPT_FLAG b).P &&& 0x30 = c.P &&& 0x30 := SetFlag_status c _ b (by decide)

theorem SetFlag_status_D (c : CPU) (b : Bool) :
    (c.SetFlag DECIMAL_FLAG b).P &&& 0x30 = c.P &&& 0x30 := SetFlag_status c _ b (by decide)

theorem SetFlag_status_V (c : CPU) (b : Bool) :
    (c.SetFlag OVERFLOW_FLAG b).P &&& 0x30 = c.P &&& 0x30 := SetFlag_status c _ b (by decide)

theorem SetFlag_status_N (c : CPU) (b : Bool) :
    (c.SetFlag NEGATIVE_FLAG b).P &&& 0x30 = c.P &&& 0x30 := SetFlag_status c _ b (by decide)

/-- The status byte `PLP` and `RTI` build from a popped value has the unused bit set and the
break bit clear. -/
theorem pulled_status (v : Nat) :
    ((v ||| UNUSED_FLAG) &&& (0xFF ^^^ BREAK_FLAG)) &&& 0x30 = 0x20 := by
  rw [Nat.and_assoc]
  have h : (0xFF ^^^ BREAK_FLAG) &&& 0x30 = UNUSED_FLAG := by decide
  rw [h, or_flag_same]
  rfl

/-- Every method of the instruction table keeps the unused bit of P set and the break bit
clear. -/
theorem Handler_run_status (h : Handler) (cpu : CPU) (addr : Nat)
    (hinv : cpu.P &&& 0x30 = 0x20) : (h.run cpu addr).P &&& 0x30 = 0x20 := by
  cases h <;>
    simp only [Handler.run, CPU.BRK, CPU.ORA, CPU.ASL, CPU.PHP, CPU.ASLA, CPU.BPL, CPU.CLC,
      CPU.JSR, CPU.AND, CPU.BIT, CPU.ROL, CPU.PLP, CPU.ROLA, CPU.BMI, CPU.SEC, CPU.RTI, CPU.EOR,
      CPU.LSR, CPU.PHA, CPU.LSRA, CPU.JMP, CPU.BVC, CPU.CLI, CPU.RTS, CPU.ADC, CPU.ROR, CPU.PLA,
      CPU.RORA, CPU.JMPI, CPU.BVS, CPU.SEI, CPU.STA, CPU.STY, CPU.STX, CPU.DEY, CPU.TXA, CPU.BCC,
      CPU.TYA, CPU.TXS, CPU.LDY, CPU.LDA, CPU.LDX, CPU.TAY, CPU.TAX, CPU.BCS, CPU.CLV, CPU.TSX,
      CPU.CPY, CPU.CMP, CPU.DEC, CPU.INY, CPU.DEX, CPU.BNE, CPU.CLD, CPU.CPX, CPU.SBC, CPU.INC,
      CPU.INX, CPU.NOP, CPU.BEQ, CPU.SED, CPU.UpdateZeroAndNegative, CPU.Push, CPU.Pop,
      CPU.PushWord, CPU.PopWord, SetFlag_status_C, SetFlag_status_Z, SetFlag_status_I,
      SetFlag_status_D, SetFlag_status_V, SetFlag_status_N, WriteByte_P, pulled_status] <;>
    (try split) <;> first | exact hinv | rfl | (simp only [SetFlag_status_C]; exact hinv)

/-- One `Step` keeps the unused bit of P set and the break bit clear. -/
theorem Step_status (cpu : CPU) (hinv : cpu.P &&& 0x30 = 0x20) : cpu.Step.P &&& 0x30 = 0x20 := by
  cases hx : (instructions (cpu.ReadByte cpu.PC)).Execute with
  | none =>
    rw [Step_none cpu hx]
    exact hinv
  | some h =>
    rw [Step_some cpu h hx, (finishStep_fields _ _).2.2.2.2.2.1]
    apply Handler_run_status
    rw [(fetchOperand_fields _ _).2.2.2.2.1]
    exact hinv

theorem stepN_status : ∀ (n : Nat) (cpu : CPU), cpu.P &&& 0x30 = 0x20 →
    (stepN n cpu).P &&& 0x30 = 0x20 := by
  intro n
  induction n with
  | zero => intro cpu h; exact h
  | succ n ih => intro cpu h; exact ih cpu.Step (Step_status cpu h)

/-- The state `Run` returns is the state after some number of `Step`s. -/
theorem Run_stepN : ∀ (fuel : Nat) (cpu c : CPU), CPU.Run fuel cpu = some c →
    ∃ n, c = stepN n cpu := by
  intro fuel
  induction fuel with
  | zero =>
    intro cpu c h
    unfold CPU.Run at h
    split at h
    · simp at h
    · simp only [Option.some.injEq] at h
      exact ⟨0, h.symm⟩
  | succ fuel ih =>
    intro cpu c h
    unfold CPU.Run at h
    split at h
    · obtain ⟨n, hn⟩ := ih cpu.Step c h
      exact ⟨n + 1, hn⟩
    · simp only [Option.some.injEq] at h
      exact ⟨0, h.symm⟩

theorem status_bits (p : Nat) (h : p &&& 0x30 = 0x20) :
    ((p &&& UNUSED_FLAG) != 0) = true ∧ ((p &&& BREAK_FLAG) != 0) = false := by
  have h1 : p &&& UNUSED_FLAG = (p &&& 0x30) &&& UNUSED_FLAG := by
    rw [Nat.and_assoc]; rfl
  have h2 : p &&& BREAK_FLAG = (p &&& 0x30) &&& BREAK_FLAG := by
    rw [Nat.and_assoc]; rfl
  rw [h1, h2, h]
  exact ⟨rfl, rfl⟩

theorem RTI_fields (c : CPU) (addr : Nat) :
    (c.RTI addr).P
      = (c.memory (0x100 + (c.SP + 1) % 256) ||| UNUSED_FLAG) &&& (0xFF ^^^ BREAK_FLAG) ∧
    (c.RTI addr).PC = ((c.memory (0x100 + (c.SP + 3) % 256) <<< 8) % 65536)
      ||| c.memory (0x100 + (c.SP + 2) % 256) ∧
    (c.RTI addr).SP = (c.SP + 3) % 256 ∧ (c.RTI addr).memory = c.memory ∧
    (c.RTI addr).A = c.A ∧ (c.RTI addr).X = c.X ∧ (c.RTI addr).Y = c.Y ∧
    (c.RTI addr).cycles = c.cycles ∧ (c.RTI addr).running = c.running ∧
    (c.RTI addr).out = c.out := by
  have e : c.RTI addr
      = { (CPU.PopWord { c.Pop.2 with
              P := (c.Pop.1 ||| UNUSED_FLAG) &&& (0xFF ^^^ BREAK_FLAG) }).2 with
          PC := (CPU.PopWord { c.Pop.2 with
              P := (c.Pop.1 ||| UNUSED_FLAG) &&& (0xFF ^^^ BREAK_FLAG) }).1 } := rfl
  obtain ⟨w, s, m, a, x, y, -, p, cy, r, out⟩ := PopWord_fields
    { c.Pop.2 with P := (c.Pop.1 ||| UNUSED_FLAG) &&& (0xFF ^^^ BREAK_FLAG) }
  have hv := (Pop_fields c).1
  have W : (CPU.PopWord { c.Pop.2 with
        P := (c.Pop.1 ||| UNUSED_FLAG) &&& (0xFF ^^^ BREAK_FLAG) }).1
      = ((c.memory (0x100 + ((c.SP + 1) % 256 + 2) % 256) <<< 8) % 65536)
        ||| c.memory (0x100 + ((c.SP + 1) % 256 + 1) % 256) := w
  have S : (CPU.PopWord { c.Pop.2 with
        P := (c.Pop.1 ||| UNUSED_FLAG) &&& (0xFF ^^^ BREAK_FLAG) }).2.SP
      = ((c.SP + 1) % 256 + 2) % 256 := s
  have M : (CPU.PopWord { c.Pop.2 with
        P := (c.Pop.1 ||| UNUSED_FLAG) &&& (0xFF ^^^ BREAK_FLAG) }).2.memory = c.memory := m
  have A : (CPU.PopWord { c.Pop.2 with
        P := (c.Pop.1 ||| UNUSED_FLAG) &&& (0xFF ^^^ BREAK_FLAG) }).2.A = c.A := a
  have X : (CPU.PopWord { c.Pop.2 with
        P := (c.Pop.1 ||| UNUSED_FLAG) &&& (0xFF ^^^ BREAK_FLAG) }).2.X = c.X := x
  have Y : (CPU.PopWord { c.Pop.2 with
        P := (c.Pop.1 ||| UNUSED_FLAG) &&& (0xFF ^^^ BREAK_FLAG) }).2.Y = c.Y := y
  have P : (CPU.PopWord { c.Pop.2 with
        P := (c.Pop.1 ||| UNUSED_FLAG) &&& (0xFF ^^^ BREAK_FLAG) }).2.P
      = (c.Pop.1 ||| UNUSED_FLAG) &&& (0xFF ^^^ BREAK_FLAG) := p
  have CY : (CPU.PopWord { c.Pop.2 with
        P := (c.Pop.1 ||| UNUSED_FLAG) &&& (0xFF ^^^ BREAK_FLAG) }).2.cycles = c.cycles := cy
  have R : (CPU.PopWord { c.Pop.2 with
        P := (c.Pop.1 ||| UNUSED_FLAG) &&& (0xFF ^^^ BREAK_FLAG) }).2.running = c.running := r
  have OUT : (CPU.PopWord { c.Pop.2 with
        P := (c.Pop.1 ||| UNUSED_FLAG) &&& (0xFF ^^^ BREAK_FLAG) }).2.out = c.out := out
  clear w s m a x y p cy r out
  rw [e]
  generalize CPU.PopWord { c.Pop.2 with
        P := (c.Pop.1 ||| UNUSED_FLAG) &&& (0xFF ^^^ BREAK_FLAG) } = q at *
  rw [hv] at P
  have e2 : ((c.SP + 1) % 256 + 2) % 256 = (c.SP + 3) % 256 := by omega
  have e1 : ((c.SP + 1) % 256 + 1) % 256 = (c.SP + 2) % 256 := by omega
  rw [e2, e1] at W
  rw [e2] at S
  exact ⟨P, W, S, M, A, X, Y, CY, R, OUT⟩

/-- The status byte `RTI` builds from the copy `BRK` pushed is the status before the `BRK`. -/
theorem restored_status (p : Nat) (hp : p < 256) (h : p &&& 0x30 = 0x20) :
    ((p ||| BREAK_FLAG) ||| UNUSED_FLAG) &&& (0xFF ^^^ BREAK_FLAG) = p := by
  have key : ∀ q < 256, q &&& 0x30 = 0x20 →
      ((q ||| BREAK_FLAG) ||| UNUSED_FLAG) &&& (0xFF ^^^ BREAK_FLAG) = q := by decide
  exact key p hp h

/-- What `Step` does on the opcode of `BRK`. -/
theorem Step_BRK (cpu : CPU) (hSP : cpu.SP < 256) (hbrk : cpu.ReadByte cpu.PC = 0x00) :
    cpu.Step.PC = cpu.ReadWord IRQ_VECTOR ∧ cpu.Step.SP = (cpu.SP + 253) % 256 ∧
    cpu.Step.P = cpu.P ||| INTERRUPT_FLAG ∧
    cpu.Step.memory (0x100 + cpu.SP) = (cpu.PC + 2) % 65536 / 256 % 256 ∧
    cpu.Step.memory (0x100 + (cpu.SP + 255) % 256) = (cpu.PC + 2) % 65536 % 256 ∧
    cpu.Step.memory (0x100 + (cpu.SP + 254) % 256) = cpu.P ||| BREAK_FLAG ∧
    cpu.Step.A = cpu.A ∧ cpu.Step.X = cpu.X ∧ cpu.Step.Y = cpu.Y := by
  have st := Step_implicit cpu 0x00 7 .BRK hbrk (by decide) (by decide) (by decide)
  have hrun : ∀ c a, Handler.run .BRK c a = c.BRK a := fun _ _ => rfl
  rw [hrun] at st
  obtain ⟨f1, f2, f3, f4, f5, f6, f7, -⟩ := finishStep_fields
    (CPU.BRK { cpu with PC := (cpu.PC + 1) % 65536 } 0) 7
  rw [← st] at f1 f2 f3 f4 f5 f6 f7
  obtain ⟨b1, b2, b3, b4, b5, b6, -, b8, b9, b10, -⟩ :=
    BRK_fields { cpu with PC := (cpu.PC + 1) % 65536 } 0 hSP
  rw [← f5] at b1
  rw [← f4] at b2
  rw [← f6] at b3
  rw [← f7] at b4 b5 b6
  rw [← f1] at b8
  rw [← f2] at b9
  rw [← f3] at b10
  have hw : ((cpu.PC + 1) % 65536 + 1) % 65536 = (cpu.PC + 2) % 65536 := by omega
  have B4 : cpu.Step.memory (0x100 + cpu.SP)
      = ((cpu.PC + 1) % 65536 + 1) % 65536 / 256 % 256 := b4
  have B5 : cpu.Step.memory (0x100 + (cpu.SP + 255) % 256)
      = ((cpu.PC + 1) % 65536 + 1) % 65536 % 256 := b5
  rw [hw] at B4 B5
  exact ⟨b1, b2, b3, B4, B5, b6, b8, b9, b10⟩

/-- One step of pass 2 on an item with a `uint16` address is a list of assignments that does
not depend on the image, each at an index below 65536 of the form
`(Address + k) mod 2^16`. -/
theorem secondPassStep_safe (inst : assembler.Instruction) (r : Option Nat)
    (hA : addressed inst) :
    ∃ (e : Option GenError) (ws : List (Nat × Nat)),
      (∀ (symbols : SymbolTable) (output : Image), symbols.Resolve inst.OperandLabel = r →
        secondPassStep symbols output inst = (e, applyWrites ws output)) ∧
      ∀ w ∈ ws, w.1 < 65536 ∧ ∃ k, w.1 = (inst.Address + k) % 65536 := by
  by_cases hbad : inst.Typ = InstMnemonic ∧ lookupOpcode inst.Mnemonic inst.AddressMode = none
  · have ha : inst.Address < 65536 := hA (Or.inl hbad.1)
    refine ⟨none, [(inst.Address, 0)], fun symbols output _ => ?_, fun w hw => ?_⟩
    · simp only [secondPassStep, hbad.1, hbad.2, Option.getD_none, applyWrites_cons,
        applyWrites_nil]
      rfl
    · simp only [List.mem_singleton] at hw
      rw [hw]
      exact ⟨ha, 0, by rw [Nat.add_zero, Nat.mod_eq_of_lt ha]⟩
  · obtain ⟨e, ws, heq, hcov⟩ := secondPassStep_writes inst r
    refine ⟨e, ws, heq, fun w hw => ?_⟩
    have hm : inst.Typ = InstMnemonic → inst.Address < 65536 ∧
        ∃ info, lookupOpcode inst.Mnemonic inst.AddressMode = some info := by
      intro ht
      refine ⟨hA (Or.inl ht), ?_⟩
      cases hl : lookupOpcode inst.Mnemonic inst.AddressMode with
      | none => exact absurd ⟨ht, hl⟩ hbad
      | some info => exact ⟨info, rfl⟩
    obtain ⟨hlt, k, -, hk⟩ := hcov hm (fun ht hn => hA (Or.inr ⟨ht, hn⟩)) w hw
    exact ⟨hlt, k, hk⟩

/-- Pass 2 on items with `uint16` addresses is a list of assignments that does not depend on
the image, each at an index below 65536 of the form `(Address + k) mod 2^16` for an item of
the list. -/
theorem secondPass_safe (res : Str → Option Nat) (items : List assembler.Instruction)
    (hA : ∀ i ∈ items, addressed i) :
    ∃ (e : Option GenError) (ws : List (Nat × Nat)),
      (∀ (symbols : SymbolTable) (output : Image), (∀ L, symbols.Resolve L = res L) →
        secondPass symbols items output = (e, applyWrites ws output)) ∧
      ∀ w ∈ ws, w.1 < 65536 ∧ ∃ i ∈ items, ∃ k, w.1 = (i.Address + k) % 65536 := by
  induction items with
  | nil =>
    refine ⟨none, [], fun symbols output _ => rfl, fun w hw => ?_⟩
    simp at hw
  | cons x xs ih =>
    obtain ⟨e1, ws1, hstep, hcov1⟩ :=
      secondPassStep_safe x (res x.OperandLabel) (hA x (List.mem_cons_self _ _))
    obtain ⟨e2, ws2, hrest, hcov2⟩ := ih (fun i hi => hA i (List.mem_cons_of_mem _ hi))
    cases e1 with
    | some err =>
      refine ⟨some err, ws1, fun symbols output hres => ?_, fun w hmem => ?_⟩
      · exact secondPass_cons_err symbols output _ err x xs (hstep symbols output (hres _))
      · obtain ⟨hlt, hc⟩ := hcov1 w hmem
        exact ⟨hlt, x, List.mem_cons_self _ _, hc⟩
    | none =>
      refine ⟨e2, ws1 ++ ws2, fun symbols output hres => ?_, fun w hmem => ?_⟩
      · rw [secondPass_cons_ok symbols output _ x xs (hstep symbols output (hres _)),
          hrest symbols _ hres, applyWrites_append]
      · rcases List.mem_append.1 hmem with h1 | h2
        · obtain ⟨hlt, hc⟩ := hcov1 w h1
          exact ⟨hlt, x, List.mem_cons_self _ _, hc⟩
        · obtain ⟨hlt, i, hi, hc⟩ := hcov2 w h2
          exact ⟨hlt, i, List.mem_cons_of_mem _ hi, hc⟩

/-- Pass 2 on items with `uint16` addresses and an image of 65536 bytes evaluates no index
expression out of range. -/
theorem secondPass_no_fault (symbols : SymbolTable) (items : List assembler.Instruction)
    (output : Image) (hA : ∀ i ∈ items, addressed i) (hsize : output.size = 65536) :
    (secondPass symbols items output).2.size = 65536 ∧
    (secondPass symbols items output).2.fault = output.fault := by
  obtain ⟨e, ws, heq, hcov⟩ := secondPass_safe (fun L => symbols.Resolve L) items hA
  rw [heq symbols output (fun _ => rfl)]
  refine ⟨by rw [applyWrites_size]; exact hsize, ?_⟩
  apply applyWrites_no_fault
  intro w hw
  rw [hsize]
  exact (hcov w hw).1

/-- `Generate` on items with `uint16` operands and an image of 65536 bytes evaluates no
index expression out of range. -/
theorem Generate_no_fault (cg : CodeGenerator) (items : List assembler.Instruction)
    (output : Image) (hops : ∀ i ∈ items, i.Operand < 65536) (hsize : output.size = 65536) :
    (Generate cg items output).2.2.size = 65536 ∧
    (Generate cg items output).2.2.fault = output.fault := by
  rcases hfp : firstPass cg items with ⟨e, cg1, items1⟩
  cases e with
  | some err =>
    simp only [Generate, hfp]
    exact ⟨hsize, trivial⟩
  | none =>
    have hfp1 := hfp
    unfold firstPass at hfp1
    have hpc0 : ({ cg with pc := 0 } : CodeGenerator).pc < 65536 := by
      show (0 : Nat) < 65536
      norm_num
    obtain ⟨_, _, hmn, hwd⟩ := firstPassLoop_ok _ _ cg1 items1 hfp1 hpc0 hops
    have hA : ∀ i ∈ items1, addressed i := by
      intro i hi h
      rcases h with h | ⟨h1, h2⟩
      · exact (hmn i hi h).1
      · exact hwd i hi h1 h2
    obtain ⟨h1, h2⟩ := secondPass_no_fault cg1.symbols items1 output hA hsize
    simp only [Generate, hfp]
    rcases hsp : secondPass cg1.symbols items1 output with ⟨e2, output1⟩
    rw [hsp] at h1 h2
    cases e2 with
    | some err => exact ⟨h1, h2⟩
    | none =>
      simp only
      split <;> exact ⟨h1, h2⟩

/-- The assignments of the `.byte` loop are those of `for i, b := range data`: the value `b`
of index `i`, at `(address + i mod 2^16) mod 2^16`. -/
theorem byteWrites_enum (address : Nat) (data : List Nat) :
    ∀ i : Nat, byteWrites address i data
      = (data.enumFrom i).map (fun p => ((address + p.1 % 65536) % 65536, p.2)) := by
  induction data with
  | nil => intro i; rfl
  | cons b rest ih =>
    intro i
    simp only [byteWrites, List.enumFrom_cons, List.map_cons]
    rw [ih]

/-- Pass 2 over `xs ++ ys`, when it reports no error on `xs`, is pass 2 over `ys` from the
image it leaves after `xs`. -/
theorem secondPass_append (symbols : SymbolTable) (xs ys : List assembler.Instruction) :
    ∀ output : Image, (secondPass symbols xs output).1 = none →
      secondPass symbols (xs ++ ys) output
        = secondPass symbols ys (secondPass symbols xs output).2 := by
  induction xs with
  | nil => intro output _; rfl
  | cons x xs ih =>
    intro output h
    rcases hs : secondPassStep symbols output x with ⟨e, o1⟩
    cases e with
    | some err =>
      rw [secondPass_cons_err symbols output o1 err x xs hs] at h
      exact absurd h (by simp)
    | none =>
      rw [secondPass_cons_ok symbols output o1 x xs hs] at h ⊢
      rw [List.cons_append, secondPass_cons_ok symbols output o1 x _ hs]
      exact ih o1 h

/-- A pass 2 without error over `xs ++ ys` reports no error on `xs`. -/
theorem secondPass_left_ok (symbols : SymbolTable) (xs ys : List assembler.Instruction) :
    ∀ output : Image, (secondPass symbols (xs ++ ys) output).1 = none →
      (secondPass symbols xs output).1 = none := by
  induction xs with
  | nil => intro output _; rfl
  | cons x xs ih =>
    intro output h
    rcases hs : secondPassStep symbols output x with ⟨e, o1⟩
    cases e with
    | some err =>
      rw [List.cons_append, secondPass_cons_err symbols output o1 err x _ hs] at h
      exact absurd h (by simp)
    | none =>
      rw [List.cons_append, secondPass_cons_ok symbols output o1 x _ hs] at h
      rw [secondPass_cons_ok symbols output o1 x xs hs]
      exact ih o1 h

/-- Pass 2 keeps the length of the image. -/
theorem secondPass_size (symbols : SymbolTable) (items : List assembler.Instruction)
    (output : Image) : (secondPass symbols items output).2.size = output.size := by
  obtain ⟨e, ws, heq, -⟩ := secondPass_writes (fun L => symbols.Resolve L) items
  rw [heq symbols output (fun _ => rfl)]
  exact applyWrites_size ws output

/-- Pass 2 leaves a byte as it was when no item of the list is placed over it. -/
theorem secondPass_frame (symbols : SymbolTable) (items : List assembler.Instruction)
    (output : Image) (x : Nat)
    (hm : ∀ i ∈ items, i.Typ = InstMnemonic → i.Address < 65536 ∧
      ∃ info, lookupOpcode i.Mnemonic i.AddressMode = some info)
    (hw : ∀ i ∈ items, i.Typ = InstDirective → i.DirectiveName = "word".data →
      i.Address < 65536)
    (hfree : ∀ j ∈ items, ¬ itemCovers j x) :
    (secondPass symbols items output).2.data x = output.data x := by
  obtain ⟨e, ws, heq, hcov⟩ := secondPass_writes (fun L => symbols.Resolve L) items
  rw [heq symbols output (fun _ => rfl)]
  apply applyWrites_frame
  intro w hmem hx
  obtain ⟨-, i, hi, hc⟩ := hcov hm hw symbols (fun _ => rfl) w hmem
  rw [hx] at hc
  exact hfree i (emittedItems_subset symbols items i hi) hc

/-- `Generate` after a pass 1 that succeeds returns the generator pass 1 leaves and the image
pass 2 leaves, run on the items and the symbol table of pass 1; its error is `none` only when
pass 2 reports none. -/
theorem Generate_of_firstPass_ok (cg cg1 : CodeGenerator)
    (items items1 : List assembler.Instruction) (output : Image)
    (hfp : firstPass cg items = (none, cg1, items1)) :
    (Generate cg items output).2.1 = cg1 ∧
    (Generate cg items output).2.2 = (secondPass cg1.symbols items1 output).2 ∧
    ((Generate cg items output).1 = none →
      (secondPass cg1.symbols items1 output).1 = none) := by
  simp only [Generate, hfp]
  rcases hsp : secondPass cg1.symbols items1 output with ⟨e2, o⟩
  cases e2 with
  | some err => exact ⟨rfl, rfl, fun h => absurd h (by simp)⟩
  | none =>
    simp only
    split
    · exact ⟨rfl, rfl, fun _ => trivial⟩
    · exact ⟨rfl, rfl, fun _ => trivial⟩

/-- The two operand bytes of a reference in the image pass 2 leaves: after a pass 1 that
succeeds, when the operand label of `ref` resolves to `a`, pass 2 reports no error on the
items before `ref`, and no item after `ref` is placed over the two bytes. -/
theorem reference_in_image (st : SymbolTable) (items : List assembler.Instruction)
    (cg1 : CodeGenerator) (items1 before after : List assembler.Instruction)
    (ref : assembler.Instruction) (a : Nat) (output : Image)
    (hops : ∀ i ∈ items, i.Operand < 65536) (hsize : output.size = 65536)
    (hfp : firstPass (NewCodeGenerator st) items = (none, cg1, items1))
    (hsplit : items1 = before ++ ref :: after)
    (hne : ref.OperandLabel ≠ []) (hr : cg1.symbols.Resolve ref.OperandLabel = some a)
    (hreach : (secondPass cg1.symbols before output).1 = none) :
    (ref.Typ = InstDirective → ref.DirectiveName = "word".data →
      (∀ j ∈ after, ¬ itemCovers j ref.Address ∧
        ¬ itemCovers j ((ref.Address + 1) % 65536)) →
      (secondPass cg1.symbols items1 output).2.data ref.Address = a % 256 ∧
      (secondPass cg1.symbols items1 output).2.data ((ref.Address + 1) % 65536)
        = a / 256 % 256) ∧
    (ref.Typ = InstMnemonic → ref.AddressMode = AddrAbsolute →
      (∀ j ∈ after, ¬ itemCovers j ((ref.Address + 1) % 65536) ∧
        ¬ itemCovers j ((ref.Address + 2) % 65536)) →
      (secondPass cg1.symbols items1 output).2.data ((ref.Address + 1) % 65536) = a % 256 ∧
      (secondPass cg1.symbols items1 output).2.data ((ref.Address + 2) % 65536)
        = a / 256 % 256) := by
  have hfp1 := hfp
  unfold firstPass at hfp1
  have hpc0 : ({ NewCodeGenerator st with pc := 0 } : CodeGenerator).pc < 65536 := by
    show (0 : Nat) < 65536
    norm_num
  obtain ⟨_, _, hmn, hwd⟩ := firstPassLoop_ok _ _ cg1 items1 hfp1 hpc0 hops
  have href : ref ∈ items1 := by rw [hsplit]; simp
  have hafter : ∀ j ∈ after, j ∈ items1 := by
    intro j hj; rw [hsplit]; simp [hj]
  have hsz1 : (secondPass cg1.symbols before output).2.size = 65536 := by
    rw [secondPass_size]; exact hsize
  obtain ⟨hword, hmnem⟩ := reference_bytes st items cg1 items1 hops hfp ref href a hne hr
    (secondPass cg1.symbols before output).2 hsz1
  have hrun : ∀ (hok : (secondPassStep cg1.symbols (secondPass cg1.symbols before output).2
        ref).1 = none),
      secondPass cg1.symbols items1 output
        = secondPass cg1.symbols after
            (secondPassStep cg1.symbols (secondPass cg1.symbols before output).2 ref).2 := by
    intro hok
    rw [hsplit, secondPass_append cg1.symbols before _ output hreach]
    exact secondPass_cons_ok cg1.symbols _ _ ref after (Prod.ext hok rfl)
  have hframe : ∀ (img : Image) (x : Nat), (∀ j ∈ after, ¬ itemCovers j x) →
      (secondPass cg1.symbols after img).2.data x = img.data x := fun img x hx =>
    secondPass_frame cg1.symbols after img x (fun i hi => hmn i (hafter i hi))
      (fun i hi => hwd i (hafter i hi)) hx
  constructor
  · intro ht hn hfree
    obtain ⟨h0, h1, h2⟩ := hword ht hn
    rw [hrun h0, hframe _ _ (fun j hj => (hfree j hj).1),
      hframe _ _ (fun j hj => (hfree j hj).2)]
    exact ⟨h1, h2⟩
  · intro ht hm hfree
    obtain ⟨h0, h1, h2⟩ := hmnem ht hm
    rw [hrun h0, hframe _ _ (fun j hj => (hfree j hj).1),
      hframe _ _ (fun j hj => (hfree j hj).2)]
    exact ⟨h1, h2⟩

/-! ## The claims -/

set_option maxRecDepth 100000

/-- C1 (fails on the code).  The spec has `BEQ target` assemble to `F0` and the relative
offset.  On the source `.org $1000` / `BEQ target` / `target:`, and likewise for each of the
eight branch mnemonics, `Assemble` returns the error `invalid addressing mode for 'BEQ' at
line 2` and leaves `image[0x1000]` and `image[0x1001]` zero: the parser gives the operand the
Absolute mode and nothing in the code generator turns it into Relative. -/
theorem C1_branch_to_label_is_rejected :
    (branchMnemonics.all fun m =>
      decide ((Assemble NewAssembler (branchSource m)).map
          (fun r => (r.1, r.2.output.data 0x1000, r.2.output.data 0x1001))
        = some (some (.gen (.invalidAddressingMode m.data 2)), 0, 0))) = true := by
  decide

/-- C2 (fails on the code).  The spec has `JMP (p)` set `PC` to the word stored at `p`.  With
`6C 10 80` at `$8000`, the word `$8020` at `$8010` and `A9 AA 00` at `$8020`, one `Step` from
`PC = $8000` sets `PC` to `$AAA9`, the word stored at `$8020`, not to `$8020`: `GetAddress`
already reads the word at `p` and `JMPI` reads a word again at that address.  Running on, the
CPU halts with `A = 0`, not `0xAA`. -/
theorem C2_indirect_jump_dereferences_twice :
    indirectJumpCPU.ReadWord 0x8010 = 0x8020 ∧
    indirectJumpCPU.ReadWord 0x8020 = 0xAAA9 ∧
    indirectJumpCPU.Step.PC = 0xAAA9 ∧
    (CPU.Run 100 indirectJumpCPU).map (fun c => (c.A, c.running)) = some (0, false) := by
  decide

/-- C3.  The assembler's opcode table and the emulator's instruction table agree: every
(mnemonic, mode) pair of `opcodeTable`, with opcode byte `b`, has a valid entry
`instructions[b]` of that name and that mode; the emulator has 151 valid entries, and each
of them is the opcode of exactly one assembler pair.  (The keys of each table are distinct,
as Go requires of a map or array literal.) -/
theorem C3_opcode_tables_agree :
    (∀ e ∈ opcodeTable, ∀ p ∈ e.2,
      (instructions p.2.Opcode).Execute ≠ none ∧ (instructions p.2.Opcode).Name = e.1 ∧
      (instructions p.2.Opcode).AddressMode = modeOfAssembler p.1) ∧
    ((List.range 256).filter (fun b => (instructions b).Execute.isSome)).length = 151 ∧
    (∀ b < 256, (instructions b).Execute ≠ none →
      (assemblerPairs.filter (fun t => t.2.2.Opcode = b)).length = 1) ∧
    assemblerPairs.length = 151 ∧
    (assemblerPairs.map (fun t => t.2.2.Opcode)).Nodup ∧
    (opcodeTable.map (fun e => e.1)).Nodup ∧
    (∀ e ∈ opcodeTable, (e.2.map (fun p => p.1)).Nodup) ∧
    (instructionTable.map (fun e => e.1)).Nodup := by
  decide

/-- C4.  Pass 2 on an instruction item found in the opcode table whose mode is not Relative,
with operand `v` (the address of its label, else its numeric operand): no error; the opcode
goes to `address`; for size 2 only `v % 256` follows, at `address+1`, so an immediate above
`0xFF` is cut to its low byte; for size 3 the low byte goes to `address+1` and the high byte
to `address+2`; no other byte changes.  And `.org $8000` / `LDA #$48` / `STA $F001`
assembles to `A9 48 8D 01 F0` at `0x8000..0x8004`. -/
theorem C4_operand_bytes :
    (∀ (symbols : SymbolTable) (output : Image) (inst : assembler.Instruction)
        (info : OpcodeInfo) (v : Nat),
      inst.Typ = InstMnemonic → lookupOpcode inst.Mnemonic inst.AddressMode = some info →
      inst.AddressMode ≠ AddrRelative → resolvedOperand symbols inst = some v →
      output.size = 65536 → inst.Address < 65536 →
      (secondPassStep symbols output inst).1 = none ∧
      (secondPassStep symbols output inst).2.fault = output.fault ∧
      (secondPassStep symbols output inst).2.data inst.Address = info.Opcode ∧
      (info.Size = 2 →
        (secondPassStep symbols output inst).2.data ((inst.Address + 1) % 65536) = v % 256 ∧
        ∀ a, a ≠ inst.Address → a ≠ (inst.Address + 1) % 65536 →
          (secondPassStep symbols output inst).2.data a = output.data a) ∧
      (info.Size = 3 →
        (secondPassStep symbols output inst).2.data ((inst.Address + 1) % 65536) = v % 256 ∧
        (secondPassStep symbols output inst).2.data ((inst.Address + 2) % 65536)
          = v / 256 % 256 ∧
        ∀ a, a ≠ inst.Address → a ≠ (inst.Address + 1) % 65536 →
          a ≠ (inst.Address + 2) % 65536 →
          (secondPassStep symbols output inst).2.data a = output.data a)) ∧
    (Assemble NewAssembler ".org $8000\nLDA #$48\nSTA $F001\n".data).map
        (fun r => (r.1, [0x8000, 0x8001, 0x8002, 0x8003, 0x8004].map r.2.output.data))
      = some (none, [0xA9, 0x48, 0x8D, 0x01, 0xF0]) := by
  refine ⟨?_, by decide⟩
  intro symbols output inst info v ht hl hm hv hsize ha
  have h1 : (inst.Address + 1) % 65536 < 65536 := Nat.mod_lt _ (by norm_num)
  have h2 : (inst.Address + 2) % 65536 < 65536 := Nat.mod_lt _ (by norm_num)
  have d1 : inst.Address ≠ (inst.Address + 1) % 65536 := by omega
  have d2 : inst.Address ≠ (inst.Address + 2) % 65536 := by omega
  have d3 : (inst.Address + 1) % 65536 ≠ (inst.Address + 2) % 65536 := by omega
  rcases (lookupOpcode_facts hl).1 with hs | hs | hs
  · rw [secondPassStep_mnemonic_size1 symbols output inst info ht hl hs]
    simp [Image.set_data, Image.set_fault, hsize, ha, hs]
  · rw [secondPassStep_mnemonic_size2 symbols output inst info v ht hl hm hs hv]
    simp [Image.set_data, Image.set_fault, hsize, ha, hs, h1, d1]
    intro a ha1 ha2
    simp [ha1, ha2]
  · rw [secondPassStep_mnemonic_size3 symbols output inst info v ht hl hm hs hv]
    simp [Image.set_data, Image.set_fault, hsize, ha, hs, h1, h2, d1, d2, d3]
    intro a ha1 ha2 ha3
    simp [ha1, ha2, ha3]

/-- C4 at a concrete item: `LDA #$148` at `$8000` emits `A9 48`, the operand cut to its
low byte. -/
theorem C4_operand_bytes_witness :
    (secondPassStep [] zeroImage ldaImmediateWide).1 = none ∧
    (secondPassStep [] zeroImage ldaImmediateWide).2.data 0x8000 = 0xA9 ∧
    (secondPassStep [] zeroImage ldaImmediateWide).2.data 0x8001 = 0x48 :=
  have h := C4_operand_bytes.1 [] zeroImage ldaImmediateWide ⟨0xA9, 2⟩ 0x148
    (by decide) (by decide) (by decide) (by decide) (by decide) (by decide)
  ⟨h.1, h.2.2.1, (h.2.2.2.1 rfl).1⟩

/-- C5.  For every (mnemonic, mode) pair of the opcode table, with opcode info `info`, and
every 16-bit address `N`: code generation of `.org N` / one instruction of that pair / `L:`
(the operand numeric, in range when the mode is Relative, or the label `L` itself), from any
symbol table without undefined symbols and into any 65536-byte image, succeeds; the opcode
is at `image[N]`; the bytes at the `info.Size` addresses `N .. N+Size-1` (mod 2^16) are
written (they do not depend on the image before) and no other byte changes; `L` is defined
at `N + Size` (mod 2^16), where the location counter ends. -/
theorem C5_single_instruction (st : SymbolTable) (img : Image) (mn : Str)
    (mode : assembler.AddressingMode) (info : OpcodeInfo) (N operand : Nat) (lbl L : Str)
    (hl : lookupOpcode mn mode = some info) (hN : N < 65536) (hst : st.IsResolved = true)
    (himg : img.size = 65536) (hlbl : lbl = [] ∨ lbl = L)
    (hrel : mode = AddrRelative → lbl = [] →
      -128 ≤ branchOffset operand N ∧ branchOffset operand N ≤ 127) :
    (Generate (NewCodeGenerator st) (singleInstructionProgram N mn mode operand lbl L) img).1
      = none ∧
    (Generate (NewCodeGenerator st) (singleInstructionProgram N mn mode operand lbl L)
      img).2.2.fault = img.fault ∧
    (Generate (NewCodeGenerator st) (singleInstructionProgram N mn mode operand lbl L)
      img).2.2.data N = info.Opcode ∧
    (∀ a, (∀ i < info.Size, a ≠ (N + i) % 65536) →
      (Generate (NewCodeGenerator st) (singleInstructionProgram N mn mode operand lbl L)
        img).2.2.data a = img.data a) ∧
    (∀ i < info.Size, ∀ img2 : Image, img2.size = 65536 →
      (Generate (NewCodeGenerator st) (singleInstructionProgram N mn mode operand lbl L)
        img2).2.2.data ((N + i) % 65536) =
      (Generate (NewCodeGenerator st) (singleInstructionProgram N mn mode operand lbl L)
        img).2.2.data ((N + i) % 65536)) ∧
    (Generate (NewCodeGenerator st) (singleInstructionProgram N mn mode operand lbl L)
      img).2.1.symbols.Resolve L = some ((N + info.Size) % 65536) ∧
    (Generate (NewCodeGenerator st) (singleInstructionProgram N mn mode operand lbl L)
      img).2.1.pc = (N + info.Size) % 65536 := by
  have hfacts := lookupOpcode_facts hl
  have hpc : (N + info.Size % 65536) % 65536 = (N + info.Size) % 65536 := by omega
  have hA : (placedItem N mn mode operand lbl).Address = N := rfl
  -- the operand pass 2 resolves
  have hv : ∃ v, resolvedOperand (st.Define L ((N + info.Size % 65536) % 65536))
      (placedItem N mn mode operand lbl) = some v ∧
      (mode = AddrRelative → -128 ≤ branchOffset v N ∧ branchOffset v N ≤ 127) := by
    by_cases hne : lbl = []
    · refine ⟨operand, ?_, fun hm => hrel hm hne⟩
      simp [resolvedOperand, placedItem, mnemonicItem, hne]
    · have hL : lbl = L := hlbl.resolve_left hne
      refine ⟨(N + info.Size % 65536) % 65536, ?_, ?_⟩
      · simp only [resolvedOperand, placedItem, mnemonicItem]
        rw [if_pos hne, hL, Resolve_Define_same]
      · intro hm
        have h2 : info.Size = 2 := hfacts.2.1 hm
        have h0 := branchOffset_self N
        rw [h2]
        have e : (N + 2 % 65536) % 65536 = (N + 2) % 65536 := by omega
        rw [e, h0]
        omega
  obtain ⟨v, hv, hvr⟩ := hv
  obtain ⟨b1, b2, hshape⟩ := secondPassStep_shape (st.Define L ((N + info.Size % 65536) % 65536))
    (placedItem N mn mode operand lbl) info v rfl hl hv hvr hN
  have hgen : ∀ img' : Image, img'.size = 65536 →
      Generate (NewCodeGenerator st) (singleInstructionProgram N mn mode operand lbl L) img' =
      (none, ⟨st.Define L ((N + info.Size % 65536) % 65536), (N + info.Size % 65536) % 65536⟩,
        (secondPassStep (st.Define L ((N + info.Size % 65536) % 65536)) img'
          (placedItem N mn mode operand lbl)).2) := fun img' h' =>
    generate_single st img' mn mode info N operand lbl L hl hst (hshape img' h').1
  rw [hgen img himg]
  obtain ⟨_, hf, hd⟩ := hshape img himg
  rw [hA] at hd
  refine ⟨rfl, hf, ?_, ?_, ?_, ?_, ?_⟩
  · simp only [hd N, if_true]
  · intro a hna
    simp only [hd a]
    have n0 : a ≠ N := by
      have := hna 0 (by omega)
      simpa [Nat.mod_eq_of_lt hN] using this
    rw [if_neg n0]
    have n1 : ¬ (2 ≤ info.Size ∧ a = (N + 1) % 65536) := fun h => hna 1 (by omega) h.2
    have n2 : ¬ (3 ≤ info.Size ∧ a = (N + 2) % 65536) := fun h => hna 2 (by omega) h.2
    rw [if_neg n1, if_neg n2]
  · intro i hi img2 himg2
    rw [hgen img2 himg2]
    obtain ⟨_, _, hd2⟩ := hshape img2 himg2
    rw [hA] at hd2
    simp only [hd, hd2]
    have hi3 : i < 3 := by omega
    interval_cases i
    · simp [Nat.mod_eq_of_lt hN]
    · have : (N + 1) % 65536 ≠ N := by omega
      have hs2 : 2 ≤ info.Size := by omega
      simp [this, hs2]
    · have : (N + 2) % 65536 ≠ N := by omega
      have : (N + 2) % 65536 ≠ (N + 1) % 65536 := by omega
      have hs3 : 3 ≤ info.Size := by omega
      simp [*]
  · simp only
    rw [Resolve_Define_same, hpc]
  · exact hpc

/-- C5 at a concrete program: `.org $FFFF` / `STA $F001` / `done:` succeeds, puts the opcode
`8D` at `$FFFF` and defines `done` at 2, the location counter having wrapped. -/
theorem C5_single_instruction_witness :
    (Generate (NewCodeGenerator NewSymbolTable)
      (singleInstructionProgram 0xFFFF "STA".data AddrAbsolute 0xF001 [] "done".data)
      zeroImage).1 = none ∧
    (Generate (NewCodeGenerator NewSymbolTable)
      (singleInstructionProgram 0xFFFF "STA".data AddrAbsolute 0xF001 [] "done".data)
      zeroImage).2.2.data 0xFFFF = 0x8D ∧
    (Generate (NewCodeGenerator NewSymbolTable)
      (singleInstructionProgram 0xFFFF "STA".data AddrAbsolute 0xF001 [] "done".data)
      zeroImage).2.1.symbols.Resolve "done".data = some 2 :=
  have h := C5_single_instruction NewSymbolTable zeroImage "STA".data AddrAbsolute ⟨0x8D, 3⟩
    0xFFFF 0xF001 [] "done".data (by decide) (by decide) (by decide) (by decide) (by decide)
    (by decide)
  ⟨h.1, h.2.2.1, h.2.2.2.2.2.1⟩

/-- C6.  Take a program `pre ++ [L:] ++ post` in which no item after `L:` defines `L` again
(in particular one that defines `L` exactly once), on which pass 1 succeeds, and an image of
65536 bytes.  `Generate` runs pass 2 on the items and the symbol table that the whole of
pass 1 leaves; in the table it returns, `L` is the location counter after `pre`.  For every
item `ref` of the program with operand label `L`, whether it stands before `L:` (a forward
reference) or after it (a backward one), that pass 2 reaches (no error on the items before
`ref`, which holds for every item when `Generate` returns no error): the image `Generate`
returns holds the low and the high byte of that address in the two operand bytes of `ref`,
a `.word` at `Address` and `Address+1`, an Absolute instruction at `Address+1` and
`Address+2`, when no item after `ref` is placed over these two bytes.  `Assemble` on a source
with these items returns that image and that table. -/
theorem C6_forward_references (st : SymbolTable) (pre post : List assembler.Instruction)
    (L : Str)
    (line : Nat) (cg1 : CodeGenerator) (items1 : List assembler.Instruction) (output : Image)
    (hL : L ≠ [])
    (hpost : ∀ i ∈ post, ¬ definesLabel L i)
    (hops : ∀ i ∈ pre ++ labelItem L line :: post, i.Operand < 65536)
    (hsize : output.size = 65536)
    (hfp : firstPass (NewCodeGenerator st) (pre ++ labelItem L line :: post)
      = (none, cg1, items1)) :
    (firstPass (NewCodeGenerator st) pre).1 = none ∧
    (Generate (NewCodeGenerator st) (pre ++ labelItem L line :: post) output).2.1.symbols.Resolve
        L = some (firstPass (NewCodeGenerator st) pre).2.1.pc ∧
    ((Generate (NewCodeGenerator st) (pre ++ labelItem L line :: post) output).1 = none →
      ∀ (before after : List assembler.Instruction) (ref : assembler.Instruction),
        items1 = before ++ ref :: after → (secondPass cg1.symbols before output).1 = none) ∧
    (∀ (before after : List assembler.Instruction) (ref : assembler.Instruction),
      items1 = before ++ ref :: after → ref.OperandLabel = L →
      (secondPass cg1.symbols before output).1 = none →
      (ref.Typ = InstDirective → ref.DirectiveName = "word".data →
        (∀ j ∈ after, ¬ itemCovers j ref.Address ∧
          ¬ itemCovers j ((ref.Address + 1) % 65536)) →
        (Generate (NewCodeGenerator st) (pre ++ labelItem L line :: post) output).2.2.data
            ref.Address = (firstPass (NewCodeGenerator st) pre).2.1.pc % 256 ∧
        (Generate (NewCodeGenerator st) (pre ++ labelItem L line :: post) output).2.2.data
            ((ref.Address + 1) % 65536)
          = (firstPass (NewCodeGenerator st) pre).2.1.pc / 256 % 256) ∧
      (ref.Typ = InstMnemonic → ref.AddressMode = AddrAbsolute →
        (∀ j ∈ after, ¬ itemCovers j ((ref.Address + 1) % 65536) ∧
          ¬ itemCovers j ((ref.Address + 2) % 65536)) →
        (Generate (NewCodeGenerator st) (pre ++ labelItem L line :: post) output).2.2.data
            ((ref.Address + 1) % 65536) = (firstPass (NewCodeGenerator st) pre).2.1.pc % 256 ∧
        (Generate (NewCodeGenerator st) (pre ++ labelItem L line :: post) output).2.2.data
            ((ref.Address + 2) % 65536)
          = (firstPass (NewCodeGenerator st) pre).2.1.pc / 256 % 256)) ∧
    (∀ (a : Assembler) (source : Str), a.symbols = st → a.output = output →
      sourceItems source = some (pre ++ labelItem L line :: post) →
      ∃ e a1, Assemble a source = some (e, a1) ∧
        a1.output
          = (Generate (NewCodeGenerator st) (pre ++ labelItem L line :: post) output).2.2 ∧
        a1.symbols.Resolve L = some (firstPass (NewCodeGenerator st) pre).2.1.pc) := by
  obtain ⟨hpre, hres⟩ := resolve_last_definition st pre post L line cg1 items1 hpost hfp
  obtain ⟨g1, g2, g3⟩ := Generate_of_firstPass_ok (NewCodeGenerator st) cg1
    (pre ++ labelItem L line :: post) items1 output hfp
  have hsym : (Generate (NewCodeGenerator st) (pre ++ labelItem L line :: post)
      output).2.1.symbols.Resolve L = some (firstPass (NewCodeGenerator st) pre).2.1.pc := by
    rw [g1]; exact hres
  refine ⟨hpre, hsym, ?_, ?_, ?_⟩
  · intro hnone before after ref hsplit
    have h2 := g3 hnone
    rw [hsplit] at h2
    exact secondPass_left_ok cg1.symbols before _ output h2
  · intro before after ref hsplit hrl hreach
    rw [g2]
    exact reference_in_image st _ cg1 items1 before after ref _ output hops hsize hfp hsplit
      (by rw [hrl]; exact hL) (by rw [hrl]; exact hres) hreach
  · intro a source ha ho hsrc
    rw [Assemble_of_sourceItems a source _ hsrc, ha, ho]
    exact ⟨_, _, rfl, rfl, hsym⟩

/-- C6 at the source `.org $8000` / `JMP loop` / `loop:` / `.word loop`: `Assemble` returns
no error, and in its image the forward reference of `JMP` (at `$8001`, `$8002`) and the
backward reference of `.word` (at `$8003`, `$8004`) both hold `03 80`, the address `$8003`
of `loop`. -/
theorem C6_forward_references_witness :
    sourceItems forwardReferenceSource
      = some (referenceBefore ++ labelItem "loop".data 3 :: referenceAfter) ∧
    (Generate (NewCodeGenerator NewSymbolTable)
      (referenceBefore ++ labelItem "loop".data 3 :: referenceAfter) zeroImage).1 = none ∧
    (Generate (NewCodeGenerator NewSymbolTable)
      (referenceBefore ++ labelItem "loop".data 3 :: referenceAfter) zeroImage).2.2.data 0x8001
        = 0x03 ∧
    (Generate (NewCodeGenerator NewSymbolTable)
      (referenceBefore ++ labelItem "loop".data 3 :: referenceAfter) zeroImage).2.2.data 0x8002
        = 0x80 ∧
    (Generate (NewCodeGenerator NewSymbolTable)
      (referenceBefore ++ labelItem "loop".data 3 :: referenceAfter) zeroImage).2.2.data 0x8003
        = 0x03 ∧
    (Generate (NewCodeGenerator NewSymbolTable)
      (referenceBefore ++ labelItem "loop".data 3 :: referenceAfter) zeroImage).2.2.data 0x8004
        = 0x80 ∧
    (∃ e a1, Assemble NewAssembler forwardReferenceSource = some (e, a1) ∧
      a1.output = (Generate (NewCodeGenerator NewSymbolTable)
        (referenceBefore ++ labelItem "loop".data 3 :: referenceAfter) zeroImage).2.2 ∧
      a1.symbols.Resolve "loop".data = some 0x8003) ∧
    (Assemble NewAssembler forwardReferenceSource).map
        (fun r => (r.1, (List.range 5).map (fun i => r.2.output.data (0x8000 + i))))
      = some (none, [0x4C, 0x03, 0x80, 0x03, 0x80]) :=
  have h := C6_forward_references NewSymbolTable referenceBefore referenceAfter "loop".data 3
    ⟨[⟨"loop".data, 0x8003, true⟩], 0x8005⟩
    [orgItem 0x8000 1,
      { mnemonicItem "JMP".data AddrAbsolute 0 "loop".data 2 with Address := 0x8000 },
      labelItem "loop".data 3, { wordLabelItem "loop".data 4 with Address := 0x8003 }]
    zeroImage (by decide) (by decide) (by decide) rfl (by decide)
  have hj := (h.2.2.2.1 [orgItem 0x8000 1]
    [labelItem "loop".data 3, { wordLabelItem "loop".data 4 with Address := 0x8003 }]
    { mnemonicItem "JMP".data AddrAbsolute 0 "loop".data 2 with Address := 0x8000 }
    rfl rfl (by decide)).2 rfl rfl (by decide)
  have hw := (h.2.2.2.1
    [orgItem 0x8000 1,
      { mnemonicItem "JMP".data AddrAbsolute 0 "loop".data 2 with Address := 0x8000 },
      labelItem "loop".data 3] []
    { wordLabelItem "loop".data 4 with Address := 0x8003 }
    rfl rfl (by decide)).1 rfl rfl (by decide)
  ⟨by decide, by decide, hj.1, hj.2, hw.1, hw.2,
    h.2.2.2.2 NewAssembler forwardReferenceSource rfl rfl (by decide), by decide⟩

/-- C7, as amended.  For every source that lexes, parses and passes address assignment: if an
instruction or `.word` item references a label `L` that no `L:` line defines, and every
label referenced by an item before it is defined somewhere in the source, then `Assemble`
on a fresh assembler returns the error `line N: undefined symbol: L` for the line of that
item, and the text of the error contains `L`. -/
theorem C7_first_undefined_label_is_named (source : Str) (pre post : List assembler.Instruction)
    (ref : assembler.Instruction) (L : Str)
    (hsrc : sourceItems source = some (pre ++ ref :: post))
    (hfp : (firstPass (NewCodeGenerator NewSymbolTable) (pre ++ ref :: post)).1 = none)
    (hL : L ≠ []) (href : referencesLabel L ref)
    (hundef : ∀ i ∈ pre ++ ref :: post, ¬ definesLabel L i)
    (hfirst : ∀ i ∈ pre, i.OperandLabel ≠ [] →
      ∃ j ∈ pre ++ ref :: post, definesLabel i.OperandLabel j) :
    ∃ a1, Assemble NewAssembler source = some (some (.gen (.undefinedSymbol ref.Line L)), a1) ∧
      L <:+: (GenError.undefinedSymbol ref.Line L).message := by
  have hok := sourceItems_ok source _ hsrc
  rcases hfull : firstPass (NewCodeGenerator NewSymbolTable) (pre ++ ref :: post)
    with ⟨e, cg1, items1⟩
  rw [hfull] at hfp
  simp only at hfp
  subst hfp
  have hloop := hfull
  unfold firstPass at hloop
  obtain ⟨cga, pre1, rest1, hA, hB, hitems⟩ := firstPassLoop_append_inv pre _ _ cg1 items1 hloop
  obtain ⟨cgb, ref1, post1, hstep, hC, hrest⟩ := firstPassLoop_cons_inv cga cg1 ref post rest1 hB
  obtain ⟨hunch, hlook⟩ := firstPassLoop_symbols _ _ cg1 items1 hloop
  -- the label does not resolve after pass 1
  have hnone : cg1.symbols.Resolve L = none := by
    rw [hunch L hundef]; rfl
  -- no step of pass 2 before the reference reports an error
  have hpre : ∀ i1 ∈ pre1, ∀ output, (secondPassStep cg1.symbols output i1).1 = none := by
    intro i1 hi1 output
    obtain ⟨i, hi, f1, f2, f3, f4, _, _⟩ := firstPassLoop_fields pre _ cga pre1 hA i1 hi1
    have hi1' : i1 ∈ items1 := by rw [hitems]; exact List.mem_append_left _ hi1
    apply secondPassStep_no_error
    · intro ht
      refine ⟨hlook i1 hi1' ht, ?_⟩
      have hp := (hok i (List.mem_append_left _ hi) (by rw [← f1]; exact ht)).1
      rw [f3]
      rcases hp with hp | hp | hp | hp <;> rw [hp] <;> decide
    · intro hne
      rw [f4] at hne ⊢
      exact firstPassLoop_defined _ _ _ cg1 items1 hloop (Or.inr (hfirst i hi hne))
  obtain ⟨out1, hwalk⟩ := secondPass_walk cg1.symbols pre1 rest1 hpre NewAssembler.output
  -- the step on the reference reports the label
  obtain ⟨g1, g2, g3, _, g5, g6, g7, _⟩ := firstPassStep_ok cga cgb ref ref1 hstep
  have href1 : referencesLabel L ref1 := by
    unfold referencesLabel at href ⊢
    rw [g5, g1, g7]; exact href
  have hm1 : ref1.Typ = InstMnemonic →
      ∃ info, lookupOpcode ref1.Mnemonic ref1.AddressMode = some info ∧ 1 < info.Size := by
    intro ht
    have hmem : ref1 ∈ items1 := by
      rw [hitems, hrest]; exact List.mem_append_right _ (List.mem_cons_self _ _)
    obtain ⟨info, hinfo⟩ := hlook ref1 hmem ht
    have hp := (hok ref (List.mem_append_right _ (List.mem_cons_self _ _))
      (by rw [← g1]; exact ht)).2 (by rw [href.1]; exact hL)
    have h3 := (lookupOpcode_facts hinfo).2.2.1 (by rw [g3]; exact hp)
    exact ⟨info, hinfo, by omega⟩
  have herr := secondPassStep_undefined cg1.symbols out1 ref1 L hL href1 hm1 hnone
  rcases hs : secondPassStep cg1.symbols out1 ref1 with ⟨e2, out2⟩
  rw [hs] at herr
  simp only at herr
  subst herr
  have hsp : secondPass cg1.symbols items1 NewAssembler.output
      = (some (.undefinedSymbol ref1.Line L), out2) := by
    rw [hitems, hwalk, hrest, secondPass_cons_err cg1.symbols out1 out2 _ ref1 post1 hs]
  have hgen : Generate (NewCodeGenerator NewAssembler.symbols) (pre ++ ref :: post)
      NewAssembler.output = (some (.undefinedSymbol ref.Line L), cg1, out2) := by
    unfold Generate
    have : NewAssembler.symbols = NewSymbolTable := rfl
    rw [this, hfull]
    simp only
    rw [hsp, g6]
  refine ⟨{ NewAssembler with symbols := cg1.symbols, output := out2 }, ?_, ?_⟩
  · rw [Assemble_of_sourceItems NewAssembler source _ hsrc, hgen]
    rfl
  · refine ⟨"line ".data ++ fmtInt ref.Line ++ ": ".data ++ "undefined symbol: ".data, [], ?_⟩
    simp [GenError.message]

/-- C7 as amended, at the source `start:` / `JMP start` / `JMP foo` / `.word bar`: the
error is `line 3: undefined symbol: foo`. -/
theorem C7_first_undefined_label_is_named_witness :
    ∃ a1, Assemble NewAssembler twoUndefinedSource
        = some (some (.gen (.undefinedSymbol 3 "foo".data)), a1) ∧
      "foo".data <:+: (GenError.undefinedSymbol 3 "foo".data).message :=
  C7_first_undefined_label_is_named twoUndefinedSource
    [labelItem "start".data 1, mnemonicItem "JMP".data AddrAbsolute 0 "start".data 2]
    [wordLabelItem "bar".data 4] (mnemonicItem "JMP".data AddrAbsolute 0 "foo".data 3) "foo".data
    (by decide) (by decide) (by decide) (by decide) (by decide) (by decide)

/-- C7 as stated fails.  The source `start:` / `JMP start` / `JMP foo` / `.word bar` lexes,
parses and passes address assignment; its `.word` item references `bar`, which no line
defines; yet the error `Assemble` returns is `line 3: undefined symbol: foo`, whose text does
not contain `bar`. -/
theorem C7_second_undefined_label_not_named :
    sourceItems twoUndefinedSource =
      some [labelItem "start".data 1, mnemonicItem "JMP".data AddrAbsolute 0 "start".data 2,
        mnemonicItem "JMP".data AddrAbsolute 0 "foo".data 3, wordLabelItem "bar".data 4] ∧
    (firstPass (NewCodeGenerator NewSymbolTable)
      [labelItem "start".data 1, mnemonicItem "JMP".data AddrAbsolute 0 "start".data 2,
        mnemonicItem "JMP".data AddrAbsolute 0 "foo".data 3, wordLabelItem "bar".data 4]).1
      = none ∧
    referencesLabel "bar".data (wordLabelItem "bar".data 4) ∧
    (∀ i ∈ [labelItem "start".data 1, mnemonicItem "JMP".data AddrAbsolute 0 "start".data 2,
        mnemonicItem "JMP".data AddrAbsolute 0 "foo".data 3, wordLabelItem "bar".data 4],
      ¬ definesLabel "bar".data i) ∧
    (Assemble NewAssembler twoUndefinedSource).map (fun r => r.1)
      = some (some (.gen (.undefinedSymbol 3 "foo".data))) ∧
    ¬ ("bar".data <:+: (GenError.undefinedSymbol 3 "foo".data).message) := by
  decide

/-- C8 (fails on the code).  The spec has the error list every undefined name.  On
`JMP foo` / `JMP bar`, with neither label defined, `Assemble` returns
`line 1: undefined symbol: foo`, which does not mention `bar`: pass 2 returns at the first
label that does not resolve, and the listing in `Generate` is never reached with an undefined
symbol, since nothing enters one in the table. -/
theorem C8_only_first_undefined_symbol_reported :
    (Assemble NewAssembler "JMP foo\nJMP bar\n".data).map (fun r => r.1)
      = some (some (.gen (.undefinedSymbol 1 "foo".data))) ∧
    (GenError.undefinedSymbol 1 "foo".data).message = "line 1: undefined symbol: foo".data ∧
    ¬ ("bar".data <:+: (GenError.undefinedSymbol 1 "foo".data).message) := by
  decide

/-- C9.  Pass 2 on a Relative item found in the opcode table, at address `a`, whose operand
(the address of its label, else its numeric operand) is `t`: the offset is `t - (a + 2)` as
a 16-bit two's-complement number; the step fails with `branch out of range` exactly when the
offset is below -128 or above 127; otherwise it reports no error and stores the offset as a
signed byte at `a+1`, so that `a + 2 + signed(byte) = t` modulo 2^16, and changes no byte
other than those at `a` and `a+1`. -/
theorem C9_branch_offset (symbols : SymbolTable) (output : Image)
    (inst : assembler.Instruction) (info : OpcodeInfo) (t : Nat)
    (ht : inst.Typ = InstMnemonic) (hm : inst.AddressMode = AddrRelative)
    (hl : lookupOpcode inst.Mnemonic inst.AddressMode = some info)
    (hv : resolvedOperand symbols inst = some t)
    (hsize : output.size = 65536) (ha : inst.Address < 65536) (htt : t < 65536) :
    (-32768 ≤ branchOffset t inst.Address ∧ branchOffset t inst.Address ≤ 32767 ∧
      (branchOffset t inst.Address - ((t : Int) - ((inst.Address : Int) + 2))) % 65536 = 0) ∧
    ((secondPassStep symbols output inst).1 = some (.branchOutOfRange inst.Line) ↔
      (branchOffset t inst.Address < -128 ∨ branchOffset t inst.Address > 127)) ∧
    ((secondPassStep symbols output inst).1 = none ↔
      ¬ (branchOffset t inst.Address < -128 ∨ branchOffset t inst.Address > 127)) ∧
    (¬ (branchOffset t inst.Address < -128 ∨ branchOffset t inst.Address > 127) →
      (secondPassStep symbols output inst).2.data inst.Address = info.Opcode ∧
      (secondPassStep symbols output inst).2.data ((inst.Address + 1) % 65536)
        = (branchOffset t inst.Address % 256).toNat ∧
      int8 ((secondPassStep symbols output inst).2.data ((inst.Address + 1) % 65536))
        = branchOffset t inst.Address ∧
      ((inst.Address : Int) + 2 +
          int8 ((secondPassStep symbols output inst).2.data ((inst.Address + 1) % 65536)))
        % 65536 = (t : Int) ∧
      ∀ a, a ≠ inst.Address → a ≠ (inst.Address + 1) % 65536 →
        (secondPassStep symbols output inst).2.data a = output.data a) := by
  have hspec := branchOffset_spec t inst.Address
  have h1 : (inst.Address + 1) % 65536 < 65536 := Nat.mod_lt _ (by norm_num)
  have d1 : inst.Address ≠ (inst.Address + 1) % 65536 := by omega
  rw [secondPassStep_relative symbols output inst info t ht hm hl hv]
  refine ⟨hspec, ?_, ?_, ?_⟩
  · split <;> simp_all
  · split <;> simp_all
  · intro hr
    rw [if_neg hr]
    have hi := int8_toNat (branchOffset t inst.Address) (by omega) (by omega)
    simp only [Image.set_data, Image.set_size, hsize, ha, h1, if_true, if_neg d1]
    refine ⟨trivial, trivial, hi, ?_, ?_⟩
    · rw [hi]; omega
    · intro a ha1 ha2
      simp [ha1, ha2]

/-- C9 at two concrete items: `BEQ` at `$1000` to `$1005` stores the offset 3 at `$1001`;
`BEQ` at `$8000` to `$80CA` (offset 200) fails with `branch out of range`. -/
theorem C9_branch_offset_witness :
    (secondPassStep [] zeroImage beqNear).1 = none ∧
    (secondPassStep [] zeroImage beqNear).2.data 0x1001 = 3 ∧
    (secondPassStep [] zeroImage beqFar).1 = some (.branchOutOfRange 2) :=
  have h1 := C9_branch_offset [] zeroImage beqNear ⟨0xF0, 2⟩ 0x1005
    (by decide) (by decide) (by decide) (by decide) (by decide) (by decide) (by decide)
  have h2 := C9_branch_offset [] zeroImage beqFar ⟨0xF0, 2⟩ 0x80CA
    (by decide) (by decide) (by decide) (by decide) (by decide) (by decide) (by decide)
  ⟨h1.2.2.1.2 (by decide), (h1.2.2.2 (by decide)).2.1.trans (by decide), h2.2.1.2 (by decide)⟩

/-- C10 (fails on the code).  The spec has `.byte` accept values written with a leading `$`.
On `.org $8000` / `.byte $41, $42`, `Assemble` returns the error
`error parsing .byte data: expected number, got '$41'` and stores nothing: the lexer turns
`$41` into one Absolute token, `parseByteData` skips only a Dollar token and then asks
`parseNumber` for a Number token.  The same bytes in decimal, `.byte 65, 66`, are stored. -/
theorem C10_byte_directive_rejects_dollar_hex :
    (Assemble NewAssembler ".org $8000\n.byte $41, $42\n".data).map
        (fun r => (r.1, r.2.output.data 0x8000, r.2.output.data 0x8001))
      = some (some (.parse (.errorParsingByteData (.expectedNumber "$41".data))), 0, 0) ∧
    (Assemble NewAssembler ".org $8000\n.byte 65, 66\n".data).map
        (fun r => (r.1, r.2.output.data 0x8000, r.2.output.data 0x8001))
      = some (none, 0x41, 0x42) := by
  decide

/-- C11: `.word` emits its value low byte first.  For all hex digit strings `sN`, `sV` that
read as `N` and `V`, `Assemble` on `.org $N` / `.word $V` succeeds and leaves `V mod 256` at
`N`, `V div 256` at `N + 1` (mod 2^16) and 0 everywhere else.  And in a program
`pre ++ [L:] ++ post` on which pass 1 succeeds, with no definition of `L` after that
one, pass 2 on every item `.word L`, before or after the definition, stores the low byte
of the address of `L` at the item's address and the high byte at the next address. -/
theorem C11_word_little_endian :
    (∀ (sN sV : Str) (N V : Nat), sN.all isHexChar = true → sV.all isHexChar = true →
      parseHexNumber sN = .ok N → parseHexNumber sV = .ok V →
      ∃ a1 : Assembler, Assemble NewAssembler (wordSource sN sV) = some (none, a1) ∧
        a1.output.data N = V % 256 ∧ a1.output.data ((N + 1) % 65536) = V / 256 ∧
        ∀ a, a ≠ N → a ≠ (N + 1) % 65536 → a1.output.data a = 0) ∧
    (∀ (st : SymbolTable) (pre post : List assembler.Instruction) (L : Str) (line : Nat)
        (cg1 : CodeGenerator) (items1 : List assembler.Instruction),
      L ≠ [] → (∀ i ∈ post, ¬ definesLabel L i) →
      (∀ i ∈ pre ++ labelItem L line :: post, i.Operand < 65536) →
      firstPass (NewCodeGenerator st) (pre ++ labelItem L line :: post) = (none, cg1, items1) →
      ∀ ref ∈ items1, ref.Typ = InstDirective → ref.DirectiveName = "word".data →
        ref.OperandLabel = L → ∀ output : Image, output.size = 65536 →
          (secondPassStep cg1.symbols output ref).1 = none ∧
          (secondPassStep cg1.symbols output ref).2.data ref.Address
            = (firstPass (NewCodeGenerator st) pre).2.1.pc % 256 ∧
          (secondPassStep cg1.symbols output ref).2.data ((ref.Address + 1) % 65536)
            = (firstPass (NewCodeGenerator st) pre).2.1.pc / 256 % 256) := by
  constructor
  · intro sN sV N V hN hV pN pV
    obtain ⟨_, ha⟩ := Assemble_wordSource sN sV N V hN hV pN pV
    have hNlt : N < 65536 := parseUint_lt _ _ _ pN
    have hVlt : V < 65536 := parseUint_lt _ _ _ pV
    have h1 : (N + 1) % 65536 < 65536 := Nat.mod_lt _ (by norm_num)
    have hne : N ≠ (N + 1) % 65536 := by omega
    have hsz : NewAssembler.output.size = 65536 := rfl
    refine ⟨_, ha, ?_, ?_, ?_⟩
    · show ((NewAssembler.output.set N _).set _ _).data N = _
      rw [Image.set_data _ _ _ _ (by rw [Image.set_size, hsz]; exact h1), if_neg hne,
        Image.set_data _ _ _ _ (by rw [hsz]; exact hNlt), if_pos rfl, and_255, Nat.mod_mod]
    · show ((NewAssembler.output.set N _).set _ _).data ((N + 1) % 65536) = _
      rw [Image.set_data _ _ _ _ (by rw [Image.set_size, hsz]; exact h1), if_pos rfl,
        shr8_and_255, Nat.mod_mod]
      omega
    · intro a ha1 ha2
      show ((NewAssembler.output.set N _).set _ _).data a = _
      rw [Image.set_data _ _ _ _ (by rw [Image.set_size, hsz]; exact h1), if_neg ha2,
        Image.set_data _ _ _ _ (by rw [hsz]; exact hNlt), if_neg ha1]
      rfl
  · intro st pre post L line cg1 items1 hL hpost hops hfp ref href ht hn hrl output hsize
    obtain ⟨_, hres⟩ := resolve_last_definition st pre post L line cg1 items1 hpost hfp
    have hne : ref.OperandLabel ≠ [] := by rw [hrl]; exact hL
    exact (reference_bytes st _ cg1 items1 hops hfp ref href _ hne (by rw [hrl]; exact hres)
      output hsize).1 ht hn

/-- C11 at concrete sources: `.org $FFFF` / `.word $1234` stores `34` at `$FFFF` and `12`
at `$0000`; `.org $8000` / `.word later` / `later:` stores `02 80` at `$8000`; and
`.org $1234` / `early:` / `.org $9000` / `.word early` stores `34 12` at `$9000`. -/
theorem C11_word_little_endian_witness :
    (∃ a1 : Assembler,
      Assemble NewAssembler (wordSource "FFFF".data "1234".data) = some (none, a1) ∧
      a1.output.data 0xFFFF = 0x34 ∧ a1.output.data 0x0000 = 0x12 ∧
      ∀ a, a ≠ 0xFFFF → a ≠ 0x0000 → a1.output.data a = 0) ∧
    (Assemble NewAssembler ".org $8000\n.word later\nlater:\n".data).map
        (fun r => (r.1, r.2.output.data 0x8000, r.2.output.data 0x8001))
      = some (none, 0x02, 0x80) ∧
    (Assemble NewAssembler ".org $1234\nearly:\n.org $9000\n.word early\n".data).map
        (fun r => (r.1, r.2.output.data 0x9000, r.2.output.data 0x9001))
      = some (none, 0x34, 0x12) ∧
    (secondPassStep [⟨"later".data, 0x8002, true⟩] zeroImage
      { wordLabelItem "later".data 2 with Address := 0x8000 }).2.data 0x8000 = 0x02 :=
  ⟨C11_word_little_endian.1 "FFFF".data "1234".data 0xFFFF 0x1234 (by decide) (by decide)
      (by decide) (by decide),
    by decide, by decide,
    (C11_word_little_endian.2 NewSymbolTable [orgItem 0x8000 1, wordLabelItem "later".data 2] []
      "later".data 3 ⟨[⟨"later".data, 0x8002, true⟩], 0x8002⟩
      [orgItem 0x8000 1, { wordLabelItem "later".data 2 with Address := 0x8000 },
        labelItem "later".data 3]
      (by decide) (by decide) (by decide) (by decide)
      { wordLabelItem "later".data 2 with Address := 0x8000 } (by decide) rfl rfl rfl
      zeroImage rfl).2.1⟩

/-- C12: for every token stream after a mnemonic, `parseOperand` classifies the operand:
with EOF, Newline or Comment next (or no token left) it is Implicit with operand 0 and
nothing is consumed; `#` followed by a hex or decimal literal v is Immediate with operand
v; a bare hex or decimal literal v is ZeroPage when v <= 0xFF and Absolute otherwise; an
Identifier is Absolute with the identifier as operand label and operand 0; and
`parseMnemonic` stores that classification in the item.  So `LDA $0010` is ZeroPage. -/
theorem C12_operand_classification :
    (∀ ts : List Token, (currentToken ts).Typ = TokenType.TokenEOF ∨
        (currentToken ts).Typ = TokenType.TokenNewline ∨
        (currentToken ts).Typ = TokenType.TokenComment →
      parseOperand ts = .ok (AddrImplicit, 0, [], ts)) ∧
    (∀ (hash t : Token) (rest : List Token) (v : Nat), hash.Typ = TokenType.TokenHash →
      numericLiteral t v → parseOperand (hash :: t :: rest) = .ok (AddrImmediate, v, [], rest)) ∧
    (∀ (t : Token) (rest : List Token) (v : Nat), numericLiteral t v →
      parseOperand (t :: rest)
        = .ok (if v ≤ 0xFF then AddrZeroPage else AddrAbsolute, v, [], rest)) ∧
    (∀ (t : Token) (rest : List Token), t.Typ = TokenType.TokenIdentifier →
      parseOperand (t :: rest) = .ok (AddrAbsolute, 0, t.Value, rest)) ∧
    (∀ (m : Token) (ts rest : List Token) (mode : assembler.AddressingMode) (v : Nat)
        (label : Str), parseOperand ts = .ok (mode, v, label, rest) →
      parseMnemonic (m :: ts) = .ok (mnemonicItem m.Value mode v label m.Line, rest)) ∧
    sourceItems "LDA $0010\n".data = some [mnemonicItem "LDA".data AddrZeroPage 0x10 [] 1] ∧
    sourceItems "LDA $0100\nLDA 255\nLDA 256\n".data
      = some [mnemonicItem "LDA".data AddrAbsolute 0x100 [] 1,
              mnemonicItem "LDA".data AddrZeroPage 255 [] 2,
              mnemonicItem "LDA".data AddrAbsolute 256 [] 3] ∧
    sourceItems "LDA #$FF\nLDA #10\nJMP loop\nNOP\nRTS ; done".data
      = some [mnemonicItem "LDA".data AddrImmediate 0xFF [] 1,
              mnemonicItem "LDA".data AddrImmediate 10 [] 2,
              mnemonicItem "JMP".data AddrAbsolute 0 "loop".data 3,
              mnemonicItem "NOP".data AddrImplicit 0 [] 4,
              mnemonicItem "RTS".data AddrImplicit 0 [] 5] := by
  refine ⟨?_, ?_, ?_, ?_, ?_, by decide, by decide, by decide⟩
  · intro ts h
    unfold parseOperand
    simp only [h, if_true]
  · intro hash t rest v hh hlit
    rcases hlit with ⟨ht, h, hval, hv⟩ | hdec
    · simp only [parseOperand, currentToken, hh, advance, List.tail_cons, ht, hval,
        parseHexNumber, hv, if_true, reduceCtorEq, or_self, if_false]
    · have hn := parseNumber_decimal t rest v hdec
      simp only [parseOperand, currentToken, hh, advance, List.tail_cons, hdec.1, hn,
        if_true, reduceCtorEq, or_self, if_false]
  · intro t rest v hlit
    rcases hlit with ⟨ht, h, hval, hv⟩ | hdec
    · simp only [parseOperand, currentToken, advance, List.tail_cons, ht, hval,
        parseHexNumber, hv, if_true, reduceCtorEq, or_self, if_false, zeroPageOrAbsolute]
    · have hn := parseNumber_decimal t rest v hdec
      simp only [parseOperand, currentToken, advance, List.tail_cons, hdec.1, hn,
        if_true, reduceCtorEq, or_self, if_false, zeroPageOrAbsolute]
  · intro t rest ht
    simp only [parseOperand, currentToken, advance, List.tail_cons, ht,
        if_true, reduceCtorEq, or_self, if_false]
  · intro m ts rest mode v label h
    simp only [parseMnemonic, advance, List.tail_cons, h, currentToken, mnemonicItem]

/-- C13: the image of a fresh assembler has 65536 bytes, all 0; and whenever `Assemble` on
a fresh assembler returns, with or without an error, the image still has 65536 bytes, no
assignment went outside it, and every byte that is not 0 lies at an address covered (address
.. address+length-1, mod 2^16) by an instruction, `.word` or `.byte` item that pass 2
reached, after a pass 1 that succeeded.  `.org` and label items cover no address and pass 2
writes nothing on them. -/
theorem C13_untouched_bytes_stay_zero (source : Str) (e : Option AsmError) (a1 : Assembler)
    (h : Assemble NewAssembler source = some (e, a1)) :
    NewAssembler.output.size = 65536 ∧ (∀ addr, NewAssembler.output.data addr = 0) ∧
    a1.output.size = 65536 ∧ a1.output.fault = false ∧
    (∀ addr, a1.output.data addr ≠ 0 →
      ∃ (items : List assembler.Instruction) (cg1 : CodeGenerator)
        (items1 : List assembler.Instruction),
        sourceItems source = some items ∧
        firstPass (NewCodeGenerator NewSymbolTable) items = (none, cg1, items1) ∧
        ∃ inst ∈ emittedItems cg1.symbols items1,
          (inst.Typ = InstMnemonic ∨ (inst.Typ = InstDirective ∧
            (inst.DirectiveName = "word".data ∨ inst.DirectiveName = "byte".data))) ∧
          itemCovers inst addr) ∧
    (∀ inst : assembler.Instruction,
      inst.Typ = InstLabel ∨ (inst.Typ = InstDirective ∧ inst.DirectiveName = "org".data) →
      itemLength inst = 0 ∧
      ∀ (symbols : SymbolTable) (output : Image),
        secondPassStep symbols output inst = (none, output)) := by
  have hkinds : ∀ (inst : assembler.Instruction) (addr : Nat), itemCovers inst addr →
      (inst.Typ = InstMnemonic ∨ (inst.Typ = InstDirective ∧
        (inst.DirectiveName = "word".data ∨ inst.DirectiveName = "byte".data))) := by
    intro inst addr hc
    obtain ⟨i, hi, _⟩ := hc
    unfold itemLength at hi
    cases ht : inst.Typ with
    | InstMnemonic => exact Or.inl rfl
    | InstLabel => rw [ht] at hi; simp at hi
    | InstDirective =>
      rw [ht] at hi
      simp only at hi
      by_cases hw : inst.DirectiveName = "word".data
      · exact Or.inr ⟨rfl, Or.inl hw⟩
      · by_cases hb : inst.DirectiveName = "byte".data
        · exact Or.inr ⟨rfl, Or.inr hb⟩
        · rw [if_neg hw, if_neg hb] at hi
          omega
  refine ⟨rfl, fun _ => rfl, ?_, ?_, ?_, ?_⟩
  · cases hs : sourceItems source with
    | none =>
      rw [(Assemble_of_no_items _ _ _ _ hs h).1]; rfl
    | some items =>
      rw [Assemble_of_sourceItems _ _ _ hs] at h
      simp only [Option.some.injEq, Prod.mk.injEq] at h
      rw [← h.2]
      rcases Generate_image NewAssembler.symbols items NewAssembler.output
        (sourceItems_operand_lt _ _ hs) with hg | ⟨cg1, items1, ws, _, hg, _⟩
      · show (Generate _ items _).2.2.size = 65536
        rw [hg]; rfl
      · show (Generate _ items _).2.2.size = 65536
        rw [hg, applyWrites_size]; rfl
  · cases hs : sourceItems source with
    | none =>
      rw [(Assemble_of_no_items _ _ _ _ hs h).1]; rfl
    | some items =>
      rw [Assemble_of_sourceItems _ _ _ hs] at h
      simp only [Option.some.injEq, Prod.mk.injEq] at h
      rw [← h.2]
      rcases Generate_image NewAssembler.symbols items NewAssembler.output
        (sourceItems_operand_lt _ _ hs) with hg | ⟨cg1, items1, ws, _, hg, hws⟩
      · show (Generate _ items _).2.2.fault = false
        rw [hg]; rfl
      · show (Generate _ items _).2.2.fault = false
        rw [hg, applyWrites_no_fault _ _ (fun w hw => (hws w hw).1)]; rfl
  · intro addr hne
    cases hs : sourceItems source with
    | none =>
      rw [(Assemble_of_no_items _ _ _ _ hs h).1] at hne
      exact absurd rfl hne
    | some items =>
      rw [Assemble_of_sourceItems _ _ _ hs] at h
      simp only [Option.some.injEq, Prod.mk.injEq] at h
      rw [← h.2] at hne
      rcases Generate_image NewAssembler.symbols items NewAssembler.output
        (sourceItems_operand_lt _ _ hs) with hg | ⟨cg1, items1, ws, hfp, hg, hws⟩
      · have : (Generate (NewCodeGenerator NewAssembler.symbols) items
            NewAssembler.output).2.2.data addr ≠ 0 := hne
        rw [hg] at this
        exact absurd rfl this
      · have hne2 : (Generate (NewCodeGenerator NewAssembler.symbols) items
            NewAssembler.output).2.2.data addr ≠ 0 := hne
        rw [hg] at hne2
        by_cases hex : ∃ w ∈ ws, w.1 = addr
        · obtain ⟨w, hw, rfl⟩ := hex
          obtain ⟨_, inst, hinst, hc⟩ := hws w hw
          exact ⟨items, cg1, items1, rfl, hfp, inst, hinst, hkinds inst _ hc, hc⟩
        · have hfr := applyWrites_frame ws NewAssembler.output addr
            (fun w hw hc => hex ⟨w, hw, hc⟩)
          rw [hfr] at hne2
          exact absurd rfl hne2
  · intro inst hinst
    rcases hinst with ht | ⟨ht, hn⟩
    · refine ⟨by simp only [itemLength, ht], fun symbols output => ?_⟩
      simp only [secondPassStep, ht]
    · have h1 : ¬ inst.DirectiveName = "word".data := by rw [hn]; decide
      have h2 : ¬ inst.DirectiveName = "byte".data := by rw [hn]; decide
      refine ⟨?_, fun symbols output => ?_⟩
      · simp only [itemLength, ht]
        rw [if_neg h1, if_neg h2]
      · simp only [secondPassStep, ht]
        rw [if_neg h1, if_neg h2]

/-- C13 at the source `.org $8000` / `LDA #$01` / `JMP nowhere` / `.byte 1, 2`: `Assemble`
fails with `line 3: undefined symbol: nowhere` after it has stored `A9 01 4C` at
`$8000`..`$8002`; the two operand bytes of the jump and the two bytes of `.byte` are still 0,
and so is every other byte. -/
theorem C13_untouched_bytes_stay_zero_witness :
    ∃ (e : Option AsmError) (a1 : Assembler),
      Assemble NewAssembler partialSource = some (e, a1) ∧
      e = some (.gen (.undefinedSymbol 3 "nowhere".data)) ∧
      (List.range 7).map (fun i => a1.output.data (0x8000 + i)) = [0xA9, 0x01, 0x4C, 0, 0, 0, 0] ∧
      a1.output.size = 65536 ∧ a1.output.fault = false ∧
      (∀ addr, a1.output.data addr ≠ 0 →
        ∃ (items : List assembler.Instruction) (cg1 : CodeGenerator)
          (items1 : List assembler.Instruction),
          sourceItems partialSource = some items ∧
          firstPass (NewCodeGenerator NewSymbolTable) items = (none, cg1, items1) ∧
          ∃ inst ∈ emittedItems cg1.symbols items1,
            (inst.Typ = InstMnemonic ∨ (inst.Typ = InstDirective ∧
              (inst.DirectiveName = "word".data ∨ inst.DirectiveName = "byte".data))) ∧
            itemCovers inst addr) :=
  have h := C13_untouched_bytes_stay_zero partialSource _ _ rfl
  ⟨_, _, rfl, by decide, by decide, h.2.2.1, h.2.2.2.1, h.2.2.2.2.1⟩

/-- C14: for every start address and size below 2^16, on an assembler whose image has
65536 bytes, `WriteROM` hands the file exactly `size` bytes, and for every i below `size`
byte i is the image byte at start+i when start+i is below 0x10000 and is 0 otherwise (the
bytes past the end of the image are zeros, not the bytes from address 0 on). -/
theorem C14_rom_bytes (a : Assembler) (startAddr size : Nat) (hsize : a.output.size = 65536)
    (hs : startAddr < 2 ^ 16) (hn : size < 2 ^ 16) :
    (WriteROM a startAddr size).length = size ∧
    ∀ i, i < size →
      (WriteROM a startAddr size)[i]?
        = some (if startAddr + i < 0x10000 then a.output.data (startAddr + i) else 0) := by
  have hs1 : startAddr < 65536 := hs
  unfold WriteROM
  simp only [hsize, hs1, if_true]
  by_cases hover : startAddr + size > 65536
  · simp only [hover, if_true]
    rw [if_pos (by omega)]
    refine ⟨by rw [goCopy_length, List.length_replicate], ?_⟩
    intro i hi
    rw [goCopy_getElem?]
    have hlen : (a.output.slice startAddr 65536).length = 65536 - startAddr := by
      simp [Image.slice]
    rw [hlen, List.length_replicate, Image.slice_getElem?]
    by_cases h1 : i < 65536 - startAddr
    · simp only [h1, hi, if_true]
      rw [if_pos (by omega)]
    · simp only [h1, if_false]
      rw [if_neg (by omega)]
      simp [List.getElem?_replicate, hi]
  · simp only [hover, if_false]
    by_cases hz : startAddr + size > startAddr
    · simp only [hz, if_true]
      refine ⟨by rw [goCopy_length, List.length_replicate], ?_⟩
      intro i hi
      rw [goCopy_getElem?]
      have hlen : (a.output.slice startAddr (startAddr + size)).length = size := by
        simp [Image.slice]
      rw [hlen, List.length_replicate, Image.slice_getElem?]
      simp only [hi, if_true]
      rw [if_pos (by omega), if_pos (by omega)]
    · simp only [hz, if_false]
      refine ⟨List.length_replicate _ _, ?_⟩
      intro i hi
      omega

theorem C14_rom_bytes_witness :
    patternAssembler.output.size = 65536 ∧ 0xFFFE < 2 ^ 16 ∧ 4 < 2 ^ 16 ∧
    (WriteROM patternAssembler 0xFFFE 4).length = 4 ∧
    (∀ i, i < 4 →
      (WriteROM patternAssembler 0xFFFE 4)[i]?
        = some (if 0xFFFE + i < 0x10000 then patternAssembler.output.data (0xFFFE + i)
                else 0)) ∧
    WriteROM patternAssembler 0xFFFE 4 = [0xF3, 0xFA, 0, 0] ∧
    patternAssembler.output.data 0 = 1 :=
  have h := C14_rom_bytes patternAssembler 0xFFFE 4 rfl (by decide) (by decide)
  ⟨rfl, by decide, by decide, h.1, h.2, by decide, by decide⟩

/-- C15: a definition `L:` is accepted whatever the symbol table holds (pass 1 returns no
error on it and binds `L` to the location counter, pass 2 does nothing on it); and in a
program `a ++ [L:] ++ b ++ [L:] ++ c` on which pass 1 succeeds, where no item of `c`
defines `L` again, `L` resolves to the address of the last definition, and every `.word`
item and Absolute instruction with operand label `L`, wherever it stands in the program
(in `a`, `b` or `c`), is emitted with the low and high byte of that address. -/
theorem C15_last_definition_wins (st : SymbolTable) (a b c : List assembler.Instruction)
    (L : Str) (line1 line2 : Nat) (cg1 : CodeGenerator) (items1 : List assembler.Instruction)
    (hL : L ≠ [])
    (hc : ∀ i ∈ c, ¬ definesLabel L i)
    (hops : ∀ i ∈ a ++ labelItem L line1 :: (b ++ labelItem L line2 :: c), i.Operand < 65536)
    (hfp : firstPass (NewCodeGenerator st) (a ++ labelItem L line1 :: (b ++ labelItem L line2 :: c))
      = (none, cg1, items1)) :
    (∀ cg : CodeGenerator, (firstPassStep cg (labelItem L line2)).1 = none ∧
      (firstPassStep cg (labelItem L line2)).2.1.symbols.Resolve L = some cg.pc) ∧
    (∀ (symbols : SymbolTable) (output : Image),
      secondPassStep symbols output (labelItem L line2) = (none, output)) ∧
    cg1.symbols.Resolve L
      = some (firstPass (NewCodeGenerator st) (a ++ labelItem L line1 :: b)).2.1.pc ∧
    ∀ ref ∈ items1, ref.OperandLabel = L → ∀ output : Image, output.size = 65536 →
      (ref.Typ = InstDirective → ref.DirectiveName = "word".data →
        (secondPassStep cg1.symbols output ref).1 = none ∧
        (secondPassStep cg1.symbols output ref).2.data ref.Address
          = (firstPass (NewCodeGenerator st) (a ++ labelItem L line1 :: b)).2.1.pc % 256 ∧
        (secondPassStep cg1.symbols output ref).2.data ((ref.Address + 1) % 65536)
          = (firstPass (NewCodeGenerator st) (a ++ labelItem L line1 :: b)).2.1.pc / 256 % 256) ∧
      (ref.Typ = InstMnemonic → ref.AddressMode = AddrAbsolute →
        (secondPassStep cg1.symbols output ref).1 = none ∧
        (secondPassStep cg1.symbols output ref).2.data ((ref.Address + 1) % 65536)
          = (firstPass (NewCodeGenerator st) (a ++ labelItem L line1 :: b)).2.1.pc % 256 ∧
        (secondPassStep cg1.symbols output ref).2.data ((ref.Address + 2) % 65536)
          = (firstPass (NewCodeGenerator st) (a ++ labelItem L line1 :: b)).2.1.pc / 256 % 256) := by
  have hshape : a ++ labelItem L line1 :: (b ++ labelItem L line2 :: c)
      = (a ++ labelItem L line1 :: b) ++ labelItem L line2 :: c := by
    simp only [List.append_assoc, List.cons_append]
  have hfp1 := hfp
  rw [hshape] at hfp1
  obtain ⟨_, hres⟩ := resolve_last_definition st _ c L line2 cg1 items1 hc hfp1
  refine ⟨?_, ?_, hres, ?_⟩
  · intro cg
    refine ⟨rfl, ?_⟩
    show (cg.symbols.Define L cg.pc).Resolve L = some cg.pc
    exact Resolve_Define_same _ _ _
  · intro symbols output
    rfl
  · intro ref href hrl output hsize
    have hne : ref.OperandLabel ≠ [] := by rw [hrl]; exact hL
    exact reference_bytes st _ cg1 items1 hops hfp ref href _ hne (by rw [hrl]; exact hres)
      output hsize

/-- C15 at the source `JMP here` / `here:` / `JMP here` / `here:` / `JMP here`: it
assembles without error, and all three jumps are emitted as `4C 06 00`, the address
`$0006` of the second definition. -/
theorem C15_last_definition_wins_witness :
    sourceItems redefinedSource
      = some ([mnemonicItem "JMP".data AddrAbsolute 0 "here".data 1]
          ++ labelItem "here".data 2 :: ([mnemonicItem "JMP".data AddrAbsolute 0 "here".data 3]
          ++ labelItem "here".data 4 :: [mnemonicItem "JMP".data AddrAbsolute 0 "here".data 5])) ∧
    (Assemble NewAssembler redefinedSource).map
        (fun r => (r.1, (List.range 9).map r.2.output.data))
      = some (none, [0x4C, 0x06, 0x00, 0x4C, 0x06, 0x00, 0x4C, 0x06, 0x00]) ∧
    ∀ ref ∈ [{ mnemonicItem "JMP".data AddrAbsolute 0 "here".data 1 with Address := 0 },
        labelItem "here".data 2,
        { mnemonicItem "JMP".data AddrAbsolute 0 "here".data 3 with Address := 3 },
        labelItem "here".data 4,
        { mnemonicItem "JMP".data AddrAbsolute 0 "here".data 5 with Address := 6 }],
      ref.Typ = InstMnemonic →
        (secondPassStep [⟨"here".data, 6, true⟩] zeroImage ref).2.data
          ((ref.Address + 1) % 65536) = 6 :=
  have h := C15_last_definition_wins NewSymbolTable
    [mnemonicItem "JMP".data AddrAbsolute 0 "here".data 1]
    [mnemonicItem "JMP".data AddrAbsolute 0 "here".data 3]
    [mnemonicItem "JMP".data AddrAbsolute 0 "here".data 5] "here".data 2 4
    ⟨[⟨"here".data, 6, true⟩], 9⟩
    [{ mnemonicItem "JMP".data AddrAbsolute 0 "here".data 1 with Address := 0 },
      labelItem "here".data 2,
      { mnemonicItem "JMP".data AddrAbsolute 0 "here".data 3 with Address := 3 },
      labelItem "here".data 4,
      { mnemonicItem "JMP".data AddrAbsolute 0 "here".data 5 with Address := 6 }]
    (by decide) (by decide) (by decide) (by decide)
  ⟨by decide, by decide, fun ref href ht =>
    ((h.2.2.2 ref href (by revert ht; revert href; revert ref; decide) zeroImage rfl).2 ht
      (by revert ht; revert href; revert ref; decide)).2.1⟩

/-- C16 (fails on the code).  The spec has `Tokenize` terminate on every byte sequence,
NUL included, with a token list or an error.  On a lexer whose next byte is NUL,
`nextToken` returns without an error and without consuming the byte, so the loop of
`Tokenize` calls it again on the same state, for ever: whatever the fuel, the loop runs out
of it.  So `Tokenize` and `Assemble` do not return on `LDA #1` followed by a NUL byte. -/
theorem C16_nul_byte_never_returns :
    (∀ (rest : Str) (line column : Nat) (tokens : List Token),
      Lexer.nextToken ⟨Char.ofNat 0 :: rest, line, column, tokens⟩
        = .ok ⟨Char.ofNat 0 :: rest, line, column, tokens⟩) ∧
    (∀ (fuel : Nat) (rest : Str) (line column : Nat) (tokens : List Token),
      tokenizeLoop fuel ⟨Char.ofNat 0 :: rest, line, column, tokens⟩ = none) ∧
    (∀ fuel, tokenizeLoop fuel (NewLexer nulSource) = none) ∧
    Tokenize nulSource = none ∧
    Assemble NewAssembler nulSource = none := by
  have h1 : ∀ (rest : Str) (line column : Nat) (tokens : List Token),
      Lexer.nextToken ⟨Char.ofNat 0 :: rest, line, column, tokens⟩
        = .ok ⟨Char.ofNat 0 :: rest, line, column, tokens⟩ := fun _ _ _ _ => rfl
  have h2 : ∀ (fuel : Nat) (rest : Str) (line column : Nat) (tokens : List Token),
      tokenizeLoop fuel ⟨Char.ofNat 0 :: rest, line, column, tokens⟩ = none := by
    intro fuel
    induction fuel with
    | zero => intro _ _ _ _; rfl
    | succ n ih =>
      intro rest line column tokens
      simp only [tokenizeLoop, h1]
      exact ih rest line column tokens
  have h3 : ∀ fuel, tokenizeLoop fuel (NewLexer nulSource) = none := by
    intro fuel
    cases fuel with
    | zero => rfl
    | succ f1 =>
      cases f1 with
      | zero => rfl
      | succ f2 =>
        cases f2 with
        | zero => rfl
        | succ f3 =>
          cases f3 with
          | zero => rfl
          | succ f4 =>
            cases f4 with
            | zero => rfl
            | succ f5 =>
              exact h2 f5 [] 1 7
                [⟨TokenType.TokenMnemonic, "LDA".data, 1, 1⟩, ⟨TokenType.TokenHash, ['#'], 1, 4⟩,
                  ⟨TokenType.TokenNumber, ['1'], 1, 6⟩]
  refine ⟨h1, h2, h3, h3 _, ?_⟩
  have ht : Tokenize nulSource = none := h3 _
  simp only [Assemble, ht]

/-- C17: `Assemble` is a function of the assembler and the source, so two runs on fresh
assemblers return the same outcome and image; the one result that would depend on the
iteration order of a Go map, the list of undefined symbols, is never returned.  A run that
does not return does not return on any assembler.  And when the run on a fresh assembler
returns an outcome `e` and an assembler `a1`, a second run of the same source on `a1`, with
the symbol table and the image the first run left, returns the same outcome `e` and an image
of the same 65536 bytes. -/
theorem C17_assembly_is_deterministic (source : Str) :
    (Assemble NewAssembler source = none → ∀ a : Assembler, Assemble a source = none) ∧
    ∀ (e : Option AsmError) (a1 : Assembler), Assemble NewAssembler source = some (e, a1) →
      (∀ names, e ≠ some (.gen (.undefinedSymbols names))) ∧
      ∃ a2 : Assembler, Assemble a1 source = some (e, a2) ∧
        a1.output.size = 65536 ∧ a2.output.size = 65536 ∧
        a2.output.fault = a1.output.fault ∧
        ∀ addr, a2.output.data addr = a1.output.data addr := by
  refine ⟨fun h a => Assemble_none _ a source h, ?_⟩
  intro e a1 h
  cases hs : sourceItems source with
  | none =>
    obtain ⟨ha, hk⟩ := Assemble_of_no_items _ _ _ _ hs h
    subst ha
    refine ⟨?_, NewAssembler, h, rfl, rfl, rfl, fun _ => rfl⟩
    intro names hn
    rcases hk with ⟨le, hle⟩ | ⟨pe, hpe⟩
    · rw [hle] at hn; simp at hn
    · rw [hpe] at hn; simp at hn
  | some items =>
    have h1 := Assemble_of_sourceItems NewAssembler source items hs
    rw [h] at h1
    simp only [Option.some.injEq, Prod.mk.injEq] at h1
    obtain ⟨he, ha⟩ := h1
    have hst : NewAssembler.symbols.IsResolved = true := rfl
    obtain ⟨g1, g2, g3, g4⟩ := Generate_again NewAssembler.symbols items NewAssembler.output hst
    have hsym : a1.symbols
        = (Generate (NewCodeGenerator NewAssembler.symbols) items NewAssembler.output).2.1.symbols := by
      rw [ha]
    have hout : a1.output
        = (Generate (NewCodeGenerator NewAssembler.symbols) items NewAssembler.output).2.2 := by
      rw [ha]
    have hsz : a1.output.size = 65536 := by
      rw [hout]
      rcases Generate_image NewAssembler.symbols items NewAssembler.output
        (sourceItems_operand_lt _ _ hs) with hg | ⟨cg1, items1, ws, _, hg, _⟩
      · rw [hg]; rfl
      · rw [hg, applyWrites_size]; rfl
    refine ⟨?_, { a1 with
        symbols := (Generate (NewCodeGenerator a1.symbols) items a1.output).2.1.symbols,
        output := (Generate (NewCodeGenerator a1.symbols) items a1.output).2.2 },
      ?_, hsz, ?_, ?_, ?_⟩
    · intro names hn
      rw [he] at hn
      have := Generate_not_listing NewAssembler.symbols items NewAssembler.output hst names
      cases hg : (Generate (NewCodeGenerator NewAssembler.symbols) items
        NewAssembler.output).1 with
      | none => rw [hg] at hn; simp at hn
      | some err =>
        rw [hg] at hn this
        simp only [Option.map_some', Option.some.injEq, AsmError.gen.injEq] at hn
        exact this (by rw [hn])
    · rw [Assemble_of_sourceItems a1 source items hs]
      simp only [Option.some.injEq, Prod.mk.injEq, and_true]
      rw [hsym, hout, g1]
      exact he.symm
    · show (Generate (NewCodeGenerator a1.symbols) items a1.output).2.2.size = 65536
      rw [hsym, hout, g2, ← hout]; exact hsz
    · show (Generate (NewCodeGenerator a1.symbols) items a1.output).2.2.fault = a1.output.fault
      rw [hsym, hout, g3]
    · intro addr
      show (Generate (NewCodeGenerator a1.symbols) items a1.output).2.2.data addr
        = a1.output.data addr
      rw [hsym, hout, g4]

/-- C17 at the source `.org $8000` / `LDA #$01` / `JMP nowhere` / `.byte 1, 2`: the first
run fails with `line 3: undefined symbol: nowhere` and leaves `A9 01 4C` in the image; the
second run, on the assembler the first one left, fails with the same error and leaves the
same image. -/
theorem C17_assembly_is_deterministic_witness :
    ∃ (e : Option AsmError) (a1 a2 : Assembler),
      Assemble NewAssembler partialSource = some (e, a1) ∧
      e = some (.gen (.undefinedSymbol 3 "nowhere".data)) ∧
      Assemble a1 partialSource = some (e, a2) ∧
      (List.range 4).map (fun i => a1.output.data (0x8000 + i)) = [0xA9, 0x01, 0x4C, 0] ∧
      ∀ addr, a2.output.data addr = a1.output.data addr :=
  have h := (C17_assembly_is_deterministic partialSource).2 _ _ rfl
  ⟨_, _, h.2.choose, rfl, by decide, h.2.choose_spec.1, by decide, h.2.choose_spec.2.2.2.2⟩

/-- C18: for every CPU state whose memory holds LO at 0xFFFC and HI at 0xFFFD (HI a byte),
`Reset` sets PC to `(HI << 8) | LO`, SP to 0xFF, P to 0x20, the cycle counter to 0 and the
running flag to true, and leaves A, X, Y, every memory byte and the printed text as they
were. -/
theorem C18_reset_loads_vector (cpu : CPU) (LO HI : Nat) (hlo : cpu.memory 0xFFFC = LO)
    (hhi : cpu.memory 0xFFFD = HI) (hHI : HI < 256) :
    cpu.Reset.PC = (HI <<< 8) ||| LO ∧ cpu.Reset.SP = 0xFF ∧ cpu.Reset.P = 0x20 ∧
    cpu.Reset.cycles = 0 ∧ cpu.Reset.running = true ∧
    cpu.Reset.A = cpu.A ∧ cpu.Reset.X = cpu.X ∧ cpu.Reset.Y = cpu.Y ∧
    (∀ a, cpu.Reset.memory a = cpu.memory a) ∧ cpu.Reset.out = cpu.out := by
  refine ⟨?_, rfl, rfl, rfl, rfl, rfl, rfl, rfl, fun _ => rfl, rfl⟩
  have h1 : cpu.ReadByte 0xFFFC = LO := by
    simp [CPU.ReadByte, CPU.handleIORead, hlo]
  have h2 : cpu.ReadByte 0xFFFD = HI := by
    simp [CPU.ReadByte, CPU.handleIORead, hhi]
  have h3 : (HI <<< 8) % 65536 = HI <<< 8 := by
    rw [Nat.shiftLeft_eq]; omega
  show cpu.ReadWord RESET_VECTOR = _
  unfold CPU.ReadWord RESET_VECTOR
  have h4 : (0xFFFC + 1) % 65536 = 0xFFFD := by decide
  rw [h4, h1, h2]
  show ((HI <<< 8) % 65536) ||| LO = _
  rw [h3]

theorem C18_reset_loads_vector_witness :
    (resetVectorCPU 0x34 0x12).memory 0xFFFC = 0x34 ∧
    (resetVectorCPU 0x34 0x12).memory 0xFFFD = 0x12 ∧ 0x12 < 256 ∧
    (resetVectorCPU 0x34 0x12).Reset.PC = 0x1234 ∧
    (resetVectorCPU 0x34 0x12).Reset.SP = 0xFF ∧ (resetVectorCPU 0x34 0x12).Reset.P = 0x20 ∧
    (resetVectorCPU 0x34 0x12).Reset.cycles = 0 ∧
    (resetVectorCPU 0x34 0x12).Reset.running = true ∧
    (resetVectorCPU 0x34 0x12).Reset.A = 0x11 ∧ (resetVectorCPU 0x34 0x12).Reset.X = 0x22 ∧
    (resetVectorCPU 0x34 0x12).Reset.Y = 0x33 :=
  have h := C18_reset_loads_vector (resetVectorCPU 0x34 0x12) 0x34 0x12 rfl rfl (by decide)
  ⟨rfl, rfl, by decide, h.1, h.2.1, h.2.2.1, h.2.2.2.1, h.2.2.2.2.1, h.2.2.2.2.2.1,
    h.2.2.2.2.2.2.1, h.2.2.2.2.2.2.2.1⟩

/-- C19: for every CPU state (memory bytes below 256, PC below 2^16) and every addressing
mode, `GetAddress` returns the effective address of the mode table and leaves the CPU as it
was except that PC has advanced by the operand bytes of the mode (1, or 2 for Absolute,
Absolute,X, Absolute,Y and Indirect, or 0 for Implicit and Accumulator), modulo 2^16. -/
theorem C19_get_address_follows_mode_table (cpu : CPU) (mode : emulator.AddressingMode)
    (hmem : ∀ a, cpu.memory a < 256) (hPC : cpu.PC < 2 ^ 16) :
    cpu.GetAddress mode
      = (tableAddress cpu mode, { cpu with PC := (cpu.PC + tableOperandBytes mode) % 2 ^ 16 }) := by
  have hb := ReadByte_lt cpu cpu.PC hmem
  have hpc : (cpu.PC + 0) % 2 ^ 16 = cpu.PC := by
    rw [Nat.add_zero]; exact Nat.mod_eq_of_lt hPC
  cases mode
  · simp only [CPU.GetAddress, tableAddress, tableOperandBytes, hpc]
  · simp only [CPU.GetAddress, tableAddress, tableOperandBytes, hpc]
  · rfl
  · rfl
  · simp only [CPU.GetAddress, tableAddress, tableOperandBytes]
    rw [and_255, and_255, Nat.mod_mod]
    rfl
  · simp only [CPU.GetAddress, tableAddress, tableOperandBytes]
    rw [and_255, and_255, Nat.mod_mod]
    rfl
  · rfl
  · rfl
  · rfl
  · rfl
  · simp only [CPU.GetAddress, tableAddress, tableOperandBytes]
    rw [and_255, and_255, Nat.mod_mod]
    rfl
  · rfl
  · simp only [CPU.GetAddress, tableAddress, tableOperandBytes]
    rw [int8_signedByte _ hb]
    have : ((((cpu.PC + 1) % 65536 : Nat) : Int) + signedByte (cpu.ReadByte cpu.PC)) % 65536
        = ((cpu.PC : Int) + 1 + signedByte (cpu.ReadByte cpu.PC)) % 2 ^ 16 := by
      generalize signedByte (cpu.ReadByte cpu.PC) = s
      omega
    rw [this]
    rfl

theorem C19_get_address_follows_mode_table_witness :
    (∀ a, (operandCPU 0xFB).memory a < 256) ∧ (operandCPU 0xFB).PC < 2 ^ 16 ∧
    (operandCPU 0xFB).GetAddress emulator.AddressingMode.Relative
      = (tableAddress (operandCPU 0xFB) emulator.AddressingMode.Relative,
          { operandCPU 0xFB with
            PC := ((operandCPU 0xFB).PC
              + tableOperandBytes emulator.AddressingMode.Relative) % 2 ^ 16 }) ∧
    tableAddress (operandCPU 0xFB) emulator.AddressingMode.Relative = 0x01FC ∧
    ((operandCPU 0xFB).GetAddress emulator.AddressingMode.Relative).2.PC = 0x0201 :=
  have hmem : ∀ a, (operandCPU 0xFB).memory a < 256 := by
    intro a
    show (if a = 0x0200 then 0xFB else 0x40) < 256
    split <;> decide
  ⟨hmem, by decide,
    C19_get_address_follows_mode_table (operandCPU 0xFB) emulator.AddressingMode.Relative hmem
      (by decide),
    by decide, by decide⟩

/-- C20: for every CPU state with accumulator A and operand byte M (both below 256) and
carry C, `ADC` with r = A + M + C sets A to r mod 256, Carry to r > 0xFF, Overflow to
`((A^M)&0x80)==0 && ((A^r)&0x80)!=0` with the old A, Zero to (r mod 256 = 0) and Negative to
bit 7 of r mod 256; the other four flags, the other registers and the memory are left as
they were, and the accumulator and the four computed flags are the same whether the
Decimal flag is set or clear. -/
theorem C20_adc_result_and_flags (cpu : CPU) (addr : Nat) (hA : cpu.A < 256)
    (hM : cpu.ReadByte addr < 256) :
    (cpu.ADC addr).A
      = (cpu.A + cpu.ReadByte addr + (if cpu.GetFlag CARRY_FLAG then 1 else 0)) % 256 ∧
    (cpu.ADC addr).GetFlag CARRY_FLAG
      = decide (cpu.A + cpu.ReadByte addr + (if cpu.GetFlag CARRY_FLAG then 1 else 0) > 0xFF) ∧
    (cpu.ADC addr).GetFlag OVERFLOW_FLAG
      = ((((cpu.A ^^^ cpu.ReadByte addr) &&& 0x80) == 0) &&
          (((cpu.A ^^^ (cpu.A + cpu.ReadByte addr +
              (if cpu.GetFlag CARRY_FLAG then 1 else 0))) &&& 0x80) != 0)) ∧
    (cpu.ADC addr).GetFlag ZERO_FLAG = ((cpu.ADC addr).A == 0) ∧
    (cpu.ADC addr).GetFlag NEGATIVE_FLAG = ((((cpu.ADC addr).A) &&& 0x80) != 0) ∧
    (∀ g ∈ [INTERRUPT_FLAG, DECIMAL_FLAG, BREAK_FLAG, UNUSED_FLAG],
      (cpu.ADC addr).GetFlag g = cpu.GetFlag g) ∧
    (cpu.ADC addr).X = cpu.X ∧ (cpu.ADC addr).Y = cpu.Y ∧ (cpu.ADC addr).SP = cpu.SP ∧
    (cpu.ADC addr).PC = cpu.PC ∧ (cpu.ADC addr).memory = cpu.memory ∧
    (∀ d : Bool,
      ((cpu.SetFlag DECIMAL_FLAG d).ADC addr).A = (cpu.ADC addr).A ∧
      ∀ g ∈ [CARRY_FLAG, OVERFLOW_FLAG, ZERO_FLAG, NEGATIVE_FLAG],
        ((cpu.SetFlag DECIMAL_FLAG d).ADC addr).GetFlag g = (cpu.ADC addr).GetFlag g) := by
  obtain ⟨hA1, hC, hV, hZ, hN, hO, hX, hY, hSP, hPC, hmemo, _, _, _⟩ := ADC_flags cpu addr
  have hr : (cpu.A + cpu.ReadByte addr + (if cpu.GetFlag CARRY_FLAG then 1 else 0)) % 65536
      = cpu.A + cpu.ReadByte addr + (if cpu.GetFlag CARRY_FLAG then 1 else 0) := by
    apply Nat.mod_eq_of_lt
    split <;> omega
  refine ⟨hA1, ?_, hV, ?_, ?_, hO, hX, hY, hSP, hPC, hmemo, ?_⟩
  · rw [hC, hr]
  · rw [hZ, hA1]
  · rw [hN, hA1]
  · intro d
    obtain ⟨dA, dC, dV, dZ, dN, _⟩ := ADC_flags (cpu.SetFlag DECIMAL_FLAG d) addr
    have e1 : (cpu.SetFlag DECIMAL_FLAG d).A = cpu.A := (SetFlag_fields cpu _ d).1
    have e2 : (cpu.SetFlag DECIMAL_FLAG d).ReadByte addr = cpu.ReadByte addr :=
      ReadByte_SetFlag cpu _ d addr
    have e3 : (cpu.SetFlag DECIMAL_FLAG d).GetFlag CARRY_FLAG = cpu.GetFlag CARRY_FLAG :=
      GetFlag_SetFlag_other cpu _ _ d (by decide) (by decide) (by decide)
    rw [e1, e2, e3] at dA dC dV dZ dN
    refine ⟨dA.trans hA1.symm, ?_⟩
    intro g hg
    simp only [List.mem_cons, List.mem_singleton, List.not_mem_nil, or_false] at hg
    rcases hg with rfl | rfl | rfl | rfl
    · exact dC.trans hC.symm
    · exact dV.trans hV.symm
    · exact dZ.trans hZ.symm
    · exact dN.trans hN.symm

theorem C20_adc_result_and_flags_witness :
    ((adcCPU 0x7F 0x01 0x20).A < 256 ∧ (adcCPU 0x7F 0x01 0x20).ReadByte 0x0010 < 256 ∧
      ((adcCPU 0x7F 0x01 0x20).ADC 0x0010).A = 0x80 ∧
      ((adcCPU 0x7F 0x01 0x20).ADC 0x0010).GetFlag OVERFLOW_FLAG = true ∧
      ((adcCPU 0x7F 0x01 0x20).ADC 0x0010).GetFlag NEGATIVE_FLAG = true ∧
      ((adcCPU 0x7F 0x01 0x20).ADC 0x0010).GetFlag ZERO_FLAG = false ∧
      ((adcCPU 0x7F 0x01 0x20).ADC 0x0010).GetFlag CARRY_FLAG = false) ∧
    ((adcCPU 0xFF 0x01 0x28).A < 256 ∧ (adcCPU 0xFF 0x01 0x28).ReadByte 0x0010 < 256 ∧
      ((adcCPU 0xFF 0x01 0x28).ADC 0x0010).A = 0x00 ∧
      ((adcCPU 0xFF 0x01 0x28).ADC 0x0010).GetFlag CARRY_FLAG = true ∧
      ((adcCPU 0xFF 0x01 0x28).ADC 0x0010).GetFlag ZERO_FLAG = true) :=
  have h1 := C20_adc_result_and_flags (adcCPU 0x7F 0x01 0x20) 0x0010 (by decide) (by decide)
  have h2 := C20_adc_result_and_flags (adcCPU 0xFF 0x01 0x28) 0x0010 (by decide) (by decide)
  ⟨⟨by decide, by decide, h1.1.trans (by decide), h1.2.2.1.trans (by decide),
      h1.2.2.2.2.1.trans (by decide), h1.2.2.2.1.trans (by decide), h1.2.1.trans (by decide)⟩,
    ⟨by decide, by decide, h2.1.trans (by decide), h2.2.1.trans (by decide),
      h2.2.2.2.1.trans (by decide)⟩⟩

/-- C21: for every CPU state with accumulator A, operand byte M and carry C, `SBC` with
`r = A - M - (1 - C)`, an integer, sets A to r mod 256, Carry to `r >= 0`, Overflow to
`((A^M)&0x80)!=0 && ((A^r)&0x80)!=0` with the old A (bit 7 of `A^r` is that of A xor the
low byte of r), Zero to (new A = 0) and Negative to bit 7 of the new A; the other four
flags, the other registers and the memory are left as they were, and the accumulator and
the four computed flags are the same whether the Decimal flag is set or clear. -/
theorem C21_sbc_result_and_flags (cpu : CPU) (addr : Nat) :
    (cpu.SBC addr).A
      = (((cpu.A : Int) - (cpu.ReadByte addr : Int)
          - ((1 - (if cpu.GetFlag CARRY_FLAG then 1 else 0) : Nat) : Int)) % 256).toNat ∧
    (cpu.SBC addr).GetFlag CARRY_FLAG
      = decide ((cpu.A : Int) - (cpu.ReadByte addr : Int)
          - ((1 - (if cpu.GetFlag CARRY_FLAG then 1 else 0) : Nat) : Int) ≥ 0) ∧
    (cpu.SBC addr).GetFlag OVERFLOW_FLAG
      = ((((cpu.A ^^^ cpu.ReadByte addr) &&& 0x80) != 0) &&
          (((cpu.A ^^^ (((cpu.A : Int) - (cpu.ReadByte addr : Int)
            - ((1 - (if cpu.GetFlag CARRY_FLAG then 1 else 0) : Nat) : Int)) % 256).toNat)
              &&& 0x80) != 0)) ∧
    (cpu.SBC addr).GetFlag ZERO_FLAG = ((cpu.SBC addr).A == 0) ∧
    (cpu.SBC addr).GetFlag NEGATIVE_FLAG = (((cpu.SBC addr).A &&& 0x80) != 0) ∧
    (∀ g ∈ [INTERRUPT_FLAG, DECIMAL_FLAG, BREAK_FLAG, UNUSED_FLAG],
      (cpu.SBC addr).GetFlag g = cpu.GetFlag g) ∧
    (cpu.SBC addr).X = cpu.X ∧ (cpu.SBC addr).Y = cpu.Y ∧ (cpu.SBC addr).SP = cpu.SP ∧
    (cpu.SBC addr).PC = cpu.PC ∧ (cpu.SBC addr).memory = cpu.memory ∧
    (∀ d : Bool,
      ((cpu.SetFlag DECIMAL_FLAG d).SBC addr).A = (cpu.SBC addr).A ∧
      ∀ g ∈ [CARRY_FLAG, OVERFLOW_FLAG, ZERO_FLAG, NEGATIVE_FLAG],
        ((cpu.SetFlag DECIMAL_FLAG d).SBC addr).GetFlag g = (cpu.SBC addr).GetFlag g) := by
  obtain ⟨hA, hC, hV, hZ, hN, hO, hX, hY, hSP, hPC, hmemo, _, _, _⟩ := SBC_flags cpu addr
  refine ⟨hA, hC, hV, hZ, hN, hO, hX, hY, hSP, hPC, hmemo, ?_⟩
  intro d
  obtain ⟨dA, dC, dV, dZ, dN, _⟩ := SBC_flags (cpu.SetFlag DECIMAL_FLAG d) addr
  have e1 : (cpu.SetFlag DECIMAL_FLAG d).A = cpu.A := SetFlag_A cpu _ d
  have e2 : (cpu.SetFlag DECIMAL_FLAG d).ReadByte addr = cpu.ReadByte addr :=
    ReadByte_SetFlag cpu _ d addr
  have e3 : (cpu.SetFlag DECIMAL_FLAG d).GetFlag CARRY_FLAG = cpu.GetFlag CARRY_FLAG :=
    GetFlag_SetFlag_other cpu _ _ d (by decide) (by decide) (by decide)
  rw [e1, e2, e3] at dA dC dV
  have hAA : ((cpu.SetFlag DECIMAL_FLAG d).SBC addr).A = (cpu.SBC addr).A := dA.trans hA.symm
  refine ⟨hAA, ?_⟩
  intro g hg
  simp only [List.mem_cons, List.mem_singleton, List.not_mem_nil, or_false] at hg
  rcases hg with rfl | rfl | rfl | rfl
  · exact dC.trans hC.symm
  · exact dV.trans hV.symm
  · rw [dZ, hZ, hAA]
  · rw [dN, hN, hAA]

/-- C21 at two states: `0x50 - 0xB0` with the carry set gives A = `0xA0`, no carry (a
borrow), overflow and negative; `0x10 - 0x10` with the carry set and the Decimal flag set
gives A = 0 with carry and zero. -/
theorem C21_sbc_result_and_flags_witness :
    (((adcCPU 0x50 0xB0 0x21).SBC 0x0010).A = 0xA0 ∧
      ((adcCPU 0x50 0xB0 0x21).SBC 0x0010).GetFlag CARRY_FLAG = false ∧
      ((adcCPU 0x50 0xB0 0x21).SBC 0x0010).GetFlag OVERFLOW_FLAG = true ∧
      ((adcCPU 0x50 0xB0 0x21).SBC 0x0010).GetFlag NEGATIVE_FLAG = true ∧
      ((adcCPU 0x50 0xB0 0x21).SBC 0x0010).GetFlag ZERO_FLAG = false) ∧
    (((adcCPU 0x10 0x10 0x29).SBC 0x0010).A = 0x00 ∧
      ((adcCPU 0x10 0x10 0x29).SBC 0x0010).GetFlag CARRY_FLAG = true ∧
      ((adcCPU 0x10 0x10 0x29).SBC 0x0010).GetFlag ZERO_FLAG = true) :=
  have h1 := C21_sbc_result_and_flags (adcCPU 0x50 0xB0 0x21) 0x0010
  have h2 := C21_sbc_result_and_flags (adcCPU 0x10 0x10 0x29) 0x0010
  ⟨⟨h1.1.trans (by decide), h1.2.1.trans (by decide), h1.2.2.1.trans (by decide),
      h1.2.2.2.2.1.trans (by decide), h1.2.2.2.1.trans (by decide)⟩,
    ⟨h2.1.trans (by decide), h2.2.1.trans (by decide), h2.2.2.2.1.trans (by decide)⟩⟩

/-- C22: for every CPU state with registers and operand byte M below 256, each of `CMP`,
`CPX`, `CPY`, with R = A, X, Y, sets Carry exactly when R >= M, Zero exactly when R = M and
Negative to bit 7 of (R - M) mod 256, and leaves A, X, Y, SP, PC, the memory and the flags
I, D, B, V and the unused flag as they were. -/
theorem C22_compare_flags (cpu : CPU) (addr : Nat) (hA : cpu.A < 256) (hX : cpu.X < 256)
    (hY : cpu.Y < 256) (hM : cpu.ReadByte addr < 256) :
    ∀ p ∈ [(CPU.CMP, cpu.A), (CPU.CPX, cpu.X), (CPU.CPY, cpu.Y)],
      (p.1 cpu addr).GetFlag CARRY_FLAG = decide (p.2 ≥ cpu.ReadByte addr) ∧
      (p.1 cpu addr).GetFlag ZERO_FLAG = decide (p.2 = cpu.ReadByte addr) ∧
      (p.1 cpu addr).GetFlag NEGATIVE_FLAG
        = ((((((p.2 : Int) - (cpu.ReadByte addr : Int)) % 256).toNat) &&& 0x80) != 0) ∧
      (∀ g ∈ [INTERRUPT_FLAG, DECIMAL_FLAG, BREAK_FLAG, UNUSED_FLAG, OVERFLOW_FLAG],
        (p.1 cpu addr).GetFlag g = cpu.GetFlag g) ∧
      (p.1 cpu addr).A = cpu.A ∧ (p.1 cpu addr).X = cpu.X ∧ (p.1 cpu addr).Y = cpu.Y ∧
      (p.1 cpu addr).SP = cpu.SP ∧ (p.1 cpu addr).PC = cpu.PC ∧
      (p.1 cpu addr).memory = cpu.memory := by
  have key : ∀ R : Nat, R < 256 →
      ((cpu.SetFlag CARRY_FLAG (decide (R ≥ cpu.ReadByte addr))).UpdateZeroAndNegative
          (sub8 R (cpu.ReadByte addr))).GetFlag CARRY_FLAG = decide (R ≥ cpu.ReadByte addr) ∧
      ((cpu.SetFlag CARRY_FLAG (decide (R ≥ cpu.ReadByte addr))).UpdateZeroAndNegative
          (sub8 R (cpu.ReadByte addr))).GetFlag ZERO_FLAG = decide (R = cpu.ReadByte addr) ∧
      ((cpu.SetFlag CARRY_FLAG (decide (R ≥ cpu.ReadByte addr))).UpdateZeroAndNegative
          (sub8 R (cpu.ReadByte addr))).GetFlag NEGATIVE_FLAG
        = ((((((R : Int) - (cpu.ReadByte addr : Int)) % 256).toNat) &&& 0x80) != 0) ∧
      (∀ g ∈ [INTERRUPT_FLAG, DECIMAL_FLAG, BREAK_FLAG, UNUSED_FLAG, OVERFLOW_FLAG],
        ((cpu.SetFlag CARRY_FLAG (decide (R ≥ cpu.ReadByte addr))).UpdateZeroAndNegative
          (sub8 R (cpu.ReadByte addr))).GetFlag g = cpu.GetFlag g) ∧
      ((cpu.SetFlag CARRY_FLAG (decide (R ≥ cpu.ReadByte addr))).UpdateZeroAndNegative
          (sub8 R (cpu.ReadByte addr))).A = cpu.A ∧
      ((cpu.SetFlag CARRY_FLAG (decide (R ≥ cpu.ReadByte addr))).UpdateZeroAndNegative
          (sub8 R (cpu.ReadByte addr))).X = cpu.X ∧
      ((cpu.SetFlag CARRY_FLAG (decide (R ≥ cpu.ReadByte addr))).UpdateZeroAndNegative
          (sub8 R (cpu.ReadByte addr))).Y = cpu.Y ∧
      ((cpu.SetFlag CARRY_FLAG (decide (R ≥ cpu.ReadByte addr))).UpdateZeroAndNegative
          (sub8 R (cpu.ReadByte addr))).SP = cpu.SP ∧
      ((cpu.SetFlag CARRY_FLAG (decide (R ≥ cpu.ReadByte addr))).UpdateZeroAndNegative
          (sub8 R (cpu.ReadByte addr))).PC = cpu.PC ∧
      ((cpu.SetFlag CARRY_FLAG (decide (R ≥ cpu.ReadByte addr))).UpdateZeroAndNegative
          (sub8 R (cpu.ReadByte addr))).memory = cpu.memory := by
    intro R hR
    obtain ⟨h1, h2, h3, h4, h5, h6, h7, h8, h9, h10⟩ :=
      compare_state cpu (decide (R ≥ cpu.ReadByte addr)) (sub8 R (cpu.ReadByte addr))
    refine ⟨h1, ?_, ?_, h4, h5, h6, h7, h8, h9, h10⟩
    · rw [h2, sub8_zero R _ hR hM]
    · rw [h3, sub8_eq R _ hM]
  intro p hp
  simp only [List.mem_cons, List.mem_singleton, List.not_mem_nil, or_false] at hp
  rcases hp with rfl | rfl | rfl
  · exact key cpu.A hA
  · exact key cpu.X hX
  · exact key cpu.Y hY

/-- C22 on the program `LDA #$10` / `CMP #$10` / `CMP #$20`: after the first compare Z = 1
and C = 1; after the second Z = 0, C = 0 and N = 1. -/
theorem C22_compare_flags_witness :
    compareProgramCPU.Step.A = 0x10 ∧ compareProgramCPU.Step.Step.PC = 0x0204 ∧
    compareProgramCPU.Step.Step.GetFlag ZERO_FLAG = true ∧
    compareProgramCPU.Step.Step.GetFlag CARRY_FLAG = true ∧
    compareProgramCPU.Step.Step.Step.GetFlag ZERO_FLAG = false ∧
    compareProgramCPU.Step.Step.Step.GetFlag CARRY_FLAG = false ∧
    compareProgramCPU.Step.Step.Step.GetFlag NEGATIVE_FLAG = true ∧
    (compareProgramCPU.Step.CMP 0x0203).GetFlag ZERO_FLAG
      = decide (compareProgramCPU.Step.A = compareProgramCPU.Step.ReadByte 0x0203) :=
  ⟨by decide, by decide, by decide, by decide, by decide, by decide, by decide,
    (C22_compare_flags compareProgramCPU.Step 0x0203 (by decide) (by decide) (by decide)
      (by decide) (CPU.CMP, compareProgramCPU.Step.A) (by simp)).2.1⟩

/-- C23: for each of the eight branch opcodes, on every CPU state whose opcode byte at
`PC = a` is that opcode, with offset byte d (below 256) at a + 1, one `Step` sets PC to
(a + 2 + signed(d)) mod 2^16 when the flag the branch tests has the value it branches on,
and to (a + 2) mod 2^16 otherwise; it adds 2 cycles, clears `running` when the new PC is 0,
and leaves A, X, Y, SP, P, the memory and the printed text as they were. -/
theorem C23_branch_step (cpu : CPU) (op flag : Nat) (sense : Bool)
    (hb : (op, flag, sense) ∈ branchTable) (hop : cpu.ReadByte cpu.PC = op)
    (hd : cpu.ReadByte ((cpu.PC + 1) % 65536) < 256) :
    cpu.Step.PC
      = (if cpu.GetFlag flag = sense
          then (((cpu.PC : Int) + 2 + signedByte (cpu.ReadByte ((cpu.PC + 1) % 65536)))
            % 2 ^ 16).toNat
          else (cpu.PC + 2) % 2 ^ 16) ∧
    cpu.Step.A = cpu.A ∧ cpu.Step.X = cpu.X ∧ cpu.Step.Y = cpu.Y ∧ cpu.Step.SP = cpu.SP ∧
    cpu.Step.P = cpu.P ∧ cpu.Step.memory = cpu.memory ∧ cpu.Step.out = cpu.out ∧
    cpu.Step.cycles = (cpu.cycles + 2) % 2 ^ 64 ∧
    cpu.Step.running = (if cpu.Step.PC = 0 then false else cpu.running) := by
  obtain ⟨hmode, hcyc, h, hex, hrun⟩ := branchTable_entries _ hb
  simp only at hmode hcyc hex hrun
  have hstep := Step_some cpu h (by rw [hop]; exact hex)
  rw [hop, hmode, hcyc] at hstep
  have hfetch : fetchOperand { cpu with PC := (cpu.PC + 1) % 65536 }
      emulator.AddressingMode.Relative
      = Prod.mk
          (Int.toNat ((((((cpu.PC + 1) % 65536 + 1) % 65536 : Nat) : Int)
            + int8 (cpu.ReadByte ((cpu.PC + 1) % 65536))) % 65536))
          { cpu with PC := ((cpu.PC + 1) % 65536 + 1) % 65536 } := rfl
  rw [hfetch, hrun] at hstep
  simp only at hstep
  have hflag : CPU.GetFlag { cpu with PC := ((cpu.PC + 1) % 65536 + 1) % 65536 } flag
      = cpu.GetFlag flag := rfl
  rw [hflag, int8_signedByte _ hd] at hstep
  have hpc2 : ((cpu.PC + 1) % 65536 + 1) % 65536 = (cpu.PC + 2) % 2 ^ 16 := by omega
  have htarget : Int.toNat ((((((cpu.PC + 1) % 65536 + 1) % 65536 : Nat) : Int)
      + signedByte (cpu.ReadByte ((cpu.PC + 1) % 65536))) % 65536)
      = (((cpu.PC : Int) + 2 + signedByte (cpu.ReadByte ((cpu.PC + 1) % 65536)))
            % 2 ^ 16).toNat := by
    generalize signedByte (cpu.ReadByte ((cpu.PC + 1) % 65536)) = s
    omega
  rw [htarget, hpc2] at hstep
  rw [hstep]
  unfold finishStep
  by_cases hc : cpu.GetFlag flag = sense
  · simp only [hc, if_true]
    split <;> simp_all
  · simp only [hc, if_false]
    split <;> simp_all

/-- C23 on the program `LDX #$00` / `loop: INX` / `CPX #$03` / `BNE loop` / `BRK` at
`$8000`: the branch at `$8005` is taken twice, back to `$8002`, and the tenth `Step`
falls through to the `BRK` at `$8007`, with X = 3 and Z = 1. -/
theorem C23_branch_step_witness :
    (0xD0, ZERO_FLAG, false) ∈ branchTable ∧
    (stepN 3 loopProgramCPU).PC = 0x8005 ∧ (stepN 3 loopProgramCPU).GetFlag ZERO_FLAG = false ∧
    (stepN 4 loopProgramCPU).PC = 0x8002 ∧
    (stepN 7 loopProgramCPU).PC = 0x8002 ∧
    (stepN 10 loopProgramCPU).PC = 0x8007 ∧ (stepN 10 loopProgramCPU).X = 3 ∧
    (stepN 10 loopProgramCPU).GetFlag ZERO_FLAG = true ∧
    (stepN 10 loopProgramCPU).ReadByte 0x8007 = 0x00 ∧
    (stepN 3 loopProgramCPU).Step.PC
      = (if (stepN 3 loopProgramCPU).GetFlag ZERO_FLAG = false
          then ((((stepN 3 loopProgramCPU).PC : Int) + 2
            + signedByte ((stepN 3 loopProgramCPU).ReadByte
                (((stepN 3 loopProgramCPU).PC + 1) % 65536))) % 2 ^ 16).toNat
          else ((stepN 3 loopProgramCPU).PC + 2) % 2 ^ 16) :=
  ⟨by decide, by decide, by decide, by decide, by decide, by decide, by decide, by decide,
    by decide,
    (C23_branch_step (stepN 3 loopProgramCPU) 0xD0 ZERO_FLAG false (by decide) (by decide)
      (by decide)).1⟩

/-- C24: for every CPU state with PC = a and SP below 256 whose opcode byte at
a is `JSR` (0x20), one `Step` sets PC to the target t (the little-endian word at a + 1),
stores the high byte of (a + 2) mod 2^16 at 0x0100 + SP and its low byte at
0x0100 + ((SP - 1) mod 256),
changes no other memory byte and lowers SP by 2; and if the opcode byte then read at t is
`RTS` (0x60), a second `Step` leaves PC = (a + 3) mod 2^16, SP at its value before the `JSR`
and the memory as the `JSR` left it. -/
theorem C24_jsr_rts_round_trip (cpu : CPU) (hSP : cpu.SP < 256)
    (hjsr : cpu.ReadByte cpu.PC = 0x20) :
    cpu.Step.PC = cpu.ReadWord ((cpu.PC + 1) % 65536) ∧
    cpu.Step.SP = (cpu.SP + 254) % 256 ∧
    cpu.Step.memory (0x0100 + cpu.SP) = (cpu.PC + 2) % 65536 / 256 ∧
    cpu.Step.memory (0x0100 + (cpu.SP + 255) % 256) = (cpu.PC + 2) % 65536 % 256 ∧
    (∀ x, x ≠ 0x0100 + cpu.SP → x ≠ 0x0100 + (cpu.SP + 255) % 256 →
      cpu.Step.memory x = cpu.memory x) ∧
    (cpu.Step.ReadByte cpu.Step.PC = 0x60 →
      cpu.Step.Step.PC = (cpu.PC + 3) % 65536 ∧ cpu.Step.Step.SP = cpu.SP ∧
      cpu.Step.Step.memory = cpu.Step.memory) := by
  have st1 := Step_absolute cpu 0x20 6 .JSR hjsr (by decide) (by decide) (by decide)
  have hrun : ∀ c a, Handler.run .JSR c a = c.JSR a := fun _ _ => rfl
  rw [hrun] at st1
  obtain ⟨-, -, -, f4, f5, -, f7, -⟩ := finishStep_fields
    (CPU.JSR { cpu with PC := ((cpu.PC + 1) % 65536 + 2) % 65536 }
      (cpu.ReadWord ((cpu.PC + 1) % 65536))) 6
  rw [← st1] at f4 f5 f7
  obtain ⟨j1, j2, j3, j4, j5, -⟩ := JSR_fields
    { cpu with PC := ((cpu.PC + 1) % 65536 + 2) % 65536 }
    (cpu.ReadWord ((cpu.PC + 1) % 65536)) hSP
  rw [← f4] at j2
  rw [← f5] at j1
  rw [← f7] at j3 j4 j5
  have hw : (((cpu.PC + 1) % 65536 + 2) % 65536 + 65535) % 65536 = (cpu.PC + 2) % 65536 := by
    omega
  rw [hw] at j3 j4
  have hhi : (cpu.PC + 2) % 65536 / 256 % 256 = (cpu.PC + 2) % 65536 / 256 :=
    Nat.mod_eq_of_lt (by omega)
  rw [hhi] at j3
  have J1 : cpu.Step.PC = cpu.ReadWord ((cpu.PC + 1) % 65536) := j1
  have J2 : cpu.Step.SP = (cpu.SP + 254) % 256 := j2
  have J3 : cpu.Step.memory (0x0100 + cpu.SP) = (cpu.PC + 2) % 65536 / 256 := j3
  have J4 : cpu.Step.memory (0x0100 + (cpu.SP + 255) % 256) = (cpu.PC + 2) % 65536 % 256 := j4
  have J5 : ∀ x, x ≠ 0x0100 + cpu.SP → x ≠ 0x0100 + (cpu.SP + 255) % 256 →
      cpu.Step.memory x = cpu.memory x := j5
  clear j1 j2 j3 j4 j5 f4 f5 f7 st1
  refine ⟨J1, J2, J3, J4, J5, ?_⟩
  intro hrts
  generalize cpu.Step = s at *
  have st2 := Step_implicit s 0x60 6 .RTS hrts (by decide) (by decide) (by decide)
  have hrun2 : ∀ c a, Handler.run .RTS c a = c.RTS a := fun _ _ => rfl
  rw [hrun2] at st2
  obtain ⟨-, -, -, g4, g5, -, g7, -⟩ := finishStep_fields
    (CPU.RTS { s with PC := (s.PC + 1) % 65536 } 0) 6
  rw [← st2] at g4 g5 g7
  obtain ⟨r1, r2, r3, -⟩ := RTS_fields { s with PC := (s.PC + 1) % 65536 } 0
  rw [← g4] at r2
  rw [← g5] at r1
  rw [← g7] at r3
  have R1 : s.Step.PC = (((s.memory (0x100 + (s.SP + 2) % 256) <<< 8) % 65536
      ||| s.memory (0x100 + (s.SP + 1) % 256)) + 1) % 65536 := r1
  have R2 : s.Step.SP = (s.SP + 2) % 256 := r2
  have R3 : s.Step.memory = s.memory := r3
  clear r1 r2 r3 g4 g5 g7 st2
  have e2 : (s.SP + 2) % 256 = cpu.SP := by rw [J2]; omega
  have e1 : (s.SP + 1) % 256 = (cpu.SP + 255) % 256 := by rw [J2]; omega
  rw [e2, e1, J3, J4] at R1
  rw [e2] at R2
  have hj := word_join ((cpu.PC + 2) % 65536) (by omega)
  rw [hhi] at hj
  rw [hj] at R1
  refine ⟨?_, R2, R3⟩
  rw [R1]
  omega

/-- C24 on the program `JSR $8010` at `$8000` with `RTS` at `$8010`, SP = 0xFF: the `JSR`
stores 0x80 at `$01FF` and 0x02 at `$01FE`, and the `RTS` returns to `$8003` with SP = 0xFF. -/
theorem C24_jsr_rts_round_trip_witness :
    jsrProgramCPU.SP < 256 ∧ jsrProgramCPU.ReadByte jsrProgramCPU.PC = 0x20 ∧
    jsrProgramCPU.Step.PC = 0x8010 ∧ jsrProgramCPU.Step.SP = 0xFD ∧
    jsrProgramCPU.Step.memory 0x01FF = 0x80 ∧ jsrProgramCPU.Step.memory 0x01FE = 0x02 ∧
    jsrProgramCPU.Step.ReadByte jsrProgramCPU.Step.PC = 0x60 ∧
    jsrProgramCPU.Step.Step.PC = 0x8003 ∧ jsrProgramCPU.Step.Step.SP = 0xFF ∧
    (jsrProgramCPU.Step.Step.PC = (jsrProgramCPU.PC + 3) % 65536 ∧
      jsrProgramCPU.Step.Step.SP = jsrProgramCPU.SP ∧
      jsrProgramCPU.Step.Step.memory = jsrProgramCPU.Step.memory) :=
  ⟨by decide, by decide, by decide, by decide, by decide, by decide, by decide, by decide,
    by decide,
    (C24_jsr_rts_round_trip jsrProgramCPU (by decide) (by decide)).2.2.2.2.2 (by decide)⟩

/-- C25: for every CPU state with SP below 256 (SP = 0x00 included) and all bytes a and b,
`Push(a); Push(b)` followed by two `Pop`s returns b and then a and leaves SP at its starting
value; the two pushes store a at 0x0100 + SP and b at 0x0100 + ((SP - 1) mod 256), both in
page 1, and change no other memory byte, and the pops change none; `PHA` followed by `PLA`
leaves A and SP as they were before the `PHA`, also as two `Step`s over the opcodes 0x48 and
0x68. -/
theorem C25_stack_is_lifo (cpu : CPU) (a b : Nat) (hSP : cpu.SP < 256) :
    ((cpu.Push a).Push b).Pop.1 = b ∧ ((cpu.Push a).Push b).Pop.2.Pop.1 = a ∧
    ((cpu.Push a).Push b).Pop.2.Pop.2.SP = cpu.SP ∧
    ((cpu.Push a).Push b).Pop.2.Pop.2.memory = ((cpu.Push a).Push b).memory ∧
    ((cpu.Push a).Push b).memory (0x0100 + cpu.SP) = a ∧
    ((cpu.Push a).Push b).memory (0x0100 + (cpu.SP + 255) % 256) = b ∧
    (∀ x, x ≠ 0x0100 + cpu.SP → x ≠ 0x0100 + (cpu.SP + 255) % 256 →
      ((cpu.Push a).Push b).memory x = cpu.memory x) ∧
    (∀ x, x < 0x0100 ∨ 0x01FF < x → ((cpu.Push a).Push b).memory x = cpu.memory x) ∧
    (∀ addr1 addr2, ((cpu.PHA addr1).PLA addr2).A = cpu.A ∧
      ((cpu.PHA addr1).PLA addr2).SP = cpu.SP) ∧
    (cpu.ReadByte cpu.PC = 0x48 → cpu.Step.ReadByte cpu.Step.PC = 0x68 →
      cpu.Step.Step.A = cpu.A ∧ cpu.Step.Step.SP = cpu.SP) := by
  obtain ⟨h1, h2, h3, h4, -, h6, h7, h8⟩ := push_push_pop_pop cpu a b hSP
  have hpla : ∀ c : CPU, c.SP < 256 → ∀ addr1 addr2,
      ((c.PHA addr1).PLA addr2).A = c.A ∧ ((c.PHA addr1).PLA addr2).SP = c.SP := by
    intro c hc addr1 addr2
    obtain ⟨s1, m1, -⟩ := Push_fields c c.A hc
    have e : ((c.Push c.A).SP + 1) % 256 = c.SP := by rw [s1]; omega
    have hv : (c.Push c.A).Pop.1 = c.A := by
      rw [Pop_fst (c.Push c.A) c.SP e.symm, m1]
    rw [PHA_eq]
    generalize c.Push c.A = q at *
    obtain ⟨p1, p2, -⟩ := PLA_fields q addr2
    rw [p1, p2]
    exact ⟨hv, e⟩
  refine ⟨h1, h2, h3, h4, h6, h7, h8, fun x hx => h8 x (by omega) (by omega), hpla cpu hSP, ?_⟩
  intro hpha hplaop
  have st1 := Step_implicit cpu 0x48 3 .PHA hpha (by decide) (by decide) (by decide)
  have hrun : ∀ c a, Handler.run .PHA c a = c.Push c.A := fun _ _ => rfl
  rw [hrun] at st1
  obtain ⟨f1, -, -, f4, -, -, f7, -⟩ := finishStep_fields
    (CPU.Push { cpu with PC := (cpu.PC + 1) % 65536 } cpu.A) 3
  rw [← st1] at f1 f4 f7
  obtain ⟨s1, m1, -, a1, -⟩ := Push_fields { cpu with PC := (cpu.PC + 1) % 65536 } cpu.A hSP
  rw [← f1] at a1
  rw [← f4] at s1
  rw [← f7] at m1
  have S1 : cpu.Step.SP = (cpu.SP + 255) % 256 := s1
  have M1 : cpu.Step.memory (0x0100 + cpu.SP) = cpu.A := m1
  clear s1 m1 a1 f1 f4 f7 st1
  generalize cpu.Step = s at *
  have st2 := Step_implicit s 0x68 4 .PLA hplaop (by decide) (by decide) (by decide)
  have hrun2 : ∀ c a, Handler.run .PLA c a = c.PLA a := fun _ _ => rfl
  rw [hrun2] at st2
  obtain ⟨g1, -, -, g4, -⟩ := finishStep_fields
    (CPU.PLA { s with PC := (s.PC + 1) % 65536 } 0) 4
  rw [← st2] at g1 g4
  obtain ⟨p1, p2, -⟩ := PLA_fields { s with PC := (s.PC + 1) % 65536 } 0
  rw [← g1] at p1
  rw [← g4] at p2
  have hpop : (CPU.Pop { s with PC := (s.PC + 1) % 65536 }).1 = s.memory (0x0100 + cpu.SP) :=
    Pop_fst { s with PC := (s.PC + 1) % 65536 } cpu.SP
      (by show cpu.SP = (s.SP + 1) % 256; rw [S1]; omega)
  have P2 : s.Step.SP = (s.SP + 1) % 256 := p2
  rw [p1, hpop, M1, P2, S1]
  exact ⟨rfl, by omega⟩

/-- C25 with SP = 0x00 (the pushes wrap to 0x01FF): pushing 0x12 then 0x34 pops 0x34 then
0x12; and `PHA` / `PLA` at `$0200` with A = 0x5A leave A = 0x5A and SP = 0x00. -/
theorem C25_stack_is_lifo_witness :
    stackProgramCPU.SP < 256 ∧
    ((stackProgramCPU.Push 0x12).Push 0x34).Pop.1 = 0x34 ∧
    ((stackProgramCPU.Push 0x12).Push 0x34).Pop.2.Pop.1 = 0x12 ∧
    ((stackProgramCPU.Push 0x12).Push 0x34).Pop.2.Pop.2.SP = stackProgramCPU.SP ∧
    ((stackProgramCPU.Push 0x12).Push 0x34).SP = 0xFE ∧
    ((stackProgramCPU.Push 0x12).Push 0x34).memory 0x0100 = 0x12 ∧
    ((stackProgramCPU.Push 0x12).Push 0x34).memory 0x01FF = 0x34 ∧
    stackProgramCPU.Step.SP = 0xFF ∧ stackProgramCPU.Step.Step.SP = 0x00 ∧
    stackProgramCPU.Step.Step.A = 0x5A ∧ stackProgramCPU.Step.Step.PC = 0x0202 :=
  ⟨by decide, (C25_stack_is_lifo stackProgramCPU 0x12 0x34 (by decide)).1,
    (C25_stack_is_lifo stackProgramCPU 0x12 0x34 (by decide)).2.1,
    (C25_stack_is_lifo stackProgramCPU 0x12 0x34 (by decide)).2.2.1,
    by decide, by decide, by decide, by decide, by decide, by decide, by decide⟩

/-- C26: for every CPU state with PC = a and SP below 256 whose opcode byte at a is `BRK`
(0x00), one `Step` stores the high byte of (a + 2) mod 2^16 at 0x0100 + SP, its low byte at
0x0100 + ((SP - 1) mod 256) and `P | 0x10` at 0x0100 + ((SP - 2) mod 256), changes no other
memory byte, sets P to `P | 0x04` (Interrupt-Disable set, every other flag as it was, the
Break flag included), lowers SP by 3 (mod 256), sets PC to the little-endian word at 0xFFFE,
leaves A, X and Y as they were and adds 7 cycles. -/
theorem C26_brk_step (cpu : CPU) (hSP : cpu.SP < 256) (hbrk : cpu.ReadByte cpu.PC = 0x00) :
    cpu.Step.memory (0x0100 + cpu.SP) = (cpu.PC + 2) % 65536 / 256 ∧
    cpu.Step.memory (0x0100 + (cpu.SP + 255) % 256) = (cpu.PC + 2) % 65536 % 256 ∧
    cpu.Step.memory (0x0100 + (cpu.SP + 254) % 256) = cpu.P ||| 0x10 ∧
    (∀ x, x ≠ 0x0100 + cpu.SP → x ≠ 0x0100 + (cpu.SP + 255) % 256 →
      x ≠ 0x0100 + (cpu.SP + 254) % 256 → cpu.Step.memory x = cpu.memory x) ∧
    cpu.Step.P = cpu.P ||| 0x04 ∧
    cpu.Step.GetFlag INTERRUPT_FLAG = true ∧
    (∀ g ∈ statusFlags, g ≠ INTERRUPT_FLAG → cpu.Step.GetFlag g = cpu.GetFlag g) ∧
    cpu.Step.SP = (cpu.SP + 253) % 256 ∧
    cpu.Step.PC = cpu.ReadWord 0xFFFE ∧
    cpu.Step.A = cpu.A ∧ cpu.Step.X = cpu.X ∧ cpu.Step.Y = cpu.Y ∧
    cpu.Step.cycles = (cpu.cycles + 7) % 2 ^ 64 := by
  have st := Step_implicit cpu 0x00 7 .BRK hbrk (by decide) (by decide) (by decide)
  have hrun : ∀ c a, Handler.run .BRK c a = c.BRK a := fun _ _ => rfl
  rw [hrun] at st
  obtain ⟨f1, f2, f3, f4, f5, f6, f7, -, f9, -⟩ := finishStep_fields
    (CPU.BRK { cpu with PC := (cpu.PC + 1) % 65536 } 0) 7
  rw [← st] at f1 f2 f3 f4 f5 f6 f7 f9
  obtain ⟨b1, b2, b3, b4, b5, b6, b7, b8, b9, b10, b11, -⟩ :=
    BRK_fields { cpu with PC := (cpu.PC + 1) % 65536 } 0 hSP
  rw [← f5] at b1
  rw [← f4] at b2
  rw [← f6] at b3
  rw [← f7] at b4 b5 b6 b7
  rw [← f1] at b8
  rw [← f2] at b9
  rw [← f3] at b10
  rw [b11] at f9
  have hw : ((cpu.PC + 1) % 65536 + 1) % 65536 = (cpu.PC + 2) % 65536 := by omega
  have B1 : cpu.Step.PC = cpu.ReadWord 0xFFFE := b1
  have B2 : cpu.Step.SP = (cpu.SP + 253) % 256 := b2
  have B3 : cpu.Step.P = cpu.P ||| 0x04 := b3
  have B4 : cpu.Step.memory (0x0100 + cpu.SP)
      = ((cpu.PC + 1) % 65536 + 1) % 65536 / 256 % 256 := b4
  have B5 : cpu.Step.memory (0x0100 + (cpu.SP + 255) % 256)
      = ((cpu.PC + 1) % 65536 + 1) % 65536 % 256 := b5
  have B6 : cpu.Step.memory (0x0100 + (cpu.SP + 254) % 256) = cpu.P ||| 0x10 := b6
  have B7 : ∀ x, x ≠ 0x0100 + cpu.SP → x ≠ 0x0100 + (cpu.SP + 255) % 256 →
      x ≠ 0x0100 + (cpu.SP + 254) % 256 → cpu.Step.memory x = cpu.memory x := b7
  have B8 : cpu.Step.A = cpu.A := b8
  have B9 : cpu.Step.X = cpu.X := b9
  have B10 : cpu.Step.Y = cpu.Y := b10
  have F9 : cpu.Step.cycles = (cpu.cycles + 7) % 2 ^ 64 := f9
  clear b1 b2 b3 b4 b5 b6 b7 b8 b9 b10 b11 f1 f2 f3 f4 f5 f6 f7 f9 st
  rw [hw] at B4 B5
  rw [Nat.mod_eq_of_lt (by omega : (cpu.PC + 2) % 65536 / 256 < 256)] at B4
  generalize cpu.Step = s at *
  have hflag : ∀ g, s.GetFlag g = (cpu.SetFlag INTERRUPT_FLAG true).GetFlag g := by
    intro g
    unfold CPU.GetFlag
    rw [B3, SetFlag_true_P]
    rfl
  refine ⟨B4, B5, B6, B7, B3, ?_, ?_, B2, B1, B8, B9, B10, F9⟩
  · rw [hflag, GetFlag_SetFlag_same _ _ _ (by decide)]
  · intro g hg hne
    rw [hflag, GetFlag_SetFlag_other _ _ _ _ (by decide) hg (fun h => hne h.symm)]

/-- C26 on `BRK` at `$8000` with P = 0xC3, SP = 0x01 and the word `$9000` at `$FFFE`: the
step stores 0x80 at `$0101`, 0x02 at `$0100` and 0xD3 at `$01FF`, and leaves P = 0xC7,
SP = 0xFE and PC = `$9000`. -/
theorem C26_brk_step_witness :
    brkProgramCPU.SP < 256 ∧ brkProgramCPU.ReadByte brkProgramCPU.PC = 0x00 ∧
    brkProgramCPU.Step.memory 0x0101 = 0x80 ∧ brkProgramCPU.Step.memory 0x0100 = 0x02 ∧
    brkProgramCPU.Step.memory 0x01FF = 0xD3 ∧ brkProgramCPU.Step.P = 0xC7 ∧
    brkProgramCPU.Step.SP = 0xFE ∧ brkProgramCPU.Step.PC = 0x9000 ∧
    brkProgramCPU.Step.running = true ∧
    brkProgramCPU.Step.P = brkProgramCPU.P ||| 0x04 :=
  ⟨by decide, by decide, by decide, by decide, by decide, by decide, by decide, by decide,
    by decide, (C26_brk_step brkProgramCPU (by decide) (by decide)).2.2.2.2.1⟩

/-- C27: for every CPU state, address x and value v: a read of x after `WriteByte(x, v)`
returns v unless x is 0xF001 or 0xF004, and a read of any other address returns what it
returned before; `ReadByte(0xF004)` is 0 in every state, also after a write to 0xF004;
`WriteByte(0xF001, v)` leaves every memory byte as it was; and no `WriteByte` changes a
register, the cycle counter or the running flag. -/
theorem C27_memory_is_ram_except_io (cpu : CPU) (x v : Nat) :
    (x ≠ 0xF001 → x ≠ 0xF004 → (cpu.WriteByte x v).ReadByte x = v) ∧
    (∀ y, y ≠ x → (cpu.WriteByte x v).ReadByte y = cpu.ReadByte y) ∧
    cpu.ReadByte 0xF004 = 0x00 ∧ (cpu.WriteByte 0xF004 v).ReadByte 0xF004 = 0x00 ∧
    (∀ a, (cpu.WriteByte 0xF001 v).memory a = cpu.memory a) ∧
    (cpu.WriteByte x v).A = cpu.A ∧ (cpu.WriteByte x v).X = cpu.X ∧
    (cpu.WriteByte x v).Y = cpu.Y ∧ (cpu.WriteByte x v).SP = cpu.SP ∧
    (cpu.WriteByte x v).PC = cpu.PC ∧ (cpu.WriteByte x v).P = cpu.P ∧
    (cpu.WriteByte x v).cycles = cpu.cycles ∧ (cpu.WriteByte x v).running = cpu.running :=
  ⟨ReadByte_WriteByte_same cpu x v, fun y hy => ReadByte_WriteByte_other cpu x y v hy,
    ReadByte_keyboard cpu, ReadByte_keyboard _,
    fun a => by rw [WriteByte_display_memory],
    WriteByte_A cpu x v, WriteByte_X cpu x v, WriteByte_Y cpu x v, WriteByte_SP cpu x v,
    WriteByte_PC cpu x v, WriteByte_P cpu x v, WriteByte_cycles cpu x v,
    WriteByte_running cpu x v⟩

/-- C28: for every CPU state, with `op` the byte at PC: the instruction table has no method
for `op` exactly when it does not list `op`; after one `Step` the running flag is false when
`op` has no method or the PC after the step is 0, and is what it was in every other case; on
an opcode without method, `Step` sets PC to (PC + 1) mod 2^16, leaves A, X, Y, SP, P, the
cycle counter and the memory as they were and prints the diagnostic with the opcode and the
address it was fetched from. -/
theorem C28_step_and_running (cpu : CPU) :
    ((instructions (cpu.ReadByte cpu.PC)).Execute = none
      ↔ ∀ e ∈ instructionTable, e.1 ≠ cpu.ReadByte cpu.PC) ∧
    cpu.Step.running
      = (if (instructions (cpu.ReadByte cpu.PC)).Execute = none ∨ cpu.Step.PC = 0 then false
         else cpu.running) ∧
    ((instructions (cpu.ReadByte cpu.PC)).Execute = none →
      cpu.Step.PC = (cpu.PC + 1) % 65536 ∧ cpu.Step.A = cpu.A ∧ cpu.Step.X = cpu.X ∧
      cpu.Step.Y = cpu.Y ∧ cpu.Step.SP = cpu.SP ∧ cpu.Step.P = cpu.P ∧
      cpu.Step.cycles = cpu.cycles ∧ cpu.Step.memory = cpu.memory ∧
      cpu.Step.out = cpu.out ++ [Output.unknownOpcode (cpu.ReadByte cpu.PC)
        (((cpu.PC + 1) % 65536 + 65535) % 65536)]) := by
  refine ⟨instructions_none_iff _, ?_, ?_⟩
  · cases hx : (instructions (cpu.ReadByte cpu.PC)).Execute with
    | none =>
      rw [Step_none cpu hx]
      simp only [true_or, if_true]
    | some h =>
      have st := Step_some cpu h hx
      obtain ⟨-, -, -, -, f5, -, -, -, -, f10⟩ := finishStep_fields
        (h.run (fetchOperand { cpu with PC := (cpu.PC + 1) % 65536 }
            (instructions (cpu.ReadByte cpu.PC)).AddressMode).2
          (fetchOperand { cpu with PC := (cpu.PC + 1) % 65536 }
            (instructions (cpu.ReadByte cpu.PC)).AddressMode).1)
        (instructions (cpu.ReadByte cpu.PC)).Cycles
      rw [← st] at f5 f10
      rw [Handler_run_running,
        (fetchOperand_fields { cpu with PC := (cpu.PC + 1) % 65536 } _).2.2.2.2.2.2.2.1,
        ← f5] at f10
      rw [f10]
      simp only [false_or, reduceCtorEq]
  · intro hx
    rw [Step_none cpu hx]
    exact ⟨rfl, rfl, rfl, rfl, rfl, rfl, rfl, rfl, rfl⟩

/-- C29: for every (mnemonic, mode, opcode, size) of the assembler table and every CPU state
whose opcode byte at PC is that opcode: when the mnemonic is none of JMP, JSR, RTS, RTI, BRK
and no branch, one `Step` sets PC to (PC + size) mod 2^16; when it is a branch, the size is 2,
the opcode is one of `branchTable`, and a `Step` in a state where the tested flag does not have
the value the branch is taken on sets PC to (PC + size) mod 2^16. -/
theorem C29_sizes_agree (cpu : CPU) (t : String × assembler.AddressingMode × OpcodeInfo)
    (ht : t ∈ assemblerPairs) (hop : cpu.ReadByte cpu.PC = t.2.2.Opcode) :
    (t.1 ∉ transferMnemonics → t.1 ∉ branchMnemonics →
      cpu.Step.PC = (cpu.PC + t.2.2.Size) % 65536) ∧
    (t.1 ∈ branchMnemonics →
      t.2.2.Size = 2 ∧ (∃ flag sense, (t.2.2.Opcode, flag, sense) ∈ branchTable) ∧
      ∀ flag sense, (t.2.2.Opcode, flag, sense) ∈ branchTable → cpu.GetFlag flag ≠ sense →
        cpu.Step.PC = (cpu.PC + t.2.2.Size) % 65536) := by
  have hd := assemblerPairs_decodesAs t ht
  unfold decodesAs at hd
  cases hx : (instructions t.2.2.Opcode).Execute with
  | none => rw [hx] at hd; exact absurd hd Bool.false_ne_true
  | some h =>
    rw [hx] at hd
    simp only [Bool.and_eq_true, Bool.or_eq_true, decide_eq_true_eq, List.contains_eq_any_beq, List.any_eq_true, beq_iff_eq, exists_eq_right,
      Bool.not_eq_true'] at hd
    obtain ⟨⟨⟨hmode, hsize⟩, hkeep⟩, hbr⟩ := hd
    have st := Step_entry cpu t.2.2.Opcode (modeOfAssembler t.2.1)
      (instructions t.2.2.Opcode).Cycles h hop hmode rfl hx
    obtain ⟨-, -, -, -, f5, -⟩ := finishStep_fields
      (h.run (fetchOperand { cpu with PC := (cpu.PC + 1) % 65536 } (modeOfAssembler t.2.1)).2
        (fetchOperand { cpu with PC := (cpu.PC + 1) % 65536 } (modeOfAssembler t.2.1)).1)
      (instructions t.2.2.Opcode).Cycles
    rw [← st] at f5
    have hpc := fetchOperand_PC { cpu with PC := (cpu.PC + 1) % 65536 } (modeOfAssembler t.2.1)
      (Nat.mod_lt _ (by decide))
    have hpc2 : (fetchOperand { cpu with PC := (cpu.PC + 1) % 65536 }
        (modeOfAssembler t.2.1)).2.PC = (cpu.PC + t.2.2.Size) % 65536 := by
      rw [hpc, hsize]
      show ((cpu.PC + 1) % 65536 + tableOperandBytes (modeOfAssembler t.2.1)) % 65536 = _
      omega
    constructor
    · intro h1 h2
      have hk : h.assignsPC = false := by
        rcases hkeep with (⟨x, hxm, hxe⟩ | ⟨x, hxm, hxe⟩) | hk
        · exact absurd (hxe ▸ hxm) h1
        · exact absurd (hxe ▸ hxm) h2
        · exact hk
      rw [f5, Handler_run_PC h hk, hpc2]
    · intro hb
      have hb2 := hbr.resolve_left (by simpa using hb)
      obtain ⟨hrel, e, he, heq⟩ := hb2
      have hsz : t.2.2.Size = 2 := by rw [hsize, hrel]; rfl
      refine ⟨hsz, ⟨e.2.1, e.2.2, by rw [← heq]; exact he⟩, ?_⟩
      intro flag sense hmem hne
      obtain ⟨-, -, h2, hex2, hrun⟩ := branchTable_entries _ hmem
      simp only at hex2 hrun
      rw [hx] at hex2
      cases hex2
      rw [f5, hrun]
      have hflag : (fetchOperand { cpu with PC := (cpu.PC + 1) % 65536 }
          (modeOfAssembler t.2.1)).2.GetFlag flag = cpu.GetFlag flag := by
        unfold CPU.GetFlag
        rw [(fetchOperand_fields _ _).2.2.2.2.1]
      rw [hflag, if_neg hne, hpc2]

/-- C29 on `LDA $1234` (`AD 34 12`, size 3) at `$FFFE`, followed by a `BNE` (size 2) that is
not taken as Z = 1: the first `Step` wraps PC to `$0001`, the second sets it to `$0003`. -/
theorem C29_sizes_agree_witness :
    ("LDA", AddrAbsolute, OpcodeInfo.mk 0xAD 3) ∈ assemblerPairs ∧
    wrapProgramCPU.ReadByte wrapProgramCPU.PC = 0xAD ∧
    wrapProgramCPU.Step.PC = 0x0001 ∧
    ("BNE", AddrRelative, OpcodeInfo.mk 0xD0 2) ∈ assemblerPairs ∧
    wrapProgramCPU.Step.ReadByte wrapProgramCPU.Step.PC = 0xD0 ∧
    wrapProgramCPU.Step.GetFlag ZERO_FLAG = true ∧
    wrapProgramCPU.Step.Step.PC = 0x0003 ∧
    wrapProgramCPU.Step.PC = (wrapProgramCPU.PC + 3) % 65536 :=
  ⟨by decide, by decide, by decide, by decide, by decide, by decide, by decide,
    (C29_sizes_agree wrapProgramCPU ("LDA", AddrAbsolute, OpcodeInfo.mk 0xAD 3) (by decide)
      (by decide)).1 (by decide) (by decide)⟩

/-- C30: for every token list the parser accepts, every instruction item it returns has mode
Implicit, Immediate, ZeroPage or Absolute, none of the nine other modes; so for every source,
every instruction item pass 2 is run on has one of these four modes, and the opcode pass 2
stores for it is the table entry of its mnemonic for that mode.  Pass 1 answers a branch item, and a shift or rotate item
without operand, with `invalid addressing mode for '<mnemonic>' at line <n>`; a source that
holds such an item makes `Assemble` return a pass 1 error and leave the image untouched,
and that error is the one of the item when pass 1 succeeds on the items before it.  On the
sources `ASL`, `LSR`, `ROL` and `ROR` the error is the one of line 1. -/
theorem C30_parser_modes :
    (∀ tokens items, Parse tokens = some (.ok items) →
      ∀ i ∈ items, i.Typ = InstMnemonic → i.AddressMode ∈ parserModes) ∧
    (∀ mode ∈ [AddrAccumulator, AddrZeroPageX, AddrZeroPageY, AddrAbsoluteX, AddrAbsoluteY,
        AddrIndirect, AddrIndexedIndirect, AddrIndirectIndexed, AddrRelative],
      mode ∉ parserModes) ∧
    (∀ (st : SymbolTable) (source : Str) (items items1 : List assembler.Instruction)
        (cg1 : CodeGenerator),
      sourceItems source = some items →
      firstPass (NewCodeGenerator st) items = (none, cg1, items1) →
      ∀ i ∈ items1, i.Typ = InstMnemonic →
        i.AddressMode ∈ parserModes ∧
        ∃ info, lookupOpcode i.Mnemonic i.AddressMode = some info ∧
          ∃ e ∈ opcodeTable, e.1.data = i.Mnemonic ∧ (i.AddressMode, info) ∈ e.2) ∧
    (∀ (cg : CodeGenerator) (inst : assembler.Instruction),
      branchOrBareShift inst → inst.AddressMode ∈ parserModes →
      (firstPassStep cg inst).1 = some (.invalidAddressingMode inst.Mnemonic inst.Line)) ∧
    (∀ (a : Assembler) (source : Str) (items : List assembler.Instruction),
      sourceItems source = some items → (∃ i ∈ items, branchOrBareShift i) →
      ∃ e a1, Assemble a source = some (some (.gen e), a1) ∧ a1.output = a.output ∧
        ∃ j ∈ items, e = .invalidAddressingMode j.Mnemonic j.Line ∨
          e = .unknownMnemonic j.Mnemonic j.Line) ∧
    (∀ (a : Assembler) (source : Str) (pre post : List assembler.Instruction)
        (inst : assembler.Instruction),
      sourceItems source = some (pre ++ inst :: post) → branchOrBareShift inst →
      (firstPass (NewCodeGenerator a.symbols) pre).1 = none →
      ∃ a1, Assemble a source
          = some (some (.gen (.invalidAddressingMode inst.Mnemonic inst.Line)), a1) ∧
        a1.output = a.output) ∧
    (shiftMnemonics.all fun m =>
      decide ((Assemble NewAssembler (m.data ++ "\n".data)).map
          (fun r => (r.1, r.2.output.data 0))
        = some (some (.gen (.invalidAddressingMode m.data 1)), 0))) = true := by
  have hmodes : ∀ i : assembler.Instruction, parserItemOK i → i.Typ = InstMnemonic →
      i.AddressMode ∈ parserModes := by
    intro i hi ht
    rcases (hi ht).1 with h | h | h | h <;> rw [h] <;> decide
  have hparse : ∀ tokens items, Parse tokens = some (.ok items) →
      ∀ i ∈ items, i.Typ = InstMnemonic → i.AddressMode ∈ parserModes := by
    intro tokens items hp i hi ht
    unfold Parse at hp
    exact hmodes i (parseLoop_ok _ _ _ _ (by simp) hp i hi) ht
  have hsrc : ∀ source items, sourceItems source = some items →
      ∀ i ∈ items, i.Typ = InstMnemonic → i.AddressMode ∈ parserModes :=
    fun source items hs i hi ht => hmodes i (sourceItems_ok source items hs i hi) ht
  have hfail : ∀ i : assembler.Instruction, branchOrBareShift i → i.AddressMode ∈ parserModes →
      ∀ cg1 : CodeGenerator, (firstPassStep cg1 i).1 ≠ none := by
    intro i hr hm cg1
    rw [firstPassStep_rejected cg1 i hr hm]
    simp
  refine ⟨hparse, by decide, ?_, ?_, ?_, ?_, by decide⟩
  · intro st source items items1 cg1 hs hfp i hi ht
    unfold firstPass at hfp
    obtain ⟨i0, hi0, e1, -, e3, -⟩ := firstPassLoop_fields items _ cg1 items1 hfp i hi
    obtain ⟨info, hinfo⟩ := (firstPassLoop_symbols items _ cg1 items1 hfp).2 i hi ht
    obtain ⟨e, he, hname, hpair, -⟩ := lookupOpcode_mem hinfo
    refine ⟨?_, info, hinfo, e, he, hname, hpair⟩
    rw [e3]
    exact hsrc source items hs i0 hi0 (by rw [← e1]; exact ht)
  · intro cg inst hr hm
    rw [firstPassStep_rejected cg inst hr hm]
  · intro a source items hs hex
    obtain ⟨i, hi, hr⟩ := hex
    obtain ⟨e, he, j, hj, hform⟩ := firstPassLoop_fails items
      { NewCodeGenerator a.symbols with pc := 0 }
      ⟨i, hi, hfail i hr (hsrc source items hs i hi hr.1)⟩
    obtain ⟨g1, g2⟩ := Generate_of_firstPass_error (NewCodeGenerator a.symbols) items a.output e he
    rw [Assemble_of_sourceItems a source items hs, g1, g2]
    exact ⟨e, _, rfl, rfl, j, hj, hform⟩
  · intro a source pre post inst hs hr hpre
    have hm := hsrc source _ hs inst (by simp) hr.1
    rcases hfp : firstPassLoop { NewCodeGenerator a.symbols with pc := 0 } pre
      with ⟨e0, cg1, pre1⟩
    have he0 : e0 = none := by
      unfold firstPass at hpre
      rw [hfp] at hpre
      exact hpre
    subst he0
    have hstop := firstPassLoop_stops pre _ cg1 cg1 pre1 post inst _ _ hfp
      (firstPassStep_rejected cg1 inst hr hm)
    obtain ⟨g1, g2⟩ := Generate_of_firstPass_error (NewCodeGenerator a.symbols)
      (pre ++ inst :: post) a.output _ hstop.1
    rw [Assemble_of_sourceItems a source _ hs, g1, g2]
    exact ⟨_, rfl, rfl⟩

/-- C31: for every CPU state with accumulator A and operand byte M (both below 256), and
every CPU state with the same accumulator and Carry flag whose operand byte is `M xor 0xFF`
(the same state with that operand, in particular), `SBC` on the first and `ADC` on the second
leave the same accumulator and the same Carry, Overflow, Zero and Negative flags. -/
theorem C31_sbc_is_adc_of_complement (cpu cpu2 : CPU) (addr addr2 : Nat) (hA : cpu.A < 256)
    (hM : cpu.ReadByte addr < 256) (hA2 : cpu2.A = cpu.A)
    (hC2 : cpu2.GetFlag CARRY_FLAG = cpu.GetFlag CARRY_FLAG)
    (hM2 : cpu2.ReadByte addr2 = cpu.ReadByte addr ^^^ 0xFF) :
    (cpu.SBC addr).A = (cpu2.ADC addr2).A ∧
    ∀ g ∈ [CARRY_FLAG, OVERFLOW_FLAG, ZERO_FLAG, NEGATIVE_FLAG],
      (cpu.SBC addr).GetFlag g = (cpu2.ADC addr2).GetFlag g := by
  obtain ⟨sA, sC, sV, sZ, sN, -⟩ := SBC_flags cpu addr
  obtain ⟨aA, aC, aV, aZ, aN, -⟩ := ADC_flags cpu2 addr2
  rw [hA2, hC2, hM2] at aA aC aV aZ aN
  have h255 : Nat.testBit 0xFF 7 = true := by decide
  rw [and_128_eq, and_128_ne, Nat.testBit_xor, Nat.testBit_xor, Nat.testBit_xor, h255,
    Bool.xor_true] at aV
  rw [and_128_ne, and_128_ne, Nat.testBit_xor, Nat.testBit_xor] at sV
  rw [xor_255 _ hM] at aA aC aV aZ aN
  generalize cpu.ReadByte addr = M at *
  generalize cpu.A = A at *
  have hc : (if cpu.GetFlag CARRY_FLAG then 1 else 0 : Nat) = 0 ∨
      (if cpu.GetFlag CARRY_FLAG then 1 else 0 : Nat) = 1 := by
    cases cpu.GetFlag CARRY_FLAG <;> simp
  generalize (if cpu.GetFlag CARRY_FLAG then 1 else 0 : Nat) = c at *
  have hr : (((A : Int) - (M : Int) - ((1 - c : Nat) : Int)) % 256).toNat
      = (A + (255 - M) + c) % 256 := by omega
  have hcarry : ((A : Int) - (M : Int) - ((1 - c : Nat) : Int) ≥ 0)
      ↔ (A + (255 - M) + c) % 65536 > 0xFF := by omega
  rw [hr] at sA sV
  rw [testBit_mod_256] at sV
  have hAA : (cpu.SBC addr).A = (cpu2.ADC addr2).A := sA.trans aA.symm
  refine ⟨hAA, ?_⟩
  intro g hg
  simp only [List.mem_cons, List.mem_singleton, List.not_mem_nil, or_false] at hg
  rcases hg with rfl | rfl | rfl | rfl
  · rw [sC, aC]
    exact decide_eq_decide.2 hcarry
  · rw [sV, aV]
    cases A.testBit 7 <;> cases M.testBit 7 <;> cases (A + (255 - M) + c).testBit 7 <;> rfl
  · rw [sZ, aZ, sA]
  · rw [sN, aN, sA]

/-- C31 at A = 0x50, C = 1: `SBC` of 0xB0 and `ADC` of 0x4F both give A = 0xA0 with no carry,
overflow and negative. -/
theorem C31_sbc_is_adc_of_complement_witness :
    (adcCPU 0x50 0xB0 0x21).A < 256 ∧ (adcCPU 0x50 0xB0 0x21).ReadByte 0x0010 < 256 ∧
    (adcCPU 0x50 0x4F 0x21).ReadByte 0x0010 = (adcCPU 0x50 0xB0 0x21).ReadByte 0x0010 ^^^ 0xFF ∧
    ((adcCPU 0x50 0xB0 0x21).SBC 0x0010).A = 0xA0 ∧
    ((adcCPU 0x50 0x4F 0x21).ADC 0x0010).A = 0xA0 ∧
    ((adcCPU 0x50 0x4F 0x21).ADC 0x0010).GetFlag CARRY_FLAG = false ∧
    ((adcCPU 0x50 0x4F 0x21).ADC 0x0010).GetFlag OVERFLOW_FLAG = true ∧
    ((adcCPU 0x50 0xB0 0x21).SBC 0x0010).A = ((adcCPU 0x50 0x4F 0x21).ADC 0x0010).A :=
  ⟨by decide, by decide, by decide, by decide, by decide, by decide, by decide,
    (C31_sbc_is_adc_of_complement (adcCPU 0x50 0xB0 0x21) (adcCPU 0x50 0x4F 0x21) 0x0010 0x0010
      (by decide) (by decide) rfl rfl (by decide)).1⟩

/-- C32: for every CPU state with accumulator A and operand byte M (both below 256) and
carry C, after `ADC` the Overflow flag is set exactly when signed(A) + signed(M) + C is
below -128 or above 127, where signed reads a byte as two's complement. -/
theorem C32_adc_overflow_is_signed_overflow (cpu : CPU) (addr : Nat) (hA : cpu.A < 256)
    (hM : cpu.ReadByte addr < 256) :
    (cpu.ADC addr).GetFlag OVERFLOW_FLAG
      = decide (signedByte cpu.A + signedByte (cpu.ReadByte addr)
            + ((if cpu.GetFlag CARRY_FLAG then 1 else 0 : Nat) : Int) < -128 ∨
          signedByte cpu.A + signedByte (cpu.ReadByte addr)
            + ((if cpu.GetFlag CARRY_FLAG then 1 else 0 : Nat) : Int) > 127) := by
  obtain ⟨-, -, aV, -⟩ := ADC_flags cpu addr
  rw [aV, and_128_eq, and_128_ne, Nat.testBit_xor, Nat.testBit_xor, testBit_7 _ hA,
    testBit_7 _ hM, testBit_7_mod]
  generalize cpu.ReadByte addr = M at *
  generalize cpu.A = A at *
  have hc : (if cpu.GetFlag CARRY_FLAG then 1 else 0 : Nat) = 0 ∨
      (if cpu.GetFlag CARRY_FLAG then 1 else 0 : Nat) = 1 := by
    cases cpu.GetFlag CARRY_FLAG <;> simp
  generalize (if cpu.GetFlag CARRY_FLAG then 1 else 0 : Nat) = c at *
  unfold signedByte
  by_cases h1 : 128 ≤ A <;> by_cases h2 : 128 ≤ M <;> by_cases h3 : 128 ≤ (A + M + c) % 256 <;>
    simp only [h1, h2, h3, decide_True, decide_False, Bool.xor_true, Bool.xor_false,
      Bool.not_true, Bool.not_false, Bool.and_true, Bool.and_false, Bool.true_and,
      Bool.false_and, Bool.true_eq, Bool.false_eq, decide_eq_true_eq, decide_eq_false_iff_not,
      Bool.xor_self] <;>
    split <;> split <;> omega

/-- C32 at three states: 0x7F + 0x01 overflows (128); 0x80 + 0xFF overflows (-129);
0xFF + 0x01 does not (0). -/
theorem C32_adc_overflow_is_signed_overflow_witness :
    ((adcCPU 0x7F 0x01 0x20).A < 256 ∧ (adcCPU 0x7F 0x01 0x20).ReadByte 0x0010 < 256 ∧
      ((adcCPU 0x7F 0x01 0x20).ADC 0x0010).GetFlag OVERFLOW_FLAG = true) ∧
    ((adcCPU 0x80 0xFF 0x20).A < 256 ∧ (adcCPU 0x80 0xFF 0x20).ReadByte 0x0010 < 256 ∧
      ((adcCPU 0x80 0xFF 0x20).ADC 0x0010).GetFlag OVERFLOW_FLAG = true) ∧
    ((adcCPU 0xFF 0x01 0x20).A < 256 ∧ (adcCPU 0xFF 0x01 0x20).ReadByte 0x0010 < 256 ∧
      ((adcCPU 0xFF 0x01 0x20).ADC 0x0010).GetFlag OVERFLOW_FLAG = false) :=
  ⟨⟨by decide, by decide,
      (C32_adc_overflow_is_signed_overflow (adcCPU 0x7F 0x01 0x20) 0x0010 (by decide)
        (by decide)).trans (by decide)⟩,
    ⟨by decide, by decide,
      (C32_adc_overflow_is_signed_overflow (adcCPU 0x80 0xFF 0x20) 0x0010 (by decide)
        (by decide)).trans (by decide)⟩,
    ⟨by decide, by decide,
      (C32_adc_overflow_is_signed_overflow (adcCPU 0xFF 0x01 0x20) 0x0010 (by decide)
        (by decide)).trans (by decide)⟩⟩

/-- C33: `Reset` leaves `(P & 0x30) = 0x20` from every state; every `Step` from a state with
`(P & 0x30) = 0x20`, whatever the opcode and the memory hold, leaves `(P & 0x30) = 0x20`; so
after any number of `Step`s from a `Reset`, and in the state `Run` returns, the Unused flag is
set and the Break flag is clear.  `PHP` stores `P | 0x10` on the stack and leaves P itself as
it was. -/
theorem C33_status_register_invariant :
    (∀ cpu : CPU, cpu.Reset.P &&& 0x30 = 0x20) ∧
    (∀ cpu : CPU, cpu.P &&& 0x30 = 0x20 → cpu.Step.P &&& 0x30 = 0x20) ∧
    (∀ (cpu : CPU) (n : Nat), (stepN n cpu.Reset).P &&& 0x30 = 0x20 ∧
      (stepN n cpu.Reset).GetFlag UNUSED_FLAG = true ∧
      (stepN n cpu.Reset).GetFlag BREAK_FLAG = false) ∧
    (∀ (cpu c : CPU) (fuel : Nat), CPU.Run fuel cpu.Reset = some c →
      c.P &&& 0x30 = 0x20 ∧ c.GetFlag UNUSED_FLAG = true ∧ c.GetFlag BREAK_FLAG = false) ∧
    (∀ (cpu : CPU) (addr : Nat), cpu.SP < 256 →
      (cpu.PHP addr).memory (0x0100 + cpu.SP) = cpu.P ||| 0x10 ∧ (cpu.PHP addr).P = cpu.P) := by
  have hreset : ∀ cpu : CPU, cpu.Reset.P &&& 0x30 = 0x20 := by
    intro cpu
    have hP : cpu.Reset.P = UNUSED_FLAG := rfl
    rw [hP]
    decide
  have hsteps : ∀ (cpu : CPU) (n : Nat), (stepN n cpu.Reset).P &&& 0x30 = 0x20 ∧
      (stepN n cpu.Reset).GetFlag UNUSED_FLAG = true ∧
      (stepN n cpu.Reset).GetFlag BREAK_FLAG = false := by
    intro cpu n
    have h := stepN_status n cpu.Reset (hreset cpu)
    exact ⟨h, status_bits _ h⟩
  refine ⟨hreset, Step_status, hsteps, ?_, ?_⟩
  · intro cpu c fuel hrun
    obtain ⟨n, hn⟩ := Run_stepN fuel cpu.Reset c hrun
    rw [hn]
    exact hsteps cpu n
  · intro cpu addr hSP
    obtain ⟨-, m, -, -, -, -, -, p, -⟩ := Push_fields cpu (cpu.P ||| BREAK_FLAG) hSP
    exact ⟨m, p⟩

/-- C34: for every CPU state with SP and P below 256 and `(P & 0x30) = 0x20` whose opcode
byte at PC = a is `BRK` (0x00): if the opcode byte read at the PC the `BRK` step leaves (the
word at 0xFFFE) is `RTI` (0x40), then after the two `Step`s PC is (a + 2) mod 2^16, SP and P
have their values before the `BRK` (the Interrupt-Disable bit the `BRK` set in P is gone
unless it was set before), and A, X and Y are as they were. -/
theorem C34_rti_undoes_brk (cpu : CPU) (hSP : cpu.SP < 256) (hP : cpu.P < 256)
    (hinv : cpu.P &&& 0x30 = 0x20) (hbrk : cpu.ReadByte cpu.PC = 0x00)
    (hrti : cpu.Step.ReadByte cpu.Step.PC = 0x40) :
    cpu.Step.PC = cpu.ReadWord 0xFFFE ∧ cpu.Step.P = cpu.P ||| 0x04 ∧
    cpu.Step.Step.PC = (cpu.PC + 2) % 65536 ∧ cpu.Step.Step.SP = cpu.SP ∧
    cpu.Step.Step.P = cpu.P ∧ cpu.Step.Step.A = cpu.A ∧ cpu.Step.Step.X = cpu.X ∧
    cpu.Step.Step.Y = cpu.Y := by
  obtain ⟨k1, k2, k3, k4, k5, k6, k7, k8, k9⟩ := Step_BRK cpu hSP hbrk
  generalize cpu.Step = s at *
  have st2 := Step_implicit s 0x40 6 .RTI hrti (by decide) (by decide) (by decide)
  have hrun2 : ∀ c a, Handler.run .RTI c a = c.RTI a := fun _ _ => rfl
  rw [hrun2] at st2
  obtain ⟨g1, g2, g3, g4, g5, g6, -⟩ := finishStep_fields
    (CPU.RTI { s with PC := (s.PC + 1) % 65536 } 0) 6
  rw [← st2] at g1 g2 g3 g4 g5 g6
  obtain ⟨r1, r2, r3, -, r5, r6, r7, -⟩ := RTI_fields { s with PC := (s.PC + 1) % 65536 } 0
  rw [← g6] at r1
  rw [← g5] at r2
  rw [← g4] at r3
  rw [← g1] at r5
  rw [← g2] at r6
  rw [← g3] at r7
  have R1 : s.Step.P
      = (s.memory (0x100 + (s.SP + 1) % 256) ||| UNUSED_FLAG) &&& (0xFF ^^^ BREAK_FLAG) := r1
  have R2 : s.Step.PC = ((s.memory (0x100 + (s.SP + 3) % 256) <<< 8) % 65536)
      ||| s.memory (0x100 + (s.SP + 2) % 256) := r2
  have R3 : s.Step.SP = (s.SP + 3) % 256 := r3
  have R5 : s.Step.A = s.A := r5
  have R6 : s.Step.X = s.X := r6
  have R7 : s.Step.Y = s.Y := r7
  clear r1 r2 r3 r5 r6 r7 g1 g2 g3 g4 g5 g6 st2
  have e1 : (s.SP + 1) % 256 = (cpu.SP + 254) % 256 := by rw [k2]; omega
  have e2 : (s.SP + 2) % 256 = (cpu.SP + 255) % 256 := by rw [k2]; omega
  have e3 : (s.SP + 3) % 256 = cpu.SP := by rw [k2]; omega
  rw [e1, k6, restored_status cpu.P hP hinv] at R1
  rw [e3, e2, k4, k5, word_join _ (Nat.mod_lt _ (by decide))] at R2
  rw [e3] at R3
  exact ⟨k1, k3, R2, R3, R1, R5.trans k7, R6.trans k8, R7.trans k9⟩

/-- C34 on `BRK` at `$8000` with the vector `$9000` and `RTI` at `$9000`, P = 0xE3 and
SP = 0x01: the `BRK` leaves P = 0xE7, SP = 0xFE, PC = `$9000`; the `RTI` leaves P = 0xE3,
SP = 0x01, PC = `$8002`. -/
theorem C34_rti_undoes_brk_witness :
    brkRtiProgramCPU.SP < 256 ∧ brkRtiProgramCPU.P < 256 ∧
    brkRtiProgramCPU.P &&& 0x30 = 0x20 ∧
    brkRtiProgramCPU.ReadByte brkRtiProgramCPU.PC = 0x00 ∧
    brkRtiProgramCPU.Step.ReadByte brkRtiProgramCPU.Step.PC = 0x40 ∧
    brkRtiProgramCPU.Step.P = 0xE7 ∧ brkRtiProgramCPU.Step.SP = 0xFE ∧
    brkRtiProgramCPU.Step.PC = 0x9000 ∧
    brkRtiProgramCPU.Step.Step.PC = 0x8002 ∧ brkRtiProgramCPU.Step.Step.SP = 0x01 ∧
    brkRtiProgramCPU.Step.Step.P = 0xE3 ∧
    brkRtiProgramCPU.Step.Step.P = brkRtiProgramCPU.P :=
  ⟨by decide, by decide, by decide, by decide, by decide, by decide, by decide, by decide,
    by decide, by decide, by decide,
    (C34_rti_undoes_brk brkRtiProgramCPU (by decide) (by decide) (by decide) (by decide)
      (by decide)).2.2.2.2.1⟩

/-- C35: pass 1 is not given the image.  For every symbol table, item list with `uint16`
addresses and image of 65536 bytes, pass 2 evaluates no index expression `output[i]` out of
range; it is a list of assignments that does not depend on the image (the image is never
read), each at an index below 65536 of the form `(Address + k) mod 2^16` for an item of the
list.  `Generate` on items with `uint16` operands, and `Assemble` on every source, leave the
image with its 65536 bytes and no index evaluated out of range.  `.word` reads
`DirectiveData[0]` and `DirectiveData[1]` only when the data holds two values, and `.byte`
stores the value of each index `i` of its data at `(Address + i mod 2^16) mod 2^16`.  At the
top of the image the addresses wrap: `JMP $1234` at `$FFFF` stores `4C` at `$FFFF`, `34` at
`$0000` and `12` at `$0001`; `.byte 1, 2, 3` at `$FFFE` stores 3 at `$0000`; `.word $BEEF` at
`$FFFF` stores `BE` at `$0000`. -/
theorem C35_code_generation_is_index_safe :
    (∀ (symbols : SymbolTable) (items : List assembler.Instruction) (output : Image),
      (∀ i ∈ items, i.Address < 65536) → output.size = 65536 →
      (secondPass symbols items output).2.size = 65536 ∧
      (secondPass symbols items output).2.fault = output.fault) ∧
    (∀ (res : Str → Option Nat) (items : List assembler.Instruction),
      (∀ i ∈ items, i.Address < 65536) →
      ∃ (e : Option GenError) (ws : List (Nat × Nat)),
        (∀ (symbols : SymbolTable) (output : Image), (∀ L, symbols.Resolve L = res L) →
          secondPass symbols items output = (e, applyWrites ws output)) ∧
        ∀ w ∈ ws, w.1 < 65536 ∧ ∃ i ∈ items, ∃ k, w.1 = (i.Address + k) % 65536) ∧
    (∀ (cg : CodeGenerator) (items : List assembler.Instruction) (output : Image),
      (∀ i ∈ items, i.Operand < 65536) → output.size = 65536 →
      (Generate cg items output).2.2.size = 65536 ∧
      (Generate cg items output).2.2.fault = output.fault) ∧
    (∀ (source : Str) (e : Option AsmError) (a1 : Assembler),
      Assemble NewAssembler source = some (e, a1) →
      a1.output.size = 65536 ∧ a1.output.fault = false) ∧
    (∀ (symbols : SymbolTable) (output : Image) (inst : assembler.Instruction),
      inst.Typ = InstDirective → inst.DirectiveName = "word".data → inst.OperandLabel = [] →
      (inst.DirectiveData.length < 2 → secondPassStep symbols output inst = (none, output)) ∧
      (inst.DirectiveData.length ≥ 2 → ∃ b0 b1,
        inst.DirectiveData.get? 0 = some b0 ∧ inst.DirectiveData.get? 1 = some b1 ∧
        secondPassStep symbols output inst
          = (none, (output.set inst.Address b0).set ((inst.Address + 1) % 65536) b1))) ∧
    (∀ (symbols : SymbolTable) (output : Image) (inst : assembler.Instruction),
      inst.Typ = InstDirective → inst.DirectiveName = "byte".data →
      secondPassStep symbols output inst
        = (none, applyWrites (inst.DirectiveData.enum.map
            (fun p => ((inst.Address + p.1 % 65536) % 65536, p.2))) output)) ∧
    ((secondPassStep NewSymbolTable zeroImage jmpAtTop).1 = none ∧
      (secondPassStep NewSymbolTable zeroImage jmpAtTop).2.fault = false ∧
      (secondPassStep NewSymbolTable zeroImage jmpAtTop).2.data 0xFFFF = 0x4C ∧
      (secondPassStep NewSymbolTable zeroImage jmpAtTop).2.data 0x0000 = 0x34 ∧
      (secondPassStep NewSymbolTable zeroImage jmpAtTop).2.data 0x0001 = 0x12) ∧
    ((secondPassStep NewSymbolTable zeroImage bytesAtTop).2.fault = false ∧
      (secondPassStep NewSymbolTable zeroImage bytesAtTop).2.data 0xFFFE = 1 ∧
      (secondPassStep NewSymbolTable zeroImage bytesAtTop).2.data 0xFFFF = 2 ∧
      (secondPassStep NewSymbolTable zeroImage bytesAtTop).2.data 0x0000 = 3) ∧
    ((secondPassStep NewSymbolTable zeroImage wordAtTop).2.fault = false ∧
      (secondPassStep NewSymbolTable zeroImage wordAtTop).2.data 0xFFFF = 0xEF ∧
      (secondPassStep NewSymbolTable zeroImage wordAtTop).2.data 0x0000 = 0xBE) := by
  refine ⟨?_, ?_, Generate_no_fault, ?_, ?_, ?_, by decide, by decide, by decide⟩
  · intro symbols items output hA hsize
    exact secondPass_no_fault symbols items output (fun i hi _ => hA i hi) hsize
  · intro res items hA
    exact secondPass_safe res items (fun i hi _ => hA i hi)
  · intro source e a1 h
    cases hs : sourceItems source with
    | none =>
      obtain ⟨ha, -⟩ := Assemble_of_no_items NewAssembler a1 source e hs h
      rw [ha]
      exact ⟨rfl, rfl⟩
    | some items =>
      rw [Assemble_of_sourceItems NewAssembler source items hs] at h
      simp only [Option.some.injEq, Prod.mk.injEq] at h
      obtain ⟨g1, g2⟩ := Generate_no_fault (NewCodeGenerator NewAssembler.symbols) items
        NewAssembler.output (sourceItems_operand_lt source items hs) rfl
      rw [← h.2]
      exact ⟨g1, g2⟩
  · intro symbols output inst ht hn hl
    constructor
    · intro hlen
      have hge : ¬ inst.DirectiveData.length ≥ 2 := by omega
      simp only [secondPassStep, ht, hn, hl, ne_eq, not_true_eq_false, if_true, if_false, hge]
    · intro hlen
      rcases hd : inst.DirectiveData with _ | ⟨b0, _ | ⟨b1, rest⟩⟩
      · rw [hd] at hlen; simp at hlen
      · rw [hd] at hlen; simp at hlen
      · refine ⟨b0, b1, rfl, rfl, ?_⟩
        simp only [secondPassStep, ht, hn, hl, ne_eq, not_true_eq_false, if_true, if_false, hd,
          List.length_cons, ge_iff_le, Nat.le_add_left, List.getD_cons_zero,
          List.getD_cons_succ]
  · intro symbols output inst ht hn
    have hnw : ¬ inst.DirectiveName = "word".data := by
      rw [hn]; decide
    simp only [secondPassStep, ht]
    rw [if_neg hnw, if_pos hn, writeBytes_eq, byteWrites_enum]
    rfl

/-! ## Further properties -/

/-- X1.  One `Step` on the indirect jump, for every CPU whose byte at `PC` is `0x6C`: `PC`
becomes the word stored at the word stored at the pointer `p` that follows the opcode, that
is `read_word(read_word(p))` with `p = read_word(PC + 1)`; registers, flags and memory are
unchanged. -/
theorem X1_indirect_jump_step (cpu : CPU) (h : cpu.ReadByte cpu.PC = 0x6C) :
    cpu.Step.PC = cpu.ReadWord (cpu.ReadWord (cpu.ReadWord ((cpu.PC + 1) % 65536))) ∧
    cpu.Step.A = cpu.A ∧ cpu.Step.X = cpu.X ∧ cpu.Step.Y = cpu.Y ∧ cpu.Step.SP = cpu.SP ∧
    cpu.Step.P = cpu.P ∧ cpu.Step.memory = cpu.memory := by
  unfold CPU.Step
  simp only [h, instructions_6C]
  simp only [CPU.GetAddress, Handler.run, CPU.JMPI]
  split <;> exact ⟨rfl, rfl, rfl, rfl, rfl, rfl, rfl⟩

/-- X1 at the CPU of the indirect-jump scenario: `PC` becomes `$AAA9`. -/
theorem X1_indirect_jump_step_witness : indirectJumpCPU.Step.PC = 0xAAA9 :=
  (X1_indirect_jump_step indirectJumpCPU (by decide)).1.trans (by decide)

/-- X2.  Code generation from a symbol table without undefined symbols leaves a symbol table
without undefined symbols, whatever the items and whether or not it fails: `GetUndefined` is
empty, and the error `undefined symbols: [...]` of `Generate` is never returned. -/
theorem X2_undefined_symbols_never_listed (st : SymbolTable)
    (instructions : List assembler.Instruction) (output : Image)
    (h : st.IsResolved = true) :
    (Generate (NewCodeGenerator st) instructions output).2.1.symbols.IsResolved = true ∧
    (Generate (NewCodeGenerator st) instructions output).2.1.symbols.GetUndefined = [] ∧
    ∀ names, (Generate (NewCodeGenerator st) instructions output).1
      ≠ some (.undefinedSymbols names) := by
  have hfp : (firstPass (NewCodeGenerator st) instructions).2.1.symbols.IsResolved = true :=
    firstPassLoop_isResolved instructions _ h
  have hnl : ∀ names, (firstPass (NewCodeGenerator st) instructions).1
      ≠ some (.undefinedSymbols names) := fun names =>
    firstPassLoop_not_listing instructions names _
  unfold Generate
  rcases hF : firstPass (NewCodeGenerator st) instructions with ⟨e, cg1, items1⟩
  rw [hF] at hfp hnl
  simp only at hfp hnl
  cases e with
  | some e => exact ⟨hfp, IsResolved_GetUndefined _ hfp, hnl⟩
  | none =>
    simp only
    have hsl := fun names => secondPass_not_listing cg1.symbols items1 names output
    rcases hS : secondPass cg1.symbols items1 output with ⟨e2, out1⟩
    rw [hS] at hsl
    simp only at hsl
    cases e2 with
    | some e2 => exact ⟨hfp, IsResolved_GetUndefined _ hfp, hsl⟩
    | none =>
      simp only [hfp, Bool.not_true, Bool.false_eq_true, if_false]
      exact ⟨trivial, IsResolved_GetUndefined _ hfp, by simp⟩

/-- X2 at the items of `JMP foo` / `JMP bar` on a fresh symbol table: no undefined symbol
is recorded. -/
theorem X2_undefined_symbols_never_listed_witness :
    (Generate (NewCodeGenerator NewSymbolTable)
      [mnemonicItem "JMP".data AddrAbsolute 0 "foo".data 1,
        mnemonicItem "JMP".data AddrAbsolute 0 "bar".data 2] zeroImage).2.1.symbols.GetUndefined
      = [] :=
  (X2_undefined_symbols_never_listed NewSymbolTable
    [mnemonicItem "JMP".data AddrAbsolute 0 "foo".data 1,
      mnemonicItem "JMP".data AddrAbsolute 0 "bar".data 2] zeroImage (by decide)).2.1

/-- X3.  On a source without a NUL byte `Tokenize` returns: either one error, or a token
list whose last token, and only its last token, is EOF; and on a byte other than NUL that
starts no token form (no line end, blank, `;`, `#`, `$`, `,`, `.`, letter, `_`, digit or
`"`) `nextToken` returns the error `unexpected character`. -/
theorem X3_tokenize_returns_without_nul (source : Str) (h : ∀ c ∈ source, c.toNat ≠ 0) :
    ((∃ e, Tokenize source = some (.error e)) ∨
      (∃ init last, Tokenize source = some (.ok (init ++ [last])) ∧
        last.Typ = TokenType.TokenEOF ∧ ∀ t ∈ init, t.Typ ≠ TokenType.TokenEOF)) ∧
    ∀ (l : Lexer) (c : Char) (cs : Str), l.rest = c :: cs → c.toNat ≠ 0 →
      c ≠ '\n' → c ≠ '\r' → GoLib.isSpace c = false → c ≠ ';' → c ≠ '#' → c ≠ '$' →
      c ≠ ',' → c ≠ '.' → GoLib.isLetter c = false → c ≠ '_' → GoLib.isDigit c = false →
      c ≠ '"' → l.nextToken = .error (.unexpectedCharacter c l.line l.column) :=
  ⟨Tokenize_total source h, nextToken_unexpected⟩

/-- X3 at the sources `LDA #$01 ; one` and `LDA @`: the first gives five tokens and
EOF, the second the error `unexpected character` for `@` at line 1, column 5. -/
theorem X3_tokenize_returns_without_nul_witness :
    (∀ c ∈ "LDA #$01 ; one\n".data, c.toNat ≠ 0) ∧
    ((Tokenize "LDA #$01 ; one\n".data).map
        (fun r => r.map (fun ts => ts.map (fun t => t.Typ))))
      = some (.ok [TokenType.TokenMnemonic, TokenType.TokenHash, TokenType.TokenAbsolute,
          TokenType.TokenComment, TokenType.TokenNewline, TokenType.TokenEOF]) ∧
    Tokenize "LDA @".data = some (.error (.unexpectedCharacter '@' 1 5)) ∧
    ((∃ e, Tokenize "LDA #$01 ; one\n".data = some (.error e)) ∨
      (∃ init last, Tokenize "LDA #$01 ; one\n".data = some (.ok (init ++ [last])) ∧
        last.Typ = TokenType.TokenEOF ∧ ∀ t ∈ init, t.Typ ≠ TokenType.TokenEOF)) :=
  ⟨by decide, by decide, by decide,
    (X3_tokenize_returns_without_nul "LDA #$01 ; one\n".data (by decide)).1⟩

/-- X4.  `Parse` returns on every token list (its fuel never runs out), so `Assemble`
returns exactly when `Tokenize` does; in particular `Assemble` returns, with or without an
error, on every source without a NUL byte, from every assembler. -/
theorem X4_assemble_returns (a : Assembler) (source : Str) :
    (∀ tokens : List Token, ∃ r, Parse tokens = some r) ∧
    (Assemble a source = none ↔ Tokenize source = none) ∧
    ((∀ c ∈ source, c.toNat ≠ 0) → ∃ e a1, Assemble a source = some (e, a1)) := by
  have hiff : Assemble a source = none ↔ Tokenize source = none := by
    unfold Assemble
    rcases ht : Tokenize source with _ | (le | tokens)
    · simp
    · simp
    · obtain ⟨r, hr⟩ := Parse_total tokens
      simp only [hr]
      rcases r with pe | items
      · simp
      · simp
  refine ⟨Parse_total, hiff, ?_⟩
  intro hnul
  have ht : Tokenize source ≠ none := by
    rcases Tokenize_total source hnul with ⟨e, he⟩ | ⟨init, last, he, _⟩
    · rw [he]; simp
    · rw [he]; simp
  have ha : Assemble a source ≠ none := fun h => ht (hiff.1 h)
  cases hA : Assemble a source with
  | none => exact absurd hA ha
  | some p => exact ⟨p.1, p.2, rfl⟩

/-- X4 at the source `NOP`: `Assemble` on a fresh assembler returns. -/
theorem X4_assemble_returns_witness :
    (∀ c ∈ "NOP\n".data, c.toNat ≠ 0) ∧
    ∃ e a1, Assemble NewAssembler "NOP\n".data = some (e, a1) :=
  ⟨by decide, (X4_assemble_returns NewAssembler "NOP\n".data).2.2 (by decide)⟩

end SixFiveOhTwo
